import Mathlib

/-!
Segment regularization: proximity graph, grouping tree, contour reconstruction.

A shallow embedding of three source files

* `Level_of_detail/.../Segment_regularizer_2/Delaunay_neighbours_graph_builder.h`
* `Level_of_detail/.../Segment_regularizer_2/Segment_regularizer_tree.h`
* `Levels_of_detail/internal/Regularization/Polygon_regularizer.h`

The number type `FT` of the kernel is taken to be the rationals, so all exact
constructions are computable.  Functions of the C++ run time that are not
rational (`atan2`, square roots, rotations) and the constants of the missing
header `internal/utils.h` are parameters, collected in `Internal`.
Code whose behaviour is undefined in C++ (reading a vector out of range,
dereferencing `rbegin()` of an empty map) and failed `CGAL_precondition`s are
modelled by the result `none`.
-/

namespace CGAL

/-- The field number type of the kernel. -/
abbrev FT := ℚ

/-! ## Control flow and containers shared by the three classes -/

/-- A `for (i = 0; i < n; ++i)` loop whose body may fail. -/
def for_range {σ : Type} (body : σ → Nat → Option σ) : List Nat → σ → Option σ
  | [], st => some st
  | i :: rest, st =>
    match body st i with
    | some st1 => for_range body rest st1
    | none => none

/-- `operator[]=` of a `std::map`: the association list is kept sorted by key,
an existing key is overwritten. -/
def map_insert {κ β : Type} [LinearOrder κ] : List (κ × β) → κ → β → List (κ × β)
  | [], k, v => [(k, v)]
  | (k1, v1) :: rest, k, v =>
    if k < k1 then (k, v) :: (k1, v1) :: rest
    else if k = k1 then (k, v) :: rest
    else (k1, v1) :: map_insert rest k v

/-- `find` of a `std::map`. -/
def map_find {κ β : Type} [DecidableEq κ] : List (κ × β) → κ → Option β
  | [], _ => none
  | (k1, v1) :: rest, k => if k = k1 then some v1 else map_find rest k

/-! ## Level_of_detail : Delaunay_neighbours_graph_builder -/

namespace Level_of_detail

/-- The fields of `Segment_regularizer_parameters` that the builder and the
tree read (the class itself is not part of the sources at hand). -/
structure Parameters where
  lambda : FT
  optimize_parallelizm : Bool
  optimize_orthogonality : Bool
  epsilon : FT
  tolerance : FT
deriving DecidableEq

/-- `Neighbours_graph_data`: three parallel lists of triplets `(i, j, value)`. -/
structure Neighbours_graph_data where
  mus : List (Nat × Nat × FT)
  targets : List (Nat × Nat × FT)
  relations : List (Nat × Nat × Int)
deriving DecidableEq

/-- What `estimate_proximity` reads from the Delaunay triangulation `m_dt`:
the two counters of its precondition and, for every finite edge in iteration
order, the `info()` of its two end vertices. -/
structure DT where
  number_of_vertices : Nat
  number_of_faces : Nat
  finite_edges : List (Nat × Nat)
deriving DecidableEq

/-- The members of `Delaunay_neighbours_graph_builder`.  A `Regular_segment`
is represented by the only attribute read here, `get_orientation()`;
`m_points_to_segments` has the keys `0 .. size-1`. -/
structure Delaunay_neighbours_graph_builder where
  m_segments : List FT
  m_max_orientations : List FT
  m_parameters : Parameters
  m_points_to_segments : List Nat
  m_dt : DT
deriving DecidableEq

/-- Local `mes90 = std::floor(mes_ij / 90)`. -/
def mes90 (mes_ij : FT) : Int := Int.floor (mes_ij / 90)

/-- Local `to_lower = 90 * mes90 - mes_ij`. -/
def to_lower (mes_ij : FT) : FT := 90 * ((mes90 mes_ij : Int) : FT) - mes_ij

/-- Local `to_upper = 90 * (mes90 + 1) - mes_ij`. -/
def to_upper (mes_ij : FT) : FT := 90 * (((mes90 mes_ij : Int) : FT) + 1) - mes_ij

/-- Local `t_ij = abs(to_lower) < abs(to_upper) ? to_lower : to_upper`. -/
def t_ij (mes_ij : FT) : FT :=
  if |to_lower mes_ij| < |to_upper mes_ij| then to_lower mes_ij else to_upper mes_ij

/-- The value of an integer in the 32-bit type `int`: the representative in
`[-2^31, 2^31)` of its class modulo `2^32`.  Inside this range nothing
changes; outside it the conversion `static_cast<int>` and the product of two
`int`s overflow. -/
def to_int32 (x : Int) : Int := (x + 2147483648) % 4294967296 - 2147483648

/-- Local `r_ij`.  `static_cast<int>(mes90)` and the product by `90` are
computed in the 32-bit type `int`; `%` on `int` is the truncated remainder. -/
def r_ij (mes_ij : FT) : Int :=
  if |to_lower mes_ij| < |to_upper mes_ij| then
    (if (to_int32 (90 * to_int32 (mes90 mes_ij))).tmod 180 = 0 then 0 else 1)
  else
    (if (to_int32 (90 * to_int32 (mes90 mes_ij + 1))).tmod 180 = 0 then 0 else 1)

/-- The test guarding the three `push_back`s: the relation is allowed by the
mode. -/
def relation_allowed (P : Parameters) (r : Int) : Bool :=
  (r = 0 && P.optimize_parallelizm) || (r = 1 && P.optimize_orthogonality)

/-- Local `p_ij = (i < j ? make_pair(i, j) : make_pair(j, i))`. -/
def p_ij (i j : Nat) : Nat × Nat := if i < j then (i, j) else (j, i)

/-- State carried through the loop of `estimate_proximity`: the set
`considered_potentials` and the graph data written so far. -/
abbrev Proximity_state := List (Nat × Nat) × Neighbours_graph_data

/-- One iteration of the loop over the finite edges in `estimate_proximity`. -/
def estimate_proximity_edge (B : Delaunay_neighbours_graph_builder)
    (st : Proximity_state) (edge : Nat × Nat) : Option Proximity_state :=
  let e_i := edge.1
  let e_j := edge.2
  if e_i < B.m_points_to_segments.length ∧ e_j < B.m_points_to_segments.length then
    let i := B.m_points_to_segments.getD e_i 0
    let j := B.m_points_to_segments.getD e_j 0
    if i = j then some st
    else if p_ij i j ∈ st.1 then some st
    else
      let considered := p_ij i j :: st.1
      match B.m_segments[i]?, B.m_segments[j]? with
      | some o_i, some o_j =>
        let mes_ij := o_i - o_j
        let mu_ij := B.m_parameters.lambda
        if 0 ≤ mu_ij ∧ mu_ij ≤ 1 then
          if relation_allowed B.m_parameters (r_ij mes_ij) then
            match B.m_max_orientations[i]?, B.m_max_orientations[j]? with
            | some m_i, some m_j =>
              if |t_ij mes_ij| < m_i + m_j then
                some (considered,
                  { mus := st.2.mus ++ [(i, j, mu_ij)]
                    targets := st.2.targets ++ [(i, j, t_ij mes_ij)]
                    relations := st.2.relations ++ [(i, j, r_ij mes_ij)] })
              else some (considered, st.2)
            | _, _ => none
          else some (considered, st.2)
        else none
      | _, _ => none
  else none

/-- The loop over the finite edges, in iteration order. -/
def estimate_proximity_loop (B : Delaunay_neighbours_graph_builder) :
    List (Nat × Nat) → Proximity_state → Option Proximity_state
  | [], st => some st
  | edge :: rest, st =>
    match estimate_proximity_edge B st edge with
    | some st1 => estimate_proximity_loop B rest st1
    | none => none

/-- `estimate_proximity`: the precondition on the triangulation, `clear()`,
then the loop.  The result is the graph data. -/
def estimate_proximity (B : Delaunay_neighbours_graph_builder) :
    Option Neighbours_graph_data :=
  if 0 < B.m_dt.number_of_vertices ∧ 0 < B.m_dt.number_of_faces then
    (estimate_proximity_loop B B.m_dt.finite_edges
      ([], { mus := [], targets := [], relations := [] })).map Prod.snd
  else none

/-- The segments owning the two end points of a triangulation edge. -/
def edge_segments (B : Delaunay_neighbours_graph_builder) (edge : Nat × Nat) : Nat × Nat :=
  (B.m_points_to_segments.getD edge.1 0, B.m_points_to_segments.getD edge.2 0)

/-- The canonical key `(min(i,j), max(i,j))` of a recorded triplet `(i, j, value)`. -/
def triplet_key {α : Type} (e : Nat × Nat × α) : Nat × Nat := p_ij e.1 e.2.1

/-- The two conditions under which `estimate_proximity` records the pair
`(i, j)`: the relation is allowed by the mode, and the target is strictly
below the sum of the two orientation bounds. -/
def accepted (B : Delaunay_neighbours_graph_builder) (i j : Nat) : Prop :=
  ∃ o_i o_j m_i m_j : FT,
    B.m_segments[i]? = some o_i ∧ B.m_segments[j]? = some o_j ∧
    B.m_max_orientations[i]? = some m_i ∧ B.m_max_orientations[j]? = some m_j ∧
    ((r_ij (o_i - o_j) = 0 ∧ B.m_parameters.optimize_parallelizm = true) ∨
     (r_ij (o_i - o_j) = 1 ∧ B.m_parameters.optimize_orthogonality = true)) ∧
    |t_ij (o_i - o_j)| < m_i + m_j

/-- The graph data that holds one entry per pair of the list, in order. -/
def graph_data_of (B : Delaunay_neighbours_graph_builder) (l : List (Nat × Nat)) :
    Neighbours_graph_data :=
  { mus := l.map (fun q => (q.1, q.2, B.m_parameters.lambda))
    targets := l.map (fun q =>
      (q.1, q.2, t_ij (B.m_segments.getD q.1 0 - B.m_segments.getD q.2 0)))
    relations := l.map (fun q =>
      (q.1, q.2, r_ij (B.m_segments.getD q.1 0 - B.m_segments.getD q.2 0))) }

end Level_of_detail

/-! ## Level_of_detail : Segment_regularizer_tree -/

namespace Level_of_detail

/-- `Groups_to_segments = std::map<int, std::list<int>>`. -/
abbrev Groups_to_segments := List (Int × List Nat)

/-- `Angles = std::map<int, FT>`. -/
abbrev Angles := List (Int × FT)

/-- `Parallel_segments = std::map<FT, Parallel_segments_tree_node>`; a node is
the list of the segments added to it. -/
abbrev Parallel_segments := List (FT × List Nat)

/-- Read access `groups_to_segments[g]` (a missing key reads as the empty list). -/
def group_members (G : Groups_to_segments) (g : Int) : List Nat :=
  (map_find G g).getD []

/-- The statement `groups_to_segments[g].push_back(x)`. -/
def group_push_back (G : Groups_to_segments) (g : Int) (x : Nat) : Groups_to_segments :=
  map_insert G g (group_members G g ++ [x])

/-- The statement `groups_to_segments[g].clear()`. -/
def group_clear (G : Groups_to_segments) (g : Int) : Groups_to_segments :=
  map_insert G g []

/-- The members of `Segment_regularizer_tree` read by `build_tree`.  A
`Regular_segment` is represented by `get_orientation()`; `m_qp_data` by the
entries `(row, col, relation)` of its targets and relations matrices in the
order in which the two inner iterators visit them. -/
structure Segment_regularizer_tree where
  m_segments : List FT
  m_orientations : List FT
  m_qp_data : List (Nat × Nat × Int)
  m_parameters : Parameters
deriving DecidableEq

/-- The local variables of `build_tree` that the first pass updates. -/
structure Categorize_state where
  segments_to_groups : List Int
  groups_to_segments : Groups_to_segments
  g : Int
  p : Nat
deriving DecidableEq

/-- The merge loop shared by the first and second pass: every member of
`groups_to_segments[g_from]` is reassigned and appended to
`groups_to_segments[g_to]`, then `groups_to_segments[g_from]` is cleared. -/
def merge_groups (s2g : List Int) (G : Groups_to_segments) (g_from g_to : Int) :
    List Int × Groups_to_segments :=
  let r := (group_members G g_from).foldl
    (fun (acc : List Int × Groups_to_segments) (x : Nat) =>
      (acc.1.set x g_to, group_push_back acc.2 g_to x)) (s2g, G)
  (r.1, group_clear r.2 g_from)

/-- Body of the `while (it_targets && it_relations)` loop of the first pass
for the entry `(i, j, r)`; `n` is the number of segments. -/
def categorize_entry (T : Segment_regularizer_tree) (n : Nat)
    (st : Categorize_state) (c : Nat × Nat × Int) : Option Categorize_state :=
  let i := c.1
  let j := c.2.1
  let r := c.2.2
  match T.m_orientations[n + st.p]? with
  | none => none
  | some x =>
    if |x| < T.m_parameters.tolerance then
      match st.segments_to_groups[i]?, st.segments_to_groups[j]? with
      | some s_i, some s_j =>
        if s_i = -1 ∧ s_j = -1 then
          if r = 0 then
            some { segments_to_groups := (st.segments_to_groups.set j st.g).set i st.g
                   groups_to_segments :=
                     group_push_back (group_push_back st.groups_to_segments st.g i) st.g j
                   g := st.g + 1
                   p := st.p + 1 }
          else if r = 1 then
            some { segments_to_groups := (st.segments_to_groups.set i st.g).set j (st.g + 1)
                   groups_to_segments :=
                     group_push_back (group_push_back st.groups_to_segments st.g i) (st.g + 1) j
                   g := st.g + 1 + 1
                   p := st.p + 1 }
          else some { st with p := st.p + 1 }
        else if s_i = -1 ∧ s_j ≠ -1 then
          if r = 0 then
            some { st with
                   segments_to_groups := st.segments_to_groups.set i s_j
                   groups_to_segments := group_push_back st.groups_to_segments s_j i
                   p := st.p + 1 }
          else if r = 1 then
            some { segments_to_groups := st.segments_to_groups.set i st.g
                   groups_to_segments := group_push_back st.groups_to_segments st.g i
                   g := st.g + 1
                   p := st.p + 1 }
          else some { st with p := st.p + 1 }
        else if s_i ≠ -1 ∧ s_j = -1 then
          if r = 0 then
            some { st with
                   segments_to_groups := st.segments_to_groups.set j s_i
                   groups_to_segments := group_push_back st.groups_to_segments s_i j
                   p := st.p + 1 }
          else if r = 1 then
            some { segments_to_groups := st.segments_to_groups.set j st.g
                   groups_to_segments := group_push_back st.groups_to_segments st.g j
                   g := st.g + 1
                   p := st.p + 1 }
          else some { st with p := st.p + 1 }
        else
          if s_i ≠ s_j then
            if r = 0 then
              let m := merge_groups st.segments_to_groups st.groups_to_segments s_j s_i
              some { st with
                     segments_to_groups := m.1
                     groups_to_segments := m.2
                     p := st.p + 1 }
            else some { st with p := st.p + 1 }
          else some { st with p := st.p + 1 }
      | _, _ => none
    else some { st with p := st.p + 1 }

/-- First pass of `build_tree` ("Categorize segments"). -/
def categorize (T : Segment_regularizer_tree) (n : Nat) :
    List (Nat × Nat × Int) → Categorize_state → Option Categorize_state
  | [], st => some st
  | c :: rest, st =>
    match categorize_entry T n st c with
    | some st1 => categorize T n rest st1
    | none => none

/-- The inner loop of the second pass: the key of the last registered angle
closer than `theta_eps` to `theta`, or `-1`. -/
def close_angle (angles : Angles) (theta theta_eps : FT) : Int :=
  angles.foldl (fun (g_j : Int) (e : Int × FT) =>
    if |e.2 - theta| < theta_eps then e.1 else g_j) (-1)

/-- The local variables of `build_tree` that the second and third pass update. -/
structure Angles_state where
  segments_to_groups : List Int
  groups_to_segments : Groups_to_segments
  angles : Angles
deriving DecidableEq

/-- Angle registered for a group in the second pass: orientation plus
correction, shifted once by 180 when negative or above 180. -/
def group_theta (orientation correction : FT) : FT :=
  let theta := orientation + correction
  if theta < 0 then theta + 180 else if 180 < theta then theta - 180 else theta

/-- Body of the second pass of `build_tree` for the segment `i`. -/
def register_angle (T : Segment_regularizer_tree) (st : Angles_state) (i : Nat) :
    Option Angles_state :=
  match st.segments_to_groups[i]? with
  | none => none
  | some g_i =>
    if g_i ≠ -1 then
      if (map_find st.angles g_i).isNone then
        match T.m_segments[i]?, T.m_orientations[i]? with
        | some o, some x =>
          let theta := group_theta o x
          let g_j := close_angle st.angles theta T.m_parameters.epsilon
          if g_j = -1 then some { st with angles := map_insert st.angles g_i theta }
          else
            let m := merge_groups st.segments_to_groups st.groups_to_segments g_i g_j
            some { st with segments_to_groups := m.1, groups_to_segments := m.2 }
        | _, _ => none
      else some st
    else some st

/-- The search of the third pass: the key of the first registered angle
within `theta_eps` of `alpha` up to a shift by `k * 180`, `k = -1, 0, 1`;
`-1` when there is none. -/
def matching_angle (alpha theta_eps : FT) : Angles → Int
  | [] => -1
  | (key, alpha_j) :: rest =>
    if |alpha_j - alpha + (-1) * 180| < theta_eps ∨ |alpha_j - alpha + 0 * 180| < theta_eps
        ∨ |alpha_j - alpha + 1 * 180| < theta_eps then
      (if key ≠ -1 then key else matching_angle alpha theta_eps rest)
    else matching_angle alpha theta_eps rest

/-- Body of the third pass of `build_tree` for the segment `i`.  With no
registered angle, `angles.rbegin()` is the past-the-end iterator and
dereferencing it is undefined: the result is `none`. -/
def assign_unassigned (T : Segment_regularizer_tree) (st : Angles_state) (i : Nat) :
    Option Angles_state :=
  match st.segments_to_groups[i]? with
  | none => none
  | some g_i =>
    if g_i = -1 then
      match T.m_segments[i]? with
      | none => none
      | some alpha =>
        let g_j := matching_angle alpha T.m_parameters.epsilon st.angles
        if g_j = -1 then
          match st.angles.getLast? with
          | none => none
          | some last =>
            let g_new := last.1 + 1
            some { segments_to_groups := st.segments_to_groups.set i g_new
                   groups_to_segments := group_push_back st.groups_to_segments g_new i
                   angles := map_insert st.angles g_new alpha }
        else
          some { st with
                 segments_to_groups := st.segments_to_groups.set i g_j
                 groups_to_segments := group_push_back st.groups_to_segments g_j i }
    else some st

/-- The statement `create_parallel_node(angle)`. -/
def create_parallel_node (ps : Parallel_segments) (angle : FT) : Parallel_segments :=
  if (map_find ps angle).isNone then map_insert ps angle [] else ps

/-- The statement `assign_to_parallel_node(angle, segment)`. -/
def assign_to_parallel_node (ps : Parallel_segments) (angle : FT) (segment : Nat) :
    Parallel_segments :=
  match map_find ps angle with
  | some node => map_insert ps angle (node ++ [segment])
  | none => ps

/-- What `build_tree` leaves behind: its two group tables, the angles and the
member `m_parallel_segments`. -/
structure Tree_result where
  segments_to_groups : List Int
  groups_to_segments : Groups_to_segments
  angles : Angles
  m_parallel_segments : Parallel_segments
deriving DecidableEq

/-- `build_tree`, called by the constructor after `clear()`. -/
def build_tree (T : Segment_regularizer_tree) : Option Tree_result :=
  let n := T.m_segments.length
  if 0 < n ∧ 0 ≤ T.m_parameters.epsilon then
    match categorize T n T.m_qp_data
        { segments_to_groups := List.replicate n (-1), groups_to_segments := [], g := 0, p := 0 } with
    | none => none
    | some c =>
      match for_range (register_angle T) (List.range n)
          { segments_to_groups := c.segments_to_groups
            groups_to_segments := c.groups_to_segments
            angles := [] } with
      | none => none
      | some a2 =>
        match for_range (assign_unassigned T) (List.range n) a2 with
        | none => none
        | some a3 =>
          let nodes := a3.angles.foldl
            (fun (ps : Parallel_segments) (e : Int × FT) => create_parallel_node ps e.2) []
          let tree := (List.range n).foldl
            (fun (ps : Parallel_segments) (i : Nat) =>
              assign_to_parallel_node ps
                ((map_find a3.angles (a3.segments_to_groups.getD i (-1))).getD 0) i) nodes
          some { segments_to_groups := a3.segments_to_groups
                 groups_to_segments := a3.groups_to_segments
                 angles := a3.angles
                 m_parallel_segments := tree }
  else none

/-! ### Example data -/

/-- Parameters with both relations enabled. -/
def example_parameters : Parameters :=
  { lambda := 1, optimize_parallelizm := true, optimize_orthogonality := true,
    epsilon := 1 / 4, tolerance := 1 }

/-- Four segments with orientations 0, 1, 88, 40, two sample points each, and
six triangulation edges; the last two edges repeat the pairs `{1, 2}` and
`{0, 1}`. -/
def example_builder : Delaunay_neighbours_graph_builder :=
  { m_segments := [0, 1, 88, 40]
    m_max_orientations := [5, 5, 5, 5]
    m_parameters := example_parameters
    m_points_to_segments := [0, 0, 1, 1, 2, 2, 3, 3]
    m_dt := { number_of_vertices := 8, number_of_faces := 3,
              finite_edges := [(0, 1), (1, 2), (3, 4), (5, 6), (2, 5), (2, 0)] } }

/-- The graph data that `estimate_proximity` computes for `example_builder`. -/
def example_graph_data : Neighbours_graph_data :=
  { mus := [(0, 1, 1), (1, 2, 1)]
    targets := [(0, 1, 1), (1, 2, -3)]
    relations := [(0, 1, 0), (1, 2, 1)] }

/-- Two segments with orientations 0 and 30 and one PARALLEL constraint
between them whose correction, 5, is not below the tolerance 1. -/
def example_tree_unassigned : Segment_regularizer_tree :=
  { m_segments := [0, 30]
    m_orientations := [0, 0, 5]
    m_qp_data := [(0, 1, 0)]
    m_parameters := example_parameters }

/-- Four segments with three constraints, two of which are below tolerance. -/
def example_tree : Segment_regularizer_tree :=
  { m_segments := [0, 1, 88, 40]
    m_orientations := [0, -1, 2, 0, 0, 0, 5]
    m_qp_data := [(0, 1, 0), (1, 2, 1), (2, 3, 0)]
    m_parameters := example_parameters }

end Level_of_detail

/-! ## Geometry kernel -/

/-- `Point_2` of the kernel, Cartesian coordinates. -/
structure Point_2 where
  x : FT
  y : FT
deriving DecidableEq

/-- `Vector_2` of the kernel. -/
structure Vector_2 where
  x : FT
  y : FT
deriving DecidableEq

/-- `Segment_2` of the kernel: source and target. -/
structure Segment_2 where
  source : Point_2
  target : Point_2
deriving DecidableEq

/-- `Line_2` of the kernel: the line `a x + b y + c = 0`. -/
structure Line_2 where
  a : FT
  b : FT
  c : FT
deriving DecidableEq

instance : Inhabited Point_2 := ⟨⟨0, 0⟩⟩

instance : Inhabited Segment_2 := ⟨⟨default, default⟩⟩

/-- Modelled from the spec: the kernel's vector from a point to a point,
`Vector_2(p, q) = q - p`. -/
def Vector_2.between (p q : Point_2) : Vector_2 := ⟨q.x - p.x, q.y - p.y⟩

/-- Modelled from the spec: `Segment_2::to_vector()`, target minus source. -/
def Segment_2.to_vector (s : Segment_2) : Vector_2 := Vector_2.between s.source s.target

/-- Modelled from the spec: `Segment_2::squared_length()`. -/
def Segment_2.squared_length (s : Segment_2) : FT :=
  (s.target.x - s.source.x) * (s.target.x - s.source.x)
    + (s.target.y - s.source.y) * (s.target.y - s.source.y)

/-- Modelled from the spec: unary minus of a kernel vector. -/
def Vector_2.neg (v : Vector_2) : Vector_2 := ⟨-v.x, -v.y⟩

/-- Modelled from the spec: sum of two kernel vectors. -/
def Vector_2.add (v w : Vector_2) : Vector_2 := ⟨v.x + w.x, v.y + w.y⟩

/-- Modelled from the spec: a kernel vector times a scalar. -/
def Vector_2.scale (v : Vector_2) (t : FT) : Vector_2 := ⟨v.x * t, v.y * t⟩

/-- Modelled from the spec: a kernel point translated by a vector. -/
def Point_2.translate (p : Point_2) (v : Vector_2) : Point_2 := ⟨p.x + v.x, p.y + v.y⟩

/-- Modelled from the spec: `CGAL::determinant` of two vectors (cross product). -/
def determinant (v w : Vector_2) : FT := v.x * w.y - v.y * w.x

/-- Modelled from the spec: `CGAL::scalar_product` of two vectors (dot product). -/
def scalar_product (v w : Vector_2) : FT := v.x * w.x + v.y * w.y

/-- Modelled from the spec: the kernel's supporting line through two points,
`Line_2(p, q)`.  For `p = q` all three coefficients vanish. -/
def Line_2.through (p q : Point_2) : Line_2 :=
  ⟨p.y - q.y, q.x - p.x, p.x * q.y - q.x * p.y⟩

/-- Modelled from the spec: `Line_2::projection`, the orthogonal projection of
a point onto the line.  On a line without direction (`a = b = 0`, the line
through two equal points) the kernel divides by zero and has no result; the
division of Lean gives 0 there and the point is returned as it is, a value
that stands for no behaviour of the source. -/
def Line_2.projection (l : Line_2) (p : Point_2) : Point_2 :=
  let t := (l.a * p.x + l.b * p.y + l.c) / (l.a * l.a + l.b * l.b)
  ⟨p.x - t * l.a, p.y - t * l.b⟩

/-- The three kinds of result of the kernel's line-line intersection. -/
inductive Intersection_result where
  | empty : Intersection_result
  | point : Point_2 → Intersection_result
  | line : Line_2 → Intersection_result
deriving DecidableEq

/-- Modelled from the spec: the kernel's line-line intersection, "returning
point | line | none": the common point of two lines that are not parallel,
the line itself for coincident lines, nothing for distinct parallel lines. -/
def intersection (l1 l2 : Line_2) : Intersection_result :=
  let denom := l1.a * l2.b - l2.a * l1.b
  if denom ≠ 0 then
    Intersection_result.point
      ⟨(l1.b * l2.c - l2.b * l1.c) / denom, (l2.a * l1.c - l1.a * l2.c) / denom⟩
  else if l1.a * l2.c = l2.a * l1.c ∧ l1.b * l2.c = l2.b * l1.c then
    Intersection_result.line l1
  else Intersection_result.empty

/-- The supporting line `Line_2(s.source(), s.target())` of a segment. -/
def supporting_line (s : Segment_2) : Line_2 := Line_2.through s.source s.target

/-- Two lines are parallel or coincident: they have no unique common point. -/
def Line_2.parallel (l1 l2 : Line_2) : Prop := l1.a * l2.b - l2.a * l1.b = 0

/-- The point lies on the line. -/
def Line_2.has_on (l : Line_2) (p : Point_2) : Prop := l.a * p.x + l.b * p.y + l.c = 0

/-- Two coefficient triples describe the same line: they differ by a factor
that is not zero. -/
def Line_2.same_line (l1 l2 : Line_2) : Prop :=
  ∃ c : FT, c ≠ 0 ∧ l1.a = c * l2.a ∧ l1.b = c * l2.b ∧ l1.c = c * l2.c

/-- The point that `intersection` returns for two lines that are not
parallel. -/
def intersection_point (l1 l2 : Line_2) : Point_2 :=
  ⟨(l1.b * l2.c - l2.b * l1.c) / (l1.a * l2.b - l2.a * l1.b),
   (l2.a * l1.c - l1.a * l2.c) / (l1.a * l2.b - l2.a * l1.b)⟩

instance (l1 l2 : Line_2) : Decidable (l1.parallel l2) := by
  unfold Line_2.parallel
  infer_instance

instance (l : Line_2) (p : Point_2) : Decidable (l.has_on p) := by
  unfold Line_2.has_on
  infer_instance

/-! ## Levels_of_detail : Polygon_regularizer -/

namespace Levels_of_detail

/-- What `Polygon_regularizer` takes from outside the exact kernel: the
constant `CGAL_PI`, `std::atan2`, and the functions and constants of the
header `internal/utils.h` that are not rational or not at hand. -/
structure Internal where
  pi : FT
  atan2 : FT → FT → FT
  tolerance : FT
  max_value : FT
  distance : Point_2 → Point_2 → FT
  rotate_point_2 : FT → Point_2 → Point_2 → Point_2

/-- Modelled from the spec: `internal::middle_point_2`, the barycenter of a
segment's two end points. -/
def middle_point_2 (p q : Point_2) : Point_2 := ⟨(p.x + q.x) / 2, (p.y + q.y) / 2⟩

/-- Modelled from the spec: `internal::compute_barycenter_2`, the barycenter of
a list of points. -/
def compute_barycenter_2 (points : List Point_2) : Point_2 :=
  ⟨(points.map Point_2.x).sum / (points.length : FT),
   (points.map Point_2.y).sum / (points.length : FT)⟩

/-- The value of `std::size_t(-1)`. -/
def npos : Nat := 2 ^ 64 - 1

/-- The data members of `Polygon_regularizer`. -/
structure Polygon_regularizer where
  m_min_length : FT
  m_angle_bound : FT
  m_ordinate_bound : FT
  m_pi : FT
  m_angle_threshold : FT
  m_bound_min : FT
  m_bound_max : FT
  m_bounds : List (FT × FT)
  m_skip : List (Nat × Nat)
  m_longest : List Segment_2
  m_groups : List (List Nat)
deriving DecidableEq

/-- The constructor `Polygon_regularizer(min_length, angle_bound, ordinate_bound)`. -/
def Polygon_regularizer.create (N : Internal) (min_length angle_bound ordinate_bound : FT) :
    Polygon_regularizer :=
  { m_min_length := min_length
    m_angle_bound := angle_bound
    m_ordinate_bound := ordinate_bound
    m_pi := N.pi
    m_angle_threshold := 5
    m_bound_min := angle_bound
    m_bound_max := 90 - angle_bound
    m_bounds := []
    m_skip := []
    m_longest := []
    m_groups := [] }

/-- `angle_degree_2(longest, segment)`. -/
def angle_degree_2 (N : Internal) (R : Polygon_regularizer) (longest segment : Segment_2) : FT :=
  let v1 := segment.to_vector
  let v2 := longest.to_vector.neg
  let det := determinant v1 v2
  let dot := scalar_product v1 v2
  let angle_rad := N.atan2 det dot
  angle_rad * 180 / R.m_pi

/-- `get_angle_2(angle)`. -/
def get_angle_2 (angle : FT) : FT :=
  if 90 < angle then 180 - angle
  else if angle < -90 then 180 + angle
  else angle

/-- `rotate(angle_2, ref_angle_2, longest_segment, segment)`; the result is the
new value of `segment`. -/
def rotate (N : Internal) (R : Polygon_regularizer) (angle_2 ref_angle_2 : FT)
    (_longest_segment segment : Segment_2) : Segment_2 :=
  let angle :=
    if angle_2 < 0 then angle_2 + ref_angle_2
    else if 0 < angle_2 then angle_2 - ref_angle_2
    else angle_2
  let b := middle_point_2 segment.source segment.target
  let angle_rad := angle * R.m_pi / 180
  ⟨N.rotate_point_2 angle_rad b segment.source, N.rotate_point_2 angle_rad b segment.target⟩

/-- `rotate_segment(longest_segment, bounds, segment)`: the returned flag and
the new value of `segment`. -/
def rotate_segment (N : Internal) (R : Polygon_regularizer) (longest_segment : Segment_2)
    (bounds : FT × FT) (segment : Segment_2) : Bool × Segment_2 :=
  let angle := angle_degree_2 N R longest_segment segment
  let angle_2 := get_angle_2 angle
  let s1 := if |angle_2| ≤ bounds.1 then rotate N R angle 180 longest_segment segment else segment
  let s2 := if bounds.2 ≤ |angle_2| then rotate N R angle 90 longest_segment s1 else s1
  (true, s2)

/-- The statement `m_groups[k][i] = value`. -/
def set_group (groups : List (List Nat)) (k i value : Nat) : List (List Nat) :=
  groups.set k ((groups.getD k []).set i value)

/-- Body of the loop of `rotate_contour(k, contour)` for the index `i`; the
state is `m_groups` and the contour. -/
def rotate_contour_body (N : Internal) (R : Polygon_regularizer) (k : Nat)
    (st : List (List Nat) × List Segment_2) (i : Nat) :
    Option (List (List Nat) × List Segment_2) :=
  match st.1[k]? with
  | none => none
  | some row =>
    match row[i]? with
    | none => none
    | some gr_idx =>
      match R.m_skip[gr_idx]? with
      | none => none
      | some skip =>
        if k = skip.1 ∧ i = skip.2 then some st
        else if gr_idx = npos then some st
        else
          match st.2[i]?, R.m_longest[gr_idx]?, R.m_bounds[gr_idx]? with
          | some segment, some longest_segment, some bounds =>
            let r := rotate_segment N R longest_segment bounds segment
            some (if r.1 then st.1 else set_group st.1 k i npos, st.2.set i r.2)
          | _, _, _ => none

/-- `rotate_contour(k, contour)`: the new `m_groups` and the new contour. -/
def rotate_contour (N : Internal) (R : Polygon_regularizer) (groups : List (List Nat))
    (k : Nat) (contour : List Segment_2) : Option (List (List Nat) × List Segment_2) :=
  for_range (rotate_contour_body N R k) (List.range contour.length) (groups, contour)

/-- `correct_segment(sm, si, sp)`: the new value of `si`. -/
def correct_segment (N : Internal) (R : Polygon_regularizer) (sm si sp : Segment_2) :
    Segment_2 :=
  let angle_mp := angle_degree_2 N R sm sp
  let angle_mp_2 := get_angle_2 angle_mp
  if |angle_mp_2| ≤ R.m_angle_threshold then
    let angle := angle_degree_2 N R sm si
    rotate N R angle 90 sm si
  else si

/-- Body of the loop of `correct_contour(k, contour)` for the index `i`. -/
def correct_contour_body (N : Internal) (R : Polygon_regularizer) (groups : List (List Nat))
    (k : Nat) (contour : List Segment_2) (i : Nat) : Option (List Segment_2) :=
  let n := contour.length
  match groups[k]? with
  | none => none
  | some row =>
    match row[i]? with
    | none => none
    | some gr_idx =>
      match R.m_skip[gr_idx]? with
      | none => none
      | some skip =>
        if k = skip.1 ∧ i = skip.2 then some contour
        else if gr_idx = npos then some contour
        else
          let im := (i + n - 1) % n
          let ip := (i + 1) % n
          match contour[i]?, contour[im]?, contour[ip]? with
          | some si, some sm, some sp =>
            let length := N.distance si.source si.target
            if length ≤ R.m_min_length then some (contour.set i (correct_segment N R sm si sp))
            else some contour
          | _, _, _ => none

/-- `correct_contour(k, contour)`: the new contour. -/
def correct_contour (N : Internal) (R : Polygon_regularizer) (groups : List (List Nat))
    (k : Nat) (contour : List Segment_2) : Option (List Segment_2) :=
  for_range (correct_contour_body N R groups k) (List.range contour.length) contour

/-- `remove_zero_length_segments(contour, segments)`: the new `segments`. -/
def remove_zero_length_segments (N : Internal) (contour : List Segment_2) : List Segment_2 :=
  contour.filter (fun segment => N.tolerance < segment.squared_length)

/-- `is_parallel_segment(sm, si, sp)`. -/
def is_parallel_segment (N : Internal) (R : Polygon_regularizer) (sm si sp : Segment_2) :
    Bool × Bool :=
  let angle_mi_2 := get_angle_2 (angle_degree_2 N R sm si)
  let angle_pi_2 := get_angle_2 (angle_degree_2 N R si sp)
  (decide (|angle_mi_2| ≤ R.m_angle_threshold), decide (|angle_pi_2| ≤ R.m_angle_threshold))

/-- The loop of `find_initial_index` over the remaining indices. -/
def find_initial_index_loop (N : Internal) (R : Polygon_regularizer)
    (contour : List Segment_2) : List Nat → Nat
  | [] => 0
  | i :: rest =>
    let n := contour.length
    let im := (i + n - 1) % n
    let ip := (i + 1) % n
    let pair := is_parallel_segment N R (contour.getD im default) (contour.getD i default)
      (contour.getD ip default)
    if !pair.1 then i else find_initial_index_loop N R contour rest

/-- `find_initial_index(contour)`.  All indices read are reduced modulo the
size of the contour. -/
def find_initial_index (N : Internal) (R : Polygon_regularizer) (contour : List Segment_2) :
    Nat :=
  find_initial_index_loop N R contour (List.range contour.length)

/-- The `do ... while (next_is_parallel && max_count < n * 2)` loop of
`get_parallel_segments`; `more` bounds the number of further iterations, the
result is `parallel_segments`, `i` and `max_count` at the exit. -/
def get_parallel_segments_loop (N : Internal) (R : Polygon_regularizer)
    (contour : List Segment_2) :
    Nat → Nat → Nat → List Segment_2 → List Segment_2 × Nat × Nat
  | more, i, max_count, parallel_segments =>
    let n := contour.length
    let im := (i + n - 1) % n
    let ip := (i + 1) % n
    let si := contour.getD i default
    let sm := contour.getD im default
    let sp := contour.getD ip default
    let acc := parallel_segments ++ [si]
    let next_is_parallel := (is_parallel_segment N R sm si sp).2
    if next_is_parallel ∧ max_count + 1 < n * 2 then
      match more with
      | 0 => (acc, ip, max_count + 1)
      | more1 + 1 => get_parallel_segments_loop N R contour more1 ip (max_count + 1) acc
    else (acc, ip, max_count + 1)

/-- `get_parallel_segments(contour, parallel_segments, seed)`: the returned
flag, the new `parallel_segments` and the new `seed`. -/
def get_parallel_segments (N : Internal) (R : Polygon_regularizer) (contour : List Segment_2)
    (seed : Nat) : Bool × List Segment_2 × Nat :=
  let n := contour.length
  let r := get_parallel_segments_loop N R contour (n * 2) seed 0 []
  if n * 2 ≤ r.2.2 then (false, r.1, seed) else (true, r.1, r.2.1)

/-- `find_central_segment(segments)`. -/
def find_central_segment (segments : List Segment_2) : Segment_2 :=
  let size : FT := (segments.length : FT)
  let x1 := (segments.map (fun s => s.source.x)).sum / size
  let y1 := (segments.map (fun s => s.source.y)).sum / size
  let x2 := (segments.map (fun s => s.target.x)).sum / size
  let y2 := (segments.map (fun s => s.target.y)).sum / size
  ⟨⟨x1, y1⟩, ⟨x2, y2⟩⟩

/-- `compute_distance_weights(segments, weights)`: the new `weights`.  When the
lengths sum to zero the source divides by zero and has no result; the
division of Lean gives the weights 0 there, a value that stands for no
behaviour of the source (see `run_defined`). -/
def compute_distance_weights (N : Internal) (segments : List Segment_2) : List FT :=
  let distances := segments.map (fun s => N.distance s.source s.target)
  let sum_distance := distances.sum
  distances.map (fun weight => weight / sum_distance)

/-- `compute_weighted_segment(segments, weights, ref_segment)`. -/
def compute_weighted_segment (segments : List Segment_2) (weights : List FT)
    (ref_segment : Segment_2) : Segment_2 :=
  let s := ref_segment.source
  let t := ref_segment.target
  let b := middle_point_2 s t
  let dir := (List.range weights.length).foldl
    (fun (dir : Vector_2) (i : Nat) =>
      let weight := weights.getD i 0
      let segment := segments.getD i default
      let line := Line_2.through segment.source segment.target
      let p := line.projection b
      dir.add ((Vector_2.between b p).scale weight)) ⟨0, 0⟩
  ⟨s.translate dir, t.translate dir⟩

/-- `find_weighted_segment(segments)`. -/
def find_weighted_segment (N : Internal) (segments : List Segment_2) : Segment_2 :=
  let weights := compute_distance_weights N segments
  let ref_segment := find_central_segment segments
  compute_weighted_segment segments weights ref_segment

/-- `update_segment(points, segment)`: the new value of `segment`. -/
def update_segment (N : Internal) (points : List Point_2) (segment : Segment_2) : Segment_2 :=
  let ref_vector := segment.to_vector
  let ref_point := compute_barycenter_2 points
  let r := points.foldl
    (fun (acc : (FT × Point_2) × (FT × Point_2)) (point : Point_2) =>
      let value := scalar_product (Vector_2.between ref_point point) ref_vector
      let lo := if value < acc.1.1 then (value, point) else acc.1
      let hi := if acc.2.1 < value then (value, point) else acc.2
      (lo, hi))
    ((N.max_value, default), (-N.max_value, default))
  ⟨r.1.2, r.2.2⟩

/-- `create_segment_from_parallel_segments(parallel_segments, result)`: the
returned sum of lengths and the new `result`. -/
def create_segment_from_parallel_segments (N : Internal) (parallel_segments : List Segment_2) :
    FT × Segment_2 :=
  let ref_segment := find_weighted_segment N parallel_segments
  let line := Line_2.through ref_segment.source ref_segment.target
  let r := parallel_segments.foldl
    (fun (acc : FT × List Point_2) (segment : Segment_2) =>
      let p := line.projection segment.source
      let q := line.projection segment.target
      (acc.1 + N.distance p q, acc.2 ++ [p, q])) (0, [])
  (r.1, update_segment N r.2 ref_segment)

/-- `add_ratios(sum_length, parallel_segments, segment, ratios)`: the list
`ds` pushed onto `ratios`.  When `segment` has length zero the source divides
by `ref_length = 0` and has no result; the division of Lean gives 0 there, a
value that stands for no behaviour of the source (see `run_defined`). -/
def add_ratios (N : Internal) (sum_length : FT) (parallel_segments : List Segment_2)
    (segment : Segment_2) : List FT :=
  let ref_length := N.distance segment.source segment.target
  let error := (1 - sum_length / ref_length) / (parallel_segments.length : FT)
  let r := (List.range parallel_segments.length).foldl
    (fun (acc : FT × List FT) (k : Nat) =>
      let s := parallel_segments.getD k default
      let length := acc.1 + N.distance s.source s.target
      let d := length / ref_length + ((k + 1 : Nat) : FT) * error
      (length, acc.2 ++ [d])) (0, [0])
  r.2

/-- The `do ... while (i != start && max_count < n * 2)` loop of
`filter_out_wrong_segments`; `more` bounds the number of further iterations.
The result is a flag, `false` when `get_parallel_segments` failed, and
`segments`, `ratios` and `max_count` at the exit. -/
def filter_out_wrong_segments_loop (N : Internal) (R : Polygon_regularizer)
    (contour : List Segment_2) (start : Nat) :
    Nat → Nat → Nat → List Segment_2 → List (List FT) →
      Bool × List Segment_2 × List (List FT) × Nat
  | more, i, max_count, segments, ratios =>
    let n := contour.length
    let g := get_parallel_segments N R contour i
    if !g.1 then (false, segments, ratios, max_count)
    else
      let parallel_segments := g.2.1
      let i1 := g.2.2
      let c := create_segment_from_parallel_segments N parallel_segments
      let segments1 := segments ++ [c.2]
      let ratios1 := ratios ++ [add_ratios N c.1 parallel_segments c.2]
      if i1 ≠ start ∧ max_count + 1 < n * 2 then
        match more with
        | 0 => (true, segments1, ratios1, max_count + 1)
        | more1 + 1 =>
          filter_out_wrong_segments_loop N R contour start more1 i1 (max_count + 1)
            segments1 ratios1
      else (true, segments1, ratios1, max_count + 1)

/-- `filter_out_wrong_segments(contour, segments, ratios)`: the returned flag
and the new `segments` and `ratios`. -/
def filter_out_wrong_segments (N : Internal) (R : Polygon_regularizer)
    (contour : List Segment_2) : Bool × List Segment_2 × List (List FT) :=
  let n := contour.length
  let start := find_initial_index N R contour
  let r := filter_out_wrong_segments_loop N R contour start (n * 2) start 0 [] []
  if !r.1 then (false, r.2.1, r.2.2.1)
  else if n * 2 ≤ r.2.2.2 then (false, r.2.1, r.2.2.1)
  else (true, r.2.1, r.2.2.1)

/-- `clean_segments(contour)`: the returned flag and the new contour. -/
def clean_segments (N : Internal) (R : Polygon_regularizer) (contour : List Segment_2) :
    Bool × List Segment_2 :=
  let clean := remove_zero_length_segments N contour
  if clean.length < 4 then (false, contour)
  else
    let f := filter_out_wrong_segments N R clean
    if f.2.1.length < 4 ∨ !f.1 then (false, contour)
    else (true, f.2.1)

/-- The local variables of `create_collinear_groups` that its loops update. -/
structure Collinear_state where
  states : List Bool
  groups : List (List Segment_2)
  seg_map : List (Nat × Nat)
  gr_idx : Nat
deriving DecidableEq

/-- Body of the inner loop of `create_collinear_groups` for the index `j`; the
state is `states`, `group` and `seg_map`. -/
def create_collinear_groups_inner (N : Internal) (R : Polygon_regularizer)
    (segments : List Segment_2) (segment_i : Segment_2) (p : Point_2) (gr_idx : Nat)
    (st : List Bool × List Segment_2 × List (Nat × Nat)) (j : Nat) :
    List Bool × List Segment_2 × List (Nat × Nat) :=
  let segment_j := segments.getD j default
  if st.1.getD j false then st
  else
    let angle := angle_degree_2 N R segment_i segment_j
    let angle_2 := get_angle_2 angle
    if |angle_2| ≤ R.m_angle_threshold then
      let line := Line_2.through segment_j.source segment_j.target
      let q := line.projection p
      let distance := N.distance p q
      if distance ≤ R.m_ordinate_bound then
        (st.1.set j true, st.2.1 ++ [segment_j], map_insert st.2.2 j gr_idx)
      else st
    else st

/-- Body of the outer loop of `create_collinear_groups` for the index `i`. -/
def create_collinear_groups_outer (N : Internal) (R : Polygon_regularizer)
    (segments : List Segment_2) (st : Collinear_state) (i : Nat) : Collinear_state :=
  let segment_i := segments.getD i default
  if st.states.getD i false then st
  else
    let p := middle_point_2 segment_i.source segment_i.target
    let r := (List.range segments.length).foldl
      (create_collinear_groups_inner N R segments segment_i p st.gr_idx)
      (st.states.set i true, [segment_i], map_insert st.seg_map i st.gr_idx)
    { states := r.1
      groups := st.groups ++ [r.2.1]
      seg_map := r.2.2
      gr_idx := st.gr_idx + 1 }

/-- `create_collinear_groups(segments, groups, seg_map)`: the new `groups` and
`seg_map`. -/
def create_collinear_groups (N : Internal) (R : Polygon_regularizer)
    (segments : List Segment_2) : List (List Segment_2) × List (Nat × Nat) :=
  let r := (List.range segments.length).foldl (create_collinear_groups_outer N R segments)
    { states := List.replicate segments.length false, groups := [], seg_map := [], gr_idx := 0 }
  (r.groups, r.seg_map)

/-- Body of the last loop of `make_segments_collinear` for the index `i`;
`seg_map.at(i)` throws for a missing key. -/
def make_segments_collinear_body (seg_map : List (Nat × Nat)) (lines : List Line_2)
    (segments : List Segment_2) (i : Nat) : Option (List Segment_2) :=
  match map_find seg_map i with
  | none => none
  | some gr_idx =>
    match lines[gr_idx]?, segments[i]? with
    | some line, some segment =>
      some (segments.set i ⟨line.projection segment.source, line.projection segment.target⟩)
    | _, _ => none

/-- `make_segments_collinear(segments)`: the new `segments`. -/
def make_segments_collinear (N : Internal) (R : Polygon_regularizer)
    (segments : List Segment_2) : Option (List Segment_2) :=
  let c := create_collinear_groups N R segments
  let lines := c.1.map (fun group =>
    let segment := find_weighted_segment N group
    Line_2.through segment.source segment.target)
  for_range (make_segments_collinear_body c.2 lines) (List.range segments.length) segments

/-- `intersect_2(line_1, line_2, in_point)`: the returned flag and the new
value of `in_point`. -/
def intersect_2 (line_1 line_2 : Line_2) (in_point : Point_2) : Bool × Point_2 :=
  match intersection line_1 line_2 with
  | Intersection_result.line _ => (false, in_point)
  | Intersection_result.point point => (true, point)
  | Intersection_result.empty => (false, in_point)

/-- `intersect_segment(sm, si, sp)`: the new value of `si`. -/
def intersect_segment (sm si sp : Segment_2) : Segment_2 :=
  let line_1 := Line_2.through sm.source sm.target
  let line_2 := Line_2.through si.source si.target
  let line_3 := Line_2.through sp.source sp.target
  let r1 := intersect_2 line_1 line_2 si.source
  let r2 := intersect_2 line_2 line_3 si.target
  let source := if !r1.1 then si.source else r1.2
  let target := if !r2.1 then si.target else r2.2
  ⟨source, target⟩

/-- Body of the loop of `intersect_segments` for the index `i`.  All indices
read are reduced modulo the size of the list. -/
def intersect_segments_body (segments : List Segment_2) (i : Nat) : List Segment_2 :=
  let n := segments.length
  let im := (i + n - 1) % n
  let ip := (i + 1) % n
  segments.set i (intersect_segment (segments.getD im default) (segments.getD i default)
    (segments.getD ip default))

/-- `intersect_segments(segments)`: the segments are updated in place, one
after the other. -/
def intersect_segments (segments : List Segment_2) : List Segment_2 :=
  (List.range segments.length).foldl intersect_segments_body segments

/-- `connect_contour(contour)`: the returned flag and the new contour. -/
def connect_contour (N : Internal) (R : Polygon_regularizer) (contour : List Segment_2) :
    Option (Bool × List Segment_2) :=
  let c1 := clean_segments N R contour
  if !c1.1 then some (false, c1.2)
  else
    match make_segments_collinear N R c1.2 with
    | none => none
    | some c2 =>
      let c3 := intersect_segments c2
      let c4 := clean_segments N R c3
      if !c4.1 then some (false, c4.2)
      else some (true, intersect_segments c4.2)

/-- The stages of `connect_contour`. -/
inductive Stage where
  | clean_segments : Stage
  | make_segments_collinear : Stage
  | intersect_segments : Stage
deriving DecidableEq

/-- `connect_contour(contour)` once more, with the list of the calls it makes
in the order it makes them. -/
def connect_contour_calls (N : Internal) (R : Polygon_regularizer) (contour : List Segment_2) :
    Option (Bool × List Segment_2) × List Stage :=
  let c1 := clean_segments N R contour
  if !c1.1 then (some (false, c1.2), [Stage.clean_segments])
  else
    match make_segments_collinear N R c1.2 with
    | none => (none, [Stage.clean_segments, Stage.make_segments_collinear])
    | some c2 =>
      let c3 := intersect_segments c2
      let c4 := clean_segments N R c3
      if !c4.1 then
        (some (false, c4.2), [Stage.clean_segments, Stage.make_segments_collinear,
          Stage.intersect_segments, Stage.clean_segments])
      else
        (some (true, intersect_segments c4.2), [Stage.clean_segments,
          Stage.make_segments_collinear, Stage.intersect_segments, Stage.clean_segments,
          Stage.intersect_segments])

/-- Body of the second loop of `regularize_contours` for the contour
`initials[k]`; the state is `m_groups` and `finals`. -/
def regularize_contours_body (N : Internal) (R : Polygon_regularizer) (k : Nat)
    (initial : List Segment_2) (st : List (List Nat) × List (List Segment_2)) :
    Option (List (List Nat) × List (List Segment_2)) :=
  match rotate_contour N R st.1 k initial with
  | none => none
  | some r =>
    match correct_contour N R r.1 k r.2 with
    | none => none
    | some c =>
      match connect_contour N R c with
      | none => none
      | some (success, contour) =>
        if success then some (r.1, st.2 ++ [contour]) else some (r.1, st.2)

/-- The second loop of `regularize_contours`, from the index `k` on. -/
def regularize_contours_loop (N : Internal) (R : Polygon_regularizer) :
    Nat → List (List Segment_2) → List (List Nat) × List (List Segment_2) →
      Option (List (List Nat) × List (List Segment_2))
  | _, [], st => some st
  | k, initial :: rest, st =>
    match regularize_contours_body N R k initial st with
    | none => none
    | some st1 => regularize_contours_loop N R (k + 1) rest st1

/-- `regularize_contours(contours)`: the new `m_groups` and the new value of
`contours`. -/
def regularize_contours (N : Internal) (R : Polygon_regularizer)
    (contours : List (List Segment_2)) : Option (List (List Nat) × List (List Segment_2)) :=
  if R.m_angle_bound = 0 then some (R.m_groups, contours)
  else regularize_contours_loop N R 0 contours (R.m_groups, [])

/-- An instance of `Internal` that is exact on axis-parallel input: quarter
turns for `atan2` and `rotate_point_2`, `pi = 22/7`, and the sum of the
coordinate differences as distance. -/
def axis_internal : Internal :=
  { pi := 22 / 7
    atan2 := fun det dot =>
      if det = 0 then (if 0 ≤ dot then 0 else 22 / 7)
      else if 0 < det then (if dot = 0 then 11 / 7 else if 0 < dot then 11 / 14 else 33 / 14)
      else (if dot = 0 then -(11 / 7) else if 0 < dot then -(11 / 14) else -(33 / 14))
    tolerance := 1 / 1000000
    max_value := 1000000000
    distance := fun p q => |q.x - p.x| + |q.y - p.y|
    rotate_point_2 := fun angle b p =>
      if angle = 0 then p
      else if angle = 11 / 7 then ⟨b.x - (p.y - b.y), b.y + (p.x - b.x)⟩
      else if angle = -(11 / 7) then ⟨b.x + (p.y - b.y), b.y - (p.x - b.x)⟩
      else if angle = 22 / 7 ∨ angle = -(22 / 7) then ⟨b.x - (p.x - b.x), b.y - (p.y - b.y)⟩
      else p }

/-- The supporting line of the segment number `i` of a contour. -/
def contour_line (segments : List Segment_2) (i : Nat) : Line_2 :=
  supporting_line (segments.getD i default)

/-! ### Example data -/

/-- The square of side 10 with a corner at the origin, as a closed contour. -/
def example_square : List Segment_2 :=
  [⟨⟨0, 0⟩, ⟨10, 0⟩⟩, ⟨⟨10, 0⟩, ⟨10, 10⟩⟩, ⟨⟨10, 10⟩, ⟨0, 10⟩⟩, ⟨⟨0, 10⟩, ⟨0, 0⟩⟩]

/-- A closed contour of three segments. -/
def example_triangle : List Segment_2 :=
  [⟨⟨0, 0⟩, ⟨10, 0⟩⟩, ⟨⟨10, 0⟩, ⟨10, 10⟩⟩, ⟨⟨10, 10⟩, ⟨0, 0⟩⟩]

/-- A contour of four segments of which one has length zero. -/
def example_degenerate : List Segment_2 :=
  [⟨⟨0, 0⟩, ⟨10, 0⟩⟩, ⟨⟨10, 0⟩, ⟨10, 0⟩⟩, ⟨⟨10, 0⟩, ⟨10, 10⟩⟩, ⟨⟨10, 10⟩, ⟨0, 0⟩⟩]

/-- A quadrilateral whose segments do not meet at their end points: the
first side lies on the line `y = 1` and stops short of the second side. -/
def example_open_quadrilateral : List Segment_2 :=
  [⟨⟨0, 1⟩, ⟨9, 1⟩⟩, ⟨⟨10, 0⟩, ⟨10, 10⟩⟩, ⟨⟨10, 10⟩, ⟨0, 10⟩⟩, ⟨⟨0, 10⟩, ⟨0, 0⟩⟩]

/-- A regularizer with `angle_bound = 10` and one direction group, whose
reference is the first segment of the first contour; the group table is that
of the two contours `example_square`, `example_triangle`. -/
def example_regularizer : Polygon_regularizer :=
  { Polygon_regularizer.create axis_internal 1 10 (1 / 2) with
    m_bounds := [(45, 45)]
    m_skip := [(0, 0)]
    m_longest := [⟨⟨0, 0⟩, ⟨10, 0⟩⟩]
    m_groups := [[0, 0, 0, 0], [0, 0, 0]] }

end Levels_of_detail

/-! ## Level_of_detail : build_graph_data and Regular_segments_info_estimator -/

namespace Level_of_detail

/-- What `build_graph_data` takes from classes that are not at hand:
`Regular_segment_sampler::sample`, here the owners of the sample points of the
segments, and the Delaunay triangulation of these sample points. -/
structure Graph_collaborators where
  sample : List FT → List Nat
  triangulation : List FT → DT

/-- `sample_segments`: the precondition `m_segments.size() > 0`, then the
sampler; the result is `m_points_to_segments`. -/
def sample_segments (C : Graph_collaborators) (m_segments : List FT) : Option (List Nat) :=
  if 0 < m_segments.length then some (C.sample m_segments) else none

/-- `build_graph_data(graph_data)`: `sample_segments`,
`build_delaunay_triangulation`, `estimate_proximity`. -/
def build_graph_data (C : Graph_collaborators) (m_segments m_max_orientations : List FT)
    (m_parameters : Parameters) : Option Neighbours_graph_data :=
  match sample_segments C m_segments with
  | none => none
  | some points_to_segments =>
    estimate_proximity
      { m_segments := m_segments
        m_max_orientations := m_max_orientations
        m_parameters := m_parameters
        m_points_to_segments := points_to_segments
        m_dt := C.triangulation m_segments }

/-- The data members of `Regular_segments_info_estimator`; a segment is
represented by its `squared_length()`, the only attribute read. -/
structure Regular_segments_info_estimator where
  m_segments : List FT
  m_length_threshold : FT
deriving DecidableEq

/-- `compute_segment_lengths(segment_lengths)`; `sqrt` is `CGAL::sqrt` on
doubles. -/
def compute_segment_lengths (sqrt : FT → FT) (m_segments : List FT) : Option (List FT) :=
  if 0 < m_segments.length then some (m_segments.map sqrt) else none

/-- `compute_mean(values)`. -/
def compute_mean (values : List FT) : Option FT :=
  if 0 < values.length then some (values.foldl (fun mean v => mean + v) 0 / (values.length : FT))
  else none

/-- `compute_standard_deviation(values, mean)`. -/
def compute_standard_deviation (sqrt : FT → FT) (values : List FT) (mean : FT) : Option FT :=
  if 0 < values.length then
    some (sqrt (values.foldl (fun sum v => sum + (v - mean) * (v - mean)) 0
      / (values.length : FT)))
  else none

/-- `estimate_length_threshold(mean, stde)`. -/
def estimate_length_threshold (mean stde : FT) : FT := mean + stde

/-- `compute_length_threshold()`: the new value of `m_length_threshold`. -/
def compute_length_threshold (sqrt : FT → FT) (m_segments : List FT) : Option FT :=
  match compute_segment_lengths sqrt m_segments with
  | none => none
  | some segment_lengths =>
    match compute_mean segment_lengths with
    | none => none
    | some mean =>
      match compute_standard_deviation sqrt segment_lengths mean with
      | none => none
      | some stde => some (estimate_length_threshold mean stde)

/-- The constructor `Regular_segments_info_estimator(segments)`. -/
def Regular_segments_info_estimator.create (sqrt : FT → FT) (segments : List FT) :
    Option Regular_segments_info_estimator :=
  match compute_length_threshold sqrt segments with
  | none => none
  | some threshold => some { m_segments := segments, m_length_threshold := threshold }

/-- `get_length_threshold()`. -/
def get_length_threshold (E : Regular_segments_info_estimator) : Option FT :=
  if 0 < E.m_length_threshold then some E.m_length_threshold else none

/-- `is_too_long_segment(segment_index)`. -/
def is_too_long_segment (E : Regular_segments_info_estimator) (segment_index : Nat) :
    Option Bool :=
  if 0 < E.m_length_threshold then
    match E.m_segments[segment_index]? with
    | none => none
    | some squared_length =>
      if squared_length < E.m_length_threshold * E.m_length_threshold then some false
      else some true
  else none

end Level_of_detail

/-! ## Generalized_weights : Three_point_family_weight_2, and Weights : wachspress_weight -/

/-- Modelled from the spec: the kernel's signed area of the triangle `p q r`
(`compute_area_2_object`, `internal::area_2`). -/
def area_2 (p q r : Point_2) : FT :=
  ((q.x - p.x) * (r.y - p.y) - (q.y - p.y) * (r.x - p.x)) / 2

namespace Generalized_weights

/-- What `Three_point_family_weight_2` takes from the header
`Weight_interface/internal/utils_2.h`, which is not at hand:
`internal::distance_2` and `internal::power`. -/
structure Utils_2 where
  distance_2 : Point_2 → Point_2 → FT
  power : FT → FT → FT

/-- `Three_point_family_weight_2::weight(rm, rj, rp, Am, Aj, Bj)`; the failed
`CGAL_assertion` is the result `none`. -/
def weight (U : Utils_2) (m_p : FT) (rm rj rp Am Aj Bj : FT) : Option FT :=
  if Am ≠ 0 ∧ Aj ≠ 0 then
    let prod := Am * Aj
    if prod ≠ 0 then
      let inv := 1 / prod
      let a := if m_p ≠ 1 then U.power rm m_p else rm
      let b := if m_p ≠ 1 then U.power rj m_p else rj
      let c := if m_p ≠ 1 then U.power rp m_p else rp
      some ((a * Am - b * Bj + c * Aj) * inv)
    else some 0
  else none

/-- `Three_point_family_weight_2::weight_2(query, vm, vj, vp)`. -/
def weight_2 (U : Utils_2) (m_p : FT) (query vm vj vp : Point_2) : Option FT :=
  let rm := U.distance_2 query vm
  let rj := U.distance_2 query vj
  let rp := U.distance_2 query vp
  let Am := area_2 vm vj query
  let Aj := area_2 vj vp query
  let Bj := area_2 vm vp query
  weight U m_p rm rj rp Am Aj Bj

end Generalized_weights

namespace Weights

/-- `wachspress_ns::weight(A1, A2, C)`; the failed `CGAL_precondition` is the
result `none`. -/
def wachspress_ns_weight (A1 A2 C : FT) : Option FT :=
  if A1 ≠ 0 ∧ A2 ≠ 0 then
    let prod := A1 * A2
    if prod ≠ 0 then
      let inv := 1 / prod
      some (C * inv)
    else some 0
  else none

/-- `wachspress_weight(t, r, p, q, traits)`. -/
def wachspress_weight (t r p q : Point_2) : Option FT :=
  let A1 := area_2 r q t
  let A2 := area_2 p q r
  let C := area_2 t r p
  wachspress_ns_weight A1 A2 C

end Weights

/-! ## Polygon_regularizer : predicates used to state properties -/

namespace Levels_of_detail

/-- The flag `is_parallel_segment(sm, si, sp).first` for the segment `i` of a
contour, with `sm` and `sp` its cyclic neighbours as `find_initial_index`
takes them: the segment is parallel to its predecessor. -/
def parallel_to_predecessor (N : Internal) (R : Polygon_regularizer)
    (contour : List Segment_2) (i : Nat) : Bool :=
  (is_parallel_segment N R
    (contour.getD ((i + contour.length - 1) % contour.length) default)
    (contour.getD i default)
    (contour.getD ((i + 1) % contour.length) default)).1

end Levels_of_detail

/-! ## Segment_regularizer_tree : predicates used to state properties, example data -/

namespace Level_of_detail

/-- The two group tables of the first pass agree in one direction: a segment
with a group id other than `-1` is a member of that group; and the counter of
the next group is not negative. -/
def Categorize_state.consistent (st : Categorize_state) : Prop :=
  0 ≤ st.g ∧
  ∀ (x : Nat) (g : Int), st.segments_to_groups[x]? = some g → g ≠ -1 →
    x ∈ group_members st.groups_to_segments g

/-- The state in which the first pass of `build_tree` starts, for `n`
segments. -/
def categorize_start (n : Nat) : Categorize_state :=
  { segments_to_groups := List.replicate n (-1), groups_to_segments := [], g := 0, p := 0 }

/-- The test of the third pass: the registered angle `alpha_j` is within
`theta_eps` of `alpha` up to a shift by `k * 180`, `k = -1, 0, 1`. -/
def angle_matches (alpha theta_eps alpha_j : FT) : Prop :=
  |alpha_j - alpha + (-1) * 180| < theta_eps ∨ |alpha_j - alpha + 0 * 180| < theta_eps
    ∨ |alpha_j - alpha + 1 * 180| < theta_eps

instance (alpha theta_eps alpha_j : FT) : Decidable (angle_matches alpha theta_eps alpha_j) := by
  unfold angle_matches
  infer_instance

/-- Four segments, 0 orthogonal to 1 and 2 orthogonal to 3, then 3 parallel
to 0: the last constraint finds segment 3 in group 3 and segment 0 in
group 0. -/
def example_tree_merge : Segment_regularizer_tree :=
  { m_segments := [0, 90, 90, 0]
    m_orientations := [0, 0, 0, 0, 0, 0, 0]
    m_qp_data := [(0, 1, 1), (2, 3, 1), (3, 0, 0)]
    m_parameters := example_parameters }

/-- Four segments, 0 orthogonal to 1, then 3 parallel to 0 and 3 parallel
to 1, every constraint `(i, j)` with `i < j` and the constraints in the order
of their second index: the last constraint finds segment 1 in group 1 and
segment 3 in the earlier group 0. -/
def example_tree_merge_earlier : Segment_regularizer_tree :=
  { m_segments := [0, 90, 45, 0]
    m_orientations := [0, 0, 0, 0, 0, 0, 0]
    m_qp_data := [(0, 1, 1), (0, 3, 0), (1, 3, 0)]
    m_parameters := example_parameters }

/-- Five segments: 0 and 3 at 10 degrees form group 0, 1 and 4 at 11.5 degrees
form group 1, and segment 2 at 10.9 degrees stays unassigned in the first
pass (its correction 5 is not below the tolerance 1); `epsilon = 1`. -/
def example_tree_closest : Segment_regularizer_tree :=
  { m_segments := [10, 23 / 2, 109 / 10, 10, 23 / 2]
    m_orientations := [0, 0, 0, 0, 0, 0, 0, 5]
    m_qp_data := [(0, 3, 0), (1, 4, 0), (2, 1, 0)]
    m_parameters := { lambda := 1, optimize_parallelizm := true, optimize_orthogonality := true,
                      epsilon := 1, tolerance := 1 } }

end Level_of_detail

namespace Level_of_detail

/-- Two segments at 170 degrees joined by one PARALLEL constraint below
tolerance; the correction of each segment is 10 degrees. -/
def example_tree_half_turn : Segment_regularizer_tree :=
  { m_segments := [170, 170]
    m_orientations := [10, 10, 0]
    m_qp_data := [(0, 1, 0)]
    m_parameters := example_parameters }

end Level_of_detail

namespace Level_of_detail

/-- The keys of a `std::map` in iteration order. -/
def map_keys {β : Type} (m : List (Int × β)) : List Int := m.map Prod.fst

/-- The two group tables agree: a segment with a group id other than `-1` is
a member of that group, a member of a group has that group's id, and only
groups with an id that is not negative have members. -/
structure Tables_ok (s2g : List Int) (G : Groups_to_segments) : Prop where
  fwd : ∀ (x : Nat) (g : Int), s2g[x]? = some g → g ≠ -1 → x ∈ group_members G g
  bwd : ∀ (x : Nat) (g : Int), x ∈ group_members G g → s2g[x]? = some g
  ids : ∀ (x : Nat) (g : Int), x ∈ group_members G g → 0 ≤ g

end Level_of_detail

namespace Level_of_detail

/-- Invariant of the first pass of `build_tree` for `n` segments: the tables
agree, every group with members has an id below the counter `g`, and the
segment-to-group table has `n` entries. -/
structure Categorize_ok (n : Nat) (st : Categorize_state) : Prop where
  tables : Tables_ok st.segments_to_groups st.groups_to_segments
  counter : 0 ≤ st.g
  below : ∀ (x : Nat) (g : Int), x ∈ group_members st.groups_to_segments g → g < st.g
  size : st.segments_to_groups.length = n

/-- Invariant of the second and third pass of `build_tree` for `n` segments:
the tables agree, the keys of the registered angles are not negative and
increase. -/
structure Angles_ok (n : Nat) (st : Angles_state) : Prop where
  tables : Tables_ok st.segments_to_groups st.groups_to_segments
  size : st.segments_to_groups.length = n
  keys_nonneg : ∀ k ∈ map_keys st.angles, 0 ≤ k
  sorted : (map_keys st.angles).Pairwise (· < ·)

end Level_of_detail

/-! ## Levels_of_detail : Polygon_regularizer::compute_multiple_directions -/

namespace Levels_of_detail

/-- What `compute_multiple_directions` takes from outside in addition to
`Internal`: `std::sort`, given the key by which the comparator orders (larger
key first), and the orientation in degrees
`internal::compute_orientation(internal::compute_direction(segment))` of the
header `internal/utils.h`. -/
structure Directions_internal where
  sort : (Nat × Nat → FT) → List (Nat × Nat) → List (Nat × Nat)
  orientation : Segment_2 → FT

/-- `Seg_pair = std::pair<Segment_2, bool>`. -/
abbrev Seg_pair := Segment_2 × Bool

/-- `create_internal_contours(input, output)`: the new `output`. -/
def create_internal_contours (N : Internal) (R : Polygon_regularizer)
    (input : List (List Segment_2)) : List (List Seg_pair) :=
  input.map (fun contour => contour.map (fun segment =>
    if R.m_min_length * 2 ≤ N.distance segment.source segment.target then (segment, true)
    else (segment, false)))

/-- `make_default_groups(contours, value, groups)`: the new `groups`. -/
def make_default_groups {α : Type} (contours : List (List α)) (value : Nat) :
    List (List Nat) :=
  contours.map (fun contour => List.replicate contour.length value)

/-- Read access `contours[pair.first][pair.second]`. -/
def seg_pair_at (contours : List (List Seg_pair)) (pair : Nat × Nat) : Seg_pair :=
  (contours.getD pair.1 []).getD pair.2 default

/-- The list `input` of `get_multiple_directions` before it is sorted: all
pairs `(k, i)`, contour by contour. -/
def all_pairs (contours : List (List Seg_pair)) : List (Nat × Nat) :=
  (List.range contours.length).flatMap (fun k =>
    (List.range (contours.getD k []).length).map (fun i => (k, i)))

/-- `sort_input(contours, input)`: the new `input`. -/
def sort_input (D : Directions_internal) (contours : List (List Seg_pair))
    (input : List (Nat × Nat)) : List (Nat × Nat) :=
  D.sort (fun a => (seg_pair_at contours a).1.squared_length) input

/-- The first loop of `get_next_direction`: the first index that is not yet
assigned and belongs to a long segment, or `size_t(-1)`. -/
def find_longest_idx (contours : List (List Seg_pair)) (input : List (Nat × Nat))
    (states : List Bool) : Nat :=
  ((List.range states.length).find? (fun i =>
    !states.getD i false && (seg_pair_at contours (input.getD i default)).2)).getD npos

/-- Body of the second loop of `get_next_direction` for the index `i`; the
state is `m_groups` and `states`. -/
def get_next_direction_body (N : Internal) (R : Polygon_regularizer)
    (contours : List (List Seg_pair)) (input : List (Nat × Nat)) (gr_idx longest_idx : Nat)
    (st : List (List Nat) × List Bool) (i : Nat) : List (List Nat) × List Bool :=
  let longest_pair := input.getD longest_idx default
  let longest_segment := (seg_pair_at contours longest_pair).1
  if i = longest_idx then
    (set_group st.1 longest_pair.1 longest_pair.2 gr_idx, st.2.set i true)
  else
    let pair := input.getD i default
    if !st.2.getD i false && (seg_pair_at contours pair).2 then
      let segment := (seg_pair_at contours pair).1
      let angle := angle_degree_2 N R longest_segment segment
      let angle_2 := get_angle_2 angle
      if |angle_2| ≤ R.m_bound_min ∨ R.m_bound_max ≤ |angle_2| then
        (set_group st.1 pair.1 pair.2 gr_idx, st.2.set i true)
      else st
    else st

/-- `get_next_direction(contours, input, gr_idx, states)`: the returned flag,
the new `states` and the new members of the regularizer. -/
def get_next_direction (N : Internal) (R : Polygon_regularizer)
    (contours : List (List Seg_pair)) (input : List (Nat × Nat)) (gr_idx : Nat)
    (states : List Bool) : Bool × List Bool × Polygon_regularizer :=
  let longest_idx := find_longest_idx contours input states
  if longest_idx = npos then (false, states, R)
  else
    let longest_pair := input.getD longest_idx default
    let longest_segment := (seg_pair_at contours longest_pair).1
    let r := (List.range states.length).foldl
      (get_next_direction_body N R contours input gr_idx longest_idx) (R.m_groups, states)
    (true, r.2,
      { R with
        m_groups := r.1
        m_longest := R.m_longest ++ [longest_segment]
        m_bounds := R.m_bounds ++ [(45, 45)]
        m_skip := R.m_skip ++ [longest_pair] })

/-- The `do ... while (apply)` loop of `get_multiple_directions`; `more`
bounds the number of further iterations. -/
def get_multiple_directions_loop (N : Internal) (contours : List (List Seg_pair))
    (input : List (Nat × Nat)) :
    Nat → Nat → List Bool → Polygon_regularizer → Polygon_regularizer
  | more, gr_idx, states, R =>
    let r := get_next_direction N R contours input gr_idx states
    if r.1 then
      match more with
      | 0 => r.2.2
      | more1 + 1 => get_multiple_directions_loop N contours input more1 (gr_idx + 1) r.2.1 r.2.2
    else r.2.2

/-- `get_multiple_directions(contours)`: the new members of the regularizer. -/
def get_multiple_directions (N : Internal) (D : Directions_internal) (R : Polygon_regularizer)
    (contours : List (List Seg_pair)) : Polygon_regularizer :=
  let input := sort_input D contours (all_pairs contours)
  let states := List.replicate input.length false
  get_multiple_directions_loop N contours input input.length 0 states
    { R with
      m_bounds := []
      m_skip := []
      m_longest := []
      m_groups := make_default_groups contours npos }

/-- `find_longest_segment(contours)`, the overload that returns a pair of
indices. -/
def find_longest_segment (contours : List (List Seg_pair)) : Nat × Nat :=
  ((all_pairs contours).foldl
    (fun (acc : FT × (Nat × Nat)) (pair : Nat × Nat) =>
      let length := (seg_pair_at contours pair).1.squared_length
      if acc.1 < length then (length, pair) else acc)
    (-1, (npos, npos))).2

/-- `compute_longest_direction(contours)`: the new members of the
regularizer; reading `contours[size_t(-1)]` is undefined. -/
def compute_longest_direction (R : Polygon_regularizer) (contours : List (List Seg_pair)) :
    Option Polygon_regularizer :=
  let longest_pair := find_longest_segment contours
  match contours[longest_pair.1]? with
  | none => none
  | some contour =>
    match contour[longest_pair.2]? with
    | none => none
    | some seg_pair =>
      some { R with
             m_bounds := [(45, 45)]
             m_skip := [longest_pair]
             m_longest := [seg_pair.1]
             m_groups := make_default_groups contours 0 }

/-- The `do ... while (!stop && max_count < m * 2)` loop of
`unify_along_contours` for the segment `i` of a contour of size `m`, followed
by the test after it: the new value of `m_groups[k][i]`.  `more` bounds the
number of further iterations. -/
def unify_search (contour : List Seg_pair) (groups_k : List Nat) (i m : Nat) :
    Nat → Nat → Nat → Nat → Nat
  | more, im, ip, max_count =>
    if (contour.getD im default).2 then groups_k.getD im npos
    else if (contour.getD ip default).2 then groups_k.getD ip npos
    else
      let im1 := (im + m - 1) % m
      let ip1 := (ip + 1) % m
      if ¬ (im1 = i ∨ ip1 = i) ∧ max_count + 1 < m * 2 then
        match more with
        | 0 => 0
        | more1 + 1 => unify_search contour groups_k i m more1 im1 ip1 (max_count + 1)
      else 0

/-- Body of the inner loop of `unify_along_contours` for the segment `i` of
the contour `k`. -/
def unify_along_contours_body (contours : List (List Seg_pair)) (k : Nat)
    (groups : List (List Nat)) (i : Nat) : List (List Nat) :=
  let contour := contours.getD k []
  if (contour.getD i default).2 then groups
  else if (groups.getD k []).getD i npos = npos then
    let m := contour.length
    set_group groups k i
      (unify_search contour (groups.getD k []) i m (m * 2) ((i + m - 1) % m) ((i + 1) % m) 0)
  else groups

/-- `unify_along_contours(contours)`: the new `m_groups`. -/
def unify_along_contours (groups : List (List Nat)) (contours : List (List Seg_pair)) :
    List (List Nat) :=
  (all_pairs contours).foldl
    (fun (g : List (List Nat)) (pair : Nat × Nat) =>
      unify_along_contours_body contours pair.1 g pair.2) groups

/-- Body of the loops of `create_average_angles` for the entry
`m_groups[k][i]`; the state is `angles` and `counts`.  Reading `m_longest` out
of range is undefined. -/
def create_average_angles_body (D : Directions_internal) (R : Polygon_regularizer)
    (contours : List (List Seg_pair)) (st : List FT × List FT) (pair : Nat × Nat) :
    Option (List FT × List FT) :=
  if !(seg_pair_at contours pair).2 then some st
  else
    let gr_idx := (R.m_groups.getD pair.1 []).getD pair.2 npos
    match R.m_longest[gr_idx]? with
    | none => none
    | some si =>
      let sj := (seg_pair_at contours pair).1
      let oi := D.orientation si
      let oj := D.orientation sj
      let mes_ij := oi - oj
      let angle := Level_of_detail.t_ij mes_ij
      some (st.1.set gr_idx (st.1.getD gr_idx 0 + angle),
            st.2.set gr_idx (st.2.getD gr_idx 0 + 1))

/-- The pairs `(k, i)` with `i < m_groups[k].size()`, row by row. -/
def group_pairs (groups : List (List Nat)) : List (Nat × Nat) :=
  (List.range groups.length).flatMap (fun k =>
    (List.range (groups.getD k []).length).map (fun i => (k, i)))

/-- A loop over a list of pairs whose body may fail. -/
def for_pairs {σ : Type} (body : σ → Nat × Nat → Option σ) : List (Nat × Nat) → σ → Option σ
  | [], st => some st
  | pair :: rest, st =>
    match body st pair with
    | some st1 => for_pairs body rest st1
    | none => none

/-- `create_average_angles(contours, angles, counts)`: the new `angles` and
`counts`. -/
def create_average_angles (D : Directions_internal) (R : Polygon_regularizer)
    (contours : List (List Seg_pair)) : Option (List FT × List FT) :=
  for_pairs (create_average_angles_body D R contours) (group_pairs R.m_groups)
    (List.replicate R.m_longest.length 0, List.replicate R.m_longest.length 0)

/-- Body of the loop of `readjust_directions` for the group `k`; the state is
`m_longest`.  The division by `counts[k] = 0` has no result. -/
def readjust_directions_body (N : Internal) (R : Polygon_regularizer)
    (angles counts : List FT) (longest : List Segment_2) (k : Nat) :
    Option (List Segment_2) :=
  match angles[k]?, counts[k]?, longest[k]? with
  | some a, some n, some segment =>
    if n = 0 then none
    else some (longest.set k (rotate N R (a / n) 0 default segment))
  | _, _, _ => none

/-- `readjust_directions(contours)`: the new members of the regularizer. -/
def readjust_directions (N : Internal) (D : Directions_internal) (R : Polygon_regularizer)
    (contours : List (List Seg_pair)) : Option Polygon_regularizer :=
  match create_average_angles D R contours with
  | none => none
  | some (angles, counts) =>
    match for_range (readjust_directions_body N R angles counts) (List.range angles.length)
        R.m_longest with
    | none => none
    | some longest => some { R with m_longest := longest }

/-- `compute_multiple_directions(input_contours)`: the new members of the
regularizer. -/
def compute_multiple_directions (N : Internal) (D : Directions_internal)
    (R : Polygon_regularizer) (input_contours : List (List Segment_2)) :
    Option Polygon_regularizer :=
  let contours := create_internal_contours N R input_contours
  let R1 := get_multiple_directions N D R contours
  let R2 := if R1.m_longest.length = 0 then compute_longest_direction R1 contours else some R1
  match R2 with
  | none => none
  | some R3 =>
    readjust_directions N D { R3 with m_groups := unify_along_contours R3.m_groups contours }
      contours

/-- Insertion of a pair into a list that is sorted by decreasing key, after
the pairs whose key is not smaller. -/
def insert_by_key (key : Nat × Nat → FT) (a : Nat × Nat) : List (Nat × Nat) → List (Nat × Nat)
  | [] => [a]
  | b :: rest => if key b < key a then a :: b :: rest else b :: insert_by_key key a rest

/-- An instance of `Directions_internal`: insertion sort for `std::sort`, and
an orientation that is exact on axis-parallel segments (0 for a horizontal
segment, 90 for a vertical one) and 45 elsewhere. -/
def axis_directions : Directions_internal :=
  { sort := fun key input => input.foldr (insert_by_key key) []
    orientation := fun s =>
      if s.source.y = s.target.y then 0
      else if s.source.x = s.target.x then 90
      else 45 }

/-- The rectangle with the corner `(x0, y0)`, width `w` and height `h`, as a
closed contour of four segments with the directions 0, 90, 180 and 270
degrees. -/
def rectangle (x0 y0 w h : FT) : List Segment_2 :=
  [⟨⟨x0, y0⟩, ⟨x0 + w, y0⟩⟩, ⟨⟨x0 + w, y0⟩, ⟨x0 + w, y0 + h⟩⟩,
   ⟨⟨x0 + w, y0 + h⟩, ⟨x0, y0 + h⟩⟩, ⟨⟨x0, y0 + h⟩, ⟨x0, y0⟩⟩]

/-- The segment is parallel to the x axis and not reduced to a point. -/
def horizontal (s : Segment_2) : Prop :=
  s.source.y = s.target.y ∧ s.source.x ≠ s.target.x

/-- The segment is parallel to the y axis and not reduced to a point. -/
def vertical (s : Segment_2) : Prop :=
  s.source.x = s.target.x ∧ s.source.y ≠ s.target.y

/-- The collaborators of `Internal` are exact on axis-parallel input:
`std::atan2` returns 0, pi, pi/2 and -pi/2 on the four half axes, with the
same nonzero `pi` as `CGAL_PI`; a rotation by the angle 0 moves no point; and
the distance of two points with a common coordinate is the absolute
difference of the other one. -/
structure Axis_exact (N : Internal) : Prop where
  pi_ne_zero : N.pi ≠ 0
  atan2_pos_x : ∀ x : FT, 0 < x → N.atan2 0 x = 0
  atan2_neg_x : ∀ x : FT, x < 0 → N.atan2 0 x = N.pi
  atan2_pos_y : ∀ y : FT, 0 < y → N.atan2 y 0 = N.pi / 2
  atan2_neg_y : ∀ y : FT, y < 0 → N.atan2 y 0 = -(N.pi / 2)
  rotate_zero : ∀ b p : Point_2, N.rotate_point_2 0 b p = p
  distance_horizontal : ∀ p q : Point_2, p.y = q.y → N.distance p q = |q.x - p.x|
  distance_vertical : ∀ p q : Point_2, p.x = q.x → N.distance p q = |q.y - p.y|

/-- The collaborators of `Directions_internal` do what their names say on
axis-parallel input: `std::sort` returns a permutation of its input, and the
orientation of a horizontal segment is 0 degrees, that of a vertical segment
90 degrees. -/
structure Axis_exact_directions (D : Directions_internal) : Prop where
  sort_perm : ∀ (key : Nat × Nat → FT) (input : List (Nat × Nat)),
    (D.sort key input).Perm input
  orientation_horizontal : ∀ s : Segment_2, horizontal s → D.orientation s = 0
  orientation_vertical : ∀ s : Segment_2, vertical s → D.orientation s = 90

end Levels_of_detail

/-! ## Level_of_detail : the statistics behind the length threshold -/

namespace Level_of_detail

/-- The arithmetic mean of a list of values, as the specification words it. -/
def arithmetic_mean (values : List FT) : FT := values.sum / (values.length : FT)

/-- The population variance of a list of values, as the specification words
it: the mean of the squared deviations from the arithmetic mean. -/
def population_variance (values : List FT) : FT :=
  (values.map (fun v => (v - arithmetic_mean values) * (v - arithmetic_mean values))).sum
    / (values.length : FT)

/-- A square root that is exact on the squares of 3, 4 and 1/2 (and on 0),
used to evaluate the estimator on concrete input. -/
def example_sqrt (x : FT) : FT :=
  if x = 9 then 3 else if x = 16 then 4 else if x = 1 / 4 then 1 / 2 else 0

/-- The value of `CGAL::sqrt` on doubles at the squared length 2, the double
nearest to the square root of 2, which is larger than the square root of 2;
0 at 0. -/
def example_double_sqrt (x : FT) : FT :=
  if x = 2 then 6369051672525773 / 4503599627370496 else 0

end Level_of_detail

/-! ## Shape_regularization : Collinear_groups_2 -/

namespace Shape_regularization

/-- Modelled from the spec: `internal::middle_point_2` of the header
`Shape_regularization/internal/utils.h`, the midpoint of two points. -/
def middle_point_2 (p q : Point_2) : Point_2 := ⟨(p.x + q.x) / 2, (p.y + q.y) / 2⟩

end Shape_regularization

/-! ## Levels_of_detail : what the loops of `create_collinear_groups` maintain -/

namespace Levels_of_detail

/-- A group of `create_collinear_groups` is seeded: it has a first member, the
seed, and every other member has its acute angular difference to the seed
within `m_angle_threshold` and the midpoint of the seed within
`m_ordinate_bound` of its supporting line. -/
def seeded_group (N : Internal) (R : Polygon_regularizer) (group : List Segment_2) : Prop :=
  ∃ seed rest, group = seed :: rest ∧
    ∀ s ∈ rest,
      |get_angle_2 (angle_degree_2 N R seed s)| ≤ R.m_angle_threshold ∧
      N.distance (middle_point_2 seed.source seed.target)
        ((Line_2.through s.source s.target).projection
          (middle_point_2 seed.source seed.target)) ≤ R.m_ordinate_bound

/-- The flags, the groups and the map of `create_collinear_groups` fit
together: a position is flagged exactly when the map has an entry for it, and
the entry names a group that contains the segment of that position. -/
structure Map_ok (segments : List Segment_2) (states : List Bool)
    (groups : List (List Segment_2)) (seg_map : List (Nat × Nat)) : Prop where
  size : states.length = segments.length
  flagged_iff : ∀ j, states.getD j false = true ↔ (map_find seg_map j).isSome = true
  entry : ∀ j g, map_find seg_map j = some g →
    ∃ group, groups[g]? = some group ∧ segments.getD j default ∈ group

/-- The representative line of a group in `make_segments_collinear`. -/
def representative_line (N : Internal) (group : List Segment_2) : Line_2 :=
  Line_2.through (find_weighted_segment N group).source (find_weighted_segment N group).target

/-- Three parallel segments of length 10 at the heights 0, 2/5 and -2/5. -/
def example_three_parallel : List Segment_2 :=
  [⟨⟨0, 0⟩, ⟨10, 0⟩⟩, ⟨⟨0, 2 / 5⟩, ⟨10, 2 / 5⟩⟩, ⟨⟨0, -(2 / 5)⟩, ⟨10, -(2 / 5)⟩⟩]

/-- The two long sides of a rectangle of width 3/10, as they occur in a closed
contour: parallel, of equal length and of opposite direction. -/
def example_thin_sides : List Segment_2 :=
  [⟨⟨0, 0⟩, ⟨10, 0⟩⟩, ⟨⟨10, 3 / 10⟩, ⟨0, 3 / 10⟩⟩]

end Levels_of_detail

/-! ## Levels_of_detail : what the loops of `compute_multiple_directions` maintain -/

namespace Levels_of_detail

/-- Read access `m_groups[pair.first][pair.second]`. -/
def group_at (groups : List (List Nat)) (pair : Nat × Nat) : Nat :=
  (groups.getD pair.1 []).getD pair.2 npos

/-- `std::sort` with the comparator of `sort_input` returns a permutation of
its input in which no element has a larger key than an element before it. -/
structure Sort_exact (D : Directions_internal) : Prop where
  perm : ∀ (key : Nat × Nat → FT) (input : List (Nat × Nat)), (D.sort key input).Perm input
  sorted : ∀ (key : Nat × Nat → FT) (input : List (Nat × Nat)),
    (D.sort key input).Pairwise (fun a b => ¬ key a < key b)

/-- The state of the loop of `get_multiple_directions` after `gr_idx` calls of
`get_next_direction` that returned `true`; `refs` lists the positions in
`input` of the reference segments of the groups `0, ..., gr_idx - 1`. -/
structure Directions_inv (contours : List (List Seg_pair)) (input : List (Nat × Nat))
    (gr_idx : Nat) (states : List Bool) (R : Polygon_regularizer) (refs : List Nat) :
    Prop where
  size : states.length = input.length
  shape : R.m_groups.map List.length = contours.map List.length
  refs_length : refs.length = gr_idx
  longest : R.m_longest = refs.map (fun idx => (seg_pair_at contours (input.getD idx default)).1)
  skip : R.m_skip = refs.map (fun idx => input.getD idx default)
  bounds : R.m_bounds.length = gr_idx
  refs_sorted : refs.Pairwise (fun a b => a < b)
  refs_lt : ∀ r ∈ refs, r < input.length
  ref_group : ∀ k r, refs[k]? = some r →
    group_at R.m_groups (input.getD r default) = k ∧
    (seg_pair_at contours (input.getD r default)).2 = true
  unassigned : ∀ i, i < input.length → states.getD i false = false →
    group_at R.m_groups (input.getD i default) = npos
  assigned : ∀ i, i < input.length → states.getD i false = true →
    (seg_pair_at contours (input.getD i default)).2 = true ∧
    ∃ r, refs[group_at R.m_groups (input.getD i default)]? = some r ∧ r ≤ i
  refs_first : ∀ r ∈ refs, ∀ i, i < input.length → states.getD i false = false →
    (seg_pair_at contours (input.getD i default)).2 = true → r < i
  refs_assigned : ∀ r ∈ refs, states.getD r false = true

end Levels_of_detail

namespace Levels_of_detail

/-- The reference segments of the direction groups of `R`: `m_skip` and
`m_longest` have one entry per group, the entry `k` is a segment of the
contours that is assigned to the group `k` and no segment assigned to the
group `k` has a larger squared length, and the squared lengths of the
references do not increase with `k`. -/
def References_longest (contours : List (List Seg_pair)) (R : Polygon_regularizer) : Prop :=
  R.m_skip.length = R.m_longest.length ∧
  (∀ k, k < R.m_longest.length →
    ∃ pair, R.m_skip[k]? = some pair ∧ pair ∈ all_pairs contours ∧
      R.m_longest[k]? = some (seg_pair_at contours pair).1 ∧
      group_at R.m_groups pair = k ∧
      ∀ q ∈ all_pairs contours, group_at R.m_groups q = k →
        (seg_pair_at contours q).1.squared_length
          ≤ (seg_pair_at contours pair).1.squared_length) ∧
  (∀ (k1 k2 : Nat) (s1 s2 : Segment_2), k1 ≤ k2 →
    R.m_longest[k1]? = some s1 → R.m_longest[k2]? = some s2 →
    s2.squared_length ≤ s1.squared_length)

end Levels_of_detail

namespace Levels_of_detail

/-- A regularizer with `min_length = 1`, `angle_bound = 10` and
`ordinate_bound = 1/2`. -/
def example_fresh_regularizer : Polygon_regularizer :=
  Polygon_regularizer.create axis_internal 1 10 (1 / 2)

/-- The internal contours of the rectangle of width 4 and height 3: every side
is at least `2 * min_length` long. -/
def example_long_contours : List (List Seg_pair) :=
  create_internal_contours axis_internal example_fresh_regularizer [rectangle 0 0 4 3]

/-- The internal contours of the unit square: every side is shorter than
`2 * min_length`. -/
def example_short_contours : List (List Seg_pair) :=
  create_internal_contours axis_internal example_fresh_regularizer [rectangle 0 0 1 1]

end Levels_of_detail
namespace Levels_of_detail

/-- The state of `compute_multiple_directions` at the call of
`readjust_directions`: `create_internal_contours`, `get_multiple_directions`,
`compute_longest_direction` when `m_longest` is empty, and
`unify_along_contours` have run. -/
def directions_before_readjust (N : Internal) (D : Directions_internal)
    (R : Polygon_regularizer) (input_contours : List (List Segment_2)) :
    Option Polygon_regularizer :=
  let contours := create_internal_contours N R input_contours
  let R1 := get_multiple_directions N D R contours
  let R2 := if R1.m_longest.length = 0 then compute_longest_direction R1 contours else some R1
  match R2 with
  | none => none
  | some R3 => some { R3 with m_groups := unify_along_contours R3.m_groups contours }

/-- The vectors `m_longest`, `m_bounds` and `m_skip` of `R` have the same
length, which is at least 1, `m_groups` has the shape of the contours, and
every entry `m_groups[k][i]` is smaller than this length. -/
def Groups_in_bounds (contours : List (List Seg_pair)) (R : Polygon_regularizer) : Prop :=
  1 ≤ R.m_longest.length ∧
  R.m_bounds.length = R.m_longest.length ∧
  R.m_skip.length = R.m_longest.length ∧
  R.m_groups.map List.length = contours.map List.length ∧
  ∀ p ∈ all_pairs contours, group_at R.m_groups p < R.m_longest.length

/-- The long segments (flag `true`) that `m_groups` assigns to the group `k`,
in the order of the contours. -/
def long_members (R : Polygon_regularizer) (contours : List (List Seg_pair)) (k : Nat) :
    List (Nat × Nat) :=
  (all_pairs contours).filter (fun p =>
    (seg_pair_at contours p).2 && decide (group_at R.m_groups p = k))

/-- The deviations of the group `k`, as the specification words them: for
every long segment of the group, the deviation `t_ij` of the difference
(orientation of the reference `m_longest[k]`) - (orientation of the segment)
to its nearest multiple of 90. -/
def deviations (D : Directions_internal) (R : Polygon_regularizer)
    (contours : List (List Seg_pair)) (k : Nat) : List FT :=
  (long_members R contours k).map (fun p =>
    Level_of_detail.t_ij
      (D.orientation (R.m_longest.getD k default) - D.orientation (seg_pair_at contours p).1))

end Levels_of_detail
namespace Levels_of_detail

/-- A state of the regularizer at the call of `readjust_directions` for the
rectangle of width 4 and height 3: one direction group, whose reference is the
bottom side. -/
def example_directions : Polygon_regularizer :=
  { example_fresh_regularizer with
    m_bounds := [(45, 45)]
    m_skip := [(0, 0)]
    m_longest := [⟨⟨0, 0⟩, ⟨4, 0⟩⟩]
    m_groups := [[0, 0, 0, 0]] }

end Levels_of_detail
namespace Levels_of_detail

/-- The segment `i` of the contour is a corner: it is not parallel to its
cyclic predecessor (the flag `previous_is_orthogonal` of
`find_initial_index`). -/
def is_corner (N : Internal) (R : Polygon_regularizer) (contour : List Segment_2)
    (i : Nat) : Bool :=
  !parallel_to_predecessor N R contour i

/-- The maximal runs of a list of indices, as the specification words them:
the list is cut before every index, other than the first, that is a corner,
so that inside a run every index but the first is parallel to the one before
it. -/
def parallel_runs (corner : Nat → Bool) : List Nat → List (List Nat)
  | [] => []
  | i :: rest =>
    match parallel_runs corner rest with
    | [] => [[i]]
    | run :: runs =>
      if corner (run.headD 0) then [i] :: run :: runs else (i :: run) :: runs

/-- The segments of the contour at the indices of a run, the vector
`parallel_segments` that `get_parallel_segments` fills for the run. -/
def run_segments (contour : List Segment_2) (run : List Nat) : List Segment_2 :=
  run.map (fun i => contour.getD i default)

/-- The merged segment that `filter_out_wrong_segments` pushes for a run. -/
def merged_segment (N : Internal) (contour : List Segment_2) (run : List Nat) : Segment_2 :=
  (create_segment_from_parallel_segments N (run_segments contour run)).2

/-- The ratio list that `filter_out_wrong_segments` pushes for a run. -/
def run_ratios (N : Internal) (contour : List Segment_2) (run : List Nat) : List FT :=
  add_ratios N (create_segment_from_parallel_segments N (run_segments contour run)).1
    (run_segments contour run)
    (create_segment_from_parallel_segments N (run_segments contour run)).2

/-- The rectangle of width 4 and height 3 with a segment of length zero after
every side. -/
def example_degenerate_sides : List Segment_2 :=
  [⟨⟨0, 0⟩, ⟨4, 0⟩⟩, ⟨⟨4, 0⟩, ⟨4, 0⟩⟩, ⟨⟨4, 0⟩, ⟨4, 3⟩⟩, ⟨⟨4, 3⟩, ⟨4, 3⟩⟩,
   ⟨⟨4, 3⟩, ⟨0, 3⟩⟩, ⟨⟨0, 3⟩, ⟨0, 3⟩⟩, ⟨⟨0, 3⟩, ⟨0, 0⟩⟩, ⟨⟨0, 0⟩, ⟨0, 0⟩⟩]

end Levels_of_detail

namespace Levels_of_detail

/-- Four segments of length 1 that follow each other on the x axis. -/
def example_collinear_sides : List Segment_2 :=
  [⟨⟨0, 0⟩, ⟨1, 0⟩⟩, ⟨⟨1, 0⟩, ⟨2, 0⟩⟩, ⟨⟨2, 0⟩, ⟨3, 0⟩⟩, ⟨⟨3, 0⟩, ⟨4, 0⟩⟩]

end Levels_of_detail

/-! ## Polygon_regularizer : the rotation of a member in the words of the claim, example data -/

namespace Levels_of_detail

/-- The angle of a member against the stored reference segment, as the claim
words it: `atan2` of the determinant and the scalar product of the member's
vector and the reversed vector of the reference, in degrees. -/
def angle_to_reference (N : Internal) (pi : FT) (reference segment : Segment_2) : FT :=
  N.atan2
    (determinant segment.to_vector reference.to_vector.neg)
    (scalar_product segment.to_vector reference.to_vector.neg) * 180 / pi

/-- The angle folded into `[-90, 90]`. -/
def folded_angle (angle : FT) : FT :=
  if 90 < angle then 180 - angle else if angle < -90 then 180 + angle else angle

/-- The angle that is left to the next multiple of `step` degrees: `angle + step`
for a negative angle, `angle - step` for a positive one. -/
def remaining_angle (angle step : FT) : FT :=
  if angle < 0 then angle + step else if 0 < angle then angle - step else angle

/-- The segment turned about its midpoint by `angle` degrees. -/
def turned_about_midpoint (N : Internal) (pi angle : FT) (segment : Segment_2) : Segment_2 :=
  ⟨N.rotate_point_2 (angle * pi / 180) (middle_point_2 segment.source segment.target)
      segment.source,
    N.rotate_point_2 (angle * pi / 180) (middle_point_2 segment.source segment.target)
      segment.target⟩

/-- What the stored reference direction does to a member, as the claim words
it: a member whose folded angle against the reference is within the first
bound is turned about its midpoint onto the direction of the reference, and
one whose folded angle is at least the second bound is turned onto the
direction orthogonal to the reference. -/
def snapped_to_reference (N : Internal) (pi : FT) (reference : Segment_2) (bounds : FT × FT)
    (segment : Segment_2) : Segment_2 :=
  let angle := angle_to_reference N pi reference segment
  let s1 :=
    if |folded_angle angle| ≤ bounds.1 then
      turned_about_midpoint N pi (remaining_angle angle 180) segment
    else segment
  if bounds.2 ≤ |folded_angle angle| then turned_about_midpoint N pi (remaining_angle angle 90) s1
  else s1

/-- An instance of `Internal` that is also exact on the direction (4, 3): the
angle `atan(3/4)` is represented by 9/14 (and pi by 22/7), `atan2(30, -40)` is
`pi - atan(3/4)`, the rotation by `-atan(3/4)` has cosine 4/5 and sine -3/5,
and the distance of two points that differ by 4 and 3 is 5. -/
def example_turning_internal : Internal :=
  { pi := 22 / 7
    atan2 := fun det dot =>
      if det = 30 ∧ dot = -40 then 5 / 2 else axis_internal.atan2 det dot
    tolerance := 1 / 1000000
    max_value := 1000000000
    distance := fun p q =>
      if |q.x - p.x| = 4 ∧ |q.y - p.y| = 3 then 5 else |q.x - p.x| + |q.y - p.y|
    rotate_point_2 := fun angle b p =>
      if angle = -(9 / 14) then
        ⟨b.x + 4 / 5 * (p.x - b.x) + 3 / 5 * (p.y - b.y),
         b.y - 3 / 5 * (p.x - b.x) + 4 / 5 * (p.y - b.y)⟩
      else axis_internal.rotate_point_2 angle b p }

/-- A contour of two segments: the reference segment on the x axis and a
member of direction (4, 3). -/
def example_slanted_contour : List Segment_2 :=
  [⟨⟨0, 0⟩, ⟨10, 0⟩⟩, ⟨⟨10, 0⟩, ⟨14, 3⟩⟩]

/-- A regularizer whose single group holds both segments of
`example_slanted_contour` and has the first one as reference. -/
def example_slanted_regularizer : Polygon_regularizer :=
  { Polygon_regularizer.create example_turning_internal 1 10 (1 / 2) with
    m_bounds := [(45, 45)]
    m_skip := [(0, 0)]
    m_longest := [⟨⟨0, 0⟩, ⟨10, 0⟩⟩]
    m_groups := [[0, 0]] }

end Levels_of_detail

/-! ## Polygon_regularizer : example data with a negative `max_value` -/

namespace Levels_of_detail

/-- The instance `axis_internal` with a negative constant `max_value`. -/
def example_negative_max_internal : Internal :=
  { axis_internal with max_value := -1000000000 }

end Levels_of_detail

/-! ## Polygon_regularizer : when the divisions made for a run are defined -/

namespace Levels_of_detail

/-- No division made for the run by `create_segment_from_parallel_segments`
and `add_ratios` has a zero divisor: the lengths of the segments of the run do
not sum to zero (`compute_distance_weights`), no segment of the run is
reduced to a point (its supporting line, onto which `compute_weighted_segment`
projects, has a direction), the weighted segment is not reduced to a point
(the line onto which the end points of the run are projected has a direction)
and the merged segment has a length other than zero (`add_ratios`). -/
def run_defined (N : Internal) (contour : List Segment_2) (run : List Nat) : Prop :=
  ((run_segments contour run).map (fun s => N.distance s.source s.target)).sum ≠ 0 ∧
  (∀ s ∈ run_segments contour run, s.source ≠ s.target) ∧
  (find_weighted_segment N (run_segments contour run)).source
    ≠ (find_weighted_segment N (run_segments contour run)).target ∧
  N.distance (merged_segment N contour run).source (merged_segment N contour run).target ≠ 0

instance (N : Internal) (contour : List Segment_2) (run : List Nat) :
    Decidable (run_defined N contour run) := by
  unfold run_defined
  infer_instance

/-- Two spikes at a right angle: a segment of length 2 walked forth and back
along the x axis, then one along the y axis. -/
def example_spikes : List Segment_2 :=
  [⟨⟨0, 0⟩, ⟨2, 0⟩⟩, ⟨⟨2, 0⟩, ⟨0, 0⟩⟩, ⟨⟨0, 0⟩, ⟨0, 2⟩⟩, ⟨⟨0, 2⟩, ⟨0, 0⟩⟩]

end Levels_of_detail

/-! ## Properties of the control-flow helpers -/

theorem for_range_invariant {σ : Type} (P : σ → Prop) (body : σ → Nat → Option σ)
    (hbody : ∀ st i st1, P st → body st i = some st1 → P st1) :
    ∀ (l : List Nat) (st st1 : σ), P st → for_range body l st = some st1 → P st1 := by
  intro l
  induction l with
  | nil =>
    intro st st1 hP h
    simp only [for_range, Option.some.injEq] at h
    exact h ▸ hP
  | cons i rest ih =>
    intro st st1 hP h
    simp only [for_range] at h
    cases hb : body st i with
    | none => simp [hb] at h
    | some st2 =>
      simp only [hb] at h
      exact ih st2 st1 (hbody st i st2 hP hb) h

theorem foldl_invariant {σ α : Type} (P : σ → Prop) (f : σ → α → σ)
    (hf : ∀ st a, P st → P (f st a)) :
    ∀ (l : List α) (st : σ), P st → P (l.foldl f st) := by
  intro l
  induction l with
  | nil => intro st h; exact h
  | cons a rest ih => intro st h; exact ih (f st a) (hf st a h)

/-! ## Geometry kernel : lines and their intersection -/

theorem intersection_of_not_parallel (l1 l2 : Line_2) (h : ¬ l1.parallel l2) :
    intersection l1 l2 = Intersection_result.point (intersection_point l1 l2) := by
  unfold Line_2.parallel at h
  simp [intersection, intersection_point, h]

theorem intersection_of_parallel (l1 l2 : Line_2) (h : l1.parallel l2) :
    ∀ p, intersection l1 l2 ≠ Intersection_result.point p := by
  unfold Line_2.parallel at h
  intro p
  unfold intersection
  simp only [h, ne_eq, not_true_eq_false, if_false]
  split_ifs <;> simp

theorem parallel_iff_no_intersection_point (l1 l2 : Line_2) :
    l1.parallel l2 ↔ ∀ p, intersection l1 l2 ≠ Intersection_result.point p := by
  constructor
  · exact intersection_of_parallel l1 l2
  · intro h
    by_contra hc
    exact h _ (intersection_of_not_parallel l1 l2 hc)

theorem intersection_point_on_lines (l1 l2 : Line_2) (h : ¬ l1.parallel l2) :
    l1.has_on (intersection_point l1 l2) ∧ l2.has_on (intersection_point l1 l2) := by
  unfold Line_2.parallel at h
  unfold Line_2.has_on intersection_point
  constructor
  · field_simp
    ring
  · field_simp
    ring

theorem same_line_refl (l : Line_2) : l.same_line l :=
  ⟨1, one_ne_zero, by simp, by simp, by simp⟩

theorem parallel_of_same_line (l1 l2 m1 m2 : Line_2) (h1 : l1.same_line m1)
    (h2 : l2.same_line m2) : l1.parallel l2 ↔ m1.parallel m2 := by
  obtain ⟨u, hu, ha1, hb1, _⟩ := h1
  obtain ⟨v, hv, ha2, hb2, _⟩ := h2
  unfold Line_2.parallel
  rw [ha1, hb1, ha2, hb2]
  have : u * m1.a * (v * m2.b) - v * m2.a * (u * m1.b)
      = (u * v) * (m1.a * m2.b - m2.a * m1.b) := by ring
  rw [this]
  constructor
  · intro h
    rcases mul_eq_zero.mp h with h3 | h3
    · exact absurd h3 (mul_ne_zero hu hv)
    · exact h3
  · intro h
    rw [h, mul_zero]

theorem intersection_point_of_same_line (l1 l2 m1 m2 : Line_2) (h1 : l1.same_line m1)
    (h2 : l2.same_line m2) : intersection_point l1 l2 = intersection_point m1 m2 := by
  obtain ⟨u, hu, ha1, hb1, hc1⟩ := h1
  obtain ⟨v, hv, ha2, hb2, hc2⟩ := h2
  have huv : u * v ≠ 0 := mul_ne_zero hu hv
  unfold intersection_point
  rw [ha1, hb1, hc1, ha2, hb2, hc2]
  have e1 : u * m1.b * (v * m2.c) - v * m2.b * (u * m1.c)
      = (u * v) * (m1.b * m2.c - m2.b * m1.c) := by ring
  have e2 : v * m2.a * (u * m1.c) - u * m1.a * (v * m2.c)
      = (u * v) * (m2.a * m1.c - m1.a * m2.c) := by ring
  have e3 : u * m1.a * (v * m2.b) - v * m2.a * (u * m1.b)
      = (u * v) * (m1.a * m2.b - m2.a * m1.b) := by ring
  rw [e1, e2, e3, mul_div_mul_left _ _ huv, mul_div_mul_left _ _ huv]

theorem through_same_line (l : Line_2) (p q : Point_2) (hpq : p ≠ q)
    (hl : l.a ≠ 0 ∨ l.b ≠ 0) (hp : l.has_on p) (hq : l.has_on q) :
    (Line_2.through p q).same_line l := by
  obtain ⟨px, py⟩ := p
  obtain ⟨qx, qy⟩ := q
  obtain ⟨a, b, c⟩ := l
  simp only [Line_2.has_on] at hp hq
  simp only [ne_eq, Point_2.mk.injEq, not_and] at hpq
  simp only at hl
  unfold Line_2.same_line Line_2.through
  simp only
  by_cases ha : a = 0
  · subst ha
    have hb : b ≠ 0 := by
      rcases hl with h | h
      · exact absurd rfl h
      · exact h
    have hy : py = qy := by
      have : b * (py - qy) = 0 := by linear_combination hp - hq
      rcases mul_eq_zero.mp this with h | h
      · exact absurd h hb
      · linarith
    have hx : px ≠ qx := fun h => hpq h hy
    refine ⟨(qx - px) / b, ?_, ?_, ?_, ?_⟩
    · exact div_ne_zero (sub_ne_zero.mpr (Ne.symm hx)) hb
    · rw [hy]; ring
    · field_simp
    · field_simp
      rw [hy]
      have hc : c = -(b * qy) := by linear_combination hq
      rw [hc]
      ring
  · have hrel : a * (px - qx) + b * (py - qy) = 0 := by linear_combination hp - hq
    have hy : py ≠ qy := by
      intro h
      have : a * (px - qx) = 0 := by rw [h] at hrel; linear_combination hrel
      rcases mul_eq_zero.mp this with h1 | h1
      · exact ha h1
      · exact hpq (by linarith) h
    refine ⟨(py - qy) / a, ?_, ?_, ?_, ?_⟩
    · exact div_ne_zero (sub_ne_zero.mpr hy) ha
    · field_simp
    · field_simp
      linear_combination -hrel
    · field_simp
      have hc : c = -(a * px) - b * py := by linear_combination hp
      rw [hc]
      linear_combination py * hrel

theorem supporting_line_has_on (s : Segment_2) :
    (supporting_line s).has_on s.source ∧ (supporting_line s).has_on s.target := by
  unfold supporting_line Line_2.through Line_2.has_on
  constructor <;> (simp only; ring)

theorem supporting_line_nondegenerate (s : Segment_2) (h : s.source ≠ s.target) :
    (supporting_line s).a ≠ 0 ∨ (supporting_line s).b ≠ 0 := by
  obtain ⟨⟨px, py⟩, ⟨qx, qy⟩⟩ := s
  simp only [ne_eq, Point_2.mk.injEq, not_and] at h
  unfold supporting_line Line_2.through
  simp only
  by_cases hx : px = qx
  · left
    exact sub_ne_zero.mpr (h hx)
  · right
    exact sub_ne_zero.mpr (Ne.symm hx)

theorem same_line_nondegenerate (l m : Line_2) (h : l.same_line m) (hm : m.a ≠ 0 ∨ m.b ≠ 0) :
    l.a ≠ 0 ∨ l.b ≠ 0 := by
  obtain ⟨c, hc, ha, hb, _⟩ := h
  rcases hm with h1 | h1
  · left; rw [ha]; exact mul_ne_zero hc h1
  · right; rw [hb]; exact mul_ne_zero hc h1

namespace Levels_of_detail

/-! ## Polygon_regularizer : lengths of the contours -/

theorem rotate_contour_length (N : Internal) (R : Polygon_regularizer)
    (groups : List (List Nat)) (k : Nat) (contour : List Segment_2)
    (r : List (List Nat) × List Segment_2)
    (h : rotate_contour N R groups k contour = some r) : r.2.length = contour.length := by
  unfold rotate_contour at h
  refine for_range_invariant (fun st => st.2.length = contour.length)
    (rotate_contour_body N R k) ?_ _ _ _ rfl h
  intro st i st1 hP hb
  unfold rotate_contour_body at hb
  split at hb
  · simp at hb
  · split at hb
    · simp at hb
    · split at hb
      · simp at hb
      · split_ifs at hb
        · simp only [Option.some.injEq] at hb; rw [← hb]; exact hP
        · simp only [Option.some.injEq] at hb; rw [← hb]; exact hP
        · split at hb
          · simp only [Option.some.injEq] at hb
            rw [← hb]
            simpa using hP
          · simp at hb

theorem correct_contour_length (N : Internal) (R : Polygon_regularizer)
    (groups : List (List Nat)) (k : Nat) (contour c : List Segment_2)
    (h : correct_contour N R groups k contour = some c) : c.length = contour.length := by
  unfold correct_contour at h
  refine for_range_invariant (fun st => st.length = contour.length)
    (correct_contour_body N R groups k) ?_ _ _ _ rfl h
  intro st i st1 hP hb
  unfold correct_contour_body at hb
  split at hb
  · simp at hb
  · split at hb
    · simp at hb
    · split at hb
      · simp at hb
      · split_ifs at hb
        · simp only [Option.some.injEq] at hb; rw [← hb]; exact hP
        · simp only [Option.some.injEq] at hb; rw [← hb]; exact hP
        · dsimp only at hb
          split at hb
          · split_ifs at hb
            · simp only [Option.some.injEq] at hb
              rw [← hb]
              simpa using hP
            · simp only [Option.some.injEq] at hb; rw [← hb]; exact hP
          · simp at hb

theorem intersect_segments_body_length (segments : List Segment_2) (i : Nat) :
    (intersect_segments_body segments i).length = segments.length := by
  simp [intersect_segments_body]

theorem intersect_segments_length (segments : List Segment_2) :
    (intersect_segments segments).length = segments.length := by
  unfold intersect_segments
  exact foldl_invariant (fun st => st.length = segments.length) intersect_segments_body
    (fun st a h => (intersect_segments_body_length st a).trans h) _ _ rfl

theorem remove_zero_length_segments_length_le (N : Internal) (contour : List Segment_2) :
    (remove_zero_length_segments N contour).length ≤ contour.length := by
  unfold remove_zero_length_segments
  exact List.length_filter_le _ _

theorem clean_segments_of_few (N : Internal) (R : Polygon_regularizer)
    (contour : List Segment_2) (h : (remove_zero_length_segments N contour).length < 4) :
    clean_segments N R contour = (false, contour) := by
  simp [clean_segments, h]

theorem clean_segments_success_length (N : Internal) (R : Polygon_regularizer)
    (contour : List Segment_2) (h : (clean_segments N R contour).1 = true) :
    4 ≤ (clean_segments N R contour).2.length := by
  unfold clean_segments at h ⊢
  dsimp only at h ⊢
  split_ifs at h ⊢ with h1 h2
  exact Nat.le_of_not_lt (not_or.mp h2).1

theorem connect_contour_of_few (N : Internal) (R : Polygon_regularizer)
    (contour : List Segment_2) (h : (remove_zero_length_segments N contour).length < 4) :
    connect_contour N R contour = some (false, contour) := by
  simp [connect_contour, clean_segments_of_few N R contour h]

theorem connect_contour_success_length (N : Internal) (R : Polygon_regularizer)
    (contour c : List Segment_2) (h : connect_contour N R contour = some (true, c)) :
    4 ≤ c.length := by
  unfold connect_contour at h
  by_cases h1 : (clean_segments N R contour).1 = true
  · simp only [h1, Bool.not_true, Bool.false_eq_true, if_false] at h
    cases hm : make_segments_collinear N R (clean_segments N R contour).2 with
    | none => simp [hm] at h
    | some c2 =>
      simp only [hm] at h
      by_cases h4 : (clean_segments N R (intersect_segments c2)).1 = true
      · simp only [h4, Bool.not_true, Bool.false_eq_true, if_false, Option.some.injEq,
          Prod.mk.injEq, true_and] at h
        rw [← h, intersect_segments_length]
        exact clean_segments_success_length N R _ h4
      · simp [h4] at h
  · simp [h1] at h

/-! ## Polygon_regularizer : regularize_contours and connect_contour -/

/-- C1: for every collection of contours, `regularize_contours` on a
regularizer whose `angle_bound` is 0 leaves the collection exactly as it was
(same contours, same segments, same end points, same order), whatever
`min_length`, `ordinate_bound` and the rest of the state are; the group table
is not touched either. -/
theorem regularize_contours_zero_angle_bound (N : Internal) (R : Polygon_regularizer)
    (contours : List (List Segment_2)) (h : R.m_angle_bound = 0) :
    regularize_contours N R contours = some (R.m_groups, contours) := by
  simp [regularize_contours, h]

theorem regularize_contours_zero_angle_bound_witness :
    (Polygon_regularizer.create axis_internal 3 0 7).m_angle_bound = 0 ∧
    regularize_contours axis_internal (Polygon_regularizer.create axis_internal 3 0 7)
        [example_square, example_triangle]
      = some ([], [example_square, example_triangle]) :=
  ⟨rfl, regularize_contours_zero_angle_bound axis_internal
    (Polygon_regularizer.create axis_internal 3 0 7) [example_square, example_triangle] rfl⟩

theorem regularize_contours_body_spec (N : Internal) (R : Polygon_regularizer) (k : Nat)
    (initial : List Segment_2) (st st1 : List (List Nat) × List (List Segment_2))
    (h : regularize_contours_body N R k initial st = some st1)
    (hst : ∀ c ∈ st.2, 4 ≤ c.length) :
    (∀ c ∈ st1.2, 4 ≤ c.length) ∧
    st1.2.length ≤ st.2.length + ([initial].filter (fun c => decide (4 ≤ c.length))).length ∧
    (initial.length < 4 → st1.2 = st.2) := by
  unfold regularize_contours_body at h
  cases hr : rotate_contour N R st.1 k initial with
  | none => simp [hr] at h
  | some r =>
    simp only [hr] at h
    cases hc : correct_contour N R r.1 k r.2 with
    | none => simp [hc] at h
    | some c =>
      simp only [hc] at h
      have hlen : c.length = initial.length :=
        (correct_contour_length N R r.1 k r.2 c hc).trans
          (rotate_contour_length N R st.1 k initial r hr)
      cases hk : connect_contour N R c with
      | none => simp [hk] at h
      | some res =>
        obtain ⟨success, contour⟩ := res
        simp only [hk] at h
        cases success with
        | false =>
          simp only [Bool.false_eq_true, if_false, Option.some.injEq] at h
          subst h
          exact ⟨hst, Nat.le_add_right _ _, fun _ => rfl⟩
        | true =>
          simp only [if_true, Option.some.injEq] at h
          subst h
          have h4 : 4 ≤ contour.length := connect_contour_success_length N R c contour hk
          have hi : 4 ≤ initial.length := by
            by_contra hlt
            have hfew : (remove_zero_length_segments N c).length < 4 :=
              lt_of_le_of_lt (remove_zero_length_segments_length_le N c)
                (by rw [hlen]; exact Nat.lt_of_not_le hlt)
            have := connect_contour_of_few N R c hfew
            rw [hk] at this
            simp at this
          refine ⟨?_, ?_, ?_⟩
          · intro c1 hc1
            rcases List.mem_append.mp hc1 with h1 | h1
            · exact hst c1 h1
            · rw [List.mem_singleton.mp h1]; exact h4
          · simp [hi]
          · intro hlt
            exact absurd hi (Nat.not_le_of_lt hlt)

theorem regularize_contours_loop_spec (N : Internal) (R : Polygon_regularizer) :
    ∀ (initials : List (List Segment_2)) (k : Nat)
      (st st1 : List (List Nat) × List (List Segment_2)),
      regularize_contours_loop N R k initials st = some st1 →
      (∀ c ∈ st.2, 4 ≤ c.length) →
      (∀ c ∈ st1.2, 4 ≤ c.length) ∧
      st1.2.length ≤ st.2.length + (initials.filter (fun c => decide (4 ≤ c.length))).length := by
  intro initials
  induction initials with
  | nil =>
    intro k st st1 h hst
    simp only [regularize_contours_loop, Option.some.injEq] at h
    subst h
    exact ⟨hst, Nat.le_add_right _ _⟩
  | cons initial rest ih =>
    intro k st st1 h hst
    simp only [regularize_contours_loop] at h
    cases hb : regularize_contours_body N R k initial st with
    | none => simp [hb] at h
    | some st2 =>
      simp only [hb] at h
      obtain ⟨h1, h2, _⟩ := regularize_contours_body_spec N R k initial st st2 hb hst
      obtain ⟨h3, h4⟩ := ih (k + 1) st2 st1 h h1
      refine ⟨h3, ?_⟩
      have : (List.filter (fun c => decide (4 ≤ c.length)) (initial :: rest)).length
          = ([initial].filter (fun c => decide (4 ≤ c.length))).length
            + (rest.filter (fun c => decide (4 ≤ c.length))).length := by
        rw [← List.length_append, ← List.filter_append]
        rfl
      omega

/-- C2 (amended): when `angle_bound` is not 0, every contour in the output of
`regularize_contours` has at least 4 segments, so a contour that has fewer
than 4 segments on input does not appear in the output, and the output has at
most as many contours as the input has contours of at least 4 segments. -/
theorem regularize_contours_drops_short_contours (N : Internal) (R : Polygon_regularizer)
    (contours out : List (List Segment_2)) (groups : List (List Nat))
    (hbound : R.m_angle_bound ≠ 0)
    (h : regularize_contours N R contours = some (groups, out)) :
    (∀ c ∈ out, 4 ≤ c.length) ∧
    (∀ c ∈ contours, c.length < 4 → c ∉ out) ∧
    out.length ≤ (contours.filter (fun c => decide (4 ≤ c.length))).length := by
  unfold regularize_contours at h
  simp only [hbound, if_false] at h
  obtain ⟨h1, h2⟩ := regularize_contours_loop_spec N R contours 0 (R.m_groups, [])
    (groups, out) h (by simp)
  refine ⟨h1, ?_, by simpa using h2⟩
  intro c _ hlt hmem
  exact absurd (h1 c hmem) (Nat.not_le_of_lt hlt)

set_option maxRecDepth 100000 in
theorem regularize_contours_drops_short_contours_witness :
    example_regularizer.m_angle_bound ≠ 0 ∧
    regularize_contours axis_internal example_regularizer [example_square, example_triangle]
      = some ([[0, 0, 0, 0], [0, 0, 0]], [example_square]) ∧
    ((∀ c ∈ [example_square], 4 ≤ c.length) ∧
     (∀ c ∈ [example_square, example_triangle], c.length < 4 → c ∉ [example_square]) ∧
     [example_square].length
       ≤ ([example_square, example_triangle].filter (fun c => decide (4 ≤ c.length))).length) :=
  ⟨by decide!, by decide!,
   regularize_contours_drops_short_contours axis_internal example_regularizer
     [example_square, example_triangle] [example_square] [[0, 0, 0, 0], [0, 0, 0]]
     (by decide!) (by decide!)⟩

set_option maxRecDepth 100000 in
/-- C2 (as stated) fails: with `angle_bound = 0` a contour of three segments
is returned in the output. -/
theorem regularize_contours_short_contour_counterexample :
    example_triangle.length < 4 ∧
    example_triangle ∈ [example_triangle] ∧
    ∃ out, regularize_contours axis_internal (Polygon_regularizer.create axis_internal 1 0 (1 / 2))
        [example_triangle] = some ([], out) ∧ example_triangle ∈ out :=
  ⟨by decide, List.mem_singleton.mpr rfl, [example_triangle], by decide!,
    List.mem_singleton.mpr rfl⟩

theorem connect_contour_calls_fst (N : Internal) (R : Polygon_regularizer)
    (contour : List Segment_2) :
    (connect_contour_calls N R contour).1 = connect_contour N R contour := by
  unfold connect_contour_calls connect_contour
  dsimp only
  split_ifs
  · rfl
  · split
    · rfl
    · split_ifs <;> rfl

/-- C3: for every contour in which fewer than 4 segments have squared length
above the zero-length tolerance, `connect_contour` returns false, the only
call it makes is the first `clean_segments` (neither `make_segments_collinear`
nor `intersect_segments` is run), and the contour is left unmodified. -/
theorem connect_contour_rejects_few_segments (N : Internal) (R : Polygon_regularizer)
    (contour : List Segment_2)
    (h : (contour.filter (fun s => decide (N.tolerance < s.squared_length))).length < 4) :
    connect_contour N R contour = some (false, contour) ∧
    connect_contour_calls N R contour = (some (false, contour), [Stage.clean_segments]) := by
  have h1 : (remove_zero_length_segments N contour).length < 4 := h
  refine ⟨connect_contour_of_few N R contour h1, ?_⟩
  simp [connect_contour_calls, clean_segments_of_few N R contour h1]

set_option maxRecDepth 100000 in
theorem connect_contour_rejects_few_segments_witness :
    (example_degenerate.filter
      (fun s => decide (axis_internal.tolerance < s.squared_length))).length = 3 ∧
    connect_contour axis_internal example_regularizer example_degenerate
      = some (false, example_degenerate) ∧
    connect_contour_calls axis_internal example_regularizer example_degenerate
      = (some (false, example_degenerate), [Stage.clean_segments]) :=
  ⟨by decide!, connect_contour_rejects_few_segments axis_internal example_regularizer
    example_degenerate (by decide!)⟩

/-! ## Polygon_regularizer : intersect_segment and intersect_segments -/

theorem intersect_2_of_parallel (l1 l2 : Line_2) (p : Point_2) (h : l1.parallel l2) :
    intersect_2 l1 l2 p = (false, p) := by
  unfold intersect_2
  have hp := intersection_of_parallel l1 l2 h
  cases hi : intersection l1 l2 with
  | empty => rfl
  | line l => rfl
  | point q => exact absurd hi (hp q)

theorem intersect_2_of_not_parallel (l1 l2 : Line_2) (p : Point_2) (h : ¬ l1.parallel l2) :
    intersect_2 l1 l2 p = (true, intersection_point l1 l2) := by
  unfold intersect_2
  rw [intersection_of_not_parallel l1 l2 h]

/-- C9: in `intersect_segment(sm, si, sp)`, if the supporting lines of `sm`
and `si` are parallel or coincident (no unique intersection point), the new
source of `si` equals its old source; if the supporting lines of `si` and `sp`
are parallel or coincident, the new target equals its old target.  The
operation is total: it has a result in either case. -/
theorem intersect_segment_keeps_end_point_of_parallel (sm si sp : Segment_2) :
    ((supporting_line sm).parallel (supporting_line si) →
      (intersect_segment sm si sp).source = si.source) ∧
    ((supporting_line si).parallel (supporting_line sp) →
      (intersect_segment sm si sp).target = si.target) ∧
    ((∀ p, intersection (supporting_line sm) (supporting_line si)
        ≠ Intersection_result.point p) →
      (intersect_segment sm si sp).source = si.source) ∧
    ((∀ p, intersection (supporting_line si) (supporting_line sp)
        ≠ Intersection_result.point p) →
      (intersect_segment sm si sp).target = si.target) := by
  have h1 : (supporting_line sm).parallel (supporting_line si) →
      (intersect_segment sm si sp).source = si.source := by
    intro h
    unfold intersect_segment
    simp only
    rw [show Line_2.through sm.source sm.target = supporting_line sm from rfl,
      show Line_2.through si.source si.target = supporting_line si from rfl,
      intersect_2_of_parallel _ _ _ h]
    simp
  have h2 : (supporting_line si).parallel (supporting_line sp) →
      (intersect_segment sm si sp).target = si.target := by
    intro h
    unfold intersect_segment
    simp only
    rw [show Line_2.through sp.source sp.target = supporting_line sp from rfl,
      show Line_2.through si.source si.target = supporting_line si from rfl,
      intersect_2_of_parallel _ _ si.target h]
    simp
  exact ⟨h1, h2, fun h => h1 ((parallel_iff_no_intersection_point _ _).mpr h),
    fun h => h2 ((parallel_iff_no_intersection_point _ _).mpr h)⟩

set_option maxRecDepth 100000 in
theorem intersect_segment_keeps_end_point_of_parallel_witness :
    ((supporting_line ⟨⟨0, 0⟩, ⟨10, 0⟩⟩).parallel (supporting_line ⟨⟨0, 1⟩, ⟨5, 1⟩⟩) ∧
      intersect_segment ⟨⟨0, 0⟩, ⟨10, 0⟩⟩ ⟨⟨0, 1⟩, ⟨5, 1⟩⟩ ⟨⟨7, 0⟩, ⟨7, 3⟩⟩ = ⟨⟨0, 1⟩, ⟨7, 1⟩⟩ ∧
      (intersect_segment ⟨⟨0, 0⟩, ⟨10, 0⟩⟩ ⟨⟨0, 1⟩, ⟨5, 1⟩⟩ ⟨⟨7, 0⟩, ⟨7, 3⟩⟩).source = ⟨0, 1⟩) ∧
    ((supporting_line ⟨⟨0, 1⟩, ⟨5, 1⟩⟩).parallel (supporting_line ⟨⟨2, 1⟩, ⟨9, 1⟩⟩) ∧
      intersect_segment ⟨⟨7, 0⟩, ⟨7, 3⟩⟩ ⟨⟨0, 1⟩, ⟨5, 1⟩⟩ ⟨⟨2, 1⟩, ⟨9, 1⟩⟩ = ⟨⟨7, 1⟩, ⟨5, 1⟩⟩ ∧
      (intersect_segment ⟨⟨7, 0⟩, ⟨7, 3⟩⟩ ⟨⟨0, 1⟩, ⟨5, 1⟩⟩ ⟨⟨2, 1⟩, ⟨9, 1⟩⟩).target = ⟨5, 1⟩) :=
  ⟨⟨by decide!, by decide!,
    (intersect_segment_keeps_end_point_of_parallel ⟨⟨0, 0⟩, ⟨10, 0⟩⟩ ⟨⟨0, 1⟩, ⟨5, 1⟩⟩
      ⟨⟨7, 0⟩, ⟨7, 3⟩⟩).1 (by decide!)⟩,
   ⟨by decide!, by decide!,
    (intersect_segment_keeps_end_point_of_parallel ⟨⟨7, 0⟩, ⟨7, 3⟩⟩ ⟨⟨0, 1⟩, ⟨5, 1⟩⟩
      ⟨⟨2, 1⟩, ⟨9, 1⟩⟩).2.1 (by decide!)⟩⟩

theorem intersect_segment_of_not_parallel (sm si sp : Segment_2)
    (h1 : ¬ (supporting_line sm).parallel (supporting_line si))
    (h2 : ¬ (supporting_line si).parallel (supporting_line sp)) :
    intersect_segment sm si sp =
      ⟨intersection_point (supporting_line sm) (supporting_line si),
       intersection_point (supporting_line si) (supporting_line sp)⟩ := by
  unfold intersect_segment
  simp only
  rw [show Line_2.through sm.source sm.target = supporting_line sm from rfl,
    show Line_2.through si.source si.target = supporting_line si from rfl,
    show Line_2.through sp.source sp.target = supporting_line sp from rfl,
    intersect_2_of_not_parallel _ _ _ h1, intersect_2_of_not_parallel _ _ _ h2]
  simp

theorem pred_succ_mod (k n : Nat) (h : k < n) : ((k + n - 1) % n + 1) % n = k := by
  rcases Nat.eq_zero_or_pos k with rfl | hk
  · have h1 : (0 + n - 1) % n = n - 1 := by
      rw [Nat.zero_add]
      exact Nat.mod_eq_of_lt (by omega)
    rw [h1, show n - 1 + 1 = n by omega, Nat.mod_self]
  · have h1 : (k + n - 1) % n = k - 1 := by
      rw [show k + n - 1 = (k - 1) + n by omega, Nat.add_mod_right]
      exact Nat.mod_eq_of_lt (by omega)
    rw [h1, show k - 1 + 1 = k by omega]
    exact Nat.mod_eq_of_lt h

theorem succ_pred_mod (i n : Nat) (h : i < n) : ((i + 1) % n + n - 1) % n = i := by
  rcases Nat.lt_or_ge (i + 1) n with h1 | h1
  · rw [Nat.mod_eq_of_lt h1, show i + 1 + n - 1 = i + n by omega, Nat.add_mod_right]
    exact Nat.mod_eq_of_lt h
  · have h2 : n = i + 1 := by omega
    subst h2
    rw [Nat.mod_self, Nat.zero_add, Nat.add_sub_cancel]
    exact Nat.mod_eq_of_lt (Nat.lt_succ_self i)

theorem getD_set_self (l : List Segment_2) (k : Nat) (s : Segment_2) (h : k < l.length) :
    (l.set k s).getD k default = s := by
  simp [List.getD_eq_getElem?_getD, List.getElem?_set, h]

theorem getD_set_of_ne (l : List Segment_2) (k i : Nat) (s : Segment_2) (h : k ≠ i) :
    (l.set k s).getD i default = l.getD i default := by
  simp [List.getD_eq_getElem?_getD, List.getElem?_set, h]

theorem getD_mem (l : List Segment_2) (i : Nat) (h : i < l.length) : l.getD i default ∈ l := by
  rw [List.getD_eq_getElem?_getD, List.getElem?_eq_getElem h]
  exact List.getElem_mem h

/-- Invariant of the loop of `intersect_segments` after `k` iterations: every
segment still lies on its original supporting line, and the first `k`
segments run between the two intersection points with the neighbouring
original lines. -/
theorem intersect_segments_invariant (segs : List Segment_2)
    (hnd : ∀ s ∈ segs, s.source ≠ s.target)
    (hadj : ∀ i, i < segs.length →
      ¬ (contour_line segs i).parallel (contour_line segs ((i + 1) % segs.length)))
    (hcon : ∀ i, i < segs.length → ∀ p : Point_2,
      ¬ ((contour_line segs ((i + segs.length - 1) % segs.length)).has_on p ∧
         (contour_line segs i).has_on p ∧
         (contour_line segs ((i + 1) % segs.length)).has_on p)) :
    ∀ k, k ≤ segs.length →
      ((List.range k).foldl intersect_segments_body segs).length = segs.length ∧
      (∀ i, i < segs.length →
        (supporting_line (((List.range k).foldl intersect_segments_body segs).getD i default)).same_line
          (contour_line segs i)) ∧
      (∀ i, i < k →
        ((List.range k).foldl intersect_segments_body segs).getD i default =
          ⟨intersection_point (contour_line segs ((i + segs.length - 1) % segs.length))
              (contour_line segs i),
           intersection_point (contour_line segs i)
              (contour_line segs ((i + 1) % segs.length))⟩) := by
  intro k
  induction k with
  | zero =>
    intro _
    refine ⟨rfl, fun i _ => same_line_refl _, fun i hi => absurd hi (Nat.not_lt_zero i)⟩
  | succ k ih =>
    intro hk
    have hkn : k < segs.length := hk
    obtain ⟨hlen, hline, hdone⟩ := ih (Nat.le_of_lt hkn)
    rw [List.range_succ, List.foldl_append]
    simp only [List.foldl_cons, List.foldl_nil]
    generalize (List.range k).foldl intersect_segments_body segs = cur at hlen hline hdone ⊢
    have hpos : 0 < segs.length := Nat.lt_of_le_of_lt (Nat.zero_le k) hkn
    have him : (k + segs.length - 1) % segs.length < segs.length := Nat.mod_lt _ hpos
    have hip : (k + 1) % segs.length < segs.length := Nat.mod_lt _ hpos
    have hA := hline _ him
    have hB := hline k hkn
    have hC := hline _ hip
    have hadj1 : ¬ (contour_line segs ((k + segs.length - 1) % segs.length)).parallel
        (contour_line segs k) := by
      have := hadj _ him
      rw [pred_succ_mod k _ hkn] at this
      exact this
    have hadj2 := hadj k hkn
    have hnp1 : ¬ (supporting_line (cur.getD ((k + segs.length - 1) % segs.length) default)).parallel
        (supporting_line (cur.getD k default)) :=
      fun h => hadj1 ((parallel_of_same_line _ _ _ _ hA hB).mp h)
    have hnp2 : ¬ (supporting_line (cur.getD k default)).parallel
        (supporting_line (cur.getD ((k + 1) % segs.length) default)) :=
      fun h => hadj2 ((parallel_of_same_line _ _ _ _ hB hC).mp h)
    have hbody : intersect_segments_body cur k = cur.set k
        ⟨intersection_point (contour_line segs ((k + segs.length - 1) % segs.length))
            (contour_line segs k),
         intersection_point (contour_line segs k)
            (contour_line segs ((k + 1) % segs.length))⟩ := by
      unfold intersect_segments_body
      simp only [hlen]
      rw [intersect_segment_of_not_parallel _ _ _ hnp1 hnp2,
        intersection_point_of_same_line _ _ _ _ hA hB,
        intersection_point_of_same_line _ _ _ _ hB hC]
    rw [hbody]
    have hklen : k < cur.length := by rw [hlen]; exact hkn
    refine ⟨by simp [hlen], ?_, ?_⟩
    · intro i hi
      by_cases hik : k = i
      · subst hik
        rw [getD_set_self _ _ _ hklen]
        have hon1 := intersection_point_on_lines _ _ hadj1
        have hon2 := intersection_point_on_lines _ _ hadj2
        refine through_same_line _ _ _ ?_ ?_ hon1.2 hon2.1
        · intro heq
          change intersection_point _ _ = intersection_point _ _ at heq
          refine hcon k hkn _ ⟨hon1.1, hon1.2, ?_⟩
          rw [heq]
          exact hon2.2
        · exact supporting_line_nondegenerate _ (hnd _ (getD_mem segs k hkn))
      · rw [getD_set_of_ne _ _ _ _ hik]
        exact hline i hi
    · intro i hi
      by_cases hik : k = i
      · subst hik
        rw [getD_set_self _ _ _ hklen]
      · rw [getD_set_of_ne _ _ _ _ hik]
        exact hdone i (by omega)

/-- C10: for every cyclic contour of `n >= 3` non-degenerate segments in which
every two cyclically adjacent supporting lines are not parallel and no three
consecutive supporting lines pass through one point, after
`intersect_segments` (which updates the segments in place, one after the
other) segment `i` has source `line(i-1) ∩ line(i)` and target
`line(i) ∩ line(i+1)` of the original supporting lines, so
`target(i) = source((i+1) mod n)` for every `i`: the contour is closed. -/
theorem intersect_segments_closes_contour (segs : List Segment_2)
    (_hn : 3 ≤ segs.length)
    (hnd : ∀ s ∈ segs, s.source ≠ s.target)
    (hadj : ∀ i, i < segs.length →
      ¬ (contour_line segs i).parallel (contour_line segs ((i + 1) % segs.length)))
    (hcon : ∀ i, i < segs.length → ∀ p : Point_2,
      ¬ ((contour_line segs ((i + segs.length - 1) % segs.length)).has_on p ∧
         (contour_line segs i).has_on p ∧
         (contour_line segs ((i + 1) % segs.length)).has_on p)) :
    (intersect_segments segs).length = segs.length ∧
    ∀ i, i < segs.length →
      intersection (contour_line segs ((i + segs.length - 1) % segs.length))
          (contour_line segs i)
        = Intersection_result.point ((intersect_segments segs).getD i default).source ∧
      intersection (contour_line segs i) (contour_line segs ((i + 1) % segs.length))
        = Intersection_result.point ((intersect_segments segs).getD i default).target ∧
      ((intersect_segments segs).getD i default).target
        = ((intersect_segments segs).getD ((i + 1) % segs.length) default).source := by
  obtain ⟨hlen, _, hdone⟩ :=
    intersect_segments_invariant segs hnd hadj hcon segs.length (Nat.le_refl _)
  refine ⟨intersect_segments_length segs, ?_⟩
  intro i hi
  have hpos : 0 < segs.length := Nat.lt_of_le_of_lt (Nat.zero_le i) hi
  have hip : (i + 1) % segs.length < segs.length := Nat.mod_lt _ hpos
  have him : (i + segs.length - 1) % segs.length < segs.length := Nat.mod_lt _ hpos
  have hadj1 : ¬ (contour_line segs ((i + segs.length - 1) % segs.length)).parallel
      (contour_line segs i) := by
    have := hadj _ him
    rw [pred_succ_mod i _ hi] at this
    exact this
  unfold intersect_segments
  rw [hdone i hi, hdone _ hip, succ_pred_mod i _ hi]
  exact ⟨intersection_of_not_parallel _ _ hadj1, intersection_of_not_parallel _ _ (hadj i hi),
    rfl⟩

set_option maxRecDepth 100000 in
theorem intersect_segments_closes_contour_witness :
    3 ≤ example_open_quadrilateral.length ∧
    (∀ s ∈ example_open_quadrilateral, s.source ≠ s.target) ∧
    intersect_segments example_open_quadrilateral
      = [⟨⟨0, 1⟩, ⟨10, 1⟩⟩, ⟨⟨10, 1⟩, ⟨10, 10⟩⟩, ⟨⟨10, 10⟩, ⟨0, 10⟩⟩, ⟨⟨0, 10⟩, ⟨0, 1⟩⟩] ∧
    ((intersect_segments example_open_quadrilateral).length
        = example_open_quadrilateral.length ∧
      ∀ i, i < example_open_quadrilateral.length →
        intersection
            (contour_line example_open_quadrilateral
              ((i + example_open_quadrilateral.length - 1) % example_open_quadrilateral.length))
            (contour_line example_open_quadrilateral i)
          = Intersection_result.point
              ((intersect_segments example_open_quadrilateral).getD i default).source ∧
        intersection (contour_line example_open_quadrilateral i)
            (contour_line example_open_quadrilateral
              ((i + 1) % example_open_quadrilateral.length))
          = Intersection_result.point
              ((intersect_segments example_open_quadrilateral).getD i default).target ∧
        ((intersect_segments example_open_quadrilateral).getD i default).target
          = ((intersect_segments example_open_quadrilateral).getD
              ((i + 1) % example_open_quadrilateral.length) default).source) :=
  ⟨by decide, by decide!, by decide!,
    intersect_segments_closes_contour example_open_quadrilateral (by decide) (by decide!)
      (by decide!)
      (by
        intro i hi p
        have hi4 : i < 4 := hi
        interval_cases i <;>
        · rintro ⟨h1, h2, h3⟩
          simp [contour_line, supporting_line, Line_2.through, Line_2.has_on,
            example_open_quadrilateral] at h1 h2 h3
          linarith)⟩

end Levels_of_detail

namespace Level_of_detail

theorem to_lower_nonpos (d : FT) : to_lower d ≤ 0 := by
  unfold to_lower mes90
  have h := Int.floor_le (d / 90)
  have : ((⌊d / 90⌋ : Int) : FT) * 90 ≤ d := by
    have := mul_le_mul_of_nonneg_right h (by norm_num : (0 : FT) ≤ 90)
    simpa using this
  linarith

theorem to_upper_pos (d : FT) : 0 < to_upper d := by
  unfold to_upper mes90
  have h := Int.lt_floor_add_one (d / 90)
  have : d < (((⌊d / 90⌋ : Int) : FT) + 1) * 90 := by
    have := mul_lt_mul_of_pos_right h (by norm_num : (0 : FT) < 90)
    simpa using this
  linarith

theorem to_upper_sub_to_lower (d : FT) : to_upper d - to_lower d = 90 := by
  unfold to_upper to_lower
  ring

theorem to_lower_abs (d : FT) : |to_lower d| = -to_lower d :=
  abs_of_nonpos (to_lower_nonpos d)

theorem to_upper_abs (d : FT) : |to_upper d| = to_upper d :=
  abs_of_pos (to_upper_pos d)

theorem add_to_lower (d : FT) : d + to_lower d = 90 * ((mes90 d : Int) : FT) := by
  unfold to_lower
  ring

theorem add_to_upper (d : FT) : d + to_upper d = 90 * (((mes90 d + 1 : Int) : Int) : FT) := by
  unfold to_upper
  push_cast
  ring

/-- Truncated remainder by 180 of `90 * m` vanishes exactly when `90 * m`,
read as a rational, is an integer multiple of 180. -/
theorem tmod_180_eq_zero_iff (m : Int) :
    (90 * m).tmod 180 = 0 ↔ ∃ k : Int, (90 : FT) * (m : FT) = 180 * (k : FT) := by
  constructor
  · intro h
    have hd : (180 : Int) ∣ 90 * m := Int.dvd_of_tmod_eq_zero h
    obtain ⟨k, hk⟩ := hd
    refine ⟨k, ?_⟩
    have : ((90 * m : Int) : FT) = ((180 * k : Int) : FT) := by rw [hk]
    push_cast at this
    exact this
  · rintro ⟨k, hk⟩
    have h2 : (90 * m : Int) = 180 * k := by
      have : ((90 * m : Int) : FT) = ((180 * k : Int) : FT) := by
        push_cast
        exact hk
      exact_mod_cast this
    rw [h2]
    exact Int.mul_tmod_right 180 k

/-- C8: for all orientations `o_i`, `o_j` with `d = o_i - o_j`, the target
`t_ij` computed by `estimate_proximity` is the one of
`to_lower = 90*floor(d/90) - d` and `to_upper = 90*(floor(d/90)+1) - d` with
the smaller absolute value, so `|t| = min(|to_lower|, |to_upper|) <= 45`, and
`d + t` is an integer multiple of 90. -/
theorem target_is_nearest_rounding (o_i o_j : FT) :
    to_lower (o_i - o_j) = 90 * ((⌊(o_i - o_j) / 90⌋ : Int) : FT) - (o_i - o_j) ∧
    to_upper (o_i - o_j) = 90 * (((⌊(o_i - o_j) / 90⌋ : Int) : FT) + 1) - (o_i - o_j) ∧
    (t_ij (o_i - o_j) = to_lower (o_i - o_j) ∨ t_ij (o_i - o_j) = to_upper (o_i - o_j)) ∧
    |t_ij (o_i - o_j)| = min |to_lower (o_i - o_j)| |to_upper (o_i - o_j)| ∧
    |t_ij (o_i - o_j)| ≤ 45 ∧
    ∃ k : Int, (o_i - o_j) + t_ij (o_i - o_j) = 90 * (k : FT) := by
  generalize o_i - o_j = d
  have hl := to_lower_abs d
  have hu := to_upper_abs d
  have hs := to_upper_sub_to_lower d
  refine ⟨rfl, rfl, ?_, ?_, ?_, ?_⟩
  · unfold t_ij
    split_ifs
    · exact Or.inl rfl
    · exact Or.inr rfl
  · unfold t_ij
    split_ifs with h
    · rw [min_eq_left (le_of_lt h)]
    · rw [min_eq_right (not_lt.mp h)]
  · unfold t_ij
    split_ifs with h
    · rw [hl, hu] at h
      rw [hl]
      linarith
    · rw [hl, hu] at h
      rw [hu]
      linarith
  · unfold t_ij
    split_ifs with h
    · exact ⟨mes90 d, add_to_lower d⟩
    · exact ⟨mes90 d + 1, add_to_upper d⟩

theorem to_int32_of_range (x : Int) (h1 : -2147483648 ≤ x) (h2 : x < 2147483648) :
    to_int32 x = x := by
  unfold to_int32
  omega

theorem mes90_range (d : FT) (h : |d| < 2147483610) :
    -23860929 ≤ mes90 d ∧ mes90 d ≤ 23860928 := by
  obtain ⟨h1, h2⟩ := abs_lt.mp h
  unfold mes90
  constructor
  · apply Int.le_floor.mpr
    push_cast
    rw [le_div_iff₀ (by norm_num)]
    linarith
  · have : ⌊d / 90⌋ < 23860929 := by
      apply Int.floor_lt.mpr
      push_cast
      rw [div_lt_iff₀ (by norm_num)]
      linarith
    omega

/-- For a difference of orientations below 2147483610 in absolute value the
conversion to `int` and the product by 90 stay in the range of `int`. -/
theorem r_ij_of_range (d : FT) (h : |d| < 2147483610) :
    r_ij d
      = if |to_lower d| < |to_upper d| then
          (if (90 * mes90 d).tmod 180 = 0 then 0 else 1)
        else
          (if (90 * (mes90 d + 1)).tmod 180 = 0 then 0 else 1) := by
  obtain ⟨h1, h2⟩ := mes90_range d h
  unfold r_ij
  rw [to_int32_of_range (mes90 d) (by omega) (by omega),
    to_int32_of_range (mes90 d + 1) (by omega) (by omega),
    to_int32_of_range (90 * mes90 d) (by omega) (by omega),
    to_int32_of_range (90 * (mes90 d + 1)) (by omega) (by omega)]

set_option maxRecDepth 100000 in
/-- Beyond the range of `int` the product `90 * static_cast<int>(mes90)`
overflows: for the difference 2147483700, a multiple of 180, the 32-bit
product is -2147483596 and the relation tag is 1. -/
theorem r_ij_beyond_int_range :
    to_int32 (90 * mes90 2147483700) = -2147483596 ∧ r_ij 2147483700 = 1 := by
  decide!

/-- C7: for every pair of orientations `o_i`, `o_j` (positive, negative or zero
difference) whose difference is below 2147483610 in absolute value, the range
in which the 32-bit product `90 * static_cast<int>(mes90)` does not overflow,
with `t` the target computed by `estimate_proximity`, the relation tag is 0
(PARALLEL) if and only if `o_i - o_j + t` is an integer multiple of 180, and it
is 1 (ORTHOGONAL) otherwise. -/
theorem relation_parallel_iff_multiple_of_180 (o_i o_j : FT)
    (hrange : |o_i - o_j| < 2147483610) :
    (r_ij (o_i - o_j) = 0 ↔ ∃ k : Int, (o_i - o_j) + t_ij (o_i - o_j) = 180 * (k : FT)) ∧
    (r_ij (o_i - o_j) = 1 ↔ ¬ ∃ k : Int, (o_i - o_j) + t_ij (o_i - o_j) = 180 * (k : FT)) := by
  generalize o_i - o_j = d at hrange ⊢
  have key : r_ij d = 0 ↔ ∃ k : Int, d + t_ij d = 180 * (k : FT) := by
    rw [r_ij_of_range d hrange]
    unfold t_ij
    by_cases h : |to_lower d| < |to_upper d|
    · simp only [h, if_true]
      rw [add_to_lower, ← tmod_180_eq_zero_iff]
      split_ifs with h2 <;> simp [h2]
    · simp only [h, if_false]
      rw [add_to_upper, ← tmod_180_eq_zero_iff]
      split_ifs with h2 <;> simp [h2]
  have h01 : r_ij d = 0 ∨ r_ij d = 1 := by
    unfold r_ij
    split_ifs <;> simp
  refine ⟨key, ?_⟩
  rw [← key]
  rcases h01 with h | h <;> simp [h]

set_option maxRecDepth 100000 in
theorem relation_parallel_iff_multiple_of_180_witness :
    |(100 : FT) - 10| < 2147483610 ∧
    r_ij (100 - 10) = 1 ∧
    ((r_ij (100 - 10) = 0 ↔
        ∃ k : Int, ((100 : FT) - 10) + t_ij (100 - 10) = 180 * (k : FT)) ∧
      (r_ij (100 - 10) = 1 ↔
        ¬ ∃ k : Int, ((100 : FT) - 10) + t_ij (100 - 10) = 180 * (k : FT))) :=
  ⟨by norm_num, by decide!, relation_parallel_iff_multiple_of_180 100 10 (by norm_num)⟩

/-! ## Delaunay_neighbours_graph_builder : recorded pairs -/


theorem relation_allowed_iff (P : Parameters) (r : Int) :
    relation_allowed P r = true ↔
      ((r = 0 ∧ P.optimize_parallelizm = true) ∨ (r = 1 ∧ P.optimize_orthogonality = true)) := by
  simp [relation_allowed]

theorem graph_data_of_append (B : Delaunay_neighbours_graph_builder) (l : List (Nat × Nat))
    (i j : Nat) :
    graph_data_of B (l ++ [(i, j)]) =
      { mus := (graph_data_of B l).mus ++ [(i, j, B.m_parameters.lambda)]
        targets := (graph_data_of B l).targets ++
          [(i, j, t_ij (B.m_segments.getD i 0 - B.m_segments.getD j 0))]
        relations := (graph_data_of B l).relations ++
          [(i, j, r_ij (B.m_segments.getD i 0 - B.m_segments.getD j 0))] } := by
  simp [graph_data_of]

/-- What one iteration of the loop does to a state whose graph data holds the
entries of the pairs `l`. -/
theorem estimate_proximity_edge_spec (B : Delaunay_neighbours_graph_builder)
    (st st1 : Proximity_state) (edge : Nat × Nat) (l : List (Nat × Nat))
    (hl : st.2 = graph_data_of B l)
    (h : estimate_proximity_edge B st edge = some st1) :
    ((edge_segments B edge).1 = (edge_segments B edge).2 ∨
        p_ij (edge_segments B edge).1 (edge_segments B edge).2 ∈ st.1) ∧ st1 = st
    ∨ ((edge_segments B edge).1 ≠ (edge_segments B edge).2 ∧
        p_ij (edge_segments B edge).1 (edge_segments B edge).2 ∉ st.1 ∧
        st1.1 = p_ij (edge_segments B edge).1 (edge_segments B edge).2 :: st.1 ∧
        ((accepted B (edge_segments B edge).1 (edge_segments B edge).2 ∧
            st1.2 = graph_data_of B (l ++ [edge_segments B edge]))
          ∨ (¬ accepted B (edge_segments B edge).1 (edge_segments B edge).2 ∧
            st1.2 = graph_data_of B l))) := by
  unfold estimate_proximity_edge at h
  unfold edge_segments
  dsimp only at h ⊢
  generalize B.m_points_to_segments.getD edge.1 0 = i at h ⊢
  generalize B.m_points_to_segments.getD edge.2 0 = j at h ⊢
  by_cases hb : edge.1 < B.m_points_to_segments.length ∧ edge.2 < B.m_points_to_segments.length
  swap
  · simp [hb] at h
  simp only [hb, and_self, if_true] at h
  by_cases hij : i = j
  · simp only [hij, if_true] at h
    left
    exact ⟨Or.inl hij, (Option.some.inj h).symm⟩
  simp only [hij, if_false] at h
  by_cases hmem : p_ij i j ∈ st.1
  · simp only [hmem, if_true] at h
    left
    exact ⟨Or.inr hmem, (Option.some.inj h).symm⟩
  simp only [hmem, if_false] at h
  right
  refine ⟨hij, hmem, ?_⟩
  cases hoi : B.m_segments[i]? with
  | none => simp [hoi] at h
  | some o_i =>
    cases hoj : B.m_segments[j]? with
    | none => simp [hoi, hoj] at h
    | some o_j =>
      simp only [hoi, hoj] at h
      have hgi : B.m_segments.getD i 0 = o_i := by
        rw [List.getD_eq_getElem?_getD, hoi]; rfl
      have hgj : B.m_segments.getD j 0 = o_j := by
        rw [List.getD_eq_getElem?_getD, hoj]; rfl
      by_cases hmu : 0 ≤ B.m_parameters.lambda ∧ B.m_parameters.lambda ≤ 1
      swap
      · simp [hmu] at h
      simp only [hmu, and_self, if_true] at h
      by_cases hallow : relation_allowed B.m_parameters (r_ij (o_i - o_j)) = true
      · simp only [hallow, if_true] at h
        cases hmi : B.m_max_orientations[i]? with
        | none => simp [hmi] at h
        | some m_i =>
          cases hmj : B.m_max_orientations[j]? with
          | none => simp [hmi, hmj] at h
          | some m_j =>
            simp only [hmi, hmj] at h
            by_cases ht : |t_ij (o_i - o_j)| < m_i + m_j
            · simp only [ht, if_true] at h
              have h1 := Option.some.inj h
              subst h1
              refine ⟨rfl, Or.inl ⟨⟨o_i, o_j, m_i, m_j, hoi, hoj, hmi, hmj,
                (relation_allowed_iff _ _).mp hallow, ht⟩, ?_⟩⟩
              rw [graph_data_of_append, hgi, hgj, ← hl]
            · simp only [ht, if_false] at h
              have h1 := Option.some.inj h
              subst h1
              refine ⟨rfl, Or.inr ⟨?_, hl⟩⟩
              rintro ⟨a, b, c, d, ha, hb1, hc, hd, _, hlt⟩
              rw [hoi] at ha; rw [hoj] at hb1; rw [hmi] at hc; rw [hmj] at hd
              cases ha; cases hb1; cases hc; cases hd
              exact ht hlt
      · simp only [hallow, if_false] at h
        have h1 := Option.some.inj h
        subst h1
        refine ⟨rfl, Or.inr ⟨?_, hl⟩⟩
        rintro ⟨a, b, c, d, ha, hb1, _, _, hr, _⟩
        rw [hoi] at ha; rw [hoj] at hb1
        cases ha; cases hb1
        exact hallow ((relation_allowed_iff _ _).mpr hr)

/-- Invariant of the loop of `estimate_proximity`: the graph data grows by
entries for pairs that were accepted, are distinct, whose canonical keys were
not considered before, are considered afterwards and are pairwise distinct;
every considered key comes from an edge. -/
theorem estimate_proximity_loop_spec (B : Delaunay_neighbours_graph_builder) :
    ∀ (edges : List (Nat × Nat)) (st st1 : Proximity_state) (l : List (Nat × Nat)),
      st.2 = graph_data_of B l → estimate_proximity_loop B edges st = some st1 →
      ∃ l1 : List (Nat × Nat),
        st1.2 = graph_data_of B (l ++ l1) ∧
        (∀ key ∈ st.1, key ∈ st1.1) ∧
        (∀ q ∈ l1, q.1 ≠ q.2 ∧ p_ij q.1 q.2 ∉ st.1 ∧ p_ij q.1 q.2 ∈ st1.1 ∧
          accepted B q.1 q.2) ∧
        (l1.map (fun q => p_ij q.1 q.2)).Nodup ∧
        (∀ key ∈ st1.1, key ∈ st.1 ∨
          ∃ e ∈ edges, key = p_ij (edge_segments B e).1 (edge_segments B e).2) := by
  intro edges
  induction edges with
  | nil =>
    intro st st1 l hl h
    simp only [estimate_proximity_loop, Option.some.injEq] at h
    subst h
    exact ⟨[], by simpa using hl, fun _ hk => hk, by simp, by simp, fun _ hk => Or.inl hk⟩
  | cons edge rest ih =>
    intro st st1 l hl h
    simp only [estimate_proximity_loop] at h
    cases hs : estimate_proximity_edge B st edge with
    | none => simp [hs] at h
    | some s2 =>
      simp only [hs] at h
      rcases estimate_proximity_edge_spec B st s2 edge l hl hs with
        ⟨_, heq⟩ | ⟨hij, hnot, hcons, hacc⟩
      · subst heq
        obtain ⟨l1, h1, h2, h3, h4, h5⟩ := ih s2 st1 l hl h
        refine ⟨l1, h1, h2, h3, h4, ?_⟩
        intro key hk
        rcases h5 key hk with h6 | ⟨e, he, hke⟩
        · exact Or.inl h6
        · exact Or.inr ⟨e, List.mem_cons_of_mem _ he, hke⟩
      · have hsub : ∀ key ∈ st.1, key ∈ s2.1 := by
          intro key hk
          rw [hcons]
          exact List.mem_cons_of_mem _ hk
        have hprov : ∀ (key : Nat × Nat), key ∈ st1.1 →
            (key ∈ s2.1 ∨ ∃ e ∈ rest, key = p_ij (edge_segments B e).1 (edge_segments B e).2) →
            key ∈ st.1 ∨ ∃ e ∈ edge :: rest,
              key = p_ij (edge_segments B e).1 (edge_segments B e).2 := by
          intro key _ hk
          rcases hk with h6 | ⟨e, he, hke⟩
          · rw [hcons] at h6
            rcases List.mem_cons.mp h6 with h7 | h7
            · exact Or.inr ⟨edge, List.mem_cons_self _ _, h7⟩
            · exact Or.inl h7
          · exact Or.inr ⟨e, List.mem_cons_of_mem _ he, hke⟩
        rcases hacc with ⟨hyes, hgd⟩ | ⟨_, hgd⟩
        · obtain ⟨l1, h1, h2, h3, h4, h5⟩ := ih s2 st1 (l ++ [edge_segments B edge]) hgd h
          have hk0 : p_ij (edge_segments B edge).1 (edge_segments B edge).2 ∈ s2.1 := by
            rw [hcons]
            exact List.mem_cons_self _ _
          refine ⟨edge_segments B edge :: l1, ?_, fun key hk => h2 key (hsub key hk), ?_, ?_,
            fun key hk => hprov key hk (h5 key hk)⟩
          · rw [h1, List.append_assoc]
            rfl
          · intro q hq
            rcases List.mem_cons.mp hq with h7 | h7
            · subst h7
              exact ⟨hij, hnot, h2 _ hk0, hyes⟩
            · obtain ⟨a1, a2, a3, a4⟩ := h3 q h7
              exact ⟨a1, fun hc => a2 (hsub _ hc), a3, a4⟩
          · rw [List.map_cons, List.nodup_cons]
            refine ⟨?_, h4⟩
            intro hc
            obtain ⟨q, hq, hqk⟩ := List.mem_map.mp hc
            have := (h3 q hq).2.1
            rw [hqk] at this
            exact this hk0
        · obtain ⟨l1, h1, h2, h3, h4, h5⟩ := ih s2 st1 l hgd h
          refine ⟨l1, h1, fun key hk => h2 key (hsub key hk), ?_, h4,
            fun key hk => hprov key hk (h5 key hk)⟩
          intro q hq
          obtain ⟨a1, a2, a3, a4⟩ := h3 q hq
          exact ⟨a1, fun hc => a2 (hsub _ hc), a3, a4⟩

theorem estimate_proximity_loop_append (B : Delaunay_neighbours_graph_builder) :
    ∀ (pre post : List (Nat × Nat)) (st st1 : Proximity_state),
      estimate_proximity_loop B (pre ++ post) st = some st1 →
      ∃ s, estimate_proximity_loop B pre st = some s ∧
        estimate_proximity_loop B post s = some st1 := by
  intro pre
  induction pre with
  | nil =>
    intro post st st1 h
    exact ⟨st, rfl, h⟩
  | cons e rest ih =>
    intro post st st1 h
    simp only [List.cons_append, estimate_proximity_loop] at h ⊢
    cases hs : estimate_proximity_edge B st e with
    | none => simp [hs] at h
    | some s2 =>
      simp only [hs] at h ⊢
      exact ih post s2 st1 h

theorem estimate_proximity_some (B : Delaunay_neighbours_graph_builder)
    (gd : Neighbours_graph_data) (h : estimate_proximity B = some gd) :
    ∃ considered, estimate_proximity_loop B B.m_dt.finite_edges
      ([], graph_data_of B []) = some (considered, gd) := by
  unfold estimate_proximity at h
  split_ifs at h
  cases hl : estimate_proximity_loop B B.m_dt.finite_edges
      ([], { mus := [], targets := [], relations := [] }) with
  | none => simp [hl] at h
  | some st1 =>
    simp only [hl, Option.map_some', Option.some.injEq] at h
    subst h
    exact ⟨st1.1, hl⟩

theorem getD_mem_of_lt (l : List Nat) (i : Nat) (h : i < l.length) : l.getD i 0 ∈ l := by
  rw [List.getD_eq_getElem?_getD, List.getElem?_eq_getElem h]
  exact List.getElem_mem h

/-- When the preconditions checked inside the loop hold, one iteration has a
result. -/
theorem estimate_proximity_edge_total (B : Delaunay_neighbours_graph_builder)
    (hseg : ∀ x ∈ B.m_points_to_segments,
      x < B.m_segments.length ∧ x < B.m_max_orientations.length)
    (hmu : 0 ≤ B.m_parameters.lambda ∧ B.m_parameters.lambda ≤ 1)
    (st : Proximity_state) (edge : Nat × Nat)
    (he : edge.1 < B.m_points_to_segments.length ∧ edge.2 < B.m_points_to_segments.length) :
    ∃ st1, estimate_proximity_edge B st edge = some st1 := by
  have hi := hseg _ (getD_mem_of_lt _ _ he.1)
  have hj := hseg _ (getD_mem_of_lt _ _ he.2)
  unfold estimate_proximity_edge
  simp only [he, and_self, if_true, hmu]
  simp only [List.getElem?_eq_getElem hi.1, List.getElem?_eq_getElem hj.1,
    List.getElem?_eq_getElem hi.2, List.getElem?_eq_getElem hj.2]
  split_ifs <;> exact ⟨_, rfl⟩

/-- When the preconditions of `estimate_proximity` hold, it produces graph
data. -/
theorem estimate_proximity_total (B : Delaunay_neighbours_graph_builder)
    (hdt : 0 < B.m_dt.number_of_vertices ∧ 0 < B.m_dt.number_of_faces)
    (hedges : ∀ e ∈ B.m_dt.finite_edges,
      e.1 < B.m_points_to_segments.length ∧ e.2 < B.m_points_to_segments.length)
    (hseg : ∀ x ∈ B.m_points_to_segments,
      x < B.m_segments.length ∧ x < B.m_max_orientations.length)
    (hmu : 0 ≤ B.m_parameters.lambda ∧ B.m_parameters.lambda ≤ 1) :
    ∃ gd, estimate_proximity B = some gd := by
  have hloop : ∀ (edges : List (Nat × Nat)) (st : Proximity_state),
      (∀ e ∈ edges, e.1 < B.m_points_to_segments.length ∧ e.2 < B.m_points_to_segments.length) →
      ∃ st1, estimate_proximity_loop B edges st = some st1 := by
    intro edges
    induction edges with
    | nil => intro st _; exact ⟨st, rfl⟩
    | cons e rest ih =>
      intro st he
      obtain ⟨s2, hs2⟩ := estimate_proximity_edge_total B hseg hmu st e
        (he e (List.mem_cons_self _ _))
      simp only [estimate_proximity_loop, hs2]
      exact ih s2 (fun e1 h1 => he e1 (List.mem_cons_of_mem _ h1))
  obtain ⟨st1, h1⟩ := hloop B.m_dt.finite_edges
    ([], { mus := [], targets := [], relations := [] }) hedges
  unfold estimate_proximity
  simp only [hdt, and_self, if_true, h1, Option.map_some']
  exact ⟨_, rfl⟩

/-- C4: the graph data produced by `estimate_proximity` contains no entry with
`i = j` and, for all `i ≠ j`, at most one entry per canonical key
`(min(i,j), max(i,j))`: the keys of the entries are pairwise distinct, in each
of the three lists (mus, targets, relations). -/
theorem estimate_proximity_no_duplicate_pairs (B : Delaunay_neighbours_graph_builder)
    (gd : Neighbours_graph_data) (h : estimate_proximity B = some gd) :
    (∀ e ∈ gd.mus, e.1 ≠ e.2.1) ∧ (∀ e ∈ gd.targets, e.1 ≠ e.2.1) ∧
    (∀ e ∈ gd.relations, e.1 ≠ e.2.1) ∧
    (gd.mus.map triplet_key).Nodup ∧ (gd.targets.map triplet_key).Nodup ∧
    (gd.relations.map triplet_key).Nodup := by
  obtain ⟨considered, hloop⟩ := estimate_proximity_some B gd h
  obtain ⟨l1, h1, _, h3, h4, _⟩ :=
    estimate_proximity_loop_spec B _ _ _ [] rfl hloop
  simp only [List.nil_append] at h1
  have hgd : gd = graph_data_of B l1 := h1
  subst hgd
  have hne : ∀ q ∈ l1, q.1 ≠ q.2 := fun q hq => (h3 q hq).1
  refine ⟨?_, ?_, ?_, ?_, ?_, ?_⟩
  · intro e he
    obtain ⟨q, hq, rfl⟩ := List.mem_map.mp he
    exact hne q hq
  · intro e he
    obtain ⟨q, hq, rfl⟩ := List.mem_map.mp he
    exact hne q hq
  · intro e he
    obtain ⟨q, hq, rfl⟩ := List.mem_map.mp he
    exact hne q hq
  · simpa [graph_data_of, List.map_map, Function.comp, triplet_key] using h4
  · simpa [graph_data_of, List.map_map, Function.comp, triplet_key] using h4
  · simpa [graph_data_of, List.map_map, Function.comp, triplet_key] using h4

set_option maxRecDepth 100000 in
theorem estimate_proximity_no_duplicate_pairs_witness :
    estimate_proximity example_builder = some example_graph_data ∧
    ((∀ e ∈ example_graph_data.mus, e.1 ≠ e.2.1) ∧
     (∀ e ∈ example_graph_data.targets, e.1 ≠ e.2.1) ∧
     (∀ e ∈ example_graph_data.relations, e.1 ≠ e.2.1) ∧
     (example_graph_data.mus.map triplet_key).Nodup ∧
     (example_graph_data.targets.map triplet_key).Nodup ∧
     (example_graph_data.relations.map triplet_key).Nodup) :=
  ⟨by decide!, estimate_proximity_no_duplicate_pairs example_builder example_graph_data
    (by decide!)⟩

theorem getD_of_getElem? (l : List FT) (i : Nat) (o : FT) (h : l[i]? = some o) :
    l.getD i 0 = o := by
  rw [List.getD_eq_getElem?_getD, h]
  rfl

/-- C6: in `estimate_proximity`, an entry for a pair of distinct segments
`(i, j)` is recorded only if (a) its relation is allowed by the mode (relation
0 requires `optimize_parallelizm`, relation 1 requires
`optimize_orthogonality`) and (b) `|target| < max_orientations[i] +
max_orientations[j]`, strictly; and for the first edge encountered for an
unordered pair, an entry with that canonical key is recorded exactly when (a)
and (b) hold, and then it is the entry `(i, j, ...)` of that edge. -/
theorem estimate_proximity_records_iff_accepted (B : Delaunay_neighbours_graph_builder)
    (gd : Neighbours_graph_data) (h : estimate_proximity B = some gd) :
    (∀ (k i j : Nat) (r : Int), gd.relations[k]? = some (i, j, r) →
      i ≠ j ∧ ∃ o_i o_j m_i m_j : FT,
        B.m_segments[i]? = some o_i ∧ B.m_segments[j]? = some o_j ∧
        B.m_max_orientations[i]? = some m_i ∧ B.m_max_orientations[j]? = some m_j ∧
        r = r_ij (o_i - o_j) ∧
        gd.targets[k]? = some (i, j, t_ij (o_i - o_j)) ∧
        gd.mus[k]? = some (i, j, B.m_parameters.lambda) ∧
        ((r = 0 ∧ B.m_parameters.optimize_parallelizm = true) ∨
         (r = 1 ∧ B.m_parameters.optimize_orthogonality = true)) ∧
        |t_ij (o_i - o_j)| < m_i + m_j) ∧
    (∀ (pre post : List (Nat × Nat)) (edge : Nat × Nat),
      B.m_dt.finite_edges = pre ++ edge :: post →
      (edge_segments B edge).1 ≠ (edge_segments B edge).2 →
      (∀ e ∈ pre, p_ij (edge_segments B e).1 (edge_segments B e).2
        ≠ p_ij (edge_segments B edge).1 (edge_segments B edge).2) →
      ((∃ e ∈ gd.relations,
          triplet_key e = p_ij (edge_segments B edge).1 (edge_segments B edge).2)
        ↔ accepted B (edge_segments B edge).1 (edge_segments B edge).2) ∧
      (accepted B (edge_segments B edge).1 (edge_segments B edge).2 →
        ∃ r, ((edge_segments B edge).1, (edge_segments B edge).2, r) ∈ gd.relations)) := by
  obtain ⟨considered, hloop⟩ := estimate_proximity_some B gd h
  constructor
  · obtain ⟨l1, h1, _, h3, _, _⟩ := estimate_proximity_loop_spec B _ _ _ [] rfl hloop
    simp only [List.nil_append] at h1
    have hgd : gd = graph_data_of B l1 := h1
    subst hgd
    intro k i j r hk
    simp only [graph_data_of, List.getElem?_map, Option.map_eq_some'] at hk
    obtain ⟨q, hq, hqe⟩ := hk
    simp only [Prod.mk.injEq] at hqe
    obtain ⟨rfl, rfl, rfl⟩ := hqe
    obtain ⟨hne, _, _, o_i, o_j, m_i, m_j, a1, a2, a3, a4, a5, a6⟩ :=
      h3 q (List.getElem?_mem hq)
    refine ⟨hne, o_i, o_j, m_i, m_j, a1, a2, a3, a4, ?_, ?_, ?_, ?_, a6⟩
    · rw [getD_of_getElem? _ _ _ a1, getD_of_getElem? _ _ _ a2]
    · simp only [graph_data_of, List.getElem?_map, hq, Option.map_some']
      rw [getD_of_getElem? _ _ _ a1, getD_of_getElem? _ _ _ a2]
    · simp only [graph_data_of, List.getElem?_map, hq, Option.map_some']
    · rw [getD_of_getElem? _ _ _ a1, getD_of_getElem? _ _ _ a2]
      exact a5
  · intro pre post edge hedges hne hfirst
    rw [hedges] at hloop
    obtain ⟨s1, hpre, hrest⟩ := estimate_proximity_loop_append B pre (edge :: post) _ _ hloop
    simp only [estimate_proximity_loop] at hrest
    cases hs : estimate_proximity_edge B s1 edge with
    | none => simp [hs] at hrest
    | some s2 =>
      simp only [hs] at hrest
      obtain ⟨l1, h1, _, h3, _, h5⟩ := estimate_proximity_loop_spec B pre _ s1 [] rfl hpre
      simp only [List.nil_append] at h1
      have hk1 : p_ij (edge_segments B edge).1 (edge_segments B edge).2 ∉ s1.1 := by
        intro hc
        rcases h5 _ hc with h6 | ⟨e, he, hke⟩
        · simp at h6
        · exact hfirst e he hke.symm
      have hl1 : ∀ q ∈ l1, p_ij q.1 q.2
          ≠ p_ij (edge_segments B edge).1 (edge_segments B edge).2 := by
        intro q hq hc
        have := (h3 q hq).2.2.1
        rw [hc] at this
        exact hk1 this
      rcases estimate_proximity_edge_spec B s1 s2 edge l1 h1 hs with
        ⟨hor, _⟩ | ⟨_, _, hcons, hacc⟩
      · rcases hor with h6 | h6
        · exact absurd h6 hne
        · exact absurd h6 hk1
      · have hk2 : p_ij (edge_segments B edge).1 (edge_segments B edge).2 ∈ s2.1 := by
          rw [hcons]
          exact List.mem_cons_self _ _
        rcases hacc with ⟨hyes, hgd⟩ | ⟨hno, hgd⟩
        · obtain ⟨l2, g1, _, _, _, _⟩ := estimate_proximity_loop_spec B post s2 _ _ hgd hrest
          have hgd2 : gd = graph_data_of B ((l1 ++ [edge_segments B edge]) ++ l2) := g1
          subst hgd2
          have hmem : ((edge_segments B edge).1, (edge_segments B edge).2,
              r_ij (B.m_segments.getD (edge_segments B edge).1 0
                - B.m_segments.getD (edge_segments B edge).2 0))
              ∈ (graph_data_of B ((l1 ++ [edge_segments B edge]) ++ l2)).relations := by
            simp only [graph_data_of, List.mem_map]
            exact ⟨edge_segments B edge, by simp, rfl⟩
          exact ⟨⟨fun _ => hyes, fun _ => ⟨_, hmem, rfl⟩⟩, fun _ => ⟨_, hmem⟩⟩
        · obtain ⟨l2, g1, _, g3, _, _⟩ := estimate_proximity_loop_spec B post s2 _ _ hgd hrest
          have hgd2 : gd = graph_data_of B (l1 ++ l2) := g1
          subst hgd2
          refine ⟨⟨?_, fun hc => absurd hc hno⟩, fun hc => absurd hc hno⟩
          rintro ⟨e, he, hke⟩
          exfalso
          simp only [graph_data_of, List.mem_map] at he
          obtain ⟨q, hq, rfl⟩ := he
          rcases List.mem_append.mp hq with h7 | h7
          · exact hl1 q h7 hke
          · have := (g3 q h7).2.1
            have hke2 : p_ij q.1 q.2
                = p_ij (edge_segments B edge).1 (edge_segments B edge).2 := hke
            rw [hke2] at this
            exact this hk2

set_option maxRecDepth 100000 in
theorem estimate_proximity_records_iff_accepted_witness :
    estimate_proximity example_builder = some example_graph_data ∧
    example_graph_data.relations[1]? = some (1, 2, 1) ∧
    ((1 : Nat) ≠ 2 ∧ ∃ o_i o_j m_i m_j : FT,
      example_builder.m_segments[1]? = some o_i ∧ example_builder.m_segments[2]? = some o_j ∧
      example_builder.m_max_orientations[1]? = some m_i ∧
      example_builder.m_max_orientations[2]? = some m_j ∧
      (1 : Int) = r_ij (o_i - o_j) ∧
      example_graph_data.targets[1]? = some (1, 2, t_ij (o_i - o_j)) ∧
      example_graph_data.mus[1]? = some (1, 2, example_builder.m_parameters.lambda) ∧
      (((1 : Int) = 0 ∧ example_builder.m_parameters.optimize_parallelizm = true) ∨
       ((1 : Int) = 1 ∧ example_builder.m_parameters.optimize_orthogonality = true)) ∧
      |t_ij (o_i - o_j)| < m_i + m_j) :=
  ⟨by decide!, by decide!,
    (estimate_proximity_records_iff_accepted example_builder example_graph_data
      (by decide!)).1 1 1 2 1 (by decide!)⟩

set_option maxRecDepth 100000 in
/-- C5 (failing input): two segments and one PARALLEL constraint whose
correction is not below tolerance.  No group and no angle is registered by the
first two passes, and the third pass dereferences `angles.rbegin()` of the
empty map: `build_tree` has no defined result, no segment gets a group. -/
theorem build_tree_undefined_without_groups :
    categorize example_tree_unassigned 2 example_tree_unassigned.m_qp_data
        { segments_to_groups := [-1, -1], groups_to_segments := [], g := 0, p := 0 }
      = some { segments_to_groups := [-1, -1], groups_to_segments := [], g := 0, p := 1 } ∧
    for_range (register_angle example_tree_unassigned) [0, 1]
        { segments_to_groups := [-1, -1], groups_to_segments := [], angles := [] }
      = some { segments_to_groups := [-1, -1], groups_to_segments := [], angles := [] } ∧
    assign_unassigned example_tree_unassigned
        { segments_to_groups := [-1, -1], groups_to_segments := [], angles := [] } 0 = none ∧
    build_tree example_tree_unassigned = none :=
  ⟨by decide!, by decide!, by decide!, by decide!⟩

end Level_of_detail

namespace Level_of_detail

/-! ## Preconditions on the segment collection -/

/-- C12: when the segment collection is empty, the proximity graph builder
(`build_graph_data`, in `sample_segments`), the classifier (`build_tree`,
called by the constructor of `Segment_regularizer_tree`) and the length
estimator (constructor of `Regular_segments_info_estimator`, in
`compute_segment_lengths`) have no result: the precondition
`m_segments.size() > 0` is violated.  For a non-empty collection that
precondition does not fire: `sample_segments` returns, `build_graph_data`
goes on to `estimate_proximity`, the estimator is constructed, and
`build_tree` can only fail after its precondition, in one of its passes. -/
theorem empty_collection_violates_precondition (C : Graph_collaborators) (sqrt : FT → FT) :
    (∀ (max_orientations : List FT) (P : Parameters),
      sample_segments C [] = none ∧ build_graph_data C [] max_orientations P = none) ∧
    (∀ T : Segment_regularizer_tree, T.m_segments = [] → build_tree T = none) ∧
    Regular_segments_info_estimator.create sqrt [] = none ∧
    compute_segment_lengths sqrt [] = none ∧
    (∀ (segments max_orientations : List FT) (P : Parameters), segments ≠ [] →
      sample_segments C segments = some (C.sample segments) ∧
      build_graph_data C segments max_orientations P =
        estimate_proximity
          { m_segments := segments
            m_max_orientations := max_orientations
            m_parameters := P
            m_points_to_segments := C.sample segments
            m_dt := C.triangulation segments }) ∧
    (∀ T : Segment_regularizer_tree, T.m_segments ≠ [] → 0 ≤ T.m_parameters.epsilon →
      build_tree T = none →
      categorize T T.m_segments.length T.m_qp_data
          { segments_to_groups := List.replicate T.m_segments.length (-1)
            groups_to_segments := [], g := 0, p := 0 } = none ∨
      ∃ c, categorize T T.m_segments.length T.m_qp_data
          { segments_to_groups := List.replicate T.m_segments.length (-1)
            groups_to_segments := [], g := 0, p := 0 } = some c ∧
        (for_range (register_angle T) (List.range T.m_segments.length)
            { segments_to_groups := c.segments_to_groups
              groups_to_segments := c.groups_to_segments
              angles := [] } = none ∨
          ∃ a2, for_range (register_angle T) (List.range T.m_segments.length)
              { segments_to_groups := c.segments_to_groups
                groups_to_segments := c.groups_to_segments
                angles := [] } = some a2 ∧
            for_range (assign_unassigned T) (List.range T.m_segments.length) a2 = none)) ∧
    (∀ segments : List FT, segments ≠ [] →
      ∃ E, Regular_segments_info_estimator.create sqrt segments = some E ∧
        E.m_segments = segments) := by
  refine ⟨?_, ?_, ?_, ?_, ?_, ?_, ?_⟩
  · intro mo P
    exact ⟨rfl, rfl⟩
  · intro T hT
    simp [build_tree, hT]
  · rfl
  · rfl
  · intro segments mo P hne
    have hpos : 0 < segments.length := List.length_pos.mpr hne
    have hs : sample_segments C segments = some (C.sample segments) := by
      simp [sample_segments, hpos]
    exact ⟨hs, by simp [build_graph_data, hs]⟩
  · intro T hne heps hnone
    have hpos : 0 < T.m_segments.length := List.length_pos.mpr hne
    unfold build_tree at hnone
    simp only [hpos, heps, and_self, if_true] at hnone
    cases hc : categorize T T.m_segments.length T.m_qp_data
        { segments_to_groups := List.replicate T.m_segments.length (-1)
          groups_to_segments := [], g := 0, p := 0 } with
    | none => exact Or.inl rfl
    | some c =>
      right
      refine ⟨c, rfl, ?_⟩
      simp only [hc] at hnone
      cases h2 : for_range (register_angle T) (List.range T.m_segments.length)
          { segments_to_groups := c.segments_to_groups
            groups_to_segments := c.groups_to_segments
            angles := [] } with
      | none => exact Or.inl rfl
      | some a2 =>
        right
        refine ⟨a2, rfl, ?_⟩
        simp only [h2] at hnone
        cases h3 : for_range (assign_unassigned T) (List.range T.m_segments.length) a2 with
        | none => rfl
        | some a3 => simp [h3] at hnone
  · intro segments hne
    have hpos : 0 < segments.length := List.length_pos.mpr hne
    have ht : ∃ t, compute_length_threshold sqrt segments = some t := by
      simp [compute_length_threshold, compute_segment_lengths, compute_mean,
        compute_standard_deviation, hpos]
    obtain ⟨t, ht⟩ := ht
    exact ⟨⟨segments, t⟩, by simp [Regular_segments_info_estimator.create, ht], rfl⟩

end Level_of_detail

/-! ## Three point family weight and Wachspress weight -/

theorem area_2_cyclic (p q r : Point_2) : area_2 q r p = area_2 p q r := by
  unfold area_2
  ring

theorem area_2_split (vm vj vp q : Point_2) :
    area_2 vm vj q + area_2 vj vp q - area_2 vm vp q = area_2 vm vj vp := by
  unfold area_2
  ring

/-- C14: for power parameter `a = 0` and all points `query`, `vm`, `vj`, `vp`
with `Am * Aj ≠ 0` (`Am = area(vm, vj, query)`, `Aj = area(vj, vp, query)`),
the three point family weight `(r_m^a*Am - r^a*B + r_p^a*Aj)/(Am*Aj)` computed
by `Three_point_family_weight_2` equals the Wachspress weight `C/(A1*A2)`
computed by `wachspress_weight(vm, vj, vp, query)`, taking `x^0 = 1`; this
rests on `area(vm,vj,q) + area(vj,vp,q) - area(vm,vp,q) = area(vm,vj,vp)`. -/
theorem three_point_family_weight_zero_eq_wachspress (U : Generalized_weights.Utils_2)
    (hpow : ∀ x : FT, U.power x 0 = 1) (query vm vj vp : Point_2)
    (hA : area_2 vm vj query * area_2 vj vp query ≠ 0) :
    Generalized_weights.weight_2 U 0 query vm vj vp
      = some (area_2 vm vj vp / (area_2 vm vj query * area_2 vj vp query)) ∧
    Weights.wachspress_weight vm vj vp query
      = some (area_2 vm vj vp / (area_2 vm vj query * area_2 vj vp query)) ∧
    area_2 vm vj query + area_2 vj vp query - area_2 vm vp query = area_2 vm vj vp := by
  have hAm : area_2 vm vj query ≠ 0 := left_ne_zero_of_mul hA
  have hAj : area_2 vj vp query ≠ 0 := right_ne_zero_of_mul hA
  refine ⟨?_, ?_, area_2_split vm vj vp query⟩
  · unfold Generalized_weights.weight_2 Generalized_weights.weight
    simp only [hAm, hAj, hA, ne_eq, not_false_eq_true, and_self, if_true, hpow,
      zero_ne_one, one_mul]
    rw [← area_2_split vm vj vp query]
    congr 1
    ring
  · unfold Weights.wachspress_weight Weights.wachspress_ns_weight
    have h1 : area_2 vj query vm = area_2 vm vj query := area_2_cyclic vm vj query
    have h2 : area_2 vp query vj = area_2 vj vp query := area_2_cyclic vj vp query
    simp only [h1, h2, hAm, hAj, hA, ne_eq, not_false_eq_true, and_self, if_true]
    congr 1
    ring

set_option maxRecDepth 100000 in
theorem three_point_family_weight_zero_eq_wachspress_witness :
    area_2 ⟨0, 0⟩ ⟨2, 0⟩ ⟨1, 1⟩ * area_2 ⟨2, 0⟩ ⟨2, 2⟩ ⟨1, 1⟩ ≠ 0 ∧
    (Generalized_weights.weight_2 ⟨fun _ _ => 7, fun _ _ => 1⟩ 0 ⟨1, 1⟩ ⟨0, 0⟩ ⟨2, 0⟩ ⟨2, 2⟩
      = some (area_2 ⟨0, 0⟩ ⟨2, 0⟩ ⟨2, 2⟩
          / (area_2 ⟨0, 0⟩ ⟨2, 0⟩ ⟨1, 1⟩ * area_2 ⟨2, 0⟩ ⟨2, 2⟩ ⟨1, 1⟩)) ∧
     Weights.wachspress_weight ⟨0, 0⟩ ⟨2, 0⟩ ⟨2, 2⟩ ⟨1, 1⟩
      = some (area_2 ⟨0, 0⟩ ⟨2, 0⟩ ⟨2, 2⟩
          / (area_2 ⟨0, 0⟩ ⟨2, 0⟩ ⟨1, 1⟩ * area_2 ⟨2, 0⟩ ⟨2, 2⟩ ⟨1, 1⟩)) ∧
     area_2 ⟨0, 0⟩ ⟨2, 0⟩ ⟨1, 1⟩ + area_2 ⟨2, 0⟩ ⟨2, 2⟩ ⟨1, 1⟩ - area_2 ⟨0, 0⟩ ⟨2, 2⟩ ⟨1, 1⟩
      = area_2 ⟨0, 0⟩ ⟨2, 0⟩ ⟨2, 2⟩) :=
  ⟨by decide!, three_point_family_weight_zero_eq_wachspress ⟨fun _ _ => 7, fun _ _ => 1⟩
    (fun _ => rfl) ⟨1, 1⟩ ⟨0, 0⟩ ⟨2, 0⟩ ⟨2, 2⟩ (by decide!)⟩
namespace Level_of_detail

set_option maxRecDepth 100000 in
theorem empty_collection_violates_precondition_witness :
    ({ example_tree with m_segments := [] } : Segment_regularizer_tree).m_segments = [] ∧
    build_tree { example_tree with m_segments := [] } = none ∧
    ([3, 4] : List FT) ≠ [] ∧
    (∃ E, Regular_segments_info_estimator.create (fun x => x) [3, 4] = some E ∧
      E.m_segments = [3, 4]) ∧
    sample_segments ⟨fun _ => [0], fun _ => example_builder.m_dt⟩ [3, 4] = some [0] :=
  ⟨rfl,
   (empty_collection_violates_precondition ⟨fun _ => [0], fun _ => example_builder.m_dt⟩
      (fun x => x)).2.1 { example_tree with m_segments := [] } rfl,
   by simp,
   (empty_collection_violates_precondition ⟨fun _ => [0], fun _ => example_builder.m_dt⟩
      (fun x => x)).2.2.2.2.2.2 [3, 4] (by simp),
   ((empty_collection_violates_precondition ⟨fun _ => [0], fun _ => example_builder.m_dt⟩
      (fun x => x)).2.2.2.2.1 [3, 4] [] example_parameters (by simp)).1⟩

end Level_of_detail
namespace Levels_of_detail

/-! ## Polygon_regularizer : find_initial_index -/

theorem find_initial_index_loop_eq_find (N : Internal) (R : Polygon_regularizer)
    (contour : List Segment_2) (l : List Nat) :
    find_initial_index_loop N R contour l
      = (l.find? (fun i => !parallel_to_predecessor N R contour i)).getD 0 := by
  induction l with
  | nil => rfl
  | cons i rest ih =>
    unfold find_initial_index_loop
    simp only [List.find?_cons]
    by_cases h : parallel_to_predecessor N R contour i = true
    · have h1 : (is_parallel_segment N R
          (contour.getD ((i + contour.length - 1) % contour.length) default)
          (contour.getD i default)
          (contour.getD ((i + 1) % contour.length) default)).1 = true := h
      simp only [h1, h, Bool.not_true, Bool.false_eq_true, if_false]
      exact ih
    · have h0 : parallel_to_predecessor N R contour i = false := by
        simpa using h
      have h1 : (is_parallel_segment N R
          (contour.getD ((i + contour.length - 1) % contour.length) default)
          (contour.getD i default)
          (contour.getD ((i + 1) % contour.length) default)).1 = false := h0
      simp only [h1, h0, Bool.not_false, if_true]
      rfl

/-- C20: for every contour of `n >= 1` segments, `find_initial_index` returns
the smallest index `i` in `[0, n)` whose segment is not parallel (acute angle
above `angle_threshold`) to its cyclic predecessor, and returns 0 when every
segment is parallel to its predecessor; the result is always a valid index,
and it is a function of the contour (and of the regularizer) alone. -/
theorem find_initial_index_is_first_corner (N : Internal) (R : Polygon_regularizer)
    (contour : List Segment_2) (hn : 1 ≤ contour.length) :
    find_initial_index N R contour < contour.length ∧
    (∀ i, i < contour.length → parallel_to_predecessor N R contour i = false →
      parallel_to_predecessor N R contour (find_initial_index N R contour) = false ∧
      find_initial_index N R contour ≤ i ∧
      ∀ j, j < find_initial_index N R contour →
        parallel_to_predecessor N R contour j = true) ∧
    ((∀ i, i < contour.length → parallel_to_predecessor N R contour i = true) →
      find_initial_index N R contour = 0) ∧
    (∀ i, parallel_to_predecessor N R contour i
      = decide (|get_angle_2 (angle_degree_2 N R
          (contour.getD ((i + contour.length - 1) % contour.length) default)
          (contour.getD i default))| ≤ R.m_angle_threshold)) := by
  have hfind := find_initial_index_loop_eq_find N R contour (List.range contour.length)
  have hdef : find_initial_index N R contour
      = ((List.range contour.length).find?
          (fun i => !parallel_to_predecessor N R contour i)).getD 0 := hfind
  cases hf : (List.range contour.length).find?
      (fun i => !parallel_to_predecessor N R contour i) with
  | none =>
    have hr : find_initial_index N R contour = 0 := by rw [hdef, hf]; rfl
    have hall := List.find?_range_eq_none.mp hf
    refine ⟨by rw [hr]; exact hn, ?_, fun _ => hr, fun i => rfl⟩
    intro i hi hpar
    have := hall i hi
    simp [hpar] at this
  | some r =>
    have hr : find_initial_index N R contour = r := by rw [hdef, hf]; rfl
    obtain ⟨h1, h2, h3⟩ := List.find?_range_eq_some.mp hf
    have hrn : r < contour.length := List.mem_range.mp h2
    have hpr : parallel_to_predecessor N R contour r = false := by simpa using h1
    rw [hr]
    refine ⟨hrn, ?_, ?_, fun i => rfl⟩
    · intro i _ hpar
      refine ⟨hpr, ?_, ?_⟩
      · by_contra hlt
        have := h3 i (Nat.lt_of_not_le hlt)
        simp [hpar] at this
      · intro j hj
        simpa using h3 j hj
    · intro hall
      have := hall r hrn
      rw [hpr] at this
      exact absurd this (by decide)

set_option maxRecDepth 100000 in
theorem find_initial_index_is_first_corner_witness :
    1 ≤ example_square.length ∧
    find_initial_index axis_internal example_regularizer example_square = 0 ∧
    parallel_to_predecessor axis_internal example_regularizer example_square 0 = false ∧
    find_initial_index axis_internal example_regularizer example_square
      < example_square.length :=
  ⟨by decide, by decide!, by decide!,
    (find_initial_index_is_first_corner axis_internal example_regularizer example_square
      (by decide)).1⟩

end Levels_of_detail
namespace Levels_of_detail

/-! ## Polygon_regularizer : rotate_contour and correct_contour -/

/-- One iteration of `rotate_contour`: the group table is not changed, only
the segment `j` can change, and it is either skipped or replaced by the
result of `rotate_segment` with the reference of its group. -/
theorem rotate_contour_body_spec (N : Internal) (R : Polygon_regularizer) (k : Nat)
    (st st1 : List (List Nat) × List Segment_2) (j : Nat)
    (h : rotate_contour_body N R k st j = some st1) :
    st1.1 = st.1 ∧ (∀ idx, idx ≠ j → st1.2[idx]? = st.2[idx]?) ∧
    ∃ row gr skip, st.1[k]? = some row ∧ row[j]? = some gr ∧ R.m_skip[gr]? = some skip ∧
      (((k = skip.1 ∧ j = skip.2) ∨ gr = npos) ∧ st1 = st ∨
       (¬ (k = skip.1 ∧ j = skip.2) ∧ gr ≠ npos ∧
        ∃ seg longest bounds, st.2[j]? = some seg ∧ R.m_longest[gr]? = some longest ∧
          R.m_bounds[gr]? = some bounds ∧
          st1.2[j]? = some (rotate_segment N R longest bounds seg).2)) := by
  unfold rotate_contour_body at h
  cases hrow : st.1[k]? with
  | none => simp [hrow] at h
  | some row =>
    simp only [hrow] at h
    cases hgr : row[j]? with
    | none => simp [hgr] at h
    | some gr =>
      simp only [hgr] at h
      cases hskip : R.m_skip[gr]? with
      | none => simp [hskip] at h
      | some skip =>
        simp only [hskip] at h
        by_cases hs : k = skip.1 ∧ j = skip.2
        · simp only [hs, and_self, if_true, Option.some.injEq] at h
          subst h
          exact ⟨rfl, fun _ _ => rfl, row, gr, skip, rfl, hgr, hskip, Or.inl ⟨Or.inl hs, rfl⟩⟩
        · simp only [hs, if_false] at h
          by_cases hn : gr = npos
          · simp only [hn, if_true, Option.some.injEq] at h
            subst h
            exact ⟨rfl, fun _ _ => rfl, row, gr, skip, rfl, hgr, hskip, Or.inl ⟨Or.inr hn, rfl⟩⟩
          · simp only [hn, if_false] at h
            cases hseg : st.2[j]? with
            | none => simp [hseg] at h
            | some seg =>
              cases hlong : R.m_longest[gr]? with
              | none => simp [hseg, hlong] at h
              | some longest =>
                cases hb : R.m_bounds[gr]? with
                | none => simp [hseg, hlong, hb] at h
                | some bounds =>
                  simp only [hseg, hlong, hb, Option.some.injEq] at h
                  have hj : j < st.2.length := by
                    rcases (List.getElem?_eq_some.mp hseg) with ⟨hlt, _⟩
                    exact hlt
                  subst h
                  refine ⟨?_, ?_, row, gr, skip, rfl, hgr, hskip,
                    Or.inr ⟨hs, hn, seg, longest, bounds, rfl, hlong, hb, ?_⟩⟩
                  · simp [rotate_segment]
                  · intro idx hidx
                    simp [List.getElem?_set, Ne.symm hidx]
                  · simp [List.getElem?_set, hj]

/-- The loop of `rotate_contour` over a list of indices without repetition:
what it does to the segment `i`. -/
theorem rotate_contour_loop_spec (N : Internal) (R : Polygon_regularizer) (k i : Nat) :
    ∀ (l : List Nat) (st st1 : List (List Nat) × List Segment_2),
      for_range (rotate_contour_body N R k) l st = some st1 →
      st1.1 = st.1 ∧ (i ∉ l → st1.2[i]? = st.2[i]?) ∧
      (l.Nodup → i ∈ l →
        ∃ row gr skip, st.1[k]? = some row ∧ row[i]? = some gr ∧ R.m_skip[gr]? = some skip ∧
          (((k = skip.1 ∧ i = skip.2) ∨ gr = npos) ∧ st1.2[i]? = st.2[i]? ∨
           (¬ (k = skip.1 ∧ i = skip.2) ∧ gr ≠ npos ∧
            ∃ seg longest bounds, st.2[i]? = some seg ∧ R.m_longest[gr]? = some longest ∧
              R.m_bounds[gr]? = some bounds ∧
              st1.2[i]? = some (rotate_segment N R longest bounds seg).2))) := by
  intro l
  induction l with
  | nil =>
    intro st st1 h
    simp only [for_range, Option.some.injEq] at h
    subst h
    exact ⟨rfl, fun _ => rfl, fun _ hi => absurd hi (List.not_mem_nil i)⟩
  | cons j rest ih =>
    intro st st1 h
    simp only [for_range] at h
    cases hb : rotate_contour_body N R k st j with
    | none => simp [hb] at h
    | some s2 =>
      simp only [hb] at h
      obtain ⟨b1, b2, row, gr, skip, b3, b4, b5, b6⟩ := rotate_contour_body_spec N R k st s2 j hb
      obtain ⟨i1, i2, i3⟩ := ih s2 st1 h
      refine ⟨i1.trans b1, ?_, ?_⟩
      · intro hni
        have hij : i ≠ j := fun hc => hni (hc ▸ List.mem_cons_self _ _)
        have hnr : i ∉ rest := fun hc => hni (List.mem_cons_of_mem _ hc)
        rw [i2 hnr, b2 i hij]
      · intro hnd hmem
        have hnd2 := List.nodup_cons.mp hnd
        by_cases hij : i = j
        · subst hij
          have hkeep := i2 hnd2.1
          refine ⟨row, gr, skip, b3, b4, b5, ?_⟩
          rcases b6 with ⟨c1, c2⟩ | ⟨c1, c2, seg, longest, bounds, c3, c4, c5, c6⟩
          · left
            refine ⟨c1, ?_⟩
            rw [hkeep, c2]
          · right
            exact ⟨c1, c2, seg, longest, bounds, c3, c4, c5, by rw [hkeep, c6]⟩
        · have hmr : i ∈ rest := by
            rcases List.mem_cons.mp hmem with hc | hc
            · exact absurd hc hij
            · exact hc
          obtain ⟨row2, gr2, skip2, d1, d2, d3, d4⟩ := i3 hnd2.2 hmr
          rw [b1] at d1
          refine ⟨row2, gr2, skip2, d1, d2, d3, ?_⟩
          rw [b2 i hij] at d4
          exact d4

/-- One iteration of `correct_contour` changes at most the segment `j`, and
does not change it when `(k, j)` is the reference pair of its group. -/
theorem correct_contour_body_spec (N : Internal) (R : Polygon_regularizer)
    (groups : List (List Nat)) (k : Nat) (st st1 : List Segment_2) (j : Nat)
    (h : correct_contour_body N R groups k st j = some st1) :
    (∀ idx, idx ≠ j → st1[idx]? = st[idx]?) ∧
    (∀ row gr skip, groups[k]? = some row → row[j]? = some gr → R.m_skip[gr]? = some skip →
      k = skip.1 ∧ j = skip.2 → st1 = st) := by
  unfold correct_contour_body at h
  cases hrow : groups[k]? with
  | none => simp [hrow] at h
  | some row =>
    simp only [hrow] at h
    cases hgr : row[j]? with
    | none => simp [hgr] at h
    | some gr =>
      simp only [hgr] at h
      cases hskip : R.m_skip[gr]? with
      | none => simp [hskip] at h
      | some skip =>
        simp only [hskip] at h
        by_cases hs : k = skip.1 ∧ j = skip.2
        · simp only [hs, and_self, if_true, Option.some.injEq] at h
          subst h
          exact ⟨fun _ _ => rfl, fun _ _ _ _ _ _ _ => rfl⟩
        · simp only [hs, if_false] at h
          have hframe : ∀ idx, idx ≠ j → st1[idx]? = st[idx]? := by
            by_cases hn : gr = npos
            · simp only [hn, if_true, Option.some.injEq] at h
              subst h
              exact fun _ _ => rfl
            · simp only [hn, if_false] at h
              split at h
              · split_ifs at h
                · simp only [Option.some.injEq] at h
                  subst h
                  intro idx hidx
                  simp [List.getElem?_set, Ne.symm hidx]
                · simp only [Option.some.injEq] at h
                  subst h
                  exact fun _ _ => rfl
              · simp at h
          refine ⟨hframe, ?_⟩
          intro row2 gr2 skip2 e1 e2 e3 e4
          cases e1
          rw [hgr] at e2
          cases e2
          rw [hskip] at e3
          cases e3
          exact absurd e4 hs

theorem rotate_segment_eq_snapped (N : Internal) (R : Polygon_regularizer)
    (longest : Segment_2) (bounds : FT × FT) (segment : Segment_2) :
    (rotate_segment N R longest bounds segment).2
      = snapped_to_reference N R.m_pi longest bounds segment := by
  unfold rotate_segment snapped_to_reference
  simp only [rotate, angle_degree_2, get_angle_2, angle_to_reference, folded_angle,
    remaining_angle, turned_about_midpoint]

/-- C13: for every contour `k` and every index `i` such that `(k, i)` is the
reference (skip) pair of the group that segment belongs to, `rotate_contour`
and `correct_contour` leave segment `i` of contour `k` unchanged (same source
and target), while every other member `i1` of a group is replaced in
`rotate_contour` by the result of `rotate_segment` with the stored reference
segment `m_longest` and the bounds of its group, which is the member turned
about its midpoint by the angle that is left to the direction of the
reference (folded angle against the reference within the first bound) or to
the orthogonal direction (folded angle at least the second bound), and left
as it is when its folded angle is between the two bounds; `rotate_contour`
does not change the group table. -/
theorem reference_segment_is_not_rotated (N : Internal) (R : Polygon_regularizer)
    (groups : List (List Nat)) (k i : Nat) (contour : List Segment_2)
    (row : List Nat) (gr : Nat) (skip : Nat × Nat)
    (hrow : groups[k]? = some row) (hgr : row[i]? = some gr)
    (hskip : R.m_skip[gr]? = some skip) (href : k = skip.1 ∧ i = skip.2) :
    (∀ r, rotate_contour N R groups k contour = some r →
      r.1 = groups ∧ r.2[i]? = contour[i]? ∧
      ∀ i1 gr1 skip1 seg longest bounds, i1 < contour.length →
        row[i1]? = some gr1 → R.m_skip[gr1]? = some skip1 →
        ¬ (k = skip1.1 ∧ i1 = skip1.2) → gr1 ≠ npos →
        contour[i1]? = some seg → R.m_longest[gr1]? = some longest →
        R.m_bounds[gr1]? = some bounds →
        r.2[i1]? = some (rotate_segment N R longest bounds seg).2 ∧
        r.2[i1]? = some (snapped_to_reference N R.m_pi longest bounds seg) ∧
        (|folded_angle (angle_to_reference N R.m_pi longest seg)| ≤ bounds.1 →
          ¬ bounds.2 ≤ |folded_angle (angle_to_reference N R.m_pi longest seg)| →
          r.2[i1]? = some
            ⟨N.rotate_point_2
              (remaining_angle (angle_to_reference N R.m_pi longest seg) 180 * R.m_pi / 180)
              (middle_point_2 seg.source seg.target) seg.source,
             N.rotate_point_2
              (remaining_angle (angle_to_reference N R.m_pi longest seg) 180 * R.m_pi / 180)
              (middle_point_2 seg.source seg.target) seg.target⟩) ∧
        (¬ |folded_angle (angle_to_reference N R.m_pi longest seg)| ≤ bounds.1 →
          bounds.2 ≤ |folded_angle (angle_to_reference N R.m_pi longest seg)| →
          r.2[i1]? = some
            ⟨N.rotate_point_2
              (remaining_angle (angle_to_reference N R.m_pi longest seg) 90 * R.m_pi / 180)
              (middle_point_2 seg.source seg.target) seg.source,
             N.rotate_point_2
              (remaining_angle (angle_to_reference N R.m_pi longest seg) 90 * R.m_pi / 180)
              (middle_point_2 seg.source seg.target) seg.target⟩) ∧
        (¬ |folded_angle (angle_to_reference N R.m_pi longest seg)| ≤ bounds.1 →
          ¬ bounds.2 ≤ |folded_angle (angle_to_reference N R.m_pi longest seg)| →
          r.2[i1]? = some seg)) ∧
    (∀ out, correct_contour N R groups k contour = some out → out[i]? = contour[i]?) := by
  constructor
  · intro r hr
    unfold rotate_contour at hr
    have hspec := fun idx => rotate_contour_loop_spec N R k idx (List.range contour.length)
      (groups, contour) r hr
    refine ⟨(hspec i).1, ?_, ?_⟩
    · by_cases hi : i < contour.length
      · obtain ⟨row2, gr2, skip2, e1, e2, e3, e4⟩ :=
          (hspec i).2.2 (List.nodup_range _) (List.mem_range.mpr hi)
        simp only at e1
        rw [hrow] at e1
        cases e1
        rw [hgr] at e2
        cases e2
        rw [hskip] at e3
        cases e3
        rcases e4 with ⟨_, e5⟩ | ⟨e5, _⟩
        · exact e5
        · exact absurd href e5
      · exact (hspec i).2.1 (fun hc => hi (List.mem_range.mp hc))
    · intro i1 gr1 skip1 seg longest bounds hi1 f1 f2 f3 f4 f5 f6 f7
      have hmain : r.2[i1]? = some (rotate_segment N R longest bounds seg).2 := by
        obtain ⟨row2, gr2, skip2, e1, e2, e3, e4⟩ :=
          (hspec i1).2.2 (List.nodup_range _) (List.mem_range.mpr hi1)
        simp only at e1
        rw [hrow] at e1
        cases e1
        rw [f1] at e2
        cases e2
        rw [f2] at e3
        cases e3
        rcases e4 with ⟨e5, _⟩ | ⟨_, _, seg2, longest2, bounds2, g1, g2, g3, g4⟩
        · rcases e5 with e6 | e6
          · exact absurd e6 f3
          · exact absurd e6 f4
        · simp only at g1
          rw [f5] at g1
          cases g1
          rw [f6] at g2
          cases g2
          rw [f7] at g3
          cases g3
          exact g4
      refine ⟨hmain, ?_, ?_, ?_, ?_⟩
      · rw [hmain, rotate_segment_eq_snapped]
      · intro hb1 hb2
        rw [hmain, rotate_segment_eq_snapped]
        unfold snapped_to_reference
        simp only [hb1, hb2, if_true, if_false, turned_about_midpoint]
      · intro hb1 hb2
        rw [hmain, rotate_segment_eq_snapped]
        unfold snapped_to_reference
        simp only [hb1, hb2, if_true, if_false, turned_about_midpoint]
      · intro hb1 hb2
        rw [hmain, rotate_segment_eq_snapped]
        unfold snapped_to_reference
        simp only [hb1, hb2, if_true, if_false]
  · intro out hc
    unfold correct_contour at hc
    refine for_range_invariant (fun (st : List Segment_2) => (st[i]?) = (contour[i]?))
      (correct_contour_body N R groups k) ?_ _ _ _ rfl hc
    intro st j st1 hP hb
    obtain ⟨b1, b2⟩ := correct_contour_body_spec N R groups k st st1 j hb
    by_cases hij : i = j
    · subst hij
      rw [b2 row gr skip hrow hgr hskip href]
      exact hP
    · rw [b1 i hij]
      exact hP

set_option maxRecDepth 100000 in
theorem reference_segment_is_not_rotated_witness :
    example_slanted_regularizer.m_groups[0]? = some [0, 0] ∧
    ([0, 0] : List Nat)[0]? = some 0 ∧
    example_slanted_regularizer.m_skip[0]? = some (0, 0) ∧
    rotate_contour example_turning_internal example_slanted_regularizer
        example_slanted_regularizer.m_groups 0 example_slanted_contour
      = some ([[0, 0]], [⟨⟨0, 0⟩, ⟨10, 0⟩⟩, ⟨⟨19 / 2, 3 / 2⟩, ⟨29 / 2, 3 / 2⟩⟩]) ∧
    ([⟨⟨0, 0⟩, ⟨10, 0⟩⟩, ⟨⟨19 / 2, 3 / 2⟩, ⟨29 / 2, 3 / 2⟩⟩] : List Segment_2)[0]?
      = example_slanted_contour[0]? ∧
    ([⟨⟨0, 0⟩, ⟨10, 0⟩⟩, ⟨⟨19 / 2, 3 / 2⟩, ⟨29 / 2, 3 / 2⟩⟩] : List Segment_2)[1]?
      = some (snapped_to_reference example_turning_internal example_slanted_regularizer.m_pi
          ⟨⟨0, 0⟩, ⟨10, 0⟩⟩ (45, 45) ⟨⟨10, 0⟩, ⟨14, 3⟩⟩) ∧
    snapped_to_reference example_turning_internal example_slanted_regularizer.m_pi
        ⟨⟨0, 0⟩, ⟨10, 0⟩⟩ (45, 45) ⟨⟨10, 0⟩, ⟨14, 3⟩⟩
      = ⟨⟨19 / 2, 3 / 2⟩, ⟨29 / 2, 3 / 2⟩⟩ ∧
    (∀ out, correct_contour example_turning_internal example_slanted_regularizer
        example_slanted_regularizer.m_groups 0 example_slanted_contour = some out →
      out[0]? = example_slanted_contour[0]?) :=
  ⟨by decide!, by decide, by decide!, by decide!,
    ((reference_segment_is_not_rotated example_turning_internal example_slanted_regularizer
      example_slanted_regularizer.m_groups 0 0 example_slanted_contour [0, 0] 0 (0, 0)
      (by decide!) (by decide) (by decide!) (by decide)).1
        ([[0, 0]], [⟨⟨0, 0⟩, ⟨10, 0⟩⟩, ⟨⟨19 / 2, 3 / 2⟩, ⟨29 / 2, 3 / 2⟩⟩]) (by decide!)).2.1,
    (((reference_segment_is_not_rotated example_turning_internal example_slanted_regularizer
      example_slanted_regularizer.m_groups 0 0 example_slanted_contour [0, 0] 0 (0, 0)
      (by decide!) (by decide) (by decide!) (by decide)).1
        ([[0, 0]], [⟨⟨0, 0⟩, ⟨10, 0⟩⟩, ⟨⟨19 / 2, 3 / 2⟩, ⟨29 / 2, 3 / 2⟩⟩]) (by decide!)).2.2
        1 0 (0, 0) ⟨⟨10, 0⟩, ⟨14, 3⟩⟩ ⟨⟨0, 0⟩, ⟨10, 0⟩⟩ (45, 45)
        (by decide) (by decide) (by decide!) (by decide) (by decide) (by decide!)
        (by decide!) (by decide!)).2.1,
    by decide!,
    (reference_segment_is_not_rotated example_turning_internal example_slanted_regularizer
      example_slanted_regularizer.m_groups 0 0 example_slanted_contour [0, 0] 0 (0, 0)
      (by decide!) (by decide) (by decide!) (by decide)).2⟩

end Levels_of_detail
namespace Level_of_detail

/-! ## Containers of the tree -/

theorem map_find_insert {β : Type} (m : List (Int × β)) (k k1 : Int) (v : β) :
    map_find (map_insert m k v) k1 = if k1 = k then some v else map_find m k1 := by
  induction m with
  | nil =>
    simp only [map_insert, map_find]
  | cons e rest ih =>
    obtain ⟨k2, v2⟩ := e
    simp only [map_insert]
    by_cases h1 : k < k2
    · simp only [h1, if_true, map_find]
    · simp only [h1, if_false]
      by_cases h2 : k = k2
      · subst h2
        simp only [if_true, map_find]
        by_cases h3 : k1 = k
        · simp [h3]
        · simp [h3]
      · simp only [h2, if_false, map_find, ih]
        by_cases h3 : k1 = k2
        · have : k1 ≠ k := fun hc => h2 (hc ▸ h3)
          simp [h3, Ne.symm h2]
        · simp [h3]

theorem group_members_push_back (G : Groups_to_segments) (g g1 : Int) (x : Nat) :
    group_members (group_push_back G g x) g1
      = if g1 = g then group_members G g ++ [x] else group_members G g1 := by
  unfold group_push_back
  unfold group_members
  rw [map_find_insert]
  by_cases h : g1 = g
  · simp [h]
  · simp [h]

theorem group_members_clear (G : Groups_to_segments) (g g1 : Int) :
    group_members (group_clear G g) g1 = if g1 = g then [] else group_members G g1 := by
  unfold group_clear
  unfold group_members
  rw [map_find_insert]
  by_cases h : g1 = g
  · simp [h]
  · simp [h]

/-- The loop inside `merge_groups` over a list of members `ms`. -/
theorem merge_loop_spec (g_to : Int) :
    ∀ (ms : List Nat) (s2g : List Int) (G : Groups_to_segments),
      let r := ms.foldl (fun (acc : List Int × Groups_to_segments) (x : Nat) =>
        (acc.1.set x g_to, group_push_back acc.2 g_to x)) (s2g, G)
      r.1.length = s2g.length ∧
      (∀ y, r.1[y]? = if y ∈ ms ∧ y < s2g.length then some g_to else s2g[y]?) ∧
      (∀ g1, group_members r.2 g1
        = if g1 = g_to then group_members G g_to ++ ms else group_members G g1) := by
  intro ms
  induction ms with
  | nil =>
    intro s2g G
    refine ⟨rfl, fun y => by simp, fun g1 => ?_⟩
    by_cases hg : g1 = g_to
    · simp [hg]
    · simp [hg]
  | cons x rest ih =>
    intro s2g G
    simp only [List.foldl_cons]
    obtain ⟨h1, h2, h3⟩ := ih (s2g.set x g_to) (group_push_back G g_to x)
    refine ⟨by simpa using h1, ?_, ?_⟩
    · intro y
      rw [h2 y]
      simp only [List.length_set, List.mem_cons]
      by_cases hy : y ∈ rest ∧ y < s2g.length
      · simp [hy]
      · simp only [hy, if_false]
        by_cases hyx : y = x
        · subst hyx
          by_cases hlt : y < s2g.length
          · simp [List.getElem?_set, hlt]
          · have : s2g[y]? = none := List.getElem?_eq_none (Nat.le_of_not_lt hlt)
            simp [List.getElem?_set, hlt, this]
        · have hne : ¬ ((y = x ∨ y ∈ rest) ∧ y < s2g.length) := by
            rintro ⟨h4 | h4, h5⟩
            · exact hyx h4
            · exact hy ⟨h4, h5⟩
          simp [List.getElem?_set, Ne.symm hyx, hne]
    · intro g1
      rw [h3 g1, group_members_push_back]
      by_cases hg : g1 = g_to
      · simp [hg]
      · simp [hg, group_members_push_back]

/-- What `merge_groups` does: the members of `g_from` get the group `g_to` and
are appended to its list, the list of `g_from` is cleared, nothing else
changes. -/
theorem merge_groups_spec (s2g : List Int) (G : Groups_to_segments) (g_from g_to : Int)
    (hne : g_from ≠ g_to) :
    (merge_groups s2g G g_from g_to).1.length = s2g.length ∧
    (∀ y, (merge_groups s2g G g_from g_to).1[y]?
      = if y ∈ group_members G g_from ∧ y < s2g.length then some g_to else s2g[y]?) ∧
    group_members (merge_groups s2g G g_from g_to).2 g_to
      = group_members G g_to ++ group_members G g_from ∧
    group_members (merge_groups s2g G g_from g_to).2 g_from = [] ∧
    (∀ g1, g1 ≠ g_to → g1 ≠ g_from →
      group_members (merge_groups s2g G g_from g_to).2 g1 = group_members G g1) := by
  obtain ⟨h1, h2, h3⟩ := merge_loop_spec g_to (group_members G g_from) s2g G
  unfold merge_groups
  refine ⟨h1, h2, ?_, ?_, ?_⟩
  · simp only [group_members_clear]
    rw [if_neg (Ne.symm hne), h3 g_to, if_pos rfl]
  · simp only [group_members_clear, if_true]
  · intro g1 hg1 hg2
    simp only [group_members_clear]
    rw [if_neg hg2, h3 g1, if_neg hg1]

end Level_of_detail
namespace Level_of_detail

/-! ## Segment_regularizer_tree : one step of the first pass -/

theorem categorize_entry_counter (T : Segment_regularizer_tree) (n : Nat)
    (st st1 : Categorize_state) (c : Nat × Nat × Int)
    (h : categorize_entry T n st c = some st1) : st1.p = st.p + 1 := by
  unfold categorize_entry at h
  dsimp only at h
  cases ho : T.m_orientations[n + st.p]? with
  | none => simp [ho] at h
  | some x =>
    simp only [ho] at h
    by_cases ht : |x| < T.m_parameters.tolerance
    · simp only [ht, if_true] at h
      cases hi : st.segments_to_groups[c.1]? with
      | none => simp [hi] at h
      | some s_i =>
        cases hj : st.segments_to_groups[c.2.1]? with
        | none => simp [hi, hj] at h
        | some s_j =>
          simp only [hi, hj] at h
          split_ifs at h <;> (simp only [Option.some.injEq] at h; subst h; rfl)
    · simp only [ht, if_false, Option.some.injEq] at h
      subst h
      rfl

/-- C17: a first-pass step of `build_tree` leaves the whole grouping state
(segment-to-group table, every group's member list, the next-group counter
`g`) unchanged in each of these cases: the constraint's correction magnitude
is not below tolerance; `i` and `j` are already in the same group; the
relation is ORTHOGONAL and `i` and `j` are both assigned to different groups.
In these cases, and in every other case in which the step has a result, the
constraint counter `p` advances by exactly one. -/
theorem categorize_entry_no_change (T : Segment_regularizer_tree) (n : Nat)
    (st : Categorize_state) (i j : Nat) (r : Int) :
    (∀ x, T.m_orientations[n + st.p]? = some x → ¬ |x| < T.m_parameters.tolerance →
      categorize_entry T n st (i, j, r) = some { st with p := st.p + 1 }) ∧
    (∀ x s, T.m_orientations[n + st.p]? = some x → |x| < T.m_parameters.tolerance →
      st.segments_to_groups[i]? = some s → st.segments_to_groups[j]? = some s → s ≠ -1 →
      categorize_entry T n st (i, j, r) = some { st with p := st.p + 1 }) ∧
    (∀ x s_i s_j, T.m_orientations[n + st.p]? = some x → |x| < T.m_parameters.tolerance →
      st.segments_to_groups[i]? = some s_i → st.segments_to_groups[j]? = some s_j →
      s_i ≠ -1 → s_j ≠ -1 → s_i ≠ s_j → r = 1 →
      categorize_entry T n st (i, j, r) = some { st with p := st.p + 1 }) ∧
    (∀ st1, categorize_entry T n st (i, j, r) = some st1 → st1.p = st.p + 1) := by
  refine ⟨?_, ?_, ?_, fun st1 h => categorize_entry_counter T n st st1 (i, j, r) h⟩
  · intro x ho ht
    unfold categorize_entry
    simp only [ho, ht, if_false]
  · intro x s ho ht hi hj hs
    unfold categorize_entry
    simp only [ho, ht, if_true, hi, hj, hs, false_and, and_false, if_false, ne_eq,
      not_true_eq_false]
  · intro x s_i s_j ho ht hi hj hsi hsj hne hr
    unfold categorize_entry
    subst hr
    simp only [ho, ht, if_true, hi, hj, hsi, hsj, false_and, and_false, if_false, ne_eq,
      not_false_eq_true, hne, one_ne_zero]

set_option maxRecDepth 100000 in
theorem categorize_entry_no_change_witness :
    example_tree_unassigned.m_orientations[2 + (categorize_start 2).p]? = some 5 ∧
    ¬ |(5 : FT)| < example_tree_unassigned.m_parameters.tolerance ∧
    categorize_entry example_tree_unassigned 2 (categorize_start 2) (0, 1, 0)
      = some { categorize_start 2 with p := (categorize_start 2).p + 1 } :=
  ⟨by decide!, by decide!,
    (categorize_entry_no_change example_tree_unassigned 2 (categorize_start 2) 0 1 0).1 5
      (by decide!) (by decide!)⟩

/-- C16 (amended): in the first pass of `build_tree`, when a PARALLEL
constraint `(i, j)` below tolerance finds `i` and `j` assigned to different
groups, all members of the group of `j` are reassigned into the group of `i`
and appended to its member list, the member list of the group of `j` is
cleared, and nothing else changes but the counter `p`; this is so for either
order of the two group ids. -/
theorem categorize_entry_merges_into_group_of_i (T : Segment_regularizer_tree) (n : Nat)
    (st : Categorize_state) (i j : Nat) (x : FT) (g_i g_j : Int)
    (ho : T.m_orientations[n + st.p]? = some x) (ht : |x| < T.m_parameters.tolerance)
    (hi : st.segments_to_groups[i]? = some g_i) (hj : st.segments_to_groups[j]? = some g_j)
    (hgi : g_i ≠ -1) (hgj : g_j ≠ -1) (hne : g_i ≠ g_j) :
    ∃ st1, categorize_entry T n st (i, j, 0) = some st1 ∧
      st1.g = st.g ∧ st1.p = st.p + 1 ∧
      st1.segments_to_groups.length = st.segments_to_groups.length ∧
      (∀ y, st1.segments_to_groups[y]?
        = if y ∈ group_members st.groups_to_segments g_j ∧ y < st.segments_to_groups.length
          then some g_i else st.segments_to_groups[y]?) ∧
      group_members st1.groups_to_segments g_i
        = group_members st.groups_to_segments g_i ++ group_members st.groups_to_segments g_j ∧
      group_members st1.groups_to_segments g_j = [] ∧
      (∀ g1, g1 ≠ g_i → g1 ≠ g_j →
        group_members st1.groups_to_segments g1 = group_members st.groups_to_segments g1) := by
  obtain ⟨m1, m2, m3, m4, m5⟩ :=
    merge_groups_spec st.segments_to_groups st.groups_to_segments g_j g_i (Ne.symm hne)
  refine ⟨{ st with
      segments_to_groups :=
        (merge_groups st.segments_to_groups st.groups_to_segments g_j g_i).1
      groups_to_segments :=
        (merge_groups st.segments_to_groups st.groups_to_segments g_j g_i).2
      p := st.p + 1 }, ?_, rfl, rfl, m1, m2, m3, m4, m5⟩
  unfold categorize_entry
  simp only [ho, ht, if_true, hi, hj, hgi, hgj, false_and, and_false, if_false, ne_eq,
    not_false_eq_true, hne]

set_option maxRecDepth 100000 in
theorem categorize_entry_merges_into_group_of_i_witness :
    categorize example_tree_merge 4 [(0, 1, 1), (2, 3, 1)] (categorize_start 4)
      = some { segments_to_groups := [0, 1, 2, 3]
               groups_to_segments := [(0, [0]), (1, [1]), (2, [2]), (3, [3])]
               g := 4, p := 2 } ∧
    ∃ st1, categorize_entry example_tree_merge 4
        { segments_to_groups := [0, 1, 2, 3]
          groups_to_segments := [(0, [0]), (1, [1]), (2, [2]), (3, [3])]
          g := 4, p := 2 } (3, 0, 0) = some st1 ∧
      st1.g = 4 ∧ st1.p = 2 + 1 ∧
      st1.segments_to_groups.length = ([0, 1, 2, 3] : List Int).length ∧
      (∀ y, st1.segments_to_groups[y]?
        = if y ∈ group_members [(0, [0]), (1, [1]), (2, [2]), (3, [3])] 0
              ∧ y < ([0, 1, 2, 3] : List Int).length
          then some 3 else ([0, 1, 2, 3] : List Int)[y]?) ∧
      group_members st1.groups_to_segments 3
        = group_members [(0, [0]), (1, [1]), (2, [2]), (3, [3])] 3
          ++ group_members [(0, [0]), (1, [1]), (2, [2]), (3, [3])] 0 ∧
      group_members st1.groups_to_segments 0 = [] ∧
      (∀ g1, g1 ≠ 3 → g1 ≠ 0 →
        group_members st1.groups_to_segments g1
          = group_members [(0, [0]), (1, [1]), (2, [2]), (3, [3])] g1) :=
  ⟨by decide!,
    categorize_entry_merges_into_group_of_i example_tree_merge 4
      { segments_to_groups := [0, 1, 2, 3]
        groups_to_segments := [(0, [0]), (1, [1]), (2, [2]), (3, [3])]
        g := 4, p := 2 } 3 0 0 3 0 (by decide!) (by decide!) (by decide!) (by decide!)
      (by decide) (by decide) (by decide)⟩

set_option maxRecDepth 100000 in
/-- C16 (as stated) fails: with the constraints `0 ⊥ 1`, `0 ∥ 3`, `1 ∥ 3`, the
last constraint `(i, j) = (1, 3)` finds segment 1 in the later group 1 and
segment 3 in the earlier group 0, whose members are 0 and 3; afterwards the
earlier group 0 is empty and its members are in the later group 1, which is
not cleared. -/
theorem categorize_merge_keeps_later_group_counterexample :
    categorize example_tree_merge_earlier 4 [(0, 1, 1), (0, 3, 0)] (categorize_start 4)
      = some { segments_to_groups := [0, 1, -1, 0]
               groups_to_segments := [(0, [0, 3]), (1, [1])]
               g := 2, p := 2 } ∧
    categorize example_tree_merge_earlier 4 example_tree_merge_earlier.m_qp_data
        (categorize_start 4)
      = some { segments_to_groups := [1, 1, -1, 1]
               groups_to_segments := [(0, []), (1, [1, 0, 3])]
               g := 2, p := 3 } ∧
    group_members [(0, []), (1, [1, 0, 3])] 1 ≠ [] ∧
    group_members [(0, []), (1, [1, 0, 3])] 0 = [] :=
  ⟨by decide!, by decide!, by decide!, by decide!⟩

end Level_of_detail
namespace Level_of_detail

/-! ## Segment_regularizer_tree : consistency of the group tables in the first pass -/

theorem group_members_subset_push_back (G : Groups_to_segments) (g g1 : Int) (x : Nat) :
    ∀ y, y ∈ group_members G g1 → y ∈ group_members (group_push_back G g x) g1 := by
  intro y hy
  rw [group_members_push_back]
  by_cases h : g1 = g
  · subst h
    simp [hy]
  · simp [h, hy]

theorem mem_group_members_push_back (G : Groups_to_segments) (g : Int) (x : Nat) :
    x ∈ group_members (group_push_back G g x) g := by
  rw [group_members_push_back]
  simp

/-- Assigning the segment `x0` to the group `g0` keeps the tables consistent
when the member lists only grow and `x0` is a member of `g0` afterwards. -/
theorem consistent_set (s2g : List Int) (G G1 : Groups_to_segments) (x0 : Nat) (g0 : Int)
    (hP : ∀ (x : Nat) (g : Int), s2g[x]? = some g → g ≠ -1 → x ∈ group_members G g)
    (hsub : ∀ g1 y, y ∈ group_members G g1 → y ∈ group_members G1 g1)
    (hmem : x0 ∈ group_members G1 g0) :
    ∀ (x : Nat) (g : Int), (s2g.set x0 g0)[x]? = some g → g ≠ -1 →
      x ∈ group_members G1 g := by
  intro x g hx hg
  by_cases hxx : x0 = x
  · subst hxx
    by_cases hlt : x0 < s2g.length
    · simp [List.getElem?_set, hlt] at hx
      subst hx
      exact hmem
    · simp [List.getElem?_set, hlt] at hx
  · simp [List.getElem?_set, hxx] at hx
    exact hsub g x (hP x g hx hg)

theorem categorize_entry_consistent (T : Segment_regularizer_tree) (n : Nat)
    (st st1 : Categorize_state) (c : Nat × Nat × Int)
    (h : categorize_entry T n st c = some st1) (hc : st.consistent) : st1.consistent := by
  obtain ⟨hg0, hP⟩ := hc
  unfold categorize_entry at h
  dsimp only at h
  cases ho : T.m_orientations[n + st.p]? with
  | none => simp [ho] at h
  | some x =>
    simp only [ho] at h
    by_cases ht : |x| < T.m_parameters.tolerance
    swap
    · simp only [ht, if_false, Option.some.injEq] at h
      subst h
      exact ⟨hg0, hP⟩
    simp only [ht, if_true] at h
    cases hi : st.segments_to_groups[c.1]? with
    | none => simp [hi] at h
    | some s_i =>
      cases hj : st.segments_to_groups[c.2.1]? with
      | none => simp [hi, hj] at h
      | some s_j =>
        simp only [hi, hj] at h
        have hsub1 : ∀ (g : Int) (x : Nat) g1 y, y ∈ group_members st.groups_to_segments g1 →
            y ∈ group_members (group_push_back st.groups_to_segments g x) g1 :=
          fun g x g1 y hy => group_members_subset_push_back _ g g1 x y hy
        have hsub2 : ∀ (g g2 : Int) (x x2 : Nat) g1 y,
            y ∈ group_members st.groups_to_segments g1 →
            y ∈ group_members
              (group_push_back (group_push_back st.groups_to_segments g x) g2 x2) g1 :=
          fun g g2 x x2 g1 y hy =>
            group_members_subset_push_back _ g2 g1 x2 y
              (group_members_subset_push_back _ g g1 x y hy)
        split_ifs at h with h1 h2 h3 h4 h5 h6 h7 h8 h9 h10 h11
        all_goals (simp only [Option.some.injEq] at h; subst h)
        · -- neither assigned, parallel
          refine ⟨by show 0 ≤ st.g + 1; omega, ?_⟩
          show ∀ (x : Nat) (g : Int), ((st.segments_to_groups.set c.2.1 st.g).set c.1 st.g)[x]?
            = some g → g ≠ -1 → x ∈ group_members
              (group_push_back (group_push_back st.groups_to_segments st.g c.1) st.g c.2.1) g
          refine consistent_set _ _ _ c.1 st.g
            (consistent_set _ _ _ c.2.1 st.g hP (hsub2 _ _ _ _) (mem_group_members_push_back _ _ _))
            (fun _ _ hy => hy)
            (group_members_subset_push_back _ _ _ _ _ (mem_group_members_push_back _ _ _))
        · -- neither assigned, orthogonal
          refine ⟨by show 0 ≤ st.g + 1 + 1; omega, ?_⟩
          show ∀ (x : Nat) (g : Int),
            ((st.segments_to_groups.set c.1 st.g).set c.2.1 (st.g + 1))[x]?
            = some g → g ≠ -1 → x ∈ group_members
              (group_push_back (group_push_back st.groups_to_segments st.g c.1)
                (st.g + 1) c.2.1) g
          refine consistent_set _ _ _ c.2.1 (st.g + 1)
            (consistent_set _ _ _ c.1 st.g hP (hsub2 _ _ _ _)
              (group_members_subset_push_back _ _ _ _ _ (mem_group_members_push_back _ _ _)))
            (fun _ _ hy => hy) (mem_group_members_push_back _ _ _)
        · exact ⟨hg0, hP⟩
        · exact ⟨hg0, consistent_set _ _ _ c.1 s_j hP (hsub1 _ _)
            (mem_group_members_push_back _ _ _)⟩
        · exact ⟨by show 0 ≤ st.g + 1; omega, consistent_set _ _ _ c.1 st.g hP (hsub1 _ _)
            (mem_group_members_push_back _ _ _)⟩
        · exact ⟨hg0, hP⟩
        · exact ⟨hg0, consistent_set _ _ _ c.2.1 s_i hP (hsub1 _ _)
            (mem_group_members_push_back _ _ _)⟩
        · exact ⟨by show 0 ≤ st.g + 1; omega, consistent_set _ _ _ c.2.1 st.g hP (hsub1 _ _)
            (mem_group_members_push_back _ _ _)⟩
        · exact ⟨hg0, hP⟩
        · -- both assigned to different groups, parallel: merge
          refine ⟨hg0, ?_⟩
          obtain ⟨m1, m2, m3, m4, m5⟩ :=
            merge_groups_spec st.segments_to_groups st.groups_to_segments s_j s_i
              (fun hc => h10 hc.symm)
          intro y g hy hg
          change (merge_groups st.segments_to_groups st.groups_to_segments s_j s_i).1[y]?
            = some g at hy
          change y ∈ group_members
            (merge_groups st.segments_to_groups st.groups_to_segments s_j s_i).2 g
          rw [m2 y] at hy
          by_cases hm : y ∈ group_members st.groups_to_segments s_j ∧
              y < st.segments_to_groups.length
          · simp only [hm, and_self, if_true, Option.some.injEq] at hy
            subst hy
            rw [m3]
            exact List.mem_append_right _ hm.1
          · simp only [hm, if_false] at hy
            have hold := hP y g hy hg
            by_cases hgi : g = s_i
            · subst hgi
              rw [m3]
              exact List.mem_append_left _ hold
            · by_cases hgj : g = s_j
              · subst hgj
                have hlt : y < st.segments_to_groups.length :=
                  (List.getElem?_eq_some.mp hy).1
                exact absurd ⟨hold, hlt⟩ hm
              · rw [m5 g hgi hgj]
                exact hold
        · exact ⟨hg0, hP⟩
        · exact ⟨hg0, hP⟩

theorem categorize_start_consistent (n : Nat) : (categorize_start n).consistent := by
  refine ⟨le_refl _, ?_⟩
  intro x g hx hg
  unfold categorize_start at hx
  simp only at hx
  rcases List.getElem?_eq_some.mp hx with ⟨hlt, heq⟩
  simp at heq
  exact absurd heq.symm hg

theorem categorize_consistent (T : Segment_regularizer_tree) (n : Nat) :
    ∀ (l : List (Nat × Nat × Int)) (st st1 : Categorize_state),
      categorize T n l st = some st1 → st.consistent → st1.consistent := by
  intro l
  induction l with
  | nil =>
    intro st st1 h hc
    simp only [categorize, Option.some.injEq] at h
    exact h ▸ hc
  | cons c rest ih =>
    intro st st1 h hc
    simp only [categorize] at h
    cases hs : categorize_entry T n st c with
    | none => simp [hs] at h
    | some s2 =>
      simp only [hs] at h
      exact ih s2 st1 h (categorize_entry_consistent T n st s2 c hs hc)

end Level_of_detail
namespace Level_of_detail

theorem getElem?_set_self_of_some (l : List Int) (i : Nat) (a v : Int) (h : l[i]? = some a) :
    (l.set i v)[i]? = some v := by
  have hlt : i < l.length := (List.getElem?_eq_some.mp h).1
  simp [List.getElem?_set, hlt]

theorem getElem?_set_of_ne (l : List Int) (i j : Nat) (v : Int) (h : i ≠ j) :
    (l.set i v)[j]? = l[j]? := by
  simp [List.getElem?_set, h]

/-- C15: in the first pass of `build_tree`, after processing a constraint
`(i, j)` with relation PARALLEL (0) whose correction magnitude is below
tolerance, segments `i` and `j` have the same group id and it is not `-1`,
whichever of the four prior situations held (neither assigned, only `i`
assigned, only `j` assigned, both assigned).  The state `st` is any state the
first pass reaches from its start after a list `pre` of constraints. -/
theorem categorize_entry_parallel_joins (T : Segment_regularizer_tree) (n : Nat)
    (pre : List (Nat × Nat × Int)) (st st1 : Categorize_state) (i j : Nat) (x : FT)
    (hreach : categorize T n pre (categorize_start n) = some st)
    (ho : T.m_orientations[n + st.p]? = some x) (ht : |x| < T.m_parameters.tolerance)
    (h : categorize_entry T n st (i, j, 0) = some st1) :
    ∃ g : Int, g ≠ -1 ∧ st1.segments_to_groups[i]? = some g ∧
      st1.segments_to_groups[j]? = some g := by
  obtain ⟨hg0, hP⟩ :=
    categorize_consistent T n pre _ st hreach (categorize_start_consistent n)
  have hgne : st.g ≠ -1 := by omega
  unfold categorize_entry at h
  dsimp only at h
  simp only [ho, ht, if_true] at h
  cases hi : st.segments_to_groups[i]? with
  | none => simp [hi] at h
  | some s_i =>
    cases hj : st.segments_to_groups[j]? with
    | none => simp [hi, hj] at h
    | some s_j =>
      simp only [hi, hj, if_true] at h
      by_cases h1 : s_i = -1 ∧ s_j = -1
      · simp only [h1, and_self, if_true, Option.some.injEq] at h
        subst h
        refine ⟨st.g, hgne, ?_, ?_⟩
        · show ((st.segments_to_groups.set j st.g).set i st.g)[i]? = some st.g
          have hi2 : (st.segments_to_groups.set j st.g)[i]? = some (if j = i then st.g else s_i) := by
            by_cases hji : j = i
            · subst hji
              simp [getElem?_set_self_of_some _ _ _ _ hj]
            · simp [getElem?_set_of_ne _ _ _ _ hji, hi, hji]
          exact getElem?_set_self_of_some _ _ _ _ hi2
        · show ((st.segments_to_groups.set j st.g).set i st.g)[j]? = some st.g
          by_cases hij : i = j
          · subst hij
            have hi2 := getElem?_set_self_of_some _ _ _ st.g hj
            exact getElem?_set_self_of_some _ _ _ _ hi2
          · rw [getElem?_set_of_ne _ _ _ _ hij]
            exact getElem?_set_self_of_some _ _ _ _ hj
      · simp only [h1, if_false] at h
        by_cases h2 : s_i = -1 ∧ s_j ≠ -1
        · simp only [h2, ne_eq, not_false_eq_true, and_self, if_true, Option.some.injEq] at h
          subst h
          have hij : i ≠ j := by
            intro hc
            subst hc
            rw [hi] at hj
            cases hj
            exact h2.2 h2.1
          refine ⟨s_j, h2.2, getElem?_set_self_of_some _ _ _ _ hi, ?_⟩
          show (st.segments_to_groups.set i s_j)[j]? = some s_j
          rw [getElem?_set_of_ne _ _ _ _ hij]
          exact hj
        · simp only [h2, if_false] at h
          by_cases h3 : s_i ≠ -1 ∧ s_j = -1
          · simp only [h3, ne_eq, not_false_eq_true, and_self, if_true, Option.some.injEq] at h
            subst h
            have hji : j ≠ i := by
              intro hc
              subst hc
              rw [hi] at hj
              cases hj
              exact h3.1 h3.2
            refine ⟨s_i, h3.1, ?_, getElem?_set_self_of_some _ _ _ _ hj⟩
            show (st.segments_to_groups.set j s_i)[i]? = some s_i
            rw [getElem?_set_of_ne _ _ _ _ hji]
            exact hi
          · simp only [h3, if_false] at h
            have hsi : s_i ≠ -1 := by
              intro hc
              by_cases hsj : s_j = -1
              · exact h1 ⟨hc, hsj⟩
              · exact h2 ⟨hc, hsj⟩
            have hsj : s_j ≠ -1 := by
              intro hc
              exact h3 ⟨hsi, hc⟩
            by_cases h4 : s_i ≠ s_j
            · simp only [h4, ne_eq, not_false_eq_true, if_true, Option.some.injEq] at h
              subst h
              obtain ⟨_, m2, _, _, _⟩ :=
                merge_groups_spec st.segments_to_groups st.groups_to_segments s_j s_i
                  (fun hc => h4 hc.symm)
              refine ⟨s_i, hsi, ?_, ?_⟩
              · show (merge_groups st.segments_to_groups st.groups_to_segments s_j s_i).1[i]?
                  = some s_i
                rw [m2 i]
                split_ifs
                · rfl
                · exact hi
              · show (merge_groups st.segments_to_groups st.groups_to_segments s_j s_i).1[j]?
                  = some s_i
                rw [m2 j]
                have hmem := hP j s_j hj hsj
                have hlt : j < st.segments_to_groups.length := (List.getElem?_eq_some.mp hj).1
                simp [hmem, hlt]
            · have h5 : s_i = s_j := not_not.mp h4
              simp only [h5, ne_eq, not_true_eq_false, if_false, Option.some.injEq] at h
              subst h
              exact ⟨s_i, hsi, hi, by rw [h5]; exact hj⟩

set_option maxRecDepth 100000 in
theorem categorize_entry_parallel_joins_witness :
    categorize example_tree_merge 4 [(0, 1, 1), (2, 3, 1)] (categorize_start 4)
      = some { segments_to_groups := [0, 1, 2, 3]
               groups_to_segments := [(0, [0]), (1, [1]), (2, [2]), (3, [3])]
               g := 4, p := 2 } ∧
    categorize_entry example_tree_merge 4
        { segments_to_groups := [0, 1, 2, 3]
          groups_to_segments := [(0, [0]), (1, [1]), (2, [2]), (3, [3])]
          g := 4, p := 2 } (3, 0, 0)
      = some { segments_to_groups := [3, 1, 2, 3]
               groups_to_segments := [(0, []), (1, [1]), (2, [2]), (3, [3, 0])]
               g := 4, p := 3 } ∧
    ∃ g : Int, g ≠ -1 ∧ ([3, 1, 2, 3] : List Int)[3]? = some g ∧
      ([3, 1, 2, 3] : List Int)[0]? = some g :=
  ⟨by decide!, by decide!,
    categorize_entry_parallel_joins example_tree_merge 4 [(0, 1, 1), (2, 3, 1)]
      { segments_to_groups := [0, 1, 2, 3]
        groups_to_segments := [(0, [0]), (1, [1]), (2, [2]), (3, [3])]
        g := 4, p := 2 }
      { segments_to_groups := [3, 1, 2, 3]
        groups_to_segments := [(0, []), (1, [1]), (2, [2]), (3, [3, 0])]
        g := 4, p := 3 } 3 0 0 (by decide!) (by decide!) (by decide!) (by decide!)⟩

end Level_of_detail
namespace Level_of_detail

/-! ## Segment_regularizer_tree : the angle registered in the second pass -/

/-- C18 (amended): for every group registered in the second pass of
`build_tree` from a segment with orientation `o` in `[0, 180)` and correction
`c` with `|c| < 180`, the registered representative angle `theta` equals
`o + c` modulo 180 and satisfies `0 <= theta <= 180`; it is below 180 except
when `o + c = 180`, which is registered as 180. -/
theorem register_angle_theta_range (T : Segment_regularizer_tree) (st : Angles_state) (i : Nat)
    (g_i : Int) (o c : FT)
    (hg : st.segments_to_groups[i]? = some g_i) (hgi : g_i ≠ -1)
    (hnew : map_find st.angles g_i = none)
    (ho : T.m_segments[i]? = some o) (hc : T.m_orientations[i]? = some c)
    (hfar : close_angle st.angles (group_theta o c) T.m_parameters.epsilon = -1)
    (ho0 : 0 ≤ o) (ho180 : o < 180) (hc180 : |c| < 180) :
    register_angle T st i
      = some { st with angles := map_insert st.angles g_i (group_theta o c) } ∧
    map_find (map_insert st.angles g_i (group_theta o c)) g_i = some (group_theta o c) ∧
    0 ≤ group_theta o c ∧ group_theta o c ≤ 180 ∧
    (∃ k : Int, group_theta o c = o + c + 180 * (k : FT)) ∧
    (group_theta o c = 180 ↔ o + c = 180) := by
  have hc1 := (abs_lt.mp hc180).1
  have hc2 := (abs_lt.mp hc180).2
  refine ⟨?_, ?_, ?_, ?_, ?_, ?_⟩
  · unfold register_angle
    simp only [hg, hgi, ne_eq, not_false_eq_true, if_true, hnew, Option.isNone_none, ho, hc,
      hfar]
  · rw [map_find_insert]
    simp
  · unfold group_theta
    dsimp only
    split_ifs <;> linarith
  · unfold group_theta
    dsimp only
    split_ifs <;> linarith
  · unfold group_theta
    dsimp only
    split_ifs
    · exact ⟨1, by push_cast; ring⟩
    · exact ⟨-1, by push_cast; ring⟩
    · exact ⟨0, by push_cast; ring⟩
  · unfold group_theta
    dsimp only
    split_ifs with h1 h2
    · constructor <;> intro h <;> linarith
    · constructor <;> intro h <;> linarith
    · exact Iff.rfl

set_option maxRecDepth 100000 in
theorem register_angle_theta_range_witness :
    register_angle example_tree
        { segments_to_groups := [0, 0, 1, -1]
          groups_to_segments := [(0, [0, 1]), (1, [2])], angles := [(0, 0)] } 2
      = some { segments_to_groups := [0, 0, 1, -1]
               groups_to_segments := [(0, [0, 1]), (1, [2])]
               angles := map_insert [(0, 0)] 1 (group_theta 88 2) } ∧
    map_find (map_insert [(0, 0)] 1 (group_theta 88 2)) 1 = some (group_theta 88 2) ∧
    0 ≤ group_theta 88 2 ∧ group_theta 88 2 ≤ 180 ∧
    (∃ k : Int, group_theta 88 2 = 88 + 2 + 180 * (k : FT)) ∧
    (group_theta 88 2 = 180 ↔ (88 : FT) + 2 = 180) :=
  register_angle_theta_range example_tree
    { segments_to_groups := [0, 0, 1, -1]
      groups_to_segments := [(0, [0, 1]), (1, [2])], angles := [(0, 0)] } 2 1 88 2
    (by decide!) (by decide) (by decide!) (by decide!) (by decide!) (by decide!)
    (by decide!) (by decide!) (by decide!)

set_option maxRecDepth 100000 in
/-- C18 (as stated) fails: a segment with orientation 170 and correction 10
registers the angle 180, which is not below 180. -/
theorem register_angle_half_turn_counterexample :
    (0 : FT) ≤ 170 ∧ (170 : FT) < 180 ∧ |(10 : FT)| < 180 ∧
    build_tree example_tree_half_turn
      = some { segments_to_groups := [0, 0]
               groups_to_segments := [(0, [0, 1])]
               angles := [(0, 180)]
               m_parallel_segments := [(180, [0, 1])] } ∧
    group_theta 170 10 = 180 ∧ ¬ (group_theta 170 10 < 180) :=
  ⟨by decide!, by decide!, by decide!, by decide!, by decide!, by decide!⟩

end Level_of_detail
/-! ## Loops over a range -/

theorem for_range_append {σ : Type} (body : σ → Nat → Option σ) :
    ∀ (l1 l2 : List Nat) (st : σ),
      for_range body (l1 ++ l2) st
        = match for_range body l1 st with
          | some s => for_range body l2 s
          | none => none := by
  intro l1
  induction l1 with
  | nil => intro l2 st; rfl
  | cons i rest ih =>
    intro l2 st
    simp only [List.cons_append, for_range]
    cases hb : body st i with
    | none => rfl
    | some s => exact ih l2 s

/-- A loop `for (i = 0; i < n; ++i)` keeps an invariant that may depend on the
number of iterations done. -/
theorem for_range_range_invariant {σ : Type} (Q : Nat → σ → Prop) (body : σ → Nat → Option σ)
    (n : Nat)
    (hbody : ∀ k st st1, k < n → Q k st → body st k = some st1 → Q (k + 1) st1) :
    ∀ k, k ≤ n → ∀ st st1, Q 0 st → for_range body (List.range k) st = some st1 → Q k st1 := by
  intro k
  induction k with
  | zero =>
    intro _ st st1 h0 h
    simp only [List.range_zero, for_range, Option.some.injEq] at h
    exact h ▸ h0
  | succ k ih =>
    intro hk st st1 h0 h
    rw [List.range_succ, for_range_append] at h
    cases hp : for_range body (List.range k) st with
    | none => simp [hp] at h
    | some s =>
      simp only [hp, for_range] at h
      cases hb : body s k with
      | none => simp [hb] at h
      | some s2 =>
        simp only [hb, Option.some.injEq] at h
        subst h
        exact hbody k s s2 (by omega) (ih (by omega) st s h0 hp) hb

namespace Level_of_detail

/-! ## Containers of the tree : keys and order -/

theorem map_find_eq_none {β : Type} (m : List (Int × β)) (k : Int) :
    map_find m k = none ↔ k ∉ map_keys m := by
  induction m with
  | nil => simp [map_find, map_keys]
  | cons e rest ih =>
    obtain ⟨k1, v1⟩ := e
    simp only [map_find, map_keys, List.map_cons, List.mem_cons, not_or]
    by_cases h : k = k1
    · simp [h]
    · simp only [h, if_false, not_false_eq_true, true_and]
      exact ih

theorem map_keys_insert {β : Type} (m : List (Int × β)) (k : Int) (v : β) (k1 : Int) :
    k1 ∈ map_keys (map_insert m k v) ↔ k1 = k ∨ k1 ∈ map_keys m := by
  induction m with
  | nil => simp [map_insert, map_keys]
  | cons e rest ih =>
    obtain ⟨k2, v2⟩ := e
    simp only [map_insert]
    by_cases h1 : k < k2
    · simp [h1, map_keys]
    · simp only [h1, if_false]
      by_cases h2 : k = k2
      · subst h2
        simp [map_keys]
      · simp only [h2, if_false]
        have ih2 : k1 ∈ List.map Prod.fst (map_insert rest k v)
            ↔ k1 = k ∨ k1 ∈ List.map Prod.fst rest := ih
        simp only [map_keys, List.map_cons, List.mem_cons, ih2]
        tauto

theorem map_keys_insert_sorted {β : Type} (m : List (Int × β)) (k : Int) (v : β)
    (h : (map_keys m).Pairwise (· < ·)) : (map_keys (map_insert m k v)).Pairwise (· < ·) := by
  induction m with
  | nil => simp [map_insert, map_keys]
  | cons e rest ih =>
    obtain ⟨k2, v2⟩ := e
    have h0 : (k2 :: map_keys rest).Pairwise (· < ·) := h
    obtain ⟨hhead, htail⟩ := List.pairwise_cons.mp h0
    simp only [map_insert]
    by_cases h1 : k < k2
    · simp only [h1, if_true]
      show (k :: k2 :: map_keys rest).Pairwise (· < ·)
      refine List.pairwise_cons.mpr ⟨?_, h0⟩
      intro a ha
      rcases List.mem_cons.mp ha with ha1 | ha1
      · rw [ha1]; exact h1
      · exact lt_trans h1 (hhead a ha1)
    · simp only [h1, if_false]
      by_cases h2 : k = k2
      · subst h2
        simp only [if_true]
        exact h0
      · simp only [h2, if_false]
        show (k2 :: map_keys (map_insert rest k v)).Pairwise (· < ·)
        refine List.pairwise_cons.mpr ⟨?_, ih htail⟩
        intro a ha
        rcases (map_keys_insert rest k v a).mp ha with ha1 | ha1
        · rw [ha1]
          exact lt_of_le_of_ne (not_lt.mp h1) (Ne.symm h2)
        · exact hhead a ha1

theorem map_keys_le_last {β : Type} (m : List (Int × β)) (last : Int × β)
    (h : (map_keys m).Pairwise (· < ·)) (hlast : m.getLast? = some last) :
    ∀ k ∈ map_keys m, k ≤ last.1 := by
  induction m with
  | nil => simp at hlast
  | cons e rest ih =>
    have h0 : (e.1 :: map_keys rest).Pairwise (· < ·) := h
    obtain ⟨hhead, htail⟩ := List.pairwise_cons.mp h0
    cases rest with
    | nil =>
      simp only [List.getLast?_singleton, Option.some.injEq] at hlast
      subst hlast
      intro k hk
      simp [map_keys] at hk
      exact le_of_eq hk
    | cons e2 rest2 =>
      have hlast2 : (e2 :: rest2).getLast? = some last := by
        rw [List.getLast?_cons_cons] at hlast
        exact hlast
      have ih2 := ih htail hlast2
      intro k hk
      have hk2 : k = e.1 ∨ k ∈ map_keys (e2 :: rest2) := List.mem_cons.mp hk
      rcases hk2 with hk3 | hk3
      · have hl : last.1 ∈ map_keys (e2 :: rest2) :=
          List.mem_map.mpr ⟨last, List.mem_of_getLast?_eq_some hlast2, rfl⟩
        rw [hk3]
        exact le_of_lt (hhead _ hl)
      · exact ih2 k hk3

theorem close_angle_key (angles : Angles) (theta theta_eps : FT) :
    close_angle angles theta theta_eps = -1 ∨
      close_angle angles theta theta_eps ∈ map_keys angles := by
  unfold close_angle
  have key : ∀ (l : Angles) (init : Int),
      l.foldl (fun (g_j : Int) (e : Int × FT) =>
        if |e.2 - theta| < theta_eps then e.1 else g_j) init = init ∨
      l.foldl (fun (g_j : Int) (e : Int × FT) =>
        if |e.2 - theta| < theta_eps then e.1 else g_j) init ∈ map_keys l := by
    intro l
    induction l with
    | nil => intro init; exact Or.inl rfl
    | cons e rest ih =>
      intro init
      simp only [List.foldl_cons]
      rcases ih (if |e.2 - theta| < theta_eps then e.1 else init) with h | h
      · rw [h]
        split_ifs
        · exact Or.inr (List.mem_cons_self _ _)
        · exact Or.inl rfl
      · exact Or.inr (List.mem_cons_of_mem _ h)
  exact key angles (-1)

/-- The search of the third pass returns the key of the first registered angle
that matches, when no key is `-1`. -/
theorem matching_angle_spec (alpha theta_eps : FT) :
    ∀ (angles : Angles), (∀ k ∈ map_keys angles, k ≠ -1) →
      ((∀ e ∈ angles, ¬ angle_matches alpha theta_eps e.2) ∧
        matching_angle alpha theta_eps angles = -1) ∨
      ∃ pre g a post, angles = pre ++ (g, a) :: post ∧ angle_matches alpha theta_eps a ∧
        (∀ e ∈ pre, ¬ angle_matches alpha theta_eps e.2) ∧
        matching_angle alpha theta_eps angles = g := by
  intro angles
  induction angles with
  | nil =>
    intro _
    exact Or.inl ⟨fun e he => absurd he (List.not_mem_nil e), rfl⟩
  | cons e rest ih =>
    intro hk
    obtain ⟨key, alpha_j⟩ := e
    have hkey : key ≠ -1 := hk key (List.mem_cons_self _ _)
    have hrest : ∀ k ∈ map_keys rest, k ≠ -1 := fun k h => hk k (List.mem_cons_of_mem _ h)
    by_cases hm : angle_matches alpha theta_eps alpha_j
    · right
      refine ⟨[], key, alpha_j, rest, rfl, hm, fun e he => absurd he (List.not_mem_nil e), ?_⟩
      have hm2 : |alpha_j - alpha + (-1) * 180| < theta_eps ∨
          |alpha_j - alpha + 0 * 180| < theta_eps ∨ |alpha_j - alpha + 1 * 180| < theta_eps := hm
      simp only [matching_angle, hm2, if_true, hkey, ne_eq, not_false_eq_true]
    · have hm2 : ¬ (|alpha_j - alpha + (-1) * 180| < theta_eps ∨
          |alpha_j - alpha + 0 * 180| < theta_eps ∨ |alpha_j - alpha + 1 * 180| < theta_eps) := hm
      have hstep : matching_angle alpha theta_eps ((key, alpha_j) :: rest)
          = matching_angle alpha theta_eps rest := by
        simp only [matching_angle, hm2, if_false]
      rcases ih hrest with ⟨h1, h2⟩ | ⟨pre, g, a, post, h1, h2, h3, h4⟩
      · left
        refine ⟨?_, by rw [hstep, h2]⟩
        intro e he
        rcases List.mem_cons.mp he with he1 | he1
        · rw [he1]; exact hm
        · exact h1 e he1
      · right
        refine ⟨(key, alpha_j) :: pre, g, a, post, by rw [h1]; rfl, h2, ?_, by rw [hstep, h4]⟩
        intro e he
        rcases List.mem_cons.mp he with he1 | he1
        · rw [he1]; exact hm
        · exact h3 e he1

end Level_of_detail
namespace Level_of_detail

/-! ## Segment_regularizer_tree : the group tables stay in agreement -/

theorem tables_ok_assign (s2g : List Int) (G : Groups_to_segments) (x0 : Nat) (g0 : Int)
    (h : Tables_ok s2g G) (hx : s2g[x0]? = some (-1)) (hg : 0 ≤ g0) :
    Tables_ok (s2g.set x0 g0) (group_push_back G g0 x0) := by
  have hold : ∀ (x : Nat) (g : Int), x ∈ group_members G g → x ≠ x0 := by
    intro x g hm hc
    subst hc
    have h1 := h.bwd x g hm
    rw [hx] at h1
    have h2 := h.ids x g hm
    cases h1
    omega
  refine ⟨?_, ?_, ?_⟩
  · exact consistent_set s2g G _ x0 g0 h.fwd
      (fun g1 y hy => group_members_subset_push_back G g0 g1 x0 y hy)
      (mem_group_members_push_back G g0 x0)
  · intro x g hm
    rw [group_members_push_back] at hm
    by_cases hgg : g = g0
    · subst hgg
      simp only [if_true, List.mem_append, List.mem_singleton] at hm
      rcases hm with hm1 | hm1
      · rw [getElem?_set_of_ne _ _ _ _ (Ne.symm (hold x g hm1))]
        exact h.bwd x g hm1
      · subst hm1
        exact getElem?_set_self_of_some _ _ _ _ hx
    · simp only [hgg, if_false] at hm
      rw [getElem?_set_of_ne _ _ _ _ (Ne.symm (hold x g hm))]
      exact h.bwd x g hm
  · intro x g hm
    rw [group_members_push_back] at hm
    by_cases hgg : g = g0
    · subst hgg
      exact hg
    · simp only [hgg, if_false] at hm
      exact h.ids x g hm

theorem tables_ok_merge (s2g : List Int) (G : Groups_to_segments) (g_from g_to : Int)
    (h : Tables_ok s2g G) (hne : g_from ≠ g_to) (hto : 0 ≤ g_to) :
    Tables_ok (merge_groups s2g G g_from g_to).1 (merge_groups s2g G g_from g_to).2 := by
  obtain ⟨m1, m2, m3, m4, m5⟩ := merge_groups_spec s2g G g_from g_to hne
  have hmem : ∀ (g : Int) (y : Nat), y ∈ group_members (merge_groups s2g G g_from g_to).2 g →
      (g = g_to ∧ (y ∈ group_members G g_to ∨ y ∈ group_members G g_from)) ∨
      (g ≠ g_to ∧ g ≠ g_from ∧ y ∈ group_members G g) := by
    intro g y hy
    by_cases hg1 : g = g_to
    · subst hg1
      rw [m3] at hy
      exact Or.inl ⟨rfl, List.mem_append.mp hy⟩
    · by_cases hg2 : g = g_from
      · subst hg2
        rw [m4] at hy
        exact absurd hy (List.not_mem_nil y)
      · rw [m5 g hg1 hg2] at hy
        exact Or.inr ⟨hg1, hg2, hy⟩
  refine ⟨?_, ?_, ?_⟩
  · intro y g hy hg
    rw [m2 y] at hy
    by_cases hm : y ∈ group_members G g_from ∧ y < s2g.length
    · simp only [hm, and_self, if_true, Option.some.injEq] at hy
      subst hy
      rw [m3]
      exact List.mem_append_right _ hm.1
    · simp only [hm, if_false] at hy
      have hold := h.fwd y g hy hg
      by_cases hgi : g = g_to
      · subst hgi
        rw [m3]
        exact List.mem_append_left _ hold
      · by_cases hgj : g = g_from
        · subst hgj
          exact absurd ⟨hold, (List.getElem?_eq_some.mp hy).1⟩ hm
        · rw [m5 g hgi hgj]
          exact hold
  · intro y g hy
    rw [m2 y]
    rcases hmem g y hy with ⟨hg, hy1 | hy1⟩ | ⟨hg1, hg2, hy1⟩
    · subst hg
      have hb := h.bwd y g hy1
      split_ifs
      · rfl
      · exact hb
    · subst hg
      have hb := h.bwd y g_from hy1
      have hlt : y < s2g.length := (List.getElem?_eq_some.mp hb).1
      simp [hy1, hlt]
    · have hb := h.bwd y g hy1
      have hnot : ¬ (y ∈ group_members G g_from ∧ y < s2g.length) := by
        rintro ⟨hc, _⟩
        have hb2 := h.bwd y g_from hc
        rw [hb] at hb2
        cases hb2
        exact hg2 rfl
      simp only [hnot, if_false]
      exact hb
  · intro y g hy
    rcases hmem g y hy with ⟨hg, _⟩ | ⟨_, _, hy1⟩
    · rw [hg]; exact hto
    · exact h.ids y g hy1

theorem categorize_start_ok (n : Nat) : Categorize_ok n (categorize_start n) := by
  refine ⟨⟨?_, ?_, ?_⟩, le_refl _, ?_, ?_⟩
  · exact (categorize_start_consistent n).2
  · intro x g hx
    simp [categorize_start, group_members, map_find] at hx
  · intro x g hx
    simp [categorize_start, group_members, map_find] at hx
  · intro x g hx
    simp [categorize_start, group_members, map_find] at hx
  · simp [categorize_start]

theorem categorize_entry_ok (T : Segment_regularizer_tree) (n : Nat)
    (st st1 : Categorize_state) (c : Nat × Nat × Int) (hij : c.1 ≠ c.2.1)
    (h : categorize_entry T n st c = some st1) (hc : Categorize_ok n st) :
    Categorize_ok n st1 := by
  obtain ⟨htab, hg0, hbelow, hsize⟩ := hc
  have hnew : ∀ (G : Groups_to_segments) (g g1 : Int) (x y : Nat) (b : Int),
      (∀ (x1 : Nat) (g2 : Int), x1 ∈ group_members G g2 → g2 < b) → g < b →
      y ∈ group_members (group_push_back G g x) g1 → g1 < b := by
    intro G g g1 x y b hb hgb hy
    rw [group_members_push_back] at hy
    by_cases hgg : g1 = g
    · rw [hgg]; exact hgb
    · simp only [hgg, if_false] at hy
      exact hb y g1 hy
  unfold categorize_entry at h
  dsimp only at h
  cases ho : T.m_orientations[n + st.p]? with
  | none => simp [ho] at h
  | some x =>
    simp only [ho] at h
    by_cases ht : |x| < T.m_parameters.tolerance
    swap
    · simp only [ht, if_false, Option.some.injEq] at h
      subst h
      exact ⟨htab, hg0, hbelow, hsize⟩
    simp only [ht, if_true] at h
    cases hi : st.segments_to_groups[c.1]? with
    | none => simp [hi] at h
    | some s_i =>
      cases hj : st.segments_to_groups[c.2.1]? with
      | none => simp [hi, hj] at h
      | some s_j =>
        simp only [hi, hj] at h
        have hassigned : ∀ (y : Nat) (s : Int), st.segments_to_groups[y]? = some s → s ≠ -1 →
            0 ≤ s ∧ s < st.g := by
          intro y s hy hs
          have hm := htab.fwd y s hy hs
          exact ⟨htab.ids y s hm, hbelow y s hm⟩
        split_ifs at h with h1 h2 h3 h4 h5 h6 h7 h8 h9 h10 h11
        all_goals (simp only [Option.some.injEq] at h; subst h)
        · -- neither assigned, parallel
          have hi1 : st.segments_to_groups[c.1]? = some (-1) := by rw [hi, h1.1]
          have hj1 : st.segments_to_groups[c.2.1]? = some (-1) := by rw [hj, h1.2]
          have t1 := tables_ok_assign _ _ c.1 st.g htab hi1 hg0
          have hj2 : (st.segments_to_groups.set c.1 st.g)[c.2.1]? = some (-1) := by
            rw [getElem?_set_of_ne _ _ _ _ hij]; exact hj1
          have t2 := tables_ok_assign _ _ c.2.1 st.g t1 hj2 hg0
          have hcomm : (st.segments_to_groups.set c.2.1 st.g).set c.1 st.g
              = (st.segments_to_groups.set c.1 st.g).set c.2.1 st.g :=
            List.set_comm _ _ _ (Ne.symm hij)
          refine ⟨?_, by show 0 ≤ st.g + 1; omega, ?_, ?_⟩
          · show Tables_ok ((st.segments_to_groups.set c.2.1 st.g).set c.1 st.g)
              (group_push_back (group_push_back st.groups_to_segments st.g c.1) st.g c.2.1)
            rw [hcomm]
            exact t2
          · intro y g hy
            show g < st.g + 1
            refine hnew _ st.g g c.2.1 y (st.g + 1) ?_ (by omega) hy
            intro x1 g2 hx1
            exact hnew _ st.g g2 c.1 x1 (st.g + 1)
              (fun x2 g3 hx2 => by have := hbelow x2 g3 hx2; omega) (by omega) hx1
          · show ((st.segments_to_groups.set c.2.1 st.g).set c.1 st.g).length = n
            simp [hsize]
        · -- neither assigned, orthogonal
          have hi1 : st.segments_to_groups[c.1]? = some (-1) := by rw [hi, h1.1]
          have hj1 : st.segments_to_groups[c.2.1]? = some (-1) := by rw [hj, h1.2]
          have t1 := tables_ok_assign _ _ c.1 st.g htab hi1 hg0
          have hj2 : (st.segments_to_groups.set c.1 st.g)[c.2.1]? = some (-1) := by
            rw [getElem?_set_of_ne _ _ _ _ hij]; exact hj1
          have t2 := tables_ok_assign _ _ c.2.1 (st.g + 1) t1 hj2 (by omega)
          refine ⟨t2, by show 0 ≤ st.g + 1 + 1; omega, ?_, ?_⟩
          · intro y g hy
            show g < st.g + 1 + 1
            refine hnew _ (st.g + 1) g c.2.1 y (st.g + 1 + 1) ?_ (by omega) hy
            intro x1 g2 hx1
            exact hnew _ st.g g2 c.1 x1 (st.g + 1 + 1)
              (fun x2 g3 hx2 => by have := hbelow x2 g3 hx2; omega) (by omega) hx1
          · show ((st.segments_to_groups.set c.1 st.g).set c.2.1 (st.g + 1)).length = n
            simp [hsize]
        · exact ⟨htab, hg0, hbelow, hsize⟩
        · -- only j assigned, parallel
          have hi1 : st.segments_to_groups[c.1]? = some (-1) := by rw [hi, h4.1]
          obtain ⟨a1, a2⟩ := hassigned c.2.1 s_j hj h4.2
          refine ⟨tables_ok_assign _ _ c.1 s_j htab hi1 a1, hg0, ?_, ?_⟩
          · intro y g hy
            exact hnew _ s_j g c.1 y st.g hbelow a2 hy
          · show (st.segments_to_groups.set c.1 s_j).length = n
            simp [hsize]
        · -- only j assigned, orthogonal
          have hi1 : st.segments_to_groups[c.1]? = some (-1) := by rw [hi, h4.1]
          refine ⟨tables_ok_assign _ _ c.1 st.g htab hi1 hg0, by show 0 ≤ st.g + 1; omega,
            ?_, ?_⟩
          · intro y g hy
            show g < st.g + 1
            exact hnew _ st.g g c.1 y (st.g + 1)
              (fun x2 g3 hx2 => by have := hbelow x2 g3 hx2; omega) (by omega) hy
          · show (st.segments_to_groups.set c.1 st.g).length = n
            simp [hsize]
        · exact ⟨htab, hg0, hbelow, hsize⟩
        · -- only i assigned, parallel
          have hj1 : st.segments_to_groups[c.2.1]? = some (-1) := by rw [hj, h7.2]
          obtain ⟨a1, a2⟩ := hassigned c.1 s_i hi h7.1
          refine ⟨tables_ok_assign _ _ c.2.1 s_i htab hj1 a1, hg0, ?_, ?_⟩
          · intro y g hy
            exact hnew _ s_i g c.2.1 y st.g hbelow a2 hy
          · show (st.segments_to_groups.set c.2.1 s_i).length = n
            simp [hsize]
        · -- only i assigned, orthogonal
          have hj1 : st.segments_to_groups[c.2.1]? = some (-1) := by rw [hj, h7.2]
          refine ⟨tables_ok_assign _ _ c.2.1 st.g htab hj1 hg0, by show 0 ≤ st.g + 1; omega,
            ?_, ?_⟩
          · intro y g hy
            show g < st.g + 1
            exact hnew _ st.g g c.2.1 y (st.g + 1)
              (fun x2 g3 hx2 => by have := hbelow x2 g3 hx2; omega) (by omega) hy
          · show (st.segments_to_groups.set c.2.1 st.g).length = n
            simp [hsize]
        · exact ⟨htab, hg0, hbelow, hsize⟩
        · -- both assigned to different groups, parallel: merge
          have hsi : s_i ≠ -1 := by
            intro hc
            by_cases hsj : s_j = -1
            · exact h1 ⟨hc, hsj⟩
            · exact h4 ⟨hc, hsj⟩
          obtain ⟨a1, a2⟩ := hassigned c.1 s_i hi hsi
          obtain ⟨m1, _, m3, m4, m5⟩ :=
            merge_groups_spec st.segments_to_groups st.groups_to_segments s_j s_i
              (fun hc => h10 hc.symm)
          refine ⟨tables_ok_merge _ _ s_j s_i htab (fun hc => h10 hc.symm) a1, hg0, ?_, ?_⟩
          · intro y g hy
            change y ∈ group_members
              (merge_groups st.segments_to_groups st.groups_to_segments s_j s_i).2 g at hy
            by_cases hg1 : g = s_i
            · rw [hg1]; exact a2
            · by_cases hg2 : g = s_j
              · subst hg2
                rw [m4] at hy
                exact absurd hy (List.not_mem_nil y)
              · rw [m5 g hg1 hg2] at hy
                exact hbelow y g hy
          · show (merge_groups st.segments_to_groups st.groups_to_segments s_j s_i).1.length = n
            rw [m1]; exact hsize
        · exact ⟨htab, hg0, hbelow, hsize⟩
        · exact ⟨htab, hg0, hbelow, hsize⟩

theorem categorize_ok (T : Segment_regularizer_tree) (n : Nat) :
    ∀ (l : List (Nat × Nat × Int)) (st st1 : Categorize_state),
      (∀ c ∈ l, c.1 ≠ c.2.1) →
      categorize T n l st = some st1 → Categorize_ok n st → Categorize_ok n st1 := by
  intro l
  induction l with
  | nil =>
    intro st st1 _ h hc
    simp only [categorize, Option.some.injEq] at h
    exact h ▸ hc
  | cons c rest ih =>
    intro st st1 hne h hc
    simp only [categorize] at h
    cases hs : categorize_entry T n st c with
    | none => simp [hs] at h
    | some s2 =>
      simp only [hs] at h
      exact ih s2 st1 (fun c1 h1 => hne c1 (List.mem_cons_of_mem _ h1)) h
        (categorize_entry_ok T n st s2 c (hne c (List.mem_cons_self _ _)) hs hc)

end Level_of_detail
namespace Level_of_detail

/-! ## Segment_regularizer_tree : invariants of the second and third pass -/

theorem map_keys_of_find {β : Type} (m : List (Int × β)) (k : Int)
    (h : (map_find m k).isNone = false) : k ∈ map_keys m := by
  by_contra hc
  rw [(map_find_eq_none m k).mpr hc] at h
  simp at h

theorem register_angle_ok (T : Segment_regularizer_tree) (n k : Nat) (st st1 : Angles_state)
    (h : register_angle T st k = some st1) (ha : Angles_ok n st)
    (hreg : ∀ x, x < k → ∀ g, st.segments_to_groups[x]? = some g → g ≠ -1 →
      g ∈ map_keys st.angles) :
    Angles_ok n st1 ∧
    ∀ x, x < k + 1 → ∀ g, st1.segments_to_groups[x]? = some g → g ≠ -1 →
      g ∈ map_keys st1.angles := by
  obtain ⟨htab, hsize, hnonneg, hsorted⟩ := ha
  unfold register_angle at h
  cases hg : st.segments_to_groups[k]? with
  | none => simp [hg] at h
  | some g_i =>
    simp only [hg] at h
    have hsame : (g_i = -1 ∨ g_i ∈ map_keys st.angles) →
        Angles_ok n st ∧ ∀ x, x < k + 1 → ∀ g, st.segments_to_groups[x]? = some g → g ≠ -1 →
          g ∈ map_keys st.angles := by
      intro hcase
      refine ⟨⟨htab, hsize, hnonneg, hsorted⟩, ?_⟩
      intro x hx g hxg hgne
      by_cases hxk : x = k
      · subst hxk
        rw [hg] at hxg
        cases hxg
        rcases hcase with hc | hc
        · exact absurd hc hgne
        · exact hc
      · exact hreg x (by omega) g hxg hgne
    by_cases hgi : g_i = -1
    · simp only [hgi, ne_eq, not_true_eq_false, if_false, Option.some.injEq] at h
      subst h
      exact hsame (Or.inl hgi)
    · simp only [hgi, ne_eq, not_false_eq_true, if_true] at h
      by_cases hfind : (map_find st.angles g_i).isNone = true
      swap
      · have hfind2 : (map_find st.angles g_i).isNone = false := Bool.eq_false_iff.mpr hfind
        simp only [hfind2, Bool.false_eq_true, if_false, Option.some.injEq] at h
        subst h
        exact hsame (Or.inr (map_keys_of_find _ _ hfind2))
      simp only [hfind, if_true] at h
      have hnotkey : g_i ∉ map_keys st.angles :=
        (map_find_eq_none _ _).mp (by simpa using hfind)
      have hmemk : k ∈ group_members st.groups_to_segments g_i := htab.fwd k g_i hg hgi
      have hgi0 : 0 ≤ g_i := htab.ids k g_i hmemk
      cases ho : T.m_segments[k]? with
      | none => simp [ho] at h
      | some o =>
        cases hc : T.m_orientations[k]? with
        | none => simp [ho, hc] at h
        | some c =>
          simp only [ho, hc] at h
          by_cases hclose : close_angle st.angles (group_theta o c) T.m_parameters.epsilon = -1
          · simp only [hclose, if_true, Option.some.injEq] at h
            subst h
            refine ⟨⟨htab, hsize, ?_, map_keys_insert_sorted _ _ _ hsorted⟩, ?_⟩
            · intro k1 hk1
              rcases (map_keys_insert _ _ _ _).mp hk1 with h1 | h1
              · rw [h1]; exact hgi0
              · exact hnonneg k1 h1
            · intro x hx g hxg hgne
              refine (map_keys_insert _ _ _ _).mpr ?_
              by_cases hxk : x = k
              · subst hxk
                have hxg2 : st.segments_to_groups[x]? = some g := hxg
                rw [hg] at hxg2
                cases hxg2
                exact Or.inl rfl
              · exact Or.inr (hreg x (by omega) g hxg hgne)
          · simp only [hclose, if_false, Option.some.injEq] at h
            subst h
            have hkey : close_angle st.angles (group_theta o c) T.m_parameters.epsilon
                ∈ map_keys st.angles := by
              rcases close_angle_key st.angles (group_theta o c) T.m_parameters.epsilon
                with h1 | h1
              · exact absurd h1 hclose
              · exact h1
            generalize close_angle st.angles (group_theta o c) T.m_parameters.epsilon = g_j
              at hkey hclose
            have hne : g_i ≠ g_j := fun hc2 => hnotkey (hc2 ▸ hkey)
            obtain ⟨m1, m2, _, _, _⟩ :=
              merge_groups_spec st.segments_to_groups st.groups_to_segments g_i g_j hne
            refine ⟨⟨tables_ok_merge _ _ g_i g_j htab hne (hnonneg g_j hkey), ?_, hnonneg,
              hsorted⟩, ?_⟩
            · show (merge_groups st.segments_to_groups st.groups_to_segments g_i g_j).1.length = n
              rw [m1]; exact hsize
            · intro x hx g hxg hgne
              change (merge_groups st.segments_to_groups st.groups_to_segments g_i g_j).1[x]?
                = some g at hxg
              show g ∈ map_keys st.angles
              rw [m2 x] at hxg
              by_cases hm : x ∈ group_members st.groups_to_segments g_i ∧
                  x < st.segments_to_groups.length
              · simp only [hm, and_self, if_true, Option.some.injEq] at hxg
                subst hxg
                exact hkey
              · simp only [hm, if_false] at hxg
                by_cases hxk : x = k
                · subst hxk
                  rw [hg] at hxg
                  cases hxg
                  exact absurd ⟨hmemk, (List.getElem?_eq_some.mp hg).1⟩ hm
                · exact hreg x (by omega) g hxg hgne

theorem assign_unassigned_ok (T : Segment_regularizer_tree) (n k : Nat)
    (st st1 : Angles_state) (h : assign_unassigned T st k = some st1) (ha : Angles_ok n st)
    (hlive : ∀ g, group_members st.groups_to_segments g ≠ [] → g ∈ map_keys st.angles) :
    Angles_ok n st1 ∧
    ∀ g, group_members st1.groups_to_segments g ≠ [] → g ∈ map_keys st1.angles := by
  obtain ⟨htab, hsize, hnonneg, hsorted⟩ := ha
  have hkeys : ∀ k1 ∈ map_keys st.angles, k1 ≠ -1 := by
    intro k1 hk1 hc
    have := hnonneg k1 hk1
    omega
  unfold assign_unassigned at h
  cases hg : st.segments_to_groups[k]? with
  | none => simp [hg] at h
  | some g_i =>
    simp only [hg] at h
    by_cases hgi : g_i = -1
    swap
    · simp only [hgi, if_false, Option.some.injEq] at h
      subst h
      exact ⟨⟨htab, hsize, hnonneg, hsorted⟩, hlive⟩
    simp only [hgi, if_true] at h
    have hun : st.segments_to_groups[k]? = some (-1) := by rw [hg, hgi]
    cases halpha : T.m_segments[k]? with
    | none => simp [halpha] at h
    | some alpha =>
      simp only [halpha] at h
      by_cases hmatch : matching_angle alpha T.m_parameters.epsilon st.angles = -1
      · simp only [hmatch, if_true] at h
        cases hlast : st.angles.getLast? with
        | none => simp [hlast] at h
        | some last =>
          simp only [hlast, Option.some.injEq] at h
          subst h
          have hl0 : 0 ≤ last.1 :=
            hnonneg last.1 (List.mem_map.mpr ⟨last, List.mem_of_getLast?_eq_some hlast, rfl⟩)
          refine ⟨⟨tables_ok_assign _ _ k (last.1 + 1) htab hun (by omega), ?_, ?_,
            map_keys_insert_sorted _ _ _ hsorted⟩, ?_⟩
          · show (st.segments_to_groups.set k (last.1 + 1)).length = n
            simp [hsize]
          · intro k1 hk1
            rcases (map_keys_insert _ _ _ _).mp hk1 with h1 | h1
            · rw [h1]; omega
            · exact hnonneg k1 h1
          · intro g hgm
            refine (map_keys_insert _ _ _ _).mpr ?_
            by_cases hgg : g = last.1 + 1
            · exact Or.inl hgg
            · right
              apply hlive g
              intro hc
              apply hgm
              show group_members (group_push_back st.groups_to_segments (last.1 + 1) k) g = []
              rw [group_members_push_back, if_neg hgg]
              exact hc
      · simp only [hmatch, if_false, Option.some.injEq] at h
        subst h
        have hkey : matching_angle alpha T.m_parameters.epsilon st.angles ∈ map_keys st.angles := by
          rcases matching_angle_spec alpha T.m_parameters.epsilon st.angles hkeys with
            ⟨_, h2⟩ | ⟨pre, g, a, post, h1, _, _, h4⟩
          · exact absurd h2 hmatch
          · rw [h4, h1]
            simp [map_keys]
        generalize matching_angle alpha T.m_parameters.epsilon st.angles = g_j at hkey hmatch
        refine ⟨⟨tables_ok_assign _ _ k g_j htab hun (hnonneg g_j hkey), ?_, hnonneg, hsorted⟩,
          ?_⟩
        · show (st.segments_to_groups.set k g_j).length = n
          simp [hsize]
        · intro g hgm
          show g ∈ map_keys st.angles
          by_cases hgg : g = g_j
          · rw [hgg]; exact hkey
          · apply hlive g
            intro hc
            apply hgm
            show group_members (group_push_back st.groups_to_segments g_j k) g = []
            rw [group_members_push_back, if_neg hgg]
            exact hc

/-- What holds in every state of the third pass of `build_tree`: the tables
agree, the keys of the registered angles are not negative and increase, and
every group that has members has a registered angle. -/
theorem third_pass_invariant (T : Segment_regularizer_tree) (c : Categorize_state)
    (a2 st : Angles_state) (k : Nat)
    (hne : ∀ e ∈ T.m_qp_data, e.1 ≠ e.2.1)
    (hcat : categorize T T.m_segments.length T.m_qp_data (categorize_start T.m_segments.length)
      = some c)
    (hreg : for_range (register_angle T) (List.range T.m_segments.length)
      { segments_to_groups := c.segments_to_groups
        groups_to_segments := c.groups_to_segments
        angles := [] } = some a2)
    (hpre : for_range (assign_unassigned T) (List.range k) a2 = some st) :
    Angles_ok T.m_segments.length st ∧
    ∀ g, group_members st.groups_to_segments g ≠ [] → g ∈ map_keys st.angles := by
  have h1 := categorize_ok T T.m_segments.length T.m_qp_data _ c hne hcat
    (categorize_start_ok _)
  have h2 := for_range_range_invariant
    (fun k (s : Angles_state) => Angles_ok T.m_segments.length s ∧
      ∀ x, x < k → ∀ g, s.segments_to_groups[x]? = some g → g ≠ -1 → g ∈ map_keys s.angles)
    (register_angle T) T.m_segments.length
    (fun k s s1 _ hq hb => register_angle_ok T _ k s s1 hb hq.1 hq.2)
    T.m_segments.length (Nat.le_refl _) _ a2
    ⟨⟨h1.tables, h1.size, by simp [map_keys], by simp [map_keys]⟩,
      fun x hx => absurd hx (Nat.not_lt_zero x)⟩ hreg
  have h3 : Angles_ok T.m_segments.length a2 ∧
      ∀ g, group_members a2.groups_to_segments g ≠ [] → g ∈ map_keys a2.angles := by
    refine ⟨h2.1, ?_⟩
    intro g hg
    obtain ⟨x, hx⟩ := List.exists_mem_of_ne_nil _ hg
    have hb := h2.1.tables.bwd x g hx
    have hlt : x < T.m_segments.length := by
      rw [← h2.1.size]
      exact (List.getElem?_eq_some.mp hb).1
    have hg0 := h2.1.tables.ids x g hx
    exact h2.2 x hlt g hb (by omega)
  exact for_range_invariant
    (fun (s : Angles_state) => Angles_ok T.m_segments.length s ∧
      ∀ g, group_members s.groups_to_segments g ≠ [] → g ∈ map_keys s.angles)
    (assign_unassigned T)
    (fun s i s1 hq hb => assign_unassigned_ok T _ i s s1 hb hq.1 hq.2) _ a2 st h3 hpre

end Level_of_detail
namespace Level_of_detail

/-! ## Segment_regularizer_tree : the third pass -/

/-- C19 (amended): in the third pass of `build_tree`, a still-unassigned
segment `k` with orientation `alpha` that is within epsilon (modulo shifts of
`k*180`, `k` in `{-1, 0, 1}`) of at least one registered group angle is
assigned to the first such group in the order of the group ids, whether or
not another registered angle is closer; if no registered angle is within
epsilon and `last` is the registered group with the largest id, the segment
becomes the only member of the new group `last + 1`, whose angle is `alpha`.
The state `st` is any state that the third pass reaches before it handles the
segment `k`, for constraints between distinct segments. -/
theorem assign_unassigned_first_match (T : Segment_regularizer_tree) (c : Categorize_state)
    (a2 st : Angles_state) (k : Nat) (alpha : FT)
    (hne : ∀ e ∈ T.m_qp_data, e.1 ≠ e.2.1)
    (hcat : categorize T T.m_segments.length T.m_qp_data (categorize_start T.m_segments.length)
      = some c)
    (hreg : for_range (register_angle T) (List.range T.m_segments.length)
      { segments_to_groups := c.segments_to_groups
        groups_to_segments := c.groups_to_segments
        angles := [] } = some a2)
    (hpre : for_range (assign_unassigned T) (List.range k) a2 = some st)
    (hun : st.segments_to_groups[k]? = some (-1)) (halpha : T.m_segments[k]? = some alpha) :
    ((∃ e ∈ st.angles, angle_matches alpha T.m_parameters.epsilon e.2) →
      ∃ pre g a post, st.angles = pre ++ (g, a) :: post ∧
        angle_matches alpha T.m_parameters.epsilon a ∧
        (∀ e ∈ pre, ¬ angle_matches alpha T.m_parameters.epsilon e.2) ∧
        (∀ e ∈ pre, e.1 < g) ∧ (∀ e ∈ post, g < e.1) ∧
        assign_unassigned T st k
          = some { st with
                   segments_to_groups := st.segments_to_groups.set k g
                   groups_to_segments := group_push_back st.groups_to_segments g k } ∧
        (st.segments_to_groups.set k g)[k]? = some g ∧
        k ∈ group_members (group_push_back st.groups_to_segments g k) g) ∧
    ((∀ e ∈ st.angles, ¬ angle_matches alpha T.m_parameters.epsilon e.2) →
      ∀ last, st.angles.getLast? = some last →
        assign_unassigned T st k
          = some { segments_to_groups := st.segments_to_groups.set k (last.1 + 1)
                   groups_to_segments :=
                     group_push_back st.groups_to_segments (last.1 + 1) k
                   angles := map_insert st.angles (last.1 + 1) alpha } ∧
        (∀ e ∈ st.angles, e.1 < last.1 + 1) ∧
        (st.segments_to_groups.set k (last.1 + 1))[k]? = some (last.1 + 1) ∧
        group_members (group_push_back st.groups_to_segments (last.1 + 1) k) (last.1 + 1)
          = [k] ∧
        map_find (map_insert st.angles (last.1 + 1) alpha) (last.1 + 1) = some alpha) := by
  obtain ⟨hok, hlive⟩ := third_pass_invariant T c a2 st k hne hcat hreg hpre
  have hkeys : ∀ k1 ∈ map_keys st.angles, k1 ≠ -1 := by
    intro k1 hk1 hc
    have := hok.keys_nonneg k1 hk1
    omega
  constructor
  · rintro ⟨e0, he0, hm0⟩
    rcases matching_angle_spec alpha T.m_parameters.epsilon st.angles hkeys with
      ⟨h1, _⟩ | ⟨pre, g, a, post, h1, h2, h3, h4⟩
    · exact absurd hm0 (h1 e0 he0)
    · have hgkey : g ∈ map_keys st.angles := by
        rw [h1]
        simp [map_keys]
      have hg1 : g ≠ -1 := hkeys g hgkey
      have hsorted := hok.sorted
      rw [h1] at hsorted
      simp only [map_keys, List.map_append, List.map_cons] at hsorted
      obtain ⟨_, hs2, hs3⟩ := List.pairwise_append.mp hsorted
      refine ⟨pre, g, a, post, h1, h2, h3, ?_, ?_, ?_, getElem?_set_self_of_some _ _ _ _ hun,
        mem_group_members_push_back _ _ _⟩
      · intro e he
        exact hs3 e.1 (List.mem_map.mpr ⟨e, he, rfl⟩) g (List.mem_cons_self _ _)
      · intro e he
        exact (List.pairwise_cons.mp hs2).1 e.1 (List.mem_map.mpr ⟨e, he, rfl⟩)
      · unfold assign_unassigned
        simp only [hun, if_true, halpha, h4, hg1, if_false]
  · intro hnone last hlast
    have hmatch : matching_angle alpha T.m_parameters.epsilon st.angles = -1 := by
      rcases matching_angle_spec alpha T.m_parameters.epsilon st.angles hkeys with
        ⟨_, h2⟩ | ⟨pre, g, a, post, h1, h2, _, _⟩
      · exact h2
      · exact absurd h2 (hnone (g, a) (by rw [h1]; simp))
    have hle := map_keys_le_last st.angles last hok.sorted hlast
    have hlt : ∀ e ∈ st.angles, e.1 < last.1 + 1 := by
      intro e he
      have := hle e.1 (List.mem_map.mpr ⟨e, he, rfl⟩)
      omega
    have hempty : group_members st.groups_to_segments (last.1 + 1) = [] := by
      by_contra hc
      have := hle _ (hlive _ hc)
      omega
    refine ⟨?_, hlt, getElem?_set_self_of_some _ _ _ _ hun, ?_, ?_⟩
    · unfold assign_unassigned
      simp only [hun, if_true, halpha, hmatch, hlast]
    · rw [group_members_push_back, if_pos rfl, hempty]
      rfl
    · rw [map_find_insert, if_pos rfl]

set_option maxRecDepth 100000 in
theorem assign_unassigned_first_match_witness :
    (∀ e ∈ example_tree.m_qp_data, e.1 ≠ e.2.1) ∧
    categorize example_tree example_tree.m_segments.length example_tree.m_qp_data
        (categorize_start example_tree.m_segments.length)
      = some { segments_to_groups := [0, 0, 1, -1]
               groups_to_segments := [(0, [0, 1]), (1, [2])], g := 2, p := 3 } ∧
    for_range (register_angle example_tree) (List.range example_tree.m_segments.length)
        { segments_to_groups := [0, 0, 1, -1]
          groups_to_segments := [(0, [0, 1]), (1, [2])], angles := [] }
      = some { segments_to_groups := [0, 0, 1, -1]
               groups_to_segments := [(0, [0, 1]), (1, [2])], angles := [(0, 0), (1, 90)] } ∧
    (∀ e ∈ ([(0, 0), (1, 90)] : Angles),
      ¬ angle_matches 40 example_tree.m_parameters.epsilon e.2) ∧
    (assign_unassigned example_tree
        { segments_to_groups := [0, 0, 1, -1]
          groups_to_segments := [(0, [0, 1]), (1, [2])], angles := [(0, 0), (1, 90)] } 3
      = some { segments_to_groups := ([0, 0, 1, -1] : List Int).set 3 (1 + 1)
               groups_to_segments := group_push_back [(0, [0, 1]), (1, [2])] (1 + 1) 3
               angles := map_insert [(0, 0), (1, 90)] (1 + 1) 40 } ∧
     (∀ e ∈ ([(0, 0), (1, 90)] : Angles), e.1 < 1 + 1) ∧
     (([0, 0, 1, -1] : List Int).set 3 (1 + 1))[3]? = some (1 + 1) ∧
     group_members (group_push_back [(0, [0, 1]), (1, [2])] (1 + 1) 3) (1 + 1) = [3] ∧
     map_find (map_insert ([(0, 0), (1, 90)] : Angles) (1 + 1) 40) (1 + 1) = some 40) :=
  ⟨by decide, by decide!, by decide!, by decide!,
    (assign_unassigned_first_match example_tree
      { segments_to_groups := [0, 0, 1, -1]
        groups_to_segments := [(0, [0, 1]), (1, [2])], g := 2, p := 3 }
      { segments_to_groups := [0, 0, 1, -1]
        groups_to_segments := [(0, [0, 1]), (1, [2])], angles := [(0, 0), (1, 90)] }
      { segments_to_groups := [0, 0, 1, -1]
        groups_to_segments := [(0, [0, 1]), (1, [2])], angles := [(0, 0), (1, 90)] }
      3 40 (by decide) (by decide!) (by decide!) (by decide!) (by decide!) (by decide!)).2
      (by decide!) (1, 90) (by decide!)⟩

set_option maxRecDepth 100000 in
/-- C19 (as stated) fails: with groups registered at 10 and 11.5 degrees and
`epsilon = 1`, the unassigned segment 2 at 10.9 degrees is within epsilon of
both; it is assigned to group 0 (angle 10, at distance 0.9) although the
angle of group 1 (11.5, at distance 0.6) is closer. -/
theorem assign_unassigned_not_closest_counterexample :
    build_tree example_tree_closest
      = some { segments_to_groups := [0, 1, 0, 0, 1]
               groups_to_segments := [(0, [0, 3, 2]), (1, [1, 4])]
               angles := [(0, 10), (1, 23 / 2)]
               m_parallel_segments := [(10, [0, 2, 3]), (23 / 2, [1, 4])] } ∧
    for_range (assign_unassigned example_tree_closest) (List.range 2)
        { segments_to_groups := [0, 1, -1, 0, 1]
          groups_to_segments := [(0, [0, 3]), (1, [1, 4])]
          angles := [(0, 10), (1, 23 / 2)] }
      = some { segments_to_groups := [0, 1, -1, 0, 1]
               groups_to_segments := [(0, [0, 3]), (1, [1, 4])]
               angles := [(0, 10), (1, 23 / 2)] } ∧
    assign_unassigned example_tree_closest
        { segments_to_groups := [0, 1, -1, 0, 1]
          groups_to_segments := [(0, [0, 3]), (1, [1, 4])]
          angles := [(0, 10), (1, 23 / 2)] } 2
      = some { segments_to_groups := [0, 1, 0, 0, 1]
               groups_to_segments := [(0, [0, 3, 2]), (1, [1, 4])]
               angles := [(0, 10), (1, 23 / 2)] } ∧
    angle_matches (109 / 10) 1 10 ∧ angle_matches (109 / 10) 1 (23 / 2) ∧
    |(23 / 2 : FT) - 109 / 10| < |(10 : FT) - 109 / 10| :=
  ⟨by decide!, by decide!, by decide!, by decide!, by decide!, by decide!⟩

end Level_of_detail
namespace Levels_of_detail

/-! ## The regularizer on axis-parallel input -/

theorem angle_degree_2_of_parallel (N : Internal) (R : Polygon_regularizer) (hN : Axis_exact N)
    (hR : R.m_pi = N.pi) (a b : Segment_2)
    (h : (horizontal a ∧ horizontal b) ∨ (vertical a ∧ vertical b)) :
    angle_degree_2 N R a b = 0 ∨ angle_degree_2 N R a b = 180 := by
  have hpi := hN.pi_ne_zero
  unfold angle_degree_2
  simp only [determinant, scalar_product, Segment_2.to_vector, Vector_2.between, Vector_2.neg, hR]
  rcases h with ⟨⟨ha, ha2⟩, ⟨hb, hb2⟩⟩ | ⟨⟨ha, ha2⟩, ⟨hb, hb2⟩⟩
  · have hdet : (b.target.x - b.source.x) * -(a.target.y - a.source.y)
        - (b.target.y - b.source.y) * -(a.target.x - a.source.x) = 0 := by
      rw [ha, hb]; ring
    have hdot : (b.target.x - b.source.x) * -(a.target.x - a.source.x)
        + (b.target.y - b.source.y) * -(a.target.y - a.source.y)
        = (b.target.x - b.source.x) * -(a.target.x - a.source.x) := by
      rw [ha, hb]; ring
    rw [hdet, hdot]
    have hne : (b.target.x - b.source.x) * -(a.target.x - a.source.x) ≠ 0 :=
      mul_ne_zero (sub_ne_zero.mpr (Ne.symm hb2)) (neg_ne_zero.mpr (sub_ne_zero.mpr (Ne.symm ha2)))
    rcases lt_or_gt_of_ne hne with hlt | hgt
    · right
      rw [hN.atan2_neg_x _ hlt]
      field_simp
    · left
      rw [hN.atan2_pos_x _ hgt]
      simp
  · have hdet : (b.target.x - b.source.x) * -(a.target.y - a.source.y)
        - (b.target.y - b.source.y) * -(a.target.x - a.source.x) = 0 := by
      rw [ha, hb]; ring
    have hdot : (b.target.x - b.source.x) * -(a.target.x - a.source.x)
        + (b.target.y - b.source.y) * -(a.target.y - a.source.y)
        = (b.target.y - b.source.y) * -(a.target.y - a.source.y) := by
      rw [ha, hb]; ring
    rw [hdet, hdot]
    have hne : (b.target.y - b.source.y) * -(a.target.y - a.source.y) ≠ 0 :=
      mul_ne_zero (sub_ne_zero.mpr (Ne.symm hb2)) (neg_ne_zero.mpr (sub_ne_zero.mpr (Ne.symm ha2)))
    rcases lt_or_gt_of_ne hne with hlt | hgt
    · right
      rw [hN.atan2_neg_x _ hlt]
      field_simp
    · left
      rw [hN.atan2_pos_x _ hgt]
      simp

theorem angle_degree_2_of_perpendicular (N : Internal) (R : Polygon_regularizer)
    (hN : Axis_exact N) (hR : R.m_pi = N.pi) (a b : Segment_2)
    (h : (horizontal a ∧ vertical b) ∨ (vertical a ∧ horizontal b)) :
    angle_degree_2 N R a b = 90 ∨ angle_degree_2 N R a b = -90 := by
  have hpi := hN.pi_ne_zero
  unfold angle_degree_2
  simp only [determinant, scalar_product, Segment_2.to_vector, Vector_2.between, Vector_2.neg, hR]
  rcases h with ⟨⟨ha, ha2⟩, ⟨hb, hb2⟩⟩ | ⟨⟨ha, ha2⟩, ⟨hb, hb2⟩⟩
  · have hdot : (b.target.x - b.source.x) * -(a.target.x - a.source.x)
        + (b.target.y - b.source.y) * -(a.target.y - a.source.y) = 0 := by
      rw [ha, hb]; ring
    have hdet : (b.target.x - b.source.x) * -(a.target.y - a.source.y)
        - (b.target.y - b.source.y) * -(a.target.x - a.source.x)
        = (b.target.y - b.source.y) * (a.target.x - a.source.x) := by
      rw [ha, hb]; ring
    rw [hdet, hdot]
    have hne : (b.target.y - b.source.y) * (a.target.x - a.source.x) ≠ 0 :=
      mul_ne_zero (sub_ne_zero.mpr (Ne.symm hb2)) (sub_ne_zero.mpr (Ne.symm ha2))
    rcases lt_or_gt_of_ne hne with hlt | hgt
    · right
      rw [hN.atan2_neg_y _ hlt]
      field_simp
      ring
    · left
      rw [hN.atan2_pos_y _ hgt]
      field_simp
      ring
  · have hdot : (b.target.x - b.source.x) * -(a.target.x - a.source.x)
        + (b.target.y - b.source.y) * -(a.target.y - a.source.y) = 0 := by
      rw [ha, hb]; ring
    have hdet : (b.target.x - b.source.x) * -(a.target.y - a.source.y)
        - (b.target.y - b.source.y) * -(a.target.x - a.source.x)
        = (b.target.x - b.source.x) * -(a.target.y - a.source.y) := by
      rw [ha, hb]; ring
    rw [hdet, hdot]
    have hne : (b.target.x - b.source.x) * -(a.target.y - a.source.y) ≠ 0 :=
      mul_ne_zero (sub_ne_zero.mpr (Ne.symm hb2)) (neg_ne_zero.mpr (sub_ne_zero.mpr (Ne.symm ha2)))
    rcases lt_or_gt_of_ne hne with hlt | hgt
    · right
      rw [hN.atan2_neg_y _ hlt]
      field_simp
      ring
    · left
      rw [hN.atan2_pos_y _ hgt]
      field_simp
      ring

theorem abs_get_angle_2_of_parallel (N : Internal) (R : Polygon_regularizer) (hN : Axis_exact N)
    (hR : R.m_pi = N.pi) (a b : Segment_2)
    (h : (horizontal a ∧ horizontal b) ∨ (vertical a ∧ vertical b)) :
    |get_angle_2 (angle_degree_2 N R a b)| = 0 := by
  rcases angle_degree_2_of_parallel N R hN hR a b h with h0 | h0 <;>
    rw [h0] <;> norm_num [get_angle_2]

theorem abs_get_angle_2_of_perpendicular (N : Internal) (R : Polygon_regularizer)
    (hN : Axis_exact N) (hR : R.m_pi = N.pi) (a b : Segment_2)
    (h : (horizontal a ∧ vertical b) ∨ (vertical a ∧ horizontal b)) :
    |get_angle_2 (angle_degree_2 N R a b)| = 90 := by
  rcases angle_degree_2_of_perpendicular N R hN hR a b h with h0 | h0 <;>
    rw [h0] <;> norm_num [get_angle_2]

theorem rotate_of_zero (N : Internal) (R : Polygon_regularizer) (hN : Axis_exact N)
    (angle_2 ref_angle_2 : FT) (longest segment : Segment_2)
    (h : (if angle_2 < 0 then angle_2 + ref_angle_2
      else if 0 < angle_2 then angle_2 - ref_angle_2 else angle_2) = 0) :
    rotate N R angle_2 ref_angle_2 longest segment = segment := by
  unfold rotate
  simp only [h, zero_mul, zero_div, hN.rotate_zero]

theorem rotate_segment_of_axes (N : Internal) (R : Polygon_regularizer) (hN : Axis_exact N)
    (hR : R.m_pi = N.pi) (a b : Segment_2)
    (ha : horizontal a ∨ vertical a) (hb : horizontal b ∨ vertical b) :
    rotate_segment N R a (45, 45) b = (true, b) := by
  have key : (angle_degree_2 N R a b = 0 ∨ angle_degree_2 N R a b = 180) ∨
      (angle_degree_2 N R a b = 90 ∨ angle_degree_2 N R a b = -90) := by
    rcases ha with ha | ha <;> rcases hb with hb | hb
    · exact Or.inl (angle_degree_2_of_parallel N R hN hR a b (Or.inl ⟨ha, hb⟩))
    · exact Or.inr (angle_degree_2_of_perpendicular N R hN hR a b (Or.inl ⟨ha, hb⟩))
    · exact Or.inr (angle_degree_2_of_perpendicular N R hN hR a b (Or.inr ⟨ha, hb⟩))
    · exact Or.inl (angle_degree_2_of_parallel N R hN hR a b (Or.inr ⟨ha, hb⟩))
  unfold rotate_segment
  rcases key with (h0 | h0) | (h0 | h0)
  · have r1 : rotate N R 0 180 a b = b := rotate_of_zero N R hN _ _ _ _ (by norm_num)
    simp only [h0]
    norm_num [get_angle_2, r1]
  · have r1 : rotate N R 180 180 a b = b := rotate_of_zero N R hN _ _ _ _ (by norm_num)
    simp only [h0]
    norm_num [get_angle_2, r1]
  · have r1 : rotate N R 90 90 a b = b := rotate_of_zero N R hN _ _ _ _ (by norm_num)
    simp only [h0]
    norm_num [get_angle_2, r1]
  · have r1 : rotate N R (-90) 90 a b = b := rotate_of_zero N R hN _ _ _ _ (by norm_num)
    simp only [h0]
    norm_num [get_angle_2, r1]

end Levels_of_detail
namespace Levels_of_detail

theorem rectangle_sides (x0 y0 w h : FT) (hw : 0 < w) (hh : 0 < h) :
    horizontal ⟨⟨x0, y0⟩, ⟨x0 + w, y0⟩⟩ ∧ vertical ⟨⟨x0 + w, y0⟩, ⟨x0 + w, y0 + h⟩⟩ ∧
    horizontal ⟨⟨x0 + w, y0 + h⟩, ⟨x0, y0 + h⟩⟩ ∧ vertical ⟨⟨x0, y0 + h⟩, ⟨x0, y0⟩⟩ := by
  have hw0 : w ≠ 0 := ne_of_gt hw
  have hh0 : h ≠ 0 := ne_of_gt hh
  simp [horizontal, vertical, hw0, hh0]

theorem remove_zero_length_segments_rectangle (N : Internal) (x0 y0 w h : FT)
    (htw : N.tolerance < w * w) (hth : N.tolerance < h * h) :
    remove_zero_length_segments N (rectangle x0 y0 w h) = rectangle x0 y0 w h := by
  have e1 : (x0 + w - x0) * (x0 + w - x0) = w * w := by ring
  have e2 : (y0 + h - y0) * (y0 + h - y0) = h * h := by ring
  have e3 : (x0 - (x0 + w)) * (x0 - (x0 + w)) = w * w := by ring
  have e4 : (y0 - (y0 + h)) * (y0 - (y0 + h)) = h * h := by ring
  simp [remove_zero_length_segments, rectangle, Segment_2.squared_length, Segment_2.to_vector,
    Vector_2.between, List.filter, e1, e2, e3, e4, htw, hth]

theorem projection_of_has_on (p q r : Point_2)
    (h : (Line_2.through p q).a * r.x + (Line_2.through p q).b * r.y + (Line_2.through p q).c = 0) :
    (Line_2.through p q).projection r = r := by
  unfold Line_2.projection
  simp only [h, zero_div, zero_mul, sub_zero]

theorem projection_source (p q : Point_2) : (Line_2.through p q).projection p = p :=
  projection_of_has_on p q p (by simp only [Line_2.through]; ring)

theorem projection_target (p q : Point_2) : (Line_2.through p q).projection q = q :=
  projection_of_has_on p q q (by simp only [Line_2.through]; ring)

theorem projection_middle_point (p q : Point_2) :
    (Line_2.through p q).projection (middle_point_2 p q) = middle_point_2 p q :=
  projection_of_has_on p q _ (by simp only [Line_2.through, middle_point_2]; ring)

theorem find_weighted_segment_single (N : Internal) (s : Segment_2) :
    find_weighted_segment N [s] = s := by
  obtain ⟨⟨sx, sy⟩, ⟨tx, ty⟩⟩ := s
  have hc : find_central_segment [(⟨⟨sx, sy⟩, ⟨tx, ty⟩⟩ : Segment_2)] = ⟨⟨sx, sy⟩, ⟨tx, ty⟩⟩ := by
    simp [find_central_segment]
  unfold find_weighted_segment
  rw [hc]
  have hp := projection_middle_point ⟨sx, sy⟩ ⟨tx, ty⟩
  simp [compute_weighted_segment, compute_distance_weights, hp, Vector_2.between,
    Vector_2.scale, Vector_2.add, Point_2.translate, List.range_succ]

theorem create_segment_from_parallel_segments_single (N : Internal) (s : Segment_2)
    (hpos : 0 < s.squared_length) (hmax : 0 ≤ N.max_value) :
    create_segment_from_parallel_segments N [s] = (N.distance s.source s.target, s) := by
  unfold create_segment_from_parallel_segments
  rw [find_weighted_segment_single]
  obtain ⟨⟨sx, sy⟩, ⟨tx, ty⟩⟩ := s
  simp only [Segment_2.squared_length, Segment_2.to_vector, Vector_2.between] at hpos
  simp only [List.foldl, projection_source, projection_target, zero_add, List.nil_append,
    update_segment, compute_barycenter_2, scalar_product, Segment_2.to_vector, Vector_2.between,
    List.map, List.sum_cons, List.sum_nil, add_zero, List.length_cons, List.length_nil]
  have v1 : (sx - (sx + tx) / ((0 + 1 + 1 : Nat) : FT)) * (tx - sx)
      + (sy - (sy + ty) / ((0 + 1 + 1 : Nat) : FT)) * (ty - sy)
      = -(((tx - sx) * (tx - sx) + (ty - sy) * (ty - sy)) / 2) := by
    push_cast; ring
  have v2 : (tx - (sx + tx) / ((0 + 1 + 1 : Nat) : FT)) * (tx - sx)
      + (ty - (sy + ty) / ((0 + 1 + 1 : Nat) : FT)) * (ty - sy)
      = ((tx - sx) * (tx - sx) + (ty - sy) * (ty - sy)) / 2 := by
    push_cast; ring
  rw [v1, v2]
  have c1 : -(((tx - sx) * (tx - sx) + (ty - sy) * (ty - sy)) / 2) < N.max_value := by linarith
  have c3 : ¬ ((tx - sx) * (tx - sx) + (ty - sy) * (ty - sy)) / 2
      < -(((tx - sx) * (tx - sx) + (ty - sy) * (ty - sy)) / 2) := by linarith
  have c4 : -(((tx - sx) * (tx - sx) + (ty - sy) * (ty - sy)) / 2)
      < ((tx - sx) * (tx - sx) + (ty - sy) * (ty - sy)) / 2 := by linarith
  have c5 : -N.max_value < ((tx - sx) * (tx - sx) + (ty - sy) * (ty - sy)) / 2 := by linarith
  by_cases c2 : -N.max_value < -(((tx - sx) * (tx - sx) + (ty - sy) * (ty - sy)) / 2)
  · simp only [c1, c2, c3, c4, if_true, if_false]
  · simp only [c1, c2, c3, c5, if_true, if_false]

end Levels_of_detail
namespace Levels_of_detail

theorem rectangle_corner_angles (N : Internal) (R : Polygon_regularizer) (hN : Axis_exact N)
    (hR : R.m_pi = N.pi) (x0 y0 w h : FT) (hw : 0 < w) (hh : 0 < h) :
    |get_angle_2 (angle_degree_2 N R ⟨⟨x0, y0 + h⟩, ⟨x0, y0⟩⟩ ⟨⟨x0, y0⟩, ⟨x0 + w, y0⟩⟩)| = 90 ∧
    |get_angle_2 (angle_degree_2 N R ⟨⟨x0, y0⟩, ⟨x0 + w, y0⟩⟩
      ⟨⟨x0 + w, y0⟩, ⟨x0 + w, y0 + h⟩⟩)| = 90 ∧
    |get_angle_2 (angle_degree_2 N R ⟨⟨x0 + w, y0⟩, ⟨x0 + w, y0 + h⟩⟩
      ⟨⟨x0 + w, y0 + h⟩, ⟨x0, y0 + h⟩⟩)| = 90 ∧
    |get_angle_2 (angle_degree_2 N R ⟨⟨x0 + w, y0 + h⟩, ⟨x0, y0 + h⟩⟩
      ⟨⟨x0, y0 + h⟩, ⟨x0, y0⟩⟩)| = 90 := by
  obtain ⟨h0, h1, h2, h3⟩ := rectangle_sides x0 y0 w h hw hh
  exact ⟨abs_get_angle_2_of_perpendicular N R hN hR _ _ (Or.inr ⟨h3, h0⟩),
    abs_get_angle_2_of_perpendicular N R hN hR _ _ (Or.inl ⟨h0, h1⟩),
    abs_get_angle_2_of_perpendicular N R hN hR _ _ (Or.inr ⟨h1, h2⟩),
    abs_get_angle_2_of_perpendicular N R hN hR _ _ (Or.inl ⟨h2, h3⟩)⟩

theorem get_parallel_segments_loop_stop (N : Internal) (R : Polygon_regularizer)
    (contour : List Segment_2) (more i max_count : Nat) (parallel_segments : List Segment_2)
    (h : (is_parallel_segment N R
      (contour.getD ((i + contour.length - 1) % contour.length) default)
      (contour.getD i default)
      (contour.getD ((i + 1) % contour.length) default)).2 = false) :
    get_parallel_segments_loop N R contour more i max_count parallel_segments
      = (parallel_segments ++ [contour.getD i default], (i + 1) % contour.length,
          max_count + 1) := by
  rw [get_parallel_segments_loop.eq_def]
  simp only [h, Bool.false_eq_true, false_and, if_false]

theorem get_parallel_segments_rectangle (N : Internal) (R : Polygon_regularizer)
    (hN : Axis_exact N) (hR : R.m_pi = N.pi) (hthr : R.m_angle_threshold = 5)
    (x0 y0 w h : FT) (hw : 0 < w) (hh : 0 < h) :
    get_parallel_segments N R (rectangle x0 y0 w h) 0
      = (true, [⟨⟨x0, y0⟩, ⟨x0 + w, y0⟩⟩], 1) ∧
    get_parallel_segments N R (rectangle x0 y0 w h) 1
      = (true, [⟨⟨x0 + w, y0⟩, ⟨x0 + w, y0 + h⟩⟩], 2) ∧
    get_parallel_segments N R (rectangle x0 y0 w h) 2
      = (true, [⟨⟨x0 + w, y0 + h⟩, ⟨x0, y0 + h⟩⟩], 3) ∧
    get_parallel_segments N R (rectangle x0 y0 w h) 3
      = (true, [⟨⟨x0, y0 + h⟩, ⟨x0, y0⟩⟩], 0) := by
  obtain ⟨a0, a1, a2, a3⟩ := rectangle_corner_angles N R hN hR x0 y0 w h hw hh
  have stop : ∀ i, i < 4 → ∀ more max_count parallel_segments,
      get_parallel_segments_loop N R (rectangle x0 y0 w h) more i max_count parallel_segments
        = (parallel_segments ++ [(rectangle x0 y0 w h).getD i default],
            (i + 1) % (rectangle x0 y0 w h).length, max_count + 1) := by
    intro i hi more max_count parallel_segments
    apply get_parallel_segments_loop_stop
    interval_cases i <;> norm_num [rectangle, is_parallel_segment, a0, a1, a2, a3, hthr]
  refine ⟨?_, ?_, ?_, ?_⟩ <;>
  · simp only [get_parallel_segments, stop 0 (by norm_num), stop 1 (by norm_num),
      stop 2 (by norm_num), stop 3 (by norm_num)]
    simp [rectangle]

end Levels_of_detail
namespace Levels_of_detail

theorem filter_out_wrong_segments_loop_continue (N : Internal) (R : Polygon_regularizer)
    (contour : List Segment_2) (start more i max_count : Nat) (segments : List Segment_2)
    (ratios : List (List FT)) (s : Segment_2) (i1 : Nat)
    (hg : get_parallel_segments N R contour i = (true, [s], i1))
    (hc : create_segment_from_parallel_segments N [s] = (N.distance s.source s.target, s))
    (hi : i1 ≠ start) (hm : max_count + 1 < contour.length * 2) (hmore : 0 < more) :
    filter_out_wrong_segments_loop N R contour start more i max_count segments ratios
      = filter_out_wrong_segments_loop N R contour start (more - 1) i1 (max_count + 1)
          (segments ++ [s])
          (ratios ++ [add_ratios N (N.distance s.source s.target) [s] s]) := by
  obtain ⟨more1, rfl⟩ : ∃ more1, more = more1 + 1 := ⟨more - 1, by omega⟩
  rw [filter_out_wrong_segments_loop.eq_def]
  simp only [hg, hc, Bool.not_true, Bool.false_eq_true, if_false, ne_eq, hi, not_false_eq_true,
    hm, and_self, if_true, Nat.add_sub_cancel]

theorem filter_out_wrong_segments_loop_stop (N : Internal) (R : Polygon_regularizer)
    (contour : List Segment_2) (start more i max_count : Nat) (segments : List Segment_2)
    (ratios : List (List FT)) (s : Segment_2)
    (hg : get_parallel_segments N R contour i = (true, [s], start))
    (hc : create_segment_from_parallel_segments N [s] = (N.distance s.source s.target, s)) :
    filter_out_wrong_segments_loop N R contour start more i max_count segments ratios
      = (true, segments ++ [s],
          ratios ++ [add_ratios N (N.distance s.source s.target) [s] s], max_count + 1) := by
  rw [filter_out_wrong_segments_loop.eq_def]
  simp only [hg, hc, Bool.not_true, Bool.false_eq_true, if_false, ne_eq, not_true_eq_false,
    false_and]

theorem find_initial_index_rectangle (N : Internal) (R : Polygon_regularizer)
    (hN : Axis_exact N) (hR : R.m_pi = N.pi) (hthr : R.m_angle_threshold = 5)
    (x0 y0 w h : FT) (hw : 0 < w) (hh : 0 < h) :
    find_initial_index N R (rectangle x0 y0 w h) = 0 := by
  obtain ⟨a0, a1, a2, a3⟩ := rectangle_corner_angles N R hN hR x0 y0 w h hw hh
  unfold find_initial_index
  norm_num [rectangle, List.range_succ, find_initial_index_loop, is_parallel_segment, a0, hthr]

theorem filter_out_wrong_segments_rectangle (N : Internal) (R : Polygon_regularizer)
    (hN : Axis_exact N) (hR : R.m_pi = N.pi) (hthr : R.m_angle_threshold = 5)
    (x0 y0 w h : FT) (hw : 0 < w) (hh : 0 < h)
    (hmax : 0 ≤ N.max_value) :
    (filter_out_wrong_segments N R (rectangle x0 y0 w h)).1 = true ∧
    (filter_out_wrong_segments N R (rectangle x0 y0 w h)).2.1 = rectangle x0 y0 w h := by
  obtain ⟨g0, g1, g2, g3⟩ := get_parallel_segments_rectangle N R hN hR hthr x0 y0 w h hw hh
  have hww : 0 < w * w := mul_pos hw hw
  have hhh : 0 < h * h := mul_pos hh hh
  have c0 := create_segment_from_parallel_segments_single N ⟨⟨x0, y0⟩, ⟨x0 + w, y0⟩⟩
    (by simp only [Segment_2.squared_length]; ring_nf; nlinarith)
    hmax
  have c1 := create_segment_from_parallel_segments_single N ⟨⟨x0 + w, y0⟩, ⟨x0 + w, y0 + h⟩⟩
    (by simp only [Segment_2.squared_length]; ring_nf; nlinarith)
    hmax
  have c2 := create_segment_from_parallel_segments_single N ⟨⟨x0 + w, y0 + h⟩, ⟨x0, y0 + h⟩⟩
    (by simp only [Segment_2.squared_length]; ring_nf; nlinarith)
    hmax
  have c3 := create_segment_from_parallel_segments_single N ⟨⟨x0, y0 + h⟩, ⟨x0, y0⟩⟩
    (by simp only [Segment_2.squared_length]; ring_nf; nlinarith)
    hmax
  have hlen : (rectangle x0 y0 w h).length = 4 := rfl
  unfold filter_out_wrong_segments
  simp only [find_initial_index_rectangle N R hN hR hthr x0 y0 w h hw hh]
  rw [filter_out_wrong_segments_loop_continue N R _ 0 _ 0 0 _ _ _ 1 g0 c0 (by norm_num)
      (by rw [hlen]; norm_num) (by rw [hlen]; norm_num),
    filter_out_wrong_segments_loop_continue N R _ 0 _ 1 1 _ _ _ 2 g1 c1 (by norm_num)
      (by rw [hlen]; norm_num) (by rw [hlen]; norm_num),
    filter_out_wrong_segments_loop_continue N R _ 0 _ 2 2 _ _ _ 3 g2 c2 (by norm_num)
      (by rw [hlen]; norm_num) (by rw [hlen]; norm_num),
    filter_out_wrong_segments_loop_stop N R _ 0 _ 3 3 _ _ _ g3 c3]
  simp [hlen, rectangle]

theorem clean_segments_rectangle (N : Internal) (R : Polygon_regularizer)
    (hN : Axis_exact N) (hR : R.m_pi = N.pi) (hthr : R.m_angle_threshold = 5)
    (x0 y0 w h : FT) (hw : 0 < w) (hh : 0 < h)
    (htw : N.tolerance < w * w) (hth : N.tolerance < h * h)
    (hmax : 0 ≤ N.max_value) :
    clean_segments N R (rectangle x0 y0 w h) = (true, rectangle x0 y0 w h) := by
  obtain ⟨f1, f2⟩ := filter_out_wrong_segments_rectangle N R hN hR hthr x0 y0 w h hw hh hmax
  unfold clean_segments
  simp only [remove_zero_length_segments_rectangle N x0 y0 w h htw hth, f1, f2]
  simp [rectangle]

end Levels_of_detail
namespace Levels_of_detail

theorem rectangle_opposite_sides (N : Internal) (R : Polygon_regularizer) (hN : Axis_exact N)
    (hR : R.m_pi = N.pi) (x0 y0 w h : FT) (hw : 0 < w) (hh : 0 < h) :
    |get_angle_2 (angle_degree_2 N R ⟨⟨x0, y0⟩, ⟨x0 + w, y0⟩⟩
      ⟨⟨x0 + w, y0 + h⟩, ⟨x0, y0 + h⟩⟩)| = 0 ∧
    |get_angle_2 (angle_degree_2 N R ⟨⟨x0 + w, y0⟩, ⟨x0 + w, y0 + h⟩⟩
      ⟨⟨x0, y0 + h⟩, ⟨x0, y0⟩⟩)| = 0 ∧
    |get_angle_2 (angle_degree_2 N R ⟨⟨x0, y0⟩, ⟨x0 + w, y0⟩⟩ ⟨⟨x0, y0 + h⟩, ⟨x0, y0⟩⟩)| = 90 ∧
    N.distance (middle_point_2 ⟨x0, y0⟩ ⟨x0 + w, y0⟩)
      ((Line_2.through ⟨x0 + w, y0 + h⟩ ⟨x0, y0 + h⟩).projection
        (middle_point_2 ⟨x0, y0⟩ ⟨x0 + w, y0⟩)) = h ∧
    N.distance (middle_point_2 ⟨x0 + w, y0⟩ ⟨x0 + w, y0 + h⟩)
      ((Line_2.through ⟨x0, y0 + h⟩ ⟨x0, y0⟩).projection
        (middle_point_2 ⟨x0 + w, y0⟩ ⟨x0 + w, y0 + h⟩)) = w := by
  obtain ⟨h0, h1, h2, h3⟩ := rectangle_sides x0 y0 w h hw hh
  have hw0 : w ≠ 0 := ne_of_gt hw
  have hh0 : h ≠ 0 := ne_of_gt hh
  refine ⟨abs_get_angle_2_of_parallel N R hN hR _ _ (Or.inl ⟨h0, h2⟩),
    abs_get_angle_2_of_parallel N R hN hR _ _ (Or.inr ⟨h1, h3⟩),
    abs_get_angle_2_of_perpendicular N R hN hR _ _ (Or.inl ⟨h0, h3⟩), ?_, ?_⟩
  · rw [hN.distance_vertical _ _ (by simp [Line_2.projection, Line_2.through, middle_point_2])]
    have e : ((Line_2.through ⟨x0 + w, y0 + h⟩ ⟨x0, y0 + h⟩).projection
        (middle_point_2 ⟨x0, y0⟩ ⟨x0 + w, y0⟩)).y - (middle_point_2 ⟨x0, y0⟩ ⟨x0 + w, y0⟩).y
        = h := by
      simp only [Line_2.projection, Line_2.through, middle_point_2]
      field_simp
      ring
    rw [e, abs_of_pos hh]
  · rw [hN.distance_horizontal _ _ (by simp [Line_2.projection, Line_2.through, middle_point_2])]
    have e : ((Line_2.through ⟨x0, y0 + h⟩ ⟨x0, y0⟩).projection
        (middle_point_2 ⟨x0 + w, y0⟩ ⟨x0 + w, y0 + h⟩)).x
        - (middle_point_2 ⟨x0 + w, y0⟩ ⟨x0 + w, y0 + h⟩).x = -w := by
      simp only [Line_2.projection, Line_2.through, middle_point_2]
      field_simp
      ring
    rw [e, abs_neg, abs_of_pos hw]

theorem create_collinear_groups_inner_skip (N : Internal) (R : Polygon_regularizer)
    (segments : List Segment_2) (segment_i : Segment_2) (p : Point_2) (gr_idx : Nat)
    (st : List Bool × List Segment_2 × List (Nat × Nat)) (j : Nat)
    (h : st.1.getD j false = true ∨
      ¬ |get_angle_2 (angle_degree_2 N R segment_i (segments.getD j default))|
          ≤ R.m_angle_threshold ∨
      ¬ N.distance p ((Line_2.through (segments.getD j default).source
          (segments.getD j default).target).projection p) ≤ R.m_ordinate_bound) :
    create_collinear_groups_inner N R segments segment_i p gr_idx st j = st := by
  unfold create_collinear_groups_inner
  rcases h with h | h | h
  · simp only [h, if_true]
  · simp only [h, if_false, ite_self]
  · simp only [h, if_false, ite_self]

theorem create_collinear_groups_outer_alone (N : Internal) (R : Polygon_regularizer)
    (segments : List Segment_2) (st : Collinear_state) (i : Nat)
    (hi : st.states.getD i false = false)
    (h : ∀ j, j < segments.length →
      (st.states.set i true).getD j false = true ∨
      ¬ |get_angle_2 (angle_degree_2 N R (segments.getD i default) (segments.getD j default))|
          ≤ R.m_angle_threshold ∨
      ¬ N.distance
          (middle_point_2 (segments.getD i default).source (segments.getD i default).target)
          ((Line_2.through (segments.getD j default).source
            (segments.getD j default).target).projection
            (middle_point_2 (segments.getD i default).source
              (segments.getD i default).target)) ≤ R.m_ordinate_bound) :
    create_collinear_groups_outer N R segments st i
      = { states := st.states.set i true
          groups := st.groups ++ [[segments.getD i default]]
          seg_map := map_insert st.seg_map i st.gr_idx
          gr_idx := st.gr_idx + 1 } := by
  have key : ∀ (l : List Nat), (∀ j ∈ l, j < segments.length) →
      l.foldl (create_collinear_groups_inner N R segments (segments.getD i default)
        (middle_point_2 (segments.getD i default).source (segments.getD i default).target)
        st.gr_idx)
        (st.states.set i true, [segments.getD i default], map_insert st.seg_map i st.gr_idx)
      = (st.states.set i true, [segments.getD i default], map_insert st.seg_map i st.gr_idx) := by
    intro l
    induction l with
    | nil => intro _; rfl
    | cons j rest ih =>
      intro hl
      rw [List.foldl_cons, create_collinear_groups_inner_skip N R segments _ _ _ _ j
        (h j (hl j (List.mem_cons_self _ _)))]
      exact ih (fun j1 hj1 => hl j1 (List.mem_cons_of_mem _ hj1))
  unfold create_collinear_groups_outer
  simp only [hi, Bool.false_eq_true, if_false]
  rw [key (List.range segments.length) (fun j hj => List.mem_range.mp hj)]

theorem create_collinear_groups_rectangle (N : Internal) (R : Polygon_regularizer)
    (hN : Axis_exact N) (hR : R.m_pi = N.pi) (hthr : R.m_angle_threshold = 5)
    (x0 y0 w h : FT) (hw : 0 < w) (hh : 0 < h)
    (how : R.m_ordinate_bound < w) (hoh : R.m_ordinate_bound < h) :
    create_collinear_groups N R (rectangle x0 y0 w h)
      = ([[⟨⟨x0, y0⟩, ⟨x0 + w, y0⟩⟩], [⟨⟨x0 + w, y0⟩, ⟨x0 + w, y0 + h⟩⟩],
          [⟨⟨x0 + w, y0 + h⟩, ⟨x0, y0 + h⟩⟩], [⟨⟨x0, y0 + h⟩, ⟨x0, y0⟩⟩]],
         [(0, 0), (1, 1), (2, 2), (3, 3)]) := by
  obtain ⟨a0, a1, a2, a3⟩ := rectangle_corner_angles N R hN hR x0 y0 w h hw hh
  obtain ⟨b0, b1, b2, d0, d1⟩ := rectangle_opposite_sides N R hN hR x0 y0 w h hw hh
  have hr : List.range 4 = [0, 1, 2, 3] := rfl
  have n1 : ¬ h ≤ R.m_ordinate_bound := not_le.mpr hoh
  have n2 : ¬ w ≤ R.m_ordinate_bound := not_le.mpr how
  have hlen : (rectangle x0 y0 w h).length = 4 := rfl
  unfold create_collinear_groups
  rw [hlen, hr]
  simp only [List.foldl_cons, List.foldl_nil]
  rw [create_collinear_groups_outer_alone N R _ _ 0 (by simp) (by
      intro j hj
      rw [hlen] at hj
      interval_cases j <;> norm_num [rectangle, a1, b2, d0, hthr, n1]),
    create_collinear_groups_outer_alone N R _ _ 1 (by simp) (by
      intro j hj
      rw [hlen] at hj
      interval_cases j <;> norm_num [rectangle, a2, d1, hthr, n2]),
    create_collinear_groups_outer_alone N R _ _ 2 (by simp) (by
      intro j hj
      rw [hlen] at hj
      interval_cases j <;> norm_num [rectangle, a3, hthr]),
    create_collinear_groups_outer_alone N R _ _ 3 (by simp) (by
      intro j hj
      rw [hlen] at hj
      interval_cases j <;> norm_num [rectangle])]
  simp [rectangle, map_insert]

end Levels_of_detail
namespace Levels_of_detail

theorem make_segments_collinear_rectangle (N : Internal) (R : Polygon_regularizer)
    (hN : Axis_exact N) (hR : R.m_pi = N.pi) (hthr : R.m_angle_threshold = 5)
    (x0 y0 w h : FT) (hw : 0 < w) (hh : 0 < h)
    (how : R.m_ordinate_bound < w) (hoh : R.m_ordinate_bound < h) :
    make_segments_collinear N R (rectangle x0 y0 w h) = some (rectangle x0 y0 w h) := by
  have hr : List.range 4 = [0, 1, 2, 3] := rfl
  have hlen : (rectangle x0 y0 w h).length = 4 := rfl
  unfold make_segments_collinear
  simp only [create_collinear_groups_rectangle N R hN hR hthr x0 y0 w h hw hh how hoh, hlen, hr,
    List.map, find_weighted_segment_single]
  simp [for_range, make_segments_collinear_body, map_find, rectangle, projection_source,
    projection_target]

theorem intersect_segments_rectangle (x0 y0 w h : FT) (hw : 0 < w) (hh : 0 < h) :
    intersect_segments (rectangle x0 y0 w h) = rectangle x0 y0 w h := by
  have hw0 : w ≠ 0 := ne_of_gt hw
  have hh0 : h ≠ 0 := ne_of_gt hh
  have hr : List.range 4 = [0, 1, 2, 3] := rfl
  have hlen : (rectangle x0 y0 w h).length = 4 := rfl
  have i0 : intersect_segment ⟨⟨x0, y0 + h⟩, ⟨x0, y0⟩⟩ ⟨⟨x0, y0⟩, ⟨x0 + w, y0⟩⟩
      ⟨⟨x0 + w, y0⟩, ⟨x0 + w, y0 + h⟩⟩ = ⟨⟨x0, y0⟩, ⟨x0 + w, y0⟩⟩ := by
    rw [intersect_segment_of_not_parallel _ _ _
      (by simp [Line_2.parallel, supporting_line, Line_2.through, hw0, hh0])
      (by simp [Line_2.parallel, supporting_line, Line_2.through, hw0, hh0])]
    simp only [intersection_point, supporting_line, Line_2.through, Segment_2.mk.injEq,
      Point_2.mk.injEq]
    refine ⟨⟨?_, ?_⟩, ⟨?_, ?_⟩⟩ <;> (field_simp; ring)
  have i1 : intersect_segment ⟨⟨x0, y0⟩, ⟨x0 + w, y0⟩⟩ ⟨⟨x0 + w, y0⟩, ⟨x0 + w, y0 + h⟩⟩
      ⟨⟨x0 + w, y0 + h⟩, ⟨x0, y0 + h⟩⟩ = ⟨⟨x0 + w, y0⟩, ⟨x0 + w, y0 + h⟩⟩ := by
    rw [intersect_segment_of_not_parallel _ _ _
      (by simp [Line_2.parallel, supporting_line, Line_2.through, hw0, hh0])
      (by simp [Line_2.parallel, supporting_line, Line_2.through, hw0, hh0])]
    simp only [intersection_point, supporting_line, Line_2.through, Segment_2.mk.injEq,
      Point_2.mk.injEq]
    refine ⟨⟨?_, ?_⟩, ⟨?_, ?_⟩⟩ <;> (field_simp; ring)
  have i2 : intersect_segment ⟨⟨x0 + w, y0⟩, ⟨x0 + w, y0 + h⟩⟩
      ⟨⟨x0 + w, y0 + h⟩, ⟨x0, y0 + h⟩⟩ ⟨⟨x0, y0 + h⟩, ⟨x0, y0⟩⟩
      = ⟨⟨x0 + w, y0 + h⟩, ⟨x0, y0 + h⟩⟩ := by
    rw [intersect_segment_of_not_parallel _ _ _
      (by simp [Line_2.parallel, supporting_line, Line_2.through, hw0, hh0])
      (by simp [Line_2.parallel, supporting_line, Line_2.through, hw0, hh0])]
    simp only [intersection_point, supporting_line, Line_2.through, Segment_2.mk.injEq,
      Point_2.mk.injEq]
    refine ⟨⟨?_, ?_⟩, ⟨?_, ?_⟩⟩ <;> (field_simp; ring)
  have i3 : intersect_segment ⟨⟨x0 + w, y0 + h⟩, ⟨x0, y0 + h⟩⟩ ⟨⟨x0, y0 + h⟩, ⟨x0, y0⟩⟩
      ⟨⟨x0, y0⟩, ⟨x0 + w, y0⟩⟩ = ⟨⟨x0, y0 + h⟩, ⟨x0, y0⟩⟩ := by
    rw [intersect_segment_of_not_parallel _ _ _
      (by simp [Line_2.parallel, supporting_line, Line_2.through, hw0, hh0])
      (by simp [Line_2.parallel, supporting_line, Line_2.through, hw0, hh0])]
    simp only [intersection_point, supporting_line, Line_2.through, Segment_2.mk.injEq,
      Point_2.mk.injEq]
    refine ⟨⟨?_, ?_⟩, ⟨?_, ?_⟩⟩ <;> (field_simp; ring)
  have s0 : intersect_segments_body (rectangle x0 y0 w h) 0 = rectangle x0 y0 w h := by
    simp [intersect_segments_body, rectangle, i0]
  have s1 : intersect_segments_body (rectangle x0 y0 w h) 1 = rectangle x0 y0 w h := by
    simp [intersect_segments_body, rectangle, i1]
  have s2 : intersect_segments_body (rectangle x0 y0 w h) 2 = rectangle x0 y0 w h := by
    simp [intersect_segments_body, rectangle, i2]
  have s3 : intersect_segments_body (rectangle x0 y0 w h) 3 = rectangle x0 y0 w h := by
    simp [intersect_segments_body, rectangle, i3]
  unfold intersect_segments
  rw [hlen, hr]
  simp only [List.foldl_cons, List.foldl_nil, s0, s1, s2, s3]

theorem connect_contour_rectangle (N : Internal) (R : Polygon_regularizer)
    (hN : Axis_exact N) (hR : R.m_pi = N.pi) (hthr : R.m_angle_threshold = 5)
    (x0 y0 w h : FT) (hw : 0 < w) (hh : 0 < h)
    (how : R.m_ordinate_bound < w) (hoh : R.m_ordinate_bound < h)
    (htw : N.tolerance < w * w) (hth : N.tolerance < h * h)
    (hmax : 0 ≤ N.max_value) :
    connect_contour N R (rectangle x0 y0 w h) = some (true, rectangle x0 y0 w h) := by
  unfold connect_contour
  simp only [clean_segments_rectangle N R hN hR hthr x0 y0 w h hw hh htw hth hmax,
    make_segments_collinear_rectangle N R hN hR hthr x0 y0 w h hw hh how hoh,
    intersect_segments_rectangle x0 y0 w h hw hh, Bool.not_true, Bool.false_eq_true, if_false]

end Levels_of_detail
namespace Levels_of_detail

theorem rectangle_side_lengths (N : Internal) (hN : Axis_exact N) (x0 y0 w h : FT)
    (hw : 0 < w) (hh : 0 < h) :
    N.distance ⟨x0, y0⟩ ⟨x0 + w, y0⟩ = w ∧ N.distance ⟨x0 + w, y0⟩ ⟨x0 + w, y0 + h⟩ = h ∧
    N.distance ⟨x0 + w, y0 + h⟩ ⟨x0, y0 + h⟩ = w ∧ N.distance ⟨x0, y0 + h⟩ ⟨x0, y0⟩ = h := by
  refine ⟨?_, ?_, ?_, ?_⟩
  · rw [hN.distance_horizontal ⟨x0, y0⟩ ⟨x0 + w, y0⟩ rfl]
    simp [abs_of_pos hw]
  · rw [hN.distance_vertical ⟨x0 + w, y0⟩ ⟨x0 + w, y0 + h⟩ rfl]
    simp [abs_of_pos hh]
  · rw [hN.distance_horizontal ⟨x0 + w, y0 + h⟩ ⟨x0, y0 + h⟩ rfl]
    simp [abs_of_pos hw]
  · rw [hN.distance_vertical ⟨x0, y0 + h⟩ ⟨x0, y0⟩ rfl]
    simp [abs_of_pos hh]

theorem rotate_contour_rectangle (N : Internal) (R : Polygon_regularizer)
    (hN : Axis_exact N) (hR : R.m_pi = N.pi) (x0 y0 w h : FT) (hw : 0 < w) (hh : 0 < h)
    (l : Nat) (sl : Segment_2) (hsl : horizontal sl ∨ vertical sl)
    (hskip : R.m_skip = [(0, l)]) (hlongest : R.m_longest = [sl])
    (hbounds : R.m_bounds = [(45, 45)]) :
    rotate_contour N R [[0, 0, 0, 0]] 0 (rectangle x0 y0 w h)
      = some ([[0, 0, 0, 0]], rectangle x0 y0 w h) := by
  obtain ⟨h0, h1, h2, h3⟩ := rectangle_sides x0 y0 w h hw hh
  have r0 := rotate_segment_of_axes N R hN hR sl _ hsl (Or.inl h0)
  have r1 := rotate_segment_of_axes N R hN hR sl _ hsl (Or.inr h1)
  have r2 := rotate_segment_of_axes N R hN hR sl _ hsl (Or.inl h2)
  have r3 := rotate_segment_of_axes N R hN hR sl _ hsl (Or.inr h3)
  have hnpos : (0 : Nat) ≠ npos := by norm_num [npos]
  have body : ∀ i, i < 4 →
      rotate_contour_body N R 0 ([[0, 0, 0, 0]], rectangle x0 y0 w h) i
        = some ([[0, 0, 0, 0]], rectangle x0 y0 w h) := by
    intro i hi
    unfold rotate_contour_body
    by_cases hil : i = l
    · interval_cases i <;> simp [hskip, ← hil]
    · interval_cases i <;>
        simp [hskip, hlongest, hbounds, hil, hnpos, rectangle, r0, r1, r2, r3]
  have hr : List.range 4 = [0, 1, 2, 3] := rfl
  have hlen : (rectangle x0 y0 w h).length = 4 := rfl
  unfold rotate_contour
  rw [hlen, hr]
  simp only [for_range, body 0 (by norm_num), body 1 (by norm_num), body 2 (by norm_num),
    body 3 (by norm_num)]

theorem correct_contour_rectangle (N : Internal) (R : Polygon_regularizer)
    (hN : Axis_exact N) (x0 y0 w h : FT) (hw : 0 < w) (hh : 0 < h)
    (hlw : ¬ w ≤ R.m_min_length) (hlh : ¬ h ≤ R.m_min_length)
    (l : Nat) (hskip : R.m_skip = [(0, l)]) :
    correct_contour N R [[0, 0, 0, 0]] 0 (rectangle x0 y0 w h)
      = some (rectangle x0 y0 w h) := by
  have hnpos : (0 : Nat) ≠ npos := by norm_num [npos]
  obtain ⟨d0, d1, d2, d3⟩ := rectangle_side_lengths N hN x0 y0 w h hw hh
  have body : ∀ i, i < 4 →
      correct_contour_body N R [[0, 0, 0, 0]] 0 (rectangle x0 y0 w h) i
        = some (rectangle x0 y0 w h) := by
    intro i hi
    unfold correct_contour_body
    by_cases hil : i = l
    · interval_cases i <;> simp [hskip, ← hil]
    · interval_cases i <;>
        simp [hskip, hil, hnpos, rectangle, d0, d1, d2, d3, hlw, hlh]
  have hr : List.range 4 = [0, 1, 2, 3] := rfl
  have hlen : (rectangle x0 y0 w h).length = 4 := rfl
  unfold correct_contour
  rw [hlen, hr]
  simp only [for_range, body 0 (by norm_num), body 1 (by norm_num), body 2 (by norm_num),
    body 3 (by norm_num)]

theorem regularize_contours_rectangle (N : Internal) (R : Polygon_regularizer)
    (hN : Axis_exact N) (hR : R.m_pi = N.pi) (hthr : R.m_angle_threshold = 5)
    (x0 y0 w h : FT) (hw : 0 < w) (hh : 0 < h)
    (hlw : ¬ w ≤ R.m_min_length) (hlh : ¬ h ≤ R.m_min_length)
    (how : R.m_ordinate_bound < w) (hoh : R.m_ordinate_bound < h)
    (htw : N.tolerance < w * w) (hth : N.tolerance < h * h)
    (hmax : 0 ≤ N.max_value)
    (l : Nat) (sl : Segment_2) (hsl : horizontal sl ∨ vertical sl)
    (hgroups : R.m_groups = [[0, 0, 0, 0]])
    (hskip : R.m_skip = [(0, l)]) (hlongest : R.m_longest = [sl])
    (hbounds : R.m_bounds = [(45, 45)]) :
    regularize_contours N R [rectangle x0 y0 w h]
      = some ([[0, 0, 0, 0]], [rectangle x0 y0 w h]) := by
  unfold regularize_contours
  by_cases hab : R.m_angle_bound = 0
  · simp only [hab, if_true, hgroups]
  · simp only [hab, if_false, hgroups, regularize_contours_loop, regularize_contours_body,
      rotate_contour_rectangle N R hN hR x0 y0 w h hw hh l sl hsl hskip hlongest hbounds,
      correct_contour_rectangle N R hN x0 y0 w h hw hh hlw hlh l hskip,
      connect_contour_rectangle N R hN hR hthr x0 y0 w h hw hh how hoh htw hth hmax,
      if_true, List.nil_append]

end Levels_of_detail
namespace Levels_of_detail

theorem t_ij_of_quarter_turns :
    Level_of_detail.t_ij 0 = 0 ∧ Level_of_detail.t_ij 90 = 0 ∧ Level_of_detail.t_ij (-90) = 0 := by
  have f0 : Int.floor ((0 : FT) / 90) = 0 := by norm_num
  have f1 : Int.floor ((90 : FT) / 90) = 1 := by norm_num
  have f2 : Int.floor ((-90 : FT) / 90) = -1 := by
    rw [show (-90 : FT) / 90 = ((-1 : Int) : FT) by norm_num, Int.floor_intCast]
  refine ⟨?_, ?_, ?_⟩
  · norm_num [Level_of_detail.t_ij, Level_of_detail.to_lower, Level_of_detail.to_upper,
      Level_of_detail.mes90, f0]
  · norm_num [Level_of_detail.t_ij, Level_of_detail.to_lower, Level_of_detail.to_upper,
      Level_of_detail.mes90, f1]
  · norm_num [Level_of_detail.t_ij, Level_of_detail.to_lower, Level_of_detail.to_upper,
      Level_of_detail.mes90, f2]

theorem t_ij_of_axes (D : Directions_internal) (hD : Axis_exact_directions D) (a b : Segment_2)
    (ha : horizontal a ∨ vertical a) (hb : horizontal b ∨ vertical b) :
    Level_of_detail.t_ij (D.orientation a - D.orientation b) = 0 := by
  obtain ⟨t0, t1, t2⟩ := t_ij_of_quarter_turns
  rcases ha with ha | ha <;> rcases hb with hb | hb
  · rw [hD.orientation_horizontal a ha, hD.orientation_horizontal b hb, sub_self]; exact t0
  · rw [hD.orientation_horizontal a ha, hD.orientation_vertical b hb, zero_sub]; exact t2
  · rw [hD.orientation_vertical a ha, hD.orientation_horizontal b hb, sub_zero]; exact t1
  · rw [hD.orientation_vertical a ha, hD.orientation_vertical b hb, sub_self]; exact t0

theorem direction_test_of_axes (N : Internal) (R : Polygon_regularizer) (hN : Axis_exact N)
    (hR : R.m_pi = N.pi) (hmin : 0 ≤ R.m_bound_min) (hmax : R.m_bound_max ≤ 90)
    (a b : Segment_2) (ha : horizontal a ∨ vertical a) (hb : horizontal b ∨ vertical b) :
    |get_angle_2 (angle_degree_2 N R a b)| ≤ R.m_bound_min ∨
      R.m_bound_max ≤ |get_angle_2 (angle_degree_2 N R a b)| := by
  rcases ha with ha | ha <;> rcases hb with hb | hb
  · left; rw [abs_get_angle_2_of_parallel N R hN hR a b (Or.inl ⟨ha, hb⟩)]; exact hmin
  · right; rw [abs_get_angle_2_of_perpendicular N R hN hR a b (Or.inl ⟨ha, hb⟩)]; exact hmax
  · right; rw [abs_get_angle_2_of_perpendicular N R hN hR a b (Or.inr ⟨ha, hb⟩)]; exact hmax
  · left; rw [abs_get_angle_2_of_parallel N R hN hR a b (Or.inr ⟨ha, hb⟩)]; exact hmin

theorem get_next_direction_body_assign (N : Internal) (R : Polygon_regularizer)
    (contours : List (List Seg_pair)) (input : List (Nat × Nat)) (gr_idx longest_idx : Nat)
    (st : List (List Nat) × List Bool) (i : Nat)
    (hst : st.2.getD i false = false)
    (hflag : (seg_pair_at contours (input.getD i default)).2 = true)
    (hcond : |get_angle_2 (angle_degree_2 N R
        (seg_pair_at contours (input.getD longest_idx default)).1
        (seg_pair_at contours (input.getD i default)).1)| ≤ R.m_bound_min ∨
      R.m_bound_max ≤ |get_angle_2 (angle_degree_2 N R
        (seg_pair_at contours (input.getD longest_idx default)).1
        (seg_pair_at contours (input.getD i default)).1)|) :
    get_next_direction_body N R contours input gr_idx longest_idx st i
      = (set_group st.1 (input.getD i default).1 (input.getD i default).2 gr_idx,
          st.2.set i true) := by
  unfold get_next_direction_body
  by_cases hi : i = longest_idx
  · simp only [hi, if_true]
  · simp only [hi, if_false, hst, hflag, Bool.not_false, Bool.and_self, if_true, hcond]

theorem foldl_set_getElem? (v : Nat) (ms : List Nat) (row : List Nat) (k : Nat) :
    (ms.foldl (fun r m => r.set m v) row)[k]?
      = if k ∈ ms then (row[k]?).map (fun _ => v) else row[k]? := by
  induction ms generalizing row with
  | nil => simp
  | cons m rest ih =>
    rw [List.foldl_cons, ih]
    by_cases hk : k ∈ rest
    · simp only [hk, if_true, List.mem_cons, or_true]
      by_cases hmk : m = k
      · subst hmk
        by_cases hlt : m < row.length
        · simp [List.getElem?_set, hlt]
        · simp [List.getElem?_set, hlt, List.getElem?_eq_none (not_lt.mp hlt)]
      · simp [List.getElem?_set, hmk]
    · simp only [hk, if_false, List.mem_cons, or_false]
      by_cases hmk : m = k
      · subst hmk
        by_cases hlt : m < row.length
        · simp [List.getElem?_set, hlt]
        · simp [List.getElem?_set, hlt, List.getElem?_eq_none (not_lt.mp hlt)]
      · have hkm : ¬ k = m := fun e => hmk e.symm
        simp [List.getElem?_set, hmk, hkm]

end Levels_of_detail
namespace Levels_of_detail

theorem create_internal_contours_rectangle (N : Internal) (R : Polygon_regularizer)
    (hN : Axis_exact N) (x0 y0 w h : FT) (hw : 0 < w) (hh : 0 < h)
    (hlw : R.m_min_length * 2 ≤ w) (hlh : R.m_min_length * 2 ≤ h) :
    create_internal_contours N R [rectangle x0 y0 w h]
      = [(rectangle x0 y0 w h).map (fun s => (s, true))] := by
  obtain ⟨d0, d1, d2, d3⟩ := rectangle_side_lengths N hN x0 y0 w h hw hh
  simp [create_internal_contours, rectangle, d0, d1, d2, d3, hlw, hlh]

theorem rectangle_getD_axis (x0 y0 w h : FT) (hw : 0 < w) (hh : 0 < h) (m : Nat) (hm : m < 4) :
    horizontal ((rectangle x0 y0 w h).getD m default) ∨
      vertical ((rectangle x0 y0 w h).getD m default) := by
  obtain ⟨h0, h1, h2, h3⟩ := rectangle_sides x0 y0 w h hw hh
  interval_cases m
  · exact Or.inl h0
  · exact Or.inr h1
  · exact Or.inl h2
  · exact Or.inr h3

theorem seg_pair_at_rectangle (x0 y0 w h : FT) (m : Nat) (hm : m < 4) :
    seg_pair_at [(rectangle x0 y0 w h).map (fun s => (s, true))] (0, m)
      = ((rectangle x0 y0 w h).getD m default, true) := by
  interval_cases m <;> rfl

theorem sort_input_rectangle (D : Directions_internal) (hD : Axis_exact_directions D)
    (x0 y0 w h : FT) :
    ∃ m0 m1 m2 m3 : Nat,
      sort_input D [(rectangle x0 y0 w h).map (fun s => (s, true))]
          (all_pairs [(rectangle x0 y0 w h).map (fun s => (s, true))])
        = [(0, m0), (0, m1), (0, m2), (0, m3)] ∧
      [m0, m1, m2, m3].Perm [0, 1, 2, 3] := by
  have hall : all_pairs [(rectangle x0 y0 w h).map (fun s => (s, true))]
      = [(0, 0), (0, 1), (0, 2), (0, 3)] := rfl
  unfold sort_input
  rw [hall]
  generalize hL : D.sort _ [(0, 0), (0, 1), (0, 2), (0, 3)] = L
  have hp : L.Perm [(0, 0), (0, 1), (0, 2), (0, 3)] := by
    rw [← hL]; exact hD.sort_perm _ _
  have hlen := hp.length_eq
  have hfst : ∀ p ∈ L, p.1 = 0 := by
    intro p hpL
    have := hp.mem_iff.mp hpL
    simp only [List.mem_cons, List.mem_singleton, List.not_mem_nil, or_false] at this
    rcases this with rfl | rfl | rfl | rfl <;> rfl
  match L, hp, hlen, hfst with
  | [p0, p1, p2, p3], hp, _, hfst =>
    refine ⟨p0.2, p1.2, p2.2, p3.2, ?_, ?_⟩
    · have e0 := hfst p0 (by simp)
      have e1 := hfst p1 (by simp)
      have e2 := hfst p2 (by simp)
      have e3 := hfst p3 (by simp)
      obtain ⟨a0, b0⟩ := p0
      obtain ⟨a1, b1⟩ := p1
      obtain ⟨a2, b2⟩ := p2
      obtain ⟨a3, b3⟩ := p3
      simp only at e0 e1 e2 e3
      subst e0 e1 e2 e3
      rfl
    · exact hp.map Prod.snd

theorem set_all_of_perm (v a b c d m0 m1 m2 m3 : Nat)
    (hp : [m0, m1, m2, m3].Perm [0, 1, 2, 3]) :
    (((([a, b, c, d].set m0 v).set m1 v).set m2 v).set m3 v) = [v, v, v, v] := by
  apply List.ext_getElem?
  intro k
  have e := foldl_set_getElem? v [m0, m1, m2, m3] [a, b, c, d] k
  simp only [List.foldl_cons, List.foldl_nil] at e
  rw [e]
  by_cases hk : k < 4
  · have hmem : k ∈ [m0, m1, m2, m3] := hp.mem_iff.mpr (by interval_cases k <;> simp)
    rw [if_pos hmem]
    interval_cases k <;> rfl
  · have hmem : ¬ k ∈ [m0, m1, m2, m3] := fun hk1 => by
      have := hp.mem_iff.mp hk1
      simp only [List.mem_cons, List.mem_singleton, List.not_mem_nil, or_false] at this
      omega
    rw [if_neg hmem]
    have h4 : 4 ≤ k := not_lt.mp hk
    rw [List.getElem?_eq_none (by simpa using h4), List.getElem?_eq_none (by simpa using h4)]

end Levels_of_detail
namespace Levels_of_detail

theorem get_next_direction_body_fold (N : Internal) (R : Polygon_regularizer)
    (contours : List (List Seg_pair)) (p0 p1 p2 p3 : Nat × Nat) (gr_idx : Nat)
    (G : List (List Nat))
    (hf : ∀ p ∈ [p0, p1, p2, p3], (seg_pair_at contours p).2 = true)
    (hc : ∀ p ∈ [p0, p1, p2, p3],
      |get_angle_2 (angle_degree_2 N R (seg_pair_at contours p0).1 (seg_pair_at contours p).1)|
          ≤ R.m_bound_min ∨
      R.m_bound_max ≤
        |get_angle_2 (angle_degree_2 N R (seg_pair_at contours p0).1
          (seg_pair_at contours p).1)|) :
    [0, 1, 2, 3].foldl (get_next_direction_body N R contours [p0, p1, p2, p3] gr_idx 0)
        (G, [false, false, false, false])
      = (set_group (set_group (set_group (set_group G p0.1 p0.2 gr_idx) p1.1 p1.2 gr_idx)
            p2.1 p2.2 gr_idx) p3.1 p3.2 gr_idx, [true, true, true, true]) := by
  have s0 : get_next_direction_body N R contours [p0, p1, p2, p3] gr_idx 0
      (G, [false, false, false, false]) 0
      = (set_group G p0.1 p0.2 gr_idx, [true, false, false, false]) :=
    get_next_direction_body_assign N R contours [p0, p1, p2, p3] gr_idx 0
      (G, [false, false, false, false]) 0 rfl (hf p0 (by simp)) (hc p0 (by simp))
  have s1 : get_next_direction_body N R contours [p0, p1, p2, p3] gr_idx 0
      (set_group G p0.1 p0.2 gr_idx, [true, false, false, false]) 1
      = (set_group (set_group G p0.1 p0.2 gr_idx) p1.1 p1.2 gr_idx,
          [true, true, false, false]) :=
    get_next_direction_body_assign N R contours [p0, p1, p2, p3] gr_idx 0
      (set_group G p0.1 p0.2 gr_idx, [true, false, false, false]) 1 rfl
      (hf p1 (by simp)) (hc p1 (by simp))
  have s2 : get_next_direction_body N R contours [p0, p1, p2, p3] gr_idx 0
      (set_group (set_group G p0.1 p0.2 gr_idx) p1.1 p1.2 gr_idx, [true, true, false, false]) 2
      = (set_group (set_group (set_group G p0.1 p0.2 gr_idx) p1.1 p1.2 gr_idx) p2.1 p2.2 gr_idx,
          [true, true, true, false]) :=
    get_next_direction_body_assign N R contours [p0, p1, p2, p3] gr_idx 0
      (set_group (set_group G p0.1 p0.2 gr_idx) p1.1 p1.2 gr_idx, [true, true, false, false]) 2
      rfl (hf p2 (by simp)) (hc p2 (by simp))
  have s3 : get_next_direction_body N R contours [p0, p1, p2, p3] gr_idx 0
      (set_group (set_group (set_group G p0.1 p0.2 gr_idx) p1.1 p1.2 gr_idx) p2.1 p2.2 gr_idx,
        [true, true, true, false]) 3
      = (set_group (set_group (set_group (set_group G p0.1 p0.2 gr_idx) p1.1 p1.2 gr_idx)
            p2.1 p2.2 gr_idx) p3.1 p3.2 gr_idx, [true, true, true, true]) :=
    get_next_direction_body_assign N R contours [p0, p1, p2, p3] gr_idx 0
      (set_group (set_group (set_group G p0.1 p0.2 gr_idx) p1.1 p1.2 gr_idx) p2.1 p2.2 gr_idx,
        [true, true, true, false]) 3
      rfl (hf p3 (by simp)) (hc p3 (by simp))
  simp only [List.foldl_cons, List.foldl_nil, s0, s1, s2, s3]

theorem get_next_direction_first (N : Internal) (R : Polygon_regularizer)
    (contours : List (List Seg_pair)) (p0 p1 p2 p3 : Nat × Nat) (gr_idx : Nat)
    (hf : ∀ p ∈ [p0, p1, p2, p3], (seg_pair_at contours p).2 = true)
    (hc : ∀ p ∈ [p0, p1, p2, p3],
      |get_angle_2 (angle_degree_2 N R (seg_pair_at contours p0).1 (seg_pair_at contours p).1)|
          ≤ R.m_bound_min ∨
      R.m_bound_max ≤
        |get_angle_2 (angle_degree_2 N R (seg_pair_at contours p0).1
          (seg_pair_at contours p).1)|) :
    get_next_direction N R contours [p0, p1, p2, p3] gr_idx [false, false, false, false]
      = (true, [true, true, true, true],
          { R with
            m_groups := set_group (set_group (set_group (set_group R.m_groups p0.1 p0.2 gr_idx)
              p1.1 p1.2 gr_idx) p2.1 p2.2 gr_idx) p3.1 p3.2 gr_idx
            m_longest := R.m_longest ++ [(seg_pair_at contours p0).1]
            m_bounds := R.m_bounds ++ [(45, 45)]
            m_skip := R.m_skip ++ [p0] }) := by
  have hnpos : (0 : Nat) ≠ npos := by norm_num [npos]
  have hr : List.range 4 = [0, 1, 2, 3] := rfl
  have hidx : find_longest_idx contours [p0, p1, p2, p3] [false, false, false, false] = 0 := by
    have h0 := hf p0 (by simp)
    simp [find_longest_idx, hr, List.find?, h0]
  unfold get_next_direction
  simp only [hidx, hnpos, if_false, List.length_cons, List.length_nil, zero_add, Nat.reduceAdd,
    hr, get_next_direction_body_fold N R contours p0 p1 p2 p3 gr_idx R.m_groups hf hc]
  rfl

theorem get_next_direction_done (N : Internal) (R : Polygon_regularizer)
    (contours : List (List Seg_pair)) (input : List (Nat × Nat)) (gr_idx : Nat) :
    get_next_direction N R contours input gr_idx [true, true, true, true]
      = (false, [true, true, true, true], R) := by
  have hr : List.range 4 = [0, 1, 2, 3] := rfl
  have hidx : find_longest_idx contours input [true, true, true, true] = npos := by
    simp [find_longest_idx, hr, List.find?]
  unfold get_next_direction
  simp only [hidx, if_true]

theorem get_multiple_directions_rectangle (N : Internal) (D : Directions_internal)
    (R : Polygon_regularizer) (hN : Axis_exact N) (hD : Axis_exact_directions D)
    (hR : R.m_pi = N.pi) (hmin : 0 ≤ R.m_bound_min) (hmax : R.m_bound_max ≤ 90)
    (x0 y0 w h : FT) (hw : 0 < w) (hh : 0 < h) :
    ∃ l, l < 4 ∧
      get_multiple_directions N D R [(rectangle x0 y0 w h).map (fun s => (s, true))]
        = { R with
            m_bounds := [(45, 45)]
            m_skip := [(0, l)]
            m_longest := [(rectangle x0 y0 w h).getD l default]
            m_groups := [[0, 0, 0, 0]] } := by
  obtain ⟨m0, m1, m2, m3, hinput, hp⟩ := sort_input_rectangle D hD x0 y0 w h
  have hm : ∀ m ∈ [m0, m1, m2, m3], m < 4 := by
    intro m hmem
    have := hp.mem_iff.mp hmem
    simp only [List.mem_cons, List.mem_singleton, List.not_mem_nil, or_false] at this
    omega
  have hm0 := hm m0 (by simp)
  refine ⟨m0, hm0, ?_⟩
  have hpairs : ∀ p ∈ [((0 : Nat), m0), (0, m1), (0, m2), (0, m3)], p.1 = 0 ∧ p.2 < 4 := by
    intro p hpm
    simp only [List.mem_cons, List.mem_singleton, List.not_mem_nil, or_false] at hpm
    rcases hpm with rfl | rfl | rfl | rfl
    · exact ⟨rfl, hm _ (by simp)⟩
    · exact ⟨rfl, hm _ (by simp)⟩
    · exact ⟨rfl, hm _ (by simp)⟩
    · exact ⟨rfl, hm _ (by simp)⟩
  generalize hC : [(rectangle x0 y0 w h).map (fun s => (s, true))] = C at hinput
  have hseg : ∀ m, m < 4 → seg_pair_at C (0, m) = ((rectangle x0 y0 w h).getD m default, true) := by
    intro m hm4
    rw [← hC]
    exact seg_pair_at_rectangle x0 y0 w h m hm4
  have hdef : make_default_groups C npos = [[npos, npos, npos, npos]] := by
    rw [← hC]; rfl
  set R0 : Polygon_regularizer :=
    { R with m_bounds := [], m_skip := [], m_longest := [], m_groups := [[npos, npos, npos, npos]] }
    with hR0
  have hf : ∀ p ∈ [((0 : Nat), m0), (0, m1), (0, m2), (0, m3)], (seg_pair_at C p).2 = true := by
    intro p hpm
    obtain ⟨e1, e2⟩ := hpairs p hpm
    obtain ⟨a, b⟩ := p
    simp only at e1 e2
    subst e1
    rw [hseg b e2]
  have hc : ∀ p ∈ [((0 : Nat), m0), (0, m1), (0, m2), (0, m3)],
      |get_angle_2 (angle_degree_2 N R0 (seg_pair_at C (0, m0)).1 (seg_pair_at C p).1)|
          ≤ R0.m_bound_min ∨
      R0.m_bound_max ≤
        |get_angle_2 (angle_degree_2 N R0 (seg_pair_at C (0, m0)).1 (seg_pair_at C p).1)| := by
    intro p hpm
    obtain ⟨e1, e2⟩ := hpairs p hpm
    obtain ⟨a, b⟩ := p
    simp only at e1 e2
    subst e1
    rw [hseg b e2, hseg m0 hm0]
    exact direction_test_of_axes N R0 hN hR hmin hmax _ _
      (rectangle_getD_axis x0 y0 w h hw hh m0 hm0) (rectangle_getD_axis x0 y0 w h hw hh b e2)
  have hrow := set_all_of_perm 0 npos npos npos npos m0 m1 m2 m3 hp
  unfold get_multiple_directions
  simp only [hinput, hdef, List.length_cons, List.length_nil, List.replicate]
  rw [get_multiple_directions_loop.eq_def]
  simp only [get_next_direction_first N R0 C (0, m0) (0, m1) (0, m2) (0, m3) 0 hf hc, if_true]
  rw [get_multiple_directions_loop.eq_def]
  simp only [get_next_direction_done, Bool.false_eq_true, if_false]
  simp [hR0, set_group, hrow, hseg m0 hm0]

end Levels_of_detail
namespace Levels_of_detail

theorem unify_along_contours_of_long (G : List (List Nat)) (contours : List (List Seg_pair))
    (h : ∀ pair ∈ all_pairs contours, (seg_pair_at contours pair).2 = true) :
    unify_along_contours G contours = G := by
  unfold unify_along_contours
  generalize all_pairs contours = l at h
  induction l with
  | nil => rfl
  | cons pair rest ih =>
    rw [List.foldl_cons]
    have hp : unify_along_contours_body contours pair.1 G pair.2 = G := by
      have := h pair (List.mem_cons_self _ _)
      unfold seg_pair_at at this
      unfold unify_along_contours_body
      simp only [this, if_true]
    rw [hp]
    exact ih (fun p hpm => h p (List.mem_cons_of_mem _ hpm))

theorem readjust_directions_rectangle (N : Internal) (D : Directions_internal)
    (R : Polygon_regularizer) (hN : Axis_exact N) (hD : Axis_exact_directions D)
    (x0 y0 w h : FT) (hw : 0 < w) (hh : 0 < h) (sl : Segment_2)
    (hsl : horizontal sl ∨ vertical sl)
    (hgroups : R.m_groups = [[0, 0, 0, 0]]) (hlongest : R.m_longest = [sl]) :
    readjust_directions N D R [(rectangle x0 y0 w h).map (fun s => (s, true))] = some R := by
  have hbody : ∀ (st : List FT × List FT) (m : Nat), m < 4 →
      create_average_angles_body D R [(rectangle x0 y0 w h).map (fun s => (s, true))] st (0, m)
        = some (st.1.set 0 (st.1.getD 0 0 + 0), st.2.set 0 (st.2.getD 0 0 + 1)) := by
    intro st m hm
    have ht := t_ij_of_axes D hD sl _ hsl (rectangle_getD_axis x0 y0 w h hw hh m hm)
    have hg : (R.m_groups.getD 0 []).getD m npos = 0 := by
      rw [hgroups]
      interval_cases m <;> rfl
    unfold create_average_angles_body
    simp only [seg_pair_at_rectangle x0 y0 w h m hm, Bool.not_true, Bool.false_eq_true,
      if_false, hg, hlongest, List.getElem?_cons_zero, ht]
  have hpairs : group_pairs R.m_groups = [(0, 0), (0, 1), (0, 2), (0, 3)] := by
    rw [hgroups]; rfl
  have hangles : create_average_angles D R [(rectangle x0 y0 w h).map (fun s => (s, true))]
      = some ([0], [4]) := by
    unfold create_average_angles
    rw [hpairs, hlongest]
    simp only [for_pairs, hbody _ 0 (by norm_num), hbody _ 1 (by norm_num),
      hbody _ 2 (by norm_num), hbody _ 3 (by norm_num)]
    norm_num
  have hrot : rotate N R (0 / 4) 0 default sl = sl := rotate_of_zero N R hN _ _ _ _ (by norm_num)
  have hr1 : List.range 1 = [0] := rfl
  unfold readjust_directions
  simp only [hangles, List.length_cons, List.length_nil, zero_add, hr1, for_range,
    readjust_directions_body, hlongest, List.getElem?_cons_zero]
  norm_num [hrot]
  cases R
  simp only [Polygon_regularizer.mk.injEq, true_and, and_true] at hlongest ⊢
  simp_all

end Levels_of_detail
namespace Levels_of_detail

theorem compute_multiple_directions_rectangle (N : Internal) (D : Directions_internal)
    (R : Polygon_regularizer) (hN : Axis_exact N) (hD : Axis_exact_directions D)
    (hR : R.m_pi = N.pi) (hmin : 0 ≤ R.m_bound_min) (hmax : R.m_bound_max ≤ 90)
    (x0 y0 w h : FT) (hw : 0 < w) (hh : 0 < h)
    (hlw : R.m_min_length * 2 ≤ w) (hlh : R.m_min_length * 2 ≤ h) :
    ∃ l, l < 4 ∧
      compute_multiple_directions N D R [rectangle x0 y0 w h]
        = some { R with
                 m_bounds := [(45, 45)]
                 m_skip := [(0, l)]
                 m_longest := [(rectangle x0 y0 w h).getD l default]
                 m_groups := [[0, 0, 0, 0]] } := by
  obtain ⟨l, hl, hg⟩ := get_multiple_directions_rectangle N D R hN hD hR hmin hmax x0 y0 w h hw hh
  refine ⟨l, hl, ?_⟩
  have hlong : ∀ pair ∈ all_pairs [(rectangle x0 y0 w h).map (fun s => (s, true))],
      (seg_pair_at [(rectangle x0 y0 w h).map (fun s => (s, true))] pair).2 = true := by
    intro pair hp
    have hall : all_pairs [(rectangle x0 y0 w h).map (fun s => (s, true))]
        = [(0, 0), (0, 1), (0, 2), (0, 3)] := rfl
    rw [hall] at hp
    simp only [List.mem_cons, List.mem_singleton, List.not_mem_nil, or_false] at hp
    rcases hp with rfl | rfl | rfl | rfl <;> rfl
  unfold compute_multiple_directions
  simp only [create_internal_contours_rectangle N R hN x0 y0 w h hw hh hlw hlh, hg,
    List.length_cons, List.length_nil, zero_add, one_ne_zero, if_false,
    unify_along_contours_of_long _ _ hlong]
  exact readjust_directions_rectangle N D _ hN hD x0 y0 w h hw hh _
    (rectangle_getD_axis x0 y0 w h hw hh l hl) rfl rfl

theorem axis_internal_exact : Axis_exact axis_internal := by
  refine ⟨by norm_num [axis_internal], ?_, ?_, ?_, ?_, ?_, ?_, ?_⟩
  · intro x hx
    simp [axis_internal, le_of_lt hx]
  · intro x hx
    simp [axis_internal, not_le.mpr hx]
  · intro y hy
    simp only [axis_internal, ne_of_gt hy, if_false, hy, if_true]
    norm_num
  · intro y hy
    simp only [axis_internal, ne_of_lt hy, if_false, not_lt.mpr (le_of_lt hy), if_true]
    norm_num
  · intro b p
    simp [axis_internal]
  · intro p q hpq
    simp [axis_internal, hpq]
  · intro p q hpq
    simp [axis_internal, hpq]

theorem insert_by_key_perm (key : Nat × Nat → FT) (a : Nat × Nat) (l : List (Nat × Nat)) :
    (insert_by_key key a l).Perm (a :: l) := by
  induction l with
  | nil => exact List.Perm.refl _
  | cons b rest ih =>
    unfold insert_by_key
    by_cases hk : key b < key a
    · simp only [hk, if_true]
      exact List.Perm.refl _
    · simp only [hk, if_false]
      exact (List.Perm.cons b ih).trans (List.Perm.swap a b rest)

theorem axis_directions_exact : Axis_exact_directions axis_directions := by
  refine ⟨?_, ?_, ?_⟩
  · intro key input
    simp only [axis_directions]
    induction input with
    | nil => exact List.Perm.refl _
    | cons a rest ih =>
      rw [List.foldr_cons]
      exact (insert_by_key_perm key a _).trans (List.Perm.cons a ih)
  · intro s hs
    simp [axis_directions, hs.1]
  · intro s hs
    simp [axis_directions, hs.1, hs.2]

/-- C11 (amended): for an axis-aligned rectangle given as one closed contour of
4 segments (`rectangle x0 y0 w h`, directions 0, 90, 180 and 270 degrees) with
each side at least `2 * min_length` long, opposite sides farther apart than
`ordinate_bound`, any `angle_bound > 0`, and each side's squared length above
the tolerance of the zero-length filter, `compute_multiple_directions`
followed by `regularize_contours` returns one contour made of the same 4
segments with the same end points.  The collaborators are exact on
axis-parallel input (`Axis_exact`, `Axis_exact_directions`) and the constant
`max_value`, from which `update_segment` starts its search of the extreme
projections, is not negative. -/
theorem rectangle_is_regularized_to_itself (N : Internal) (D : Directions_internal)
    (hN : Axis_exact N) (hD : Axis_exact_directions D)
    (min_length angle_bound ordinate_bound x0 y0 w h : FT)
    (hw : 0 < w) (hh : 0 < h)
    (hlw : 2 * min_length ≤ w) (hlh : 2 * min_length ≤ h)
    (how : ordinate_bound < w) (hoh : ordinate_bound < h)
    (hab : 0 < angle_bound)
    (htw : N.tolerance < w * w) (hth : N.tolerance < h * h)
    (hmax : 0 ≤ N.max_value) :
    ∃ R groups,
      compute_multiple_directions N D
          (Polygon_regularizer.create N min_length angle_bound ordinate_bound)
          [rectangle x0 y0 w h] = some R ∧
      regularize_contours N R [rectangle x0 y0 w h] = some (groups, [rectangle x0 y0 w h]) := by
  obtain ⟨l, hl, hc⟩ := compute_multiple_directions_rectangle N D
    (Polygon_regularizer.create N min_length angle_bound ordinate_bound) hN hD rfl
    (le_of_lt hab) (by simp only [Polygon_regularizer.create]; linarith) x0 y0 w h hw hh
    (by simp only [Polygon_regularizer.create]; linarith)
    (by simp only [Polygon_regularizer.create]; linarith)
  refine ⟨_, [[0, 0, 0, 0]], hc, ?_⟩
  exact regularize_contours_rectangle N _ hN rfl rfl x0 y0 w h hw hh
    (by simp only [Polygon_regularizer.create]; intro hle; linarith)
    (by simp only [Polygon_regularizer.create]; intro hle; linarith)
    how hoh htw hth hmax l _ (rectangle_getD_axis x0 y0 w h hw hh l hl) rfl rfl rfl rfl

set_option maxRecDepth 100000 in
theorem rectangle_is_regularized_to_itself_witness :
    ∃ R groups,
      compute_multiple_directions axis_internal axis_directions
          (Polygon_regularizer.create axis_internal 1 10 (1 / 2))
          [rectangle 0 0 10 5] = some R ∧
      regularize_contours axis_internal R [rectangle 0 0 10 5]
        = some (groups, [rectangle 0 0 10 5]) :=
  rectangle_is_regularized_to_itself axis_internal axis_directions axis_internal_exact
    axis_directions_exact 1 10 (1 / 2) 0 0 10 5 (by norm_num) (by norm_num) (by norm_num)
    (by norm_num) (by norm_num) (by norm_num) (by norm_num)
    (by norm_num [axis_internal]) (by norm_num [axis_internal])
    (by norm_num [axis_internal])

set_option maxRecDepth 100000 in
/-- C11 (as stated) fails: the rectangle with the corner `(0, 0)` and sides
`1/1000`, with `min_length = 1/10000`, `angle_bound = 10` and
`ordinate_bound = 1/10000`, satisfies the conditions of the claim as stated
(each side at least `2 * min_length` long, opposite sides farther apart than
`ordinate_bound`, `angle_bound > 0`), but the squared length of its sides,
`1/1000000`, is not above the tolerance of the zero-length filter:
`remove_zero_length_segments` removes all four sides, `connect_contour` fails
and `regularize_contours` returns no contour at all. -/
theorem rectangle_below_tolerance_counterexample :
    (2 * (1 / 10000 : FT) ≤ 1 / 1000 ∧ (1 / 10000 : FT) < 1 / 1000 ∧ (0 : FT) < 10) ∧
    (∀ s ∈ rectangle 0 0 (1 / 1000) (1 / 1000),
      2 * (1 / 10000 : FT) ≤ axis_internal.distance s.source s.target) ∧
    (compute_multiple_directions axis_internal axis_directions
        (Polygon_regularizer.create axis_internal (1 / 10000) 10 (1 / 10000))
        [rectangle 0 0 (1 / 1000) (1 / 1000)]).bind
      (fun R => regularize_contours axis_internal R [rectangle 0 0 (1 / 1000) (1 / 1000)])
      = some ([[0, 0, 0, 0]], []) := by
  refine ⟨by norm_num, by decide!, by decide!⟩

set_option maxRecDepth 100000 in
/-- The condition on `max_value` is needed: with a negative `max_value` and
collaborators that are exact on axis-parallel input, `update_segment` finds no
extreme projection (no value lies below `max_value` or above `-max_value`),
and `regularize_contours` returns no contour for the rectangle of width 10
and height 5. -/
theorem rectangle_with_negative_max_value :
    Axis_exact example_negative_max_internal ∧
    (compute_multiple_directions example_negative_max_internal axis_directions
        (Polygon_regularizer.create example_negative_max_internal 1 10 (1 / 2))
        [rectangle 0 0 10 5]).bind
      (fun R => regularize_contours example_negative_max_internal R [rectangle 0 0 10 5])
      = some ([[0, 0, 0, 0]], []) := by
  refine ⟨⟨by norm_num [example_negative_max_internal, axis_internal], ?_, ?_, ?_, ?_, ?_, ?_, ?_⟩,
    by decide!⟩
  · intro x hx
    simp [example_negative_max_internal, axis_internal, le_of_lt hx]
  · intro x hx
    simp [example_negative_max_internal, axis_internal, not_le.mpr hx]
  · intro y hy
    simp only [example_negative_max_internal, axis_internal, ne_of_gt hy, if_false, hy, if_true]
    norm_num
  · intro y hy
    simp only [example_negative_max_internal, axis_internal, ne_of_lt hy, if_false,
      not_lt.mpr (le_of_lt hy), if_true]
    norm_num
  · intro b p
    simp [example_negative_max_internal, axis_internal]
  · intro p q hpq
    simp [example_negative_max_internal, axis_internal, hpq]
  · intro p q hpq
    simp [example_negative_max_internal, axis_internal, hpq]

end Levels_of_detail
namespace Levels_of_detail

theorem clean_segments_rectangle_below_tolerance (N : Internal) (R : Polygon_regularizer)
    (x0 y0 w h : FT) (htw : w * w ≤ N.tolerance) :
    clean_segments N R (rectangle x0 y0 w h) = (false, rectangle x0 y0 w h) := by
  have e1 : (x0 + w - x0) * (x0 + w - x0) = w * w := by ring
  have e2 : (y0 + h - y0) * (y0 + h - y0) = h * h := by ring
  have e3 : (x0 - (x0 + w)) * (x0 - (x0 + w)) = w * w := by ring
  have e4 : (y0 - (y0 + h)) * (y0 - (y0 + h)) = h * h := by ring
  have hlen : (remove_zero_length_segments N (rectangle x0 y0 w h)).length < 4 := by
    by_cases hth : N.tolerance < h * h <;>
      simp [remove_zero_length_segments, rectangle, Segment_2.squared_length, List.filter,
        e1, e2, e3, e4, not_lt.mpr htw, hth]
  unfold clean_segments
  simp only [hlen, if_true]

theorem regularize_contours_rectangle_below_tolerance (N : Internal) (R : Polygon_regularizer)
    (hN : Axis_exact N) (hR : R.m_pi = N.pi)
    (x0 y0 w h : FT) (hw : 0 < w) (hh : 0 < h)
    (hlw : ¬ w ≤ R.m_min_length) (hlh : ¬ h ≤ R.m_min_length)
    (hab : R.m_angle_bound ≠ 0) (htw : w * w ≤ N.tolerance)
    (l : Nat) (sl : Segment_2) (hsl : horizontal sl ∨ vertical sl)
    (hgroups : R.m_groups = [[0, 0, 0, 0]])
    (hskip : R.m_skip = [(0, l)]) (hlongest : R.m_longest = [sl])
    (hbounds : R.m_bounds = [(45, 45)]) :
    regularize_contours N R [rectangle x0 y0 w h] = some ([[0, 0, 0, 0]], []) := by
  have hconnect : connect_contour N R (rectangle x0 y0 w h) = some (false, rectangle x0 y0 w h) := by
    unfold connect_contour
    rw [clean_segments_rectangle_below_tolerance N R x0 y0 w h htw]
    rfl
  unfold regularize_contours
  simp only [hab, if_false, hgroups, regularize_contours_loop, regularize_contours_body,
    rotate_contour_rectangle N R hN hR x0 y0 w h hw hh l sl hsl hskip hlongest hbounds,
    correct_contour_rectangle N R hN x0 y0 w h hw hh hlw hlh l hskip, hconnect,
    Bool.false_eq_true, if_false]

/-- The rectangles that the zero-length filter rejects: whatever the tolerance
is, a rectangle that satisfies every condition on side lengths, distances and
`angle_bound`, but has two sides of squared length `w * w` at or below the
tolerance, is dropped by `regularize_contours`. -/
theorem rectangle_below_tolerance_is_dropped (N : Internal) (D : Directions_internal)
    (hN : Axis_exact N) (hD : Axis_exact_directions D)
    (min_length angle_bound ordinate_bound x0 y0 w h : FT)
    (hw : 0 < w) (hh : 0 < h)
    (hlw : 2 * min_length ≤ w) (hlh : 2 * min_length ≤ h)
    (hab : 0 < angle_bound) (htw : w * w ≤ N.tolerance) :
    ∃ R groups,
      compute_multiple_directions N D
          (Polygon_regularizer.create N min_length angle_bound ordinate_bound)
          [rectangle x0 y0 w h] = some R ∧
      regularize_contours N R [rectangle x0 y0 w h] = some (groups, []) := by
  obtain ⟨l, hl, hc⟩ := compute_multiple_directions_rectangle N D
    (Polygon_regularizer.create N min_length angle_bound ordinate_bound) hN hD rfl
    (le_of_lt hab) (by simp only [Polygon_regularizer.create]; linarith) x0 y0 w h hw hh
    (by simp only [Polygon_regularizer.create]; linarith)
    (by simp only [Polygon_regularizer.create]; linarith)
  refine ⟨_, [[0, 0, 0, 0]], hc, ?_⟩
  exact regularize_contours_rectangle_below_tolerance N _ hN rfl x0 y0 w h hw hh
    (by simp only [Polygon_regularizer.create]; intro hle; linarith)
    (by simp only [Polygon_regularizer.create]; intro hle; linarith)
    (ne_of_gt hab) htw l _ (rectangle_getD_axis x0 y0 w h hw hh l hl) rfl rfl rfl rfl

end Levels_of_detail

namespace Level_of_detail

/-! ## Symmetry of target and relation in the two orientations -/

theorem tmod_180_eq_zero_iff_even (a : Int) : (90 * a).tmod 180 = 0 ↔ 2 ∣ a := by
  constructor
  · intro h
    have hd : (180 : Int) ∣ 90 * a := Int.dvd_of_tmod_eq_zero h
    omega
  · intro h
    have hd : (180 : Int) ∣ 90 * a := by omega
    exact Int.tmod_eq_zero_of_dvd hd

theorem mes90_neg_of_multiple (d : FT) (h : to_lower d = 0) : mes90 (-d) = -mes90 d := by
  unfold to_lower at h
  have hd : d / 90 = ((mes90 d : Int) : FT) := by
    field_simp
    linarith
  have e : -d / 90 = (((-mes90 d : Int)) : FT) := by
    rw [neg_div, hd]; push_cast; ring
  show ⌊-d / 90⌋ = -mes90 d
  rw [e, Int.floor_intCast]

theorem mes90_neg_of_not_multiple (d : FT) (h : to_lower d ≠ 0) :
    mes90 (-d) = -mes90 d - 1 := by
  have hl := to_lower_nonpos d
  have hu := to_upper_pos d
  have hlt : to_lower d < 0 := lt_of_le_of_ne hl h
  unfold to_lower at hlt
  unfold to_upper at hu
  show ⌊-d / 90⌋ = -mes90 d - 1
  rw [Int.floor_eq_iff]
  push_cast
  constructor
  · rw [le_div_iff₀ (by norm_num : (0 : FT) < 90)]
    linarith
  · rw [div_lt_iff₀ (by norm_num : (0 : FT) < 90)]
    linarith

theorem to_lower_eq_iff (d : FT) (x : FT) :
    to_lower d = x ↔ d = 90 * ((mes90 d : Int) : FT) - x := by
  unfold to_lower
  constructor <;> intro h <;> linarith

/-- C26: for all orientations `o_i`, `o_j` whose difference is below
2147483610 in absolute value (the range in which the 32-bit product
`90 * static_cast<int>(mes90)` does not overflow) and is not congruent to 45
modulo 90, the values `estimate_proximity` computes for the pair in the order
`(j, i)` are `t_ji = -t_ij` and `r_ji = r_ij`; when the difference is
congruent to 45 modulo 90 the target is `+45` in both orders and the two
orders give different relations. -/
theorem target_and_relation_of_swapped_pair (o_i o_j : FT)
    (hrange : |o_i - o_j| < 2147483610) :
    ((¬ ∃ q : Int, o_i - o_j = 90 * (q : FT) + 45) →
      t_ij (o_j - o_i) = -t_ij (o_i - o_j) ∧ r_ij (o_j - o_i) = r_ij (o_i - o_j)) ∧
    ((∃ q : Int, o_i - o_j = 90 * (q : FT) + 45) →
      t_ij (o_i - o_j) = 45 ∧ t_ij (o_j - o_i) = 45 ∧ r_ij (o_j - o_i) ≠ r_ij (o_i - o_j)) := by
  have hswap : o_j - o_i = -(o_i - o_j) := by ring
  rw [hswap]
  generalize o_i - o_j = d at hrange ⊢
  have hrange2 : |-d| < 2147483610 := by rw [abs_neg]; exact hrange
  have hl := to_lower_nonpos d
  have hu := to_upper_pos d
  have hul := to_upper_sub_to_lower d
  have hl2 := to_lower_nonpos (-d)
  have hu2 := to_upper_pos (-d)
  have hul2 := to_upper_sub_to_lower (-d)
  have al := to_lower_abs d
  have au := to_upper_abs d
  have al2 := to_lower_abs (-d)
  have au2 := to_upper_abs (-d)
  by_cases h0 : to_lower d = 0
  · -- the difference is a multiple of 90
    have hm := mes90_neg_of_multiple d h0
    have hl0 : to_lower (-d) = 0 := by
      have := h0
      unfold to_lower at this ⊢
      rw [hm]; push_cast; linarith
    have hc : |to_lower d| < |to_upper d| := by rw [al, au]; linarith
    have hc2 : |to_lower (-d)| < |to_upper (-d)| := by rw [al2, au2]; linarith
    have ht : t_ij d = 0 := by
      unfold t_ij
      rw [if_pos hc]; exact h0
    have ht2 : t_ij (-d) = 0 := by
      unfold t_ij
      rw [if_pos hc2]; exact hl0
    constructor
    · intro _
      refine ⟨by rw [ht, ht2]; ring, ?_⟩
      rw [r_ij_of_range d hrange, r_ij_of_range (-d) hrange2]
      rw [if_pos hc, if_pos hc2, hm]
      have e : (90 * mes90 d).tmod 180 = 0 ↔ (90 * -mes90 d).tmod 180 = 0 := by
        rw [tmod_180_eq_zero_iff_even, tmod_180_eq_zero_iff_even]
        omega
      by_cases hp : (90 * mes90 d).tmod 180 = 0
      · rw [if_pos hp, if_pos (e.mp hp)]
      · rw [if_neg hp, if_neg (fun hq => hp (e.mpr hq))]
    · rintro ⟨q, hq⟩
      exfalso
      have h1 := (to_lower_eq_iff d 0).mp h0
      have : (90 : FT) * ((mes90 d - q : Int) : FT) = 45 := by push_cast; linarith
      have h2 : ((2 * (mes90 d - q) : Int) : FT) = ((1 : Int) : FT) := by push_cast; linarith
      have h3 : 2 * (mes90 d - q) = 1 := by exact_mod_cast h2
      omega
  · have hm := mes90_neg_of_not_multiple d h0
    have hlt : to_lower d < 0 := lt_of_le_of_ne hl h0
    have hl2e : to_lower (-d) = -to_lower d - 90 := by
      unfold to_lower
      rw [hm]; push_cast; ring
    have hu2e : to_upper (-d) = -to_lower d := by linarith
    have hiff : (∃ q : Int, d = 90 * (q : FT) + 45) ↔ to_lower d = -45 := by
      constructor
      · rintro ⟨q, hq⟩
        have h1 : d = 90 * ((mes90 d : Int) : FT) - to_lower d := by unfold to_lower; ring
        -- 90 (m - q) = 45 + to_lower d, with -90 < to_lower d < 0
        have hlow : -90 < to_lower d := by linarith
        have h2 : (90 : FT) * ((mes90 d - q : Int) : FT) = 45 + to_lower d := by
          push_cast; linarith
        have h3 : ((mes90 d - q : Int) : FT) < 1 := by
          by_contra hc
          push_neg at hc
          nlinarith
        have h4 : (-1 : FT) < ((mes90 d - q : Int) : FT) := by
          by_contra hc
          push_neg at hc
          nlinarith
        have h5 : mes90 d - q < 1 := by exact_mod_cast h3
        have h6 : -1 < mes90 d - q := by exact_mod_cast h4
        have h7 : mes90 d - q = 0 := by omega
        rw [h7] at h2
        push_cast at h2
        linarith
      · intro h45
        refine ⟨mes90 d, ?_⟩
        have h1 : d = 90 * ((mes90 d : Int) : FT) - to_lower d := by unfold to_lower; ring
        linarith
    constructor
    · intro hne
      have h45 : to_lower d ≠ -45 := fun hc => hne (hiff.mpr hc)
      by_cases hc : |to_lower d| < |to_upper d|
      · -- the lower multiple is nearer
        have hc2 : ¬ |to_lower (-d)| < |to_upper (-d)| := by
          rw [al, au] at hc
          rw [al2, au2]
          linarith
        refine ⟨?_, ?_⟩
        · unfold t_ij
          rw [if_pos hc, if_neg hc2, hu2e]
        · rw [r_ij_of_range d hrange, r_ij_of_range (-d) hrange2]
          rw [if_pos hc, if_neg hc2, hm]
          have e : (90 * mes90 d).tmod 180 = 0 ↔ (90 * (-mes90 d - 1 + 1)).tmod 180 = 0 := by
            rw [tmod_180_eq_zero_iff_even, tmod_180_eq_zero_iff_even]
            omega
          by_cases hp : (90 * mes90 d).tmod 180 = 0
          · rw [if_pos hp, if_pos (e.mp hp)]
          · rw [if_neg hp, if_neg (fun hq => hp (e.mpr hq))]
      · have hc2 : |to_lower (-d)| < |to_upper (-d)| := by
          rw [al, au] at hc
          rw [al2, au2]
          have : to_lower d ≤ -45 := by linarith
          have : to_lower d < -45 := lt_of_le_of_ne this h45
          linarith
        refine ⟨?_, ?_⟩
        · unfold t_ij
          rw [if_neg hc, if_pos hc2, hl2e]
          linarith
        · rw [r_ij_of_range d hrange, r_ij_of_range (-d) hrange2]
          rw [if_neg hc, if_pos hc2, hm]
          have e : (90 * (mes90 d + 1)).tmod 180 = 0 ↔ (90 * (-mes90 d - 1)).tmod 180 = 0 := by
            rw [tmod_180_eq_zero_iff_even, tmod_180_eq_zero_iff_even]
            omega
          by_cases hp : (90 * (mes90 d + 1)).tmod 180 = 0
          · rw [if_pos hp, if_pos (e.mp hp)]
          · rw [if_neg hp, if_neg (fun hq => hp (e.mpr hq))]
    · intro hex
      have h45 := hiff.mp hex
      have hc : ¬ |to_lower d| < |to_upper d| := by
        rw [al, au]; linarith
      have hc2 : ¬ |to_lower (-d)| < |to_upper (-d)| := by
        rw [al2, au2]; linarith
      refine ⟨?_, ?_, ?_⟩
      · unfold t_ij
        rw [if_neg hc]; linarith
      · unfold t_ij
        rw [if_neg hc2]; linarith
      · rw [r_ij_of_range d hrange, r_ij_of_range (-d) hrange2]
        rw [if_neg hc, if_neg hc2, hm]
        have e : (90 * (mes90 d + 1)).tmod 180 = 0 ↔ ¬ (90 * (-mes90 d - 1 + 1)).tmod 180 = 0 := by
          rw [tmod_180_eq_zero_iff_even, tmod_180_eq_zero_iff_even]
          omega
        by_cases hp : (90 * (mes90 d + 1)).tmod 180 = 0
        · rw [if_pos hp, if_neg (e.mp hp)]
          decide
        · have hq : (90 * (-mes90 d - 1 + 1)).tmod 180 = 0 := by
            by_contra hq
            exact hp (e.mpr hq)
          rw [if_neg hp, if_pos hq]
          decide

set_option maxRecDepth 100000 in
theorem target_and_relation_of_swapped_pair_witness :
    |(100 : FT) - 30| < 2147483610 ∧ |(50 : FT) - 5| < 2147483610 ∧
    (¬ ∃ q : Int, (100 : FT) - 30 = 90 * (q : FT) + 45) ∧
    (t_ij (30 - 100) = -t_ij (100 - 30) ∧ r_ij (30 - 100) = r_ij (100 - 30)) ∧
    (∃ q : Int, (50 : FT) - 5 = 90 * (q : FT) + 45) ∧
    (t_ij (50 - 5) = 45 ∧ t_ij (5 - 50) = 45 ∧ r_ij (5 - 50) ≠ r_ij (50 - 5)) :=
  have h1 : ¬ ∃ q : Int, (100 : FT) - 30 = 90 * (q : FT) + 45 := by
    rintro ⟨q, hq⟩
    have h2 : ((18 * q : Int) : FT) = ((5 : Int) : FT) := by push_cast; linarith
    have h3 : 18 * q = 5 := by exact_mod_cast h2
    omega
  have h2 : ∃ q : Int, (50 : FT) - 5 = 90 * (q : FT) + 45 := ⟨0, by norm_num⟩
  ⟨by norm_num, by norm_num, h1,
    (target_and_relation_of_swapped_pair 100 30 (by norm_num)).1 h1, h2,
    (target_and_relation_of_swapped_pair 50 5 (by norm_num)).2 h2⟩

end Level_of_detail

namespace Level_of_detail

/-! ## The length threshold of `Regular_segments_info_estimator` -/

theorem foldl_add_eq_sum (f : FT → FT) (l : List FT) (a : FT) :
    l.foldl (fun acc v => acc + f v) a = a + (l.map f).sum := by
  induction l generalizing a with
  | nil => simp
  | cons x rest ih =>
    rw [List.foldl_cons, ih, List.map_cons, List.sum_cons]
    ring

theorem compute_length_threshold_eq (sqrt : FT → FT) (segments : List FT) (hne : segments ≠ []) :
    compute_length_threshold sqrt segments
      = some (arithmetic_mean (segments.map sqrt)
          + sqrt (population_variance (segments.map sqrt))) := by
  have hpos : 0 < segments.length := List.length_pos.mpr hne
  have h1 := foldl_add_eq_sum (fun v => v) (segments.map sqrt) 0
  simp only [List.map_id', zero_add] at h1
  unfold compute_length_threshold compute_segment_lengths compute_mean compute_standard_deviation
  simp only [hpos, if_true, List.length_map, estimate_length_threshold, h1]
  rw [foldl_add_eq_sum]
  simp only [zero_add, arithmetic_mean, population_variance, List.length_map]

/-- C29 (amended): for every non-empty collection of segments, given by their
squared lengths, with lengths `l_k = sqrt(squared length)` as the estimator
computes them, the estimator is constructed and its length threshold equals
`mean(l)` plus the population standard deviation
`sqrt(sum((l_k - mean)^2) / n)`; when the threshold is positive,
`is_too_long_segment(i)` is true if and only if the squared length of segment
`i` is at least `threshold^2`.  When all segments have the same squared length
`s` with a positive computed length `r = sqrt(s)`, the threshold is `r` and
every segment is reported too long if `r * r <= s` (in particular when the
square root is exact) and not too long if `s < r * r` (the square root was
rounded up); when all lengths are zero the threshold is 0 and the precondition
`threshold > 0` of `get_length_threshold` (and of `is_too_long_segment`)
fails. -/
theorem length_threshold_is_mean_plus_deviation (sqrt : FT → FT) (segments : List FT)
    (hne : segments ≠ []) :
    ∃ E, Regular_segments_info_estimator.create sqrt segments = some E ∧
      E.m_segments = segments ∧
      E.m_length_threshold
        = arithmetic_mean (segments.map sqrt) + sqrt (population_variance (segments.map sqrt)) ∧
      (0 < E.m_length_threshold → get_length_threshold E = some E.m_length_threshold) ∧
      (0 < E.m_length_threshold → ∀ (i : Nat) (x : FT), segments[i]? = some x →
        ∃ b, is_too_long_segment E i = some b ∧
          (b = true ↔ E.m_length_threshold * E.m_length_threshold ≤ x) ∧
          (sqrt x * sqrt x = x →
            (b = true ↔ E.m_length_threshold * E.m_length_threshold ≤ sqrt x * sqrt x))) ∧
      (∀ s : FT, 0 < sqrt s → sqrt 0 = 0 → (∀ x ∈ segments, x = s) →
        E.m_length_threshold = sqrt s ∧
        (sqrt s * sqrt s ≤ s →
          ∀ i, i < segments.length → is_too_long_segment E i = some true) ∧
        (s < sqrt s * sqrt s →
          ∀ i, i < segments.length → is_too_long_segment E i = some false)) ∧
      (sqrt 0 = 0 → (∀ x ∈ segments, x = 0) →
        E.m_length_threshold = 0 ∧ get_length_threshold E = none ∧
        ∀ i, is_too_long_segment E i = none) := by
  have hpos : 0 < segments.length := List.length_pos.mpr hne
  have hn : (segments.length : FT) ≠ 0 := by exact_mod_cast (Nat.pos_iff_ne_zero.mp hpos)
  have hthr := compute_length_threshold_eq sqrt segments hne
  refine ⟨⟨segments, arithmetic_mean (segments.map sqrt)
      + sqrt (population_variance (segments.map sqrt))⟩, ?_, rfl, rfl, ?_, ?_, ?_, ?_⟩
  · simp [Regular_segments_info_estimator.create, hthr]
  · intro h
    simp only [get_length_threshold, h, if_true]
  · intro h i x hx
    simp only at h
    by_cases hc : x < (arithmetic_mean (segments.map sqrt)
        + sqrt (population_variance (segments.map sqrt)))
        * (arithmetic_mean (segments.map sqrt) + sqrt (population_variance (segments.map sqrt)))
    · refine ⟨false, ?_, ?_, ?_⟩
      · simp only [is_too_long_segment, h, if_true, hx, hc]
      · simp only [Bool.false_eq_true, false_iff, not_le]; exact hc
      · intro he
        simp only [Bool.false_eq_true, false_iff, not_le, he]; exact hc
    · refine ⟨true, ?_, ?_, ?_⟩
      · simp only [is_too_long_segment, h, if_true, hx, hc, if_false]
      · simp only [true_iff]; exact not_lt.mp hc
      · intro he
        simp only [true_iff, he]; exact not_lt.mp hc
  · intro s hl h0 hall
    have hmap : segments.map sqrt = List.replicate segments.length (sqrt s) := by
      apply List.eq_replicate_iff.mpr
      refine ⟨by simp, ?_⟩
      intro y hy
      obtain ⟨x, hx, rfl⟩ := List.mem_map.mp hy
      rw [hall x hx]
    have hmean : arithmetic_mean (segments.map sqrt) = sqrt s := by
      unfold arithmetic_mean
      rw [hmap, List.sum_replicate, List.length_replicate, nsmul_eq_mul]
      field_simp
    have hvar : population_variance (segments.map sqrt) = 0 := by
      unfold population_variance
      rw [hmean, hmap]
      simp
    have hE : arithmetic_mean (segments.map sqrt)
        + sqrt (population_variance (segments.map sqrt)) = sqrt s := by
      rw [hmean, hvar, h0, add_zero]
    refine ⟨hE, ?_, ?_⟩
    · intro hle i hi
      have hx : segments[i]? = some s := by
        rw [List.getElem?_eq_getElem hi, hall _ (List.getElem_mem hi)]
      simp only [is_too_long_segment, hE, hl, if_true, hx, not_lt.mpr hle, if_false]
    · intro hlt i hi
      have hx : segments[i]? = some s := by
        rw [List.getElem?_eq_getElem hi, hall _ (List.getElem_mem hi)]
      simp only [is_too_long_segment, hE, hl, if_true, hx, hlt]
  · intro h0 hall
    have hmap : segments.map sqrt = List.replicate segments.length 0 := by
      apply List.eq_replicate_iff.mpr
      refine ⟨by simp, ?_⟩
      intro y hy
      obtain ⟨x, hx, rfl⟩ := List.mem_map.mp hy
      rw [hall x hx, h0]
    have hmean : arithmetic_mean (segments.map sqrt) = 0 := by
      unfold arithmetic_mean
      rw [hmap, List.sum_replicate]
      simp
    have hvar : population_variance (segments.map sqrt) = 0 := by
      unfold population_variance
      rw [hmean, hmap]
      simp
    have hE : arithmetic_mean (segments.map sqrt)
        + sqrt (population_variance (segments.map sqrt)) = 0 := by
      rw [hmean, hvar, h0, add_zero]
    refine ⟨hE, ?_, ?_⟩
    · simp only [get_length_threshold, hE, lt_irrefl, if_false]
    · intro i
      simp only [is_too_long_segment, hE, lt_irrefl, if_false]

set_option maxRecDepth 100000 in
theorem length_threshold_is_mean_plus_deviation_witness :
    ([9, 16] : List FT) ≠ [] ∧
    ∃ E, Regular_segments_info_estimator.create example_sqrt [9, 16] = some E ∧
      E.m_segments = [9, 16] ∧
      E.m_length_threshold
        = arithmetic_mean ([9, 16].map example_sqrt)
          + example_sqrt (population_variance ([9, 16].map example_sqrt)) ∧
      E.m_length_threshold = 4 ∧
      is_too_long_segment E 0 = some false ∧ is_too_long_segment E 1 = some true := by
  have h := length_threshold_is_mean_plus_deviation example_sqrt [9, 16] (by simp)
  obtain ⟨E, h1, h2, h3, _⟩ := h
  have hE : E = ⟨[9, 16], 4⟩ := by
    have : Regular_segments_info_estimator.create example_sqrt [9, 16] = some ⟨[9, 16], 4⟩ := by
      decide!
    rw [this] at h1
    exact (Option.some.inj h1).symm
  subst hE
  exact ⟨by simp, _, h1, h2, h3, rfl, by decide!, by decide!⟩

set_option maxRecDepth 100000 in
/-- C29 (as stated) fails in its consequence for equal lengths: three segments
of squared length 2, whose length the estimator computes in double precision
as 6369051672525773 / 2^52 (the double nearest to the square root of 2, a
little above it), get this value as threshold, its square is larger than 2,
and every segment is reported not too long. -/
theorem equal_lengths_not_too_long_counterexample :
    Regular_segments_info_estimator.create example_double_sqrt [2, 2, 2]
      = some ⟨[2, 2, 2], 6369051672525773 / 4503599627370496⟩ ∧
    (0 : FT) < 6369051672525773 / 4503599627370496 ∧
    is_too_long_segment ⟨[2, 2, 2], 6369051672525773 / 4503599627370496⟩ 0 = some false ∧
    is_too_long_segment ⟨[2, 2, 2], 6369051672525773 / 4503599627370496⟩ 1 = some false ∧
    is_too_long_segment ⟨[2, 2, 2], 6369051672525773 / 4503599627370496⟩ 2 = some false := by
  decide!

end Level_of_detail

/-! ## Loops that are total under an invariant -/

theorem for_range_range_total {σ : Type} (Q : Nat → σ → Prop) (body : σ → Nat → Option σ)
    (n : Nat)
    (hbody : ∀ k st, k < n → Q k st → ∃ st1, body st k = some st1 ∧ Q (k + 1) st1) :
    ∀ k, k ≤ n → ∀ st, Q 0 st → ∃ st1, for_range body (List.range k) st = some st1 ∧ Q k st1 := by
  intro k
  induction k with
  | zero => intro _ st h0; exact ⟨st, rfl, h0⟩
  | succ k ih =>
    intro hk st h0
    obtain ⟨st1, h1, hQ1⟩ := ih (Nat.le_of_succ_le hk) st h0
    obtain ⟨st2, h2, hQ2⟩ := hbody k st1 (Nat.lt_of_succ_le hk) hQ1
    refine ⟨st2, ?_, hQ2⟩
    rw [List.range_succ, for_range_append, h1]
    simp only [for_range, h2]

theorem getD_set_true (states : List Bool) (j k : Nat) :
    (states.set j true).getD k false = true ↔
      (k = j ∧ j < states.length) ∨ states.getD k false = true := by
  rw [List.getD_eq_getElem?_getD, List.getD_eq_getElem?_getD, List.getElem?_set]
  by_cases hjk : j = k
  · subst hjk
    by_cases hj : j < states.length
    · simp [hj]
    · simp [hj, List.getElem?_eq_none (not_lt.mp hj)]
  · have hkj : ¬ k = j := fun e => hjk e.symm
    simp [hjk, hkj]

theorem getD_replicate_false (n j : Nat) : (List.replicate n false).getD j false = false := by
  rw [List.getD_eq_getElem?_getD, List.getElem?_replicate]
  by_cases h : j < n <;> simp [h]

namespace Shape_regularization

/-! ## Collinear_groups_2 -/

end Shape_regularization

/-! ## Folds under an invariant -/

theorem foldl_invariant_of_mem {σ α : Type} (P : σ → Prop) (f : σ → α → σ) :
    ∀ (l : List α), (∀ st a, a ∈ l → P st → P (f st a)) → ∀ st, P st → P (l.foldl f st) := by
  intro l
  induction l with
  | nil => intro _ st h; exact h
  | cons a rest ih =>
    intro hf st h
    exact ih (fun s b hb hs => hf s b (List.mem_cons_of_mem _ hb) hs) (f st a)
      (hf st a (List.mem_cons_self _ _) h)

theorem foldl_range_invariant {σ : Type} (Q : Nat → σ → Prop) (f : σ → Nat → σ) (n : Nat)
    (hf : ∀ k st, k < n → Q k st → Q (k + 1) (f st k)) :
    ∀ k, k ≤ n → ∀ st, Q 0 st → Q k ((List.range k).foldl f st) := by
  intro k
  induction k with
  | zero => intro _ st h; exact h
  | succ k ih =>
    intro hk st h
    rw [List.range_succ, List.foldl_append]
    exact hf k _ (Nat.lt_of_succ_le hk) (ih (Nat.le_of_succ_le hk) st h)

theorem map_find_insert_nat {β : Type} (m : List (Nat × β)) (k k1 : Nat) (v : β) :
    map_find (map_insert m k v) k1 = if k1 = k then some v else map_find m k1 := by
  induction m with
  | nil => simp only [map_insert, map_find]
  | cons e rest ih =>
    obtain ⟨k2, v2⟩ := e
    simp only [map_insert]
    by_cases h1 : k < k2
    · simp only [h1, if_true, map_find]
    · simp only [h1, if_false]
      by_cases h2 : k = k2
      · subst h2
        simp only [if_true, map_find]
        by_cases h3 : k1 = k
        · simp only [h3, if_true]
        · simp only [h3, if_false]
      · simp only [h2, if_false, map_find, ih]
        by_cases h3 : k1 = k2
        · have h4 : ¬ k1 = k := fun e => h2 (e ▸ h3)
          simp only [h3, if_true]
          rw [if_neg (fun e => h2 e.symm)]
        · simp only [h3, if_false]

namespace Levels_of_detail

/-! ## The loops of `create_collinear_groups` -/

theorem map_ok_insert (segments : List Segment_2) (states : List Bool)
    (groups groups1 : List (List Segment_2)) (seg_map : List (Nat × Nat)) (j v : Nat)
    (h : Map_ok segments states groups seg_map) (hj : j < segments.length)
    (hmono : ∀ (g : Nat) (group : List Segment_2), groups[g]? = some group →
      ∃ group1 : List Segment_2, groups1[g]? = some group1 ∧ ∀ s ∈ group, s ∈ group1)
    (hv : ∃ group1, groups1[v]? = some group1 ∧ segments.getD j default ∈ group1) :
    Map_ok segments (states.set j true) groups1 (map_insert seg_map j v) := by
  refine ⟨by rw [List.length_set]; exact h.size, ?_, ?_⟩
  · intro k
    rw [getD_set_true, map_find_insert_nat, h.flagged_iff]
    by_cases hk : k = j
    · subst hk
      have : k < states.length := by rw [h.size]; exact hj
      simp [this]
    · simp [hk]
  · intro k g hg
    rw [map_find_insert_nat] at hg
    by_cases hk : k = j
    · subst hk
      simp only [if_true, Option.some.injEq] at hg
      subst hg
      exact hv
    · simp only [hk, if_false] at hg
      obtain ⟨group, h1, h2⟩ := h.entry k g hg
      obtain ⟨group1, h3, h4⟩ := hmono g group h1
      exact ⟨group1, h3, h4 _ h2⟩

theorem getElem?_append_singleton_mono (groups : List (List Segment_2))
    (cur cur1 : List Segment_2) (hsub : ∀ s ∈ cur, s ∈ cur1) (g : Nat) (group : List Segment_2)
    (h : (groups ++ [cur])[g]? = some group) :
    ∃ group1, (groups ++ [cur1])[g]? = some group1 ∧ ∀ s ∈ group, s ∈ group1 := by
  by_cases hg : g < groups.length
  · rw [List.getElem?_append_left hg] at h
    exact ⟨group, by rw [List.getElem?_append_left hg]; exact h, fun s hs => hs⟩
  · have hge : groups.length ≤ g := not_lt.mp hg
    rw [List.getElem?_append_right hge] at h
    by_cases h0 : g - groups.length = 0
    · rw [h0] at h
      simp only [List.getElem?_cons_zero, Option.some.injEq] at h
      subst h
      refine ⟨cur1, ?_, hsub⟩
      rw [List.getElem?_append_right hge, h0]
      rfl
    · obtain ⟨m, hm⟩ : ∃ m, g - groups.length = m + 1 := ⟨g - groups.length - 1, by omega⟩
      rw [hm] at h
      simp at h

theorem create_collinear_groups_inner_spec (N : Internal) (R : Polygon_regularizer)
    (segments : List Segment_2) (groups : List (List Segment_2)) (segment_i : Segment_2)
    (st : List Bool × List Segment_2 × List (Nat × Nat))
    (h1 : Map_ok segments st.1 (groups ++ [st.2.1]) st.2.2)
    (h2 : seeded_group N R st.2.1) (h3 : st.2.1.head? = some segment_i) :
    let r := (List.range segments.length).foldl
      (create_collinear_groups_inner N R segments segment_i
        (middle_point_2 segment_i.source segment_i.target) groups.length) st
    Map_ok segments r.1 (groups ++ [r.2.1]) r.2.2 ∧ seeded_group N R r.2.1 ∧
      r.2.1.head? = some segment_i ∧
      ∀ k, st.1.getD k false = true → r.1.getD k false = true := by
  intro r
  apply foldl_invariant_of_mem
    (fun s : List Bool × List Segment_2 × List (Nat × Nat) =>
      Map_ok segments s.1 (groups ++ [s.2.1]) s.2.2 ∧ seeded_group N R s.2.1 ∧
      s.2.1.head? = some segment_i ∧
      ∀ k, st.1.getD k false = true → s.1.getD k false = true)
  · intro s j hj ⟨k1, k2, k3, k4⟩
    have hjn : j < segments.length := List.mem_range.mp hj
    unfold create_collinear_groups_inner
    by_cases hs : s.1.getD j false = true
    · simp only [hs, if_true]
      exact ⟨k1, k2, k3, k4⟩
    · have hs0 : s.1.getD j false = false := by simpa using hs
      simp only [hs0, Bool.false_eq_true, if_false]
      by_cases ha : |get_angle_2 (angle_degree_2 N R segment_i (segments.getD j default))|
          ≤ R.m_angle_threshold
      · simp only [ha, if_true]
        by_cases hd : N.distance (middle_point_2 segment_i.source segment_i.target)
            ((Line_2.through (segments.getD j default).source
              (segments.getD j default).target).projection
              (middle_point_2 segment_i.source segment_i.target)) ≤ R.m_ordinate_bound
        · simp only [hd, if_true]
          refine ⟨?_, ?_, ?_, ?_⟩
          · apply map_ok_insert segments s.1 (groups ++ [s.2.1]) _ s.2.2 j groups.length k1 hjn
            · intro g group hg
              exact getElem?_append_singleton_mono groups s.2.1 _
                (fun x hx => List.mem_append_left _ hx) g group hg
            · refine ⟨s.2.1 ++ [segments.getD j default], ?_, by simp⟩
              rw [List.getElem?_append_right (le_refl _)]
              simp
          · obtain ⟨seed, rest, e, hrest⟩ := k2
            have hseed : seed = segment_i := by
              rw [e] at k3
              simpa using k3
            refine ⟨seed, rest ++ [segments.getD j default], by rw [e]; rfl, ?_⟩
            intro x hx
            rcases List.mem_append.mp hx with hx | hx
            · exact hrest x hx
            · rw [List.mem_singleton] at hx
              subst hx
              rw [hseed]
              exact ⟨ha, hd⟩
          · cases hc : s.2.1 with
            | nil => rw [hc] at k3; exact Option.noConfusion k3
            | cons a rest => rw [hc] at k3; simpa using k3
          · intro k hk
            exact (getD_set_true s.1 j k).mpr (Or.inr (k4 k hk))
        · simp only [hd, if_false]
          exact ⟨k1, k2, k3, k4⟩
      · simp only [ha, if_false]
        exact ⟨k1, k2, k3, k4⟩
  · exact ⟨h1, h2, h3, fun k hk => hk⟩

theorem create_collinear_groups_outer_spec (N : Internal) (R : Polygon_regularizer)
    (segments : List Segment_2) (st : Collinear_state) (i : Nat) (hi : i < segments.length)
    (h1 : Map_ok segments st.states st.groups st.seg_map)
    (h2 : st.gr_idx = st.groups.length)
    (h3 : ∀ group ∈ st.groups, seeded_group N R group) :
    Map_ok segments (create_collinear_groups_outer N R segments st i).states
        (create_collinear_groups_outer N R segments st i).groups
        (create_collinear_groups_outer N R segments st i).seg_map ∧
      (create_collinear_groups_outer N R segments st i).gr_idx
        = (create_collinear_groups_outer N R segments st i).groups.length ∧
      (∀ group ∈ (create_collinear_groups_outer N R segments st i).groups,
        seeded_group N R group) ∧
      (create_collinear_groups_outer N R segments st i).states.getD i false = true ∧
      ∀ k, st.states.getD k false = true →
        (create_collinear_groups_outer N R segments st i).states.getD k false = true := by
  unfold create_collinear_groups_outer
  by_cases hs : st.states.getD i false = true
  · simp only [hs, if_true]
    exact ⟨h1, h2, h3, trivial, fun k hk => hk⟩
  · have hs0 : st.states.getD i false = false := by simpa using hs
    simp only [hs0, Bool.false_eq_true, if_false]
    have hstart : Map_ok segments (st.states.set i true)
        (st.groups ++ [[segments.getD i default]]) (map_insert st.seg_map i st.groups.length) := by
      apply map_ok_insert segments st.states st.groups _ st.seg_map i st.groups.length h1 hi
      · intro g group hg
        have hlt : g < st.groups.length := by
          by_contra hc
          rw [List.getElem?_eq_none (not_lt.mp hc)] at hg
          exact Option.noConfusion hg
        exact ⟨group, by rw [List.getElem?_append_left hlt]; exact hg, fun s hs => hs⟩
      · refine ⟨[segments.getD i default], ?_, by simp⟩
        rw [List.getElem?_append_right (le_refl _)]
        simp
    have hin := create_collinear_groups_inner_spec N R segments st.groups
      (segments.getD i default)
      (st.states.set i true, [segments.getD i default], map_insert st.seg_map i st.groups.length)
      hstart ⟨segments.getD i default, [], rfl, by simp⟩ rfl
    simp only at hin
    rw [h2]
    obtain ⟨k1, k2, k3, k4⟩ := hin
    refine ⟨k1, by simp, ?_, ?_, ?_⟩
    · intro group hg
      rcases List.mem_append.mp hg with hg | hg
      · exact h3 group hg
      · rw [List.mem_singleton] at hg
        subst hg
        exact k2
    · apply k4
      exact (getD_set_true st.states i i).mpr (Or.inl ⟨rfl, by rw [h1.size]; exact hi⟩)
    · intro k hk
      apply k4
      exact (getD_set_true st.states i k).mpr (Or.inr hk)

theorem create_collinear_groups_spec (N : Internal) (R : Polygon_regularizer)
    (segments : List Segment_2) :
    (∀ group ∈ (create_collinear_groups N R segments).1, seeded_group N R group) ∧
    ∀ i, i < segments.length →
      ∃ g group, map_find (create_collinear_groups N R segments).2 i = some g ∧
        (create_collinear_groups N R segments).1[g]? = some group ∧
        segments.getD i default ∈ group := by
  have key := foldl_range_invariant
    (fun (k : Nat) (st : Collinear_state) =>
      Map_ok segments st.states st.groups st.seg_map ∧ st.gr_idx = st.groups.length ∧
      (∀ group ∈ st.groups, seeded_group N R group) ∧
      ∀ j, j < k → st.states.getD j false = true)
    (create_collinear_groups_outer N R segments) segments.length
    (by
      intro k st hk ⟨h1, h2, h3, h4⟩
      obtain ⟨k1, k2, k3, k4, k5⟩ :=
        create_collinear_groups_outer_spec N R segments st k hk h1 h2 h3
      refine ⟨k1, k2, k3, ?_⟩
      intro j hj
      rcases Nat.lt_succ_iff_lt_or_eq.mp hj with hj | rfl
      · exact k5 j (h4 j hj)
      · exact k4)
    segments.length (le_refl _)
    { states := List.replicate segments.length false, groups := [], seg_map := [], gr_idx := 0 }
    ⟨⟨by simp, by
        intro j
        rw [getD_replicate_false]
        simp [map_find], by
        intro j g hg
        simp [map_find] at hg⟩, rfl, by simp, by intro j hj; omega⟩
  obtain ⟨h1, _, h3, h4⟩ := key
  refine ⟨h3, ?_⟩
  intro i hi
  have hf := (h1.flagged_iff i).mp (h4 i hi)
  obtain ⟨g, hg⟩ := Option.isSome_iff_exists.mp hf
  obtain ⟨group, e1, e2⟩ := h1.entry i g hg
  exact ⟨g, group, hg, e1, e2⟩

/-- C21 (amended): for every list of segments, every group that
`create_collinear_groups` forms has a first member, the segment that seeded
it, and every other member of the group has its acute angular difference to
the seed within `m_angle_threshold` and the midpoint of the seed within
`m_ordinate_bound` of its supporting line.  The bounds relate each member to
the seed only. -/
theorem collinear_group_members_are_near_seed (N : Internal) (R : Polygon_regularizer)
    (segments group : List Segment_2)
    (h : group ∈ (create_collinear_groups N R segments).1) :
    ∃ seed rest, group = seed :: rest ∧
      ∀ s ∈ rest,
        |get_angle_2 (angle_degree_2 N R seed s)| ≤ R.m_angle_threshold ∧
        N.distance (middle_point_2 seed.source seed.target)
          ((Line_2.through s.source s.target).projection
            (middle_point_2 seed.source seed.target)) ≤ R.m_ordinate_bound :=
  (create_collinear_groups_spec N R segments).1 group h

set_option maxRecDepth 100000 in
theorem collinear_group_members_are_near_seed_witness :
    example_three_parallel ∈ (create_collinear_groups axis_internal
      (Polygon_regularizer.create axis_internal 1 10 (1 / 2)) example_three_parallel).1 ∧
    ∃ seed rest, example_three_parallel = seed :: rest ∧
      ∀ s ∈ rest,
        |get_angle_2 (angle_degree_2 axis_internal
            (Polygon_regularizer.create axis_internal 1 10 (1 / 2)) seed s)|
          ≤ (Polygon_regularizer.create axis_internal 1 10 (1 / 2)).m_angle_threshold ∧
        axis_internal.distance (middle_point_2 seed.source seed.target)
          ((Line_2.through s.source s.target).projection
            (middle_point_2 seed.source seed.target))
          ≤ (Polygon_regularizer.create axis_internal 1 10 (1 / 2)).m_ordinate_bound :=
  ⟨by decide!,
    collinear_group_members_are_near_seed axis_internal
      (Polygon_regularizer.create axis_internal 1 10 (1 / 2)) example_three_parallel
      example_three_parallel (by decide!)⟩

set_option maxRecDepth 100000 in
/-- C21 (as stated) fails: with `ordinate_bound = 1/2` the three parallel
segments at the heights 0, 2/5 and -2/5 form one group, seeded by the first;
the second and the third member are parallel, but the midpoint of the second
is at distance 4/5 from the supporting line of the third (and the midpoint of
the third at distance 4/5 from the line of the second), which is not within
`ordinate_bound`. -/
theorem collinear_group_not_pairwise_counterexample :
    (create_collinear_groups axis_internal
      (Polygon_regularizer.create axis_internal 1 10 (1 / 2)) example_three_parallel).1
      = [example_three_parallel] ∧
    axis_internal.distance (middle_point_2 ⟨0, 2 / 5⟩ ⟨10, 2 / 5⟩)
      ((Line_2.through ⟨0, -(2 / 5)⟩ ⟨10, -(2 / 5)⟩).projection
        (middle_point_2 ⟨0, 2 / 5⟩ ⟨10, 2 / 5⟩)) = 4 / 5 ∧
    axis_internal.distance (middle_point_2 ⟨0, -(2 / 5)⟩ ⟨10, -(2 / 5)⟩)
      ((Line_2.through ⟨0, 2 / 5⟩ ⟨10, 2 / 5⟩).projection
        (middle_point_2 ⟨0, -(2 / 5)⟩ ⟨10, -(2 / 5)⟩)) = 4 / 5 ∧
    ¬ ((4 : FT) / 5
      ≤ (Polygon_regularizer.create axis_internal 1 10 (1 / 2)).m_ordinate_bound) :=
  ⟨by decide!, by decide!, by decide!, by decide!⟩

end Levels_of_detail

namespace Levels_of_detail

/-! ## `make_segments_collinear` -/

theorem projection_has_on (l : Line_2) (p : Point_2) (h : l.a ≠ 0 ∨ l.b ≠ 0) :
    l.has_on (l.projection p) := by
  have hne : l.a * l.a + l.b * l.b ≠ 0 := by
    intro hc
    have ha : l.a * l.a = 0 := by nlinarith [mul_self_nonneg l.a, mul_self_nonneg l.b]
    have hb : l.b * l.b = 0 := by nlinarith [mul_self_nonneg l.a, mul_self_nonneg l.b]
    rcases h with h | h
    · exact h (mul_self_eq_zero.mp ha)
    · exact h (mul_self_eq_zero.mp hb)
  unfold Line_2.has_on Line_2.projection
  simp only
  field_simp
  ring

/-- The design behaviour of `make_segments_collinear`: every position has an
entry in `seg_map` that names one of the groups, the call returns, and each
segment is replaced by the pair of the projections of its end points onto the
representative line of its group; a segment that is alone in its group is left
unchanged, and the new end points lie on the representative line whenever the
representative segment of the group is not reduced to a point. -/
theorem make_segments_collinear_spec (N : Internal) (R : Polygon_regularizer)
    (segments : List Segment_2) :
    ∃ result, make_segments_collinear N R segments = some result ∧
      result.length = segments.length ∧
      ∀ i, i < segments.length →
        ∃ g group segment,
          map_find (create_collinear_groups N R segments).2 i = some g ∧
          g < (create_collinear_groups N R segments).1.length ∧
          (create_collinear_groups N R segments).1[g]? = some group ∧
          segments[i]? = some segment ∧ segment ∈ group ∧
          result[i]? = some ⟨(representative_line N group).projection segment.source,
            (representative_line N group).projection segment.target⟩ ∧
          (group = [segment] → result[i]? = some segment) ∧
          ((representative_line N group).a ≠ 0 ∨ (representative_line N group).b ≠ 0 →
            (representative_line N group).has_on
              ((representative_line N group).projection segment.source) ∧
            (representative_line N group).has_on
              ((representative_line N group).projection segment.target)) := by
  obtain ⟨_, hmap⟩ := create_collinear_groups_spec N R segments
  have hlines : ∀ (g : Nat) (group : List Segment_2),
      (create_collinear_groups N R segments).1[g]? = some group →
      ((create_collinear_groups N R segments).1.map (fun group =>
        let segment := find_weighted_segment N group
        Line_2.through segment.source segment.target))[g]?
        = some (representative_line N group) := by
    intro g group hg
    rw [List.getElem?_map, hg]
    rfl
  have key := for_range_range_total
    (fun (k : Nat) (segs : List Segment_2) =>
      segs.length = segments.length ∧
      (∀ i, k ≤ i → segs[i]? = segments[i]?) ∧
      ∀ i, i < k → ∃ g group segment,
        map_find (create_collinear_groups N R segments).2 i = some g ∧
        (create_collinear_groups N R segments).1[g]? = some group ∧
        segments[i]? = some segment ∧ segment ∈ group ∧
        segs[i]? = some ⟨(representative_line N group).projection segment.source,
          (representative_line N group).projection segment.target⟩)
    (make_segments_collinear_body (create_collinear_groups N R segments).2
      ((create_collinear_groups N R segments).1.map (fun group =>
        let segment := find_weighted_segment N group
        Line_2.through segment.source segment.target)))
    segments.length
    (by
      intro k segs hk ⟨h1, h2, h3⟩
      obtain ⟨g, group, e1, e2, e3⟩ := hmap k hk
      have hseg : segs[k]? = some segments[k] := by
        rw [h2 k (le_refl _), List.getElem?_eq_getElem hk]
      have hD : segments.getD k default = segments[k] := by
        rw [List.getD_eq_getElem?_getD, List.getElem?_eq_getElem hk]
        rfl
      rw [hD] at e3
      refine ⟨segs.set k ⟨(representative_line N group).projection segments[k].source,
        (representative_line N group).projection segments[k].target⟩, ?_, ?_, ?_, ?_⟩
      · simp only [make_segments_collinear_body, e1, hlines g group e2, hseg]
      · rw [List.length_set]; exact h1
      · intro i hi
        rw [List.getElem?_set_ne (by omega)]
        exact h2 i (by omega)
      · intro i hi
        rcases Nat.lt_succ_iff_lt_or_eq.mp hi with hi | rfl
        · obtain ⟨g1, group1, segment1, f1, f2, f3, f4, f5⟩ := h3 i hi
          refine ⟨g1, group1, segment1, f1, f2, f3, f4, ?_⟩
          rw [List.getElem?_set_ne (by omega)]
          exact f5
        · refine ⟨g, group, segments[i], e1, e2, List.getElem?_eq_getElem hk, e3, ?_⟩
          rw [List.getElem?_set_self (by rw [h1]; exact hk)])
    segments.length (le_refl _) segments
    ⟨rfl, fun i _ => rfl, by intro i hi; omega⟩
  obtain ⟨result, hres, h1, _, h3⟩ := key
  refine ⟨result, hres, h1, ?_⟩
  intro i hi
  obtain ⟨g, group, segment, f1, f2, f3, f4, f5⟩ := h3 i hi
  have hg : g < (create_collinear_groups N R segments).1.length := by
    by_contra hc
    rw [List.getElem?_eq_none (not_lt.mp hc)] at f2
    exact Option.noConfusion f2
  refine ⟨g, group, segment, f1, hg, f2, f3, f4, f5, ?_, ?_⟩
  · intro hgroup
    rw [f5, hgroup]
    simp only [representative_line, find_weighted_segment_single, projection_source,
      projection_target]
  · intro hnd
    exact ⟨projection_has_on _ _ hnd, projection_has_on _ _ hnd⟩

set_option maxRecDepth 100000 in
/-- C22 does not hold for the code: the two long sides of a rectangle of width
3/10 have positive length, are parallel and, with `ordinate_bound = 1/2`, are
put in one group by `create_collinear_groups`; being of equal length and of
opposite direction, their central segment and hence the weighted segment of
the group is reduced to the point `(5, 3/20)`, so the representative line
`Line_2(segment.source(), segment.target())` of `make_segments_collinear` is
built from two equal points and all its coefficients vanish: there is no line
on which the end points could be projected. -/
theorem make_segments_collinear_degenerate_representative :
    (∀ s ∈ example_thin_sides, 0 < s.squared_length) ∧
    create_collinear_groups axis_internal
        (Polygon_regularizer.create axis_internal 1 10 (1 / 2)) example_thin_sides
      = ([example_thin_sides], [(0, 0), (1, 0)]) ∧
    find_central_segment example_thin_sides = ⟨⟨5, 3 / 20⟩, ⟨5, 3 / 20⟩⟩ ∧
    find_weighted_segment axis_internal example_thin_sides = ⟨⟨5, 3 / 20⟩, ⟨5, 3 / 20⟩⟩ ∧
    representative_line axis_internal example_thin_sides = ⟨0, 0, 0⟩ :=
  ⟨by decide!, by decide!, by decide!, by decide!, by decide!⟩

end Levels_of_detail

namespace Levels_of_detail

/-! ## Pairs of indices and the table of groups -/

theorem mem_all_pairs (contours : List (List Seg_pair)) (p : Nat × Nat) :
    p ∈ all_pairs contours ↔ p.1 < contours.length ∧ p.2 < (contours.getD p.1 []).length := by
  obtain ⟨k, i⟩ := p
  simp only [all_pairs, List.mem_flatMap, List.mem_range, List.mem_map, Prod.mk.injEq]
  constructor
  · rintro ⟨k1, hk1, i1, hi1, rfl, rfl⟩
    exact ⟨hk1, hi1⟩
  · rintro ⟨hk, hi⟩
    exact ⟨k, hk, i, hi, rfl, rfl⟩

theorem mem_group_pairs (groups : List (List Nat)) (p : Nat × Nat) :
    p ∈ group_pairs groups ↔ p.1 < groups.length ∧ p.2 < (groups.getD p.1 []).length := by
  obtain ⟨k, i⟩ := p
  simp only [group_pairs, List.mem_flatMap, List.mem_range, List.mem_map, Prod.mk.injEq]
  constructor
  · rintro ⟨k1, hk1, i1, hi1, rfl, rfl⟩
    exact ⟨hk1, hi1⟩
  · rintro ⟨hk, hi⟩
    exact ⟨k, hk, i, hi, rfl, rfl⟩

theorem pairs_nodup (f : Nat → Nat) (n : Nat) :
    ((List.range n).flatMap (fun k => (List.range (f k)).map (fun i => (k, i)))).Nodup := by
  rw [List.nodup_flatMap]
  refine ⟨?_, ?_⟩
  · intro k _
    exact (List.nodup_range _).map (fun a b h => by simpa using h)
  · apply List.Pairwise.imp _ (List.nodup_range n)
    intro a b hab
    simp only [Function.onFun, List.Disjoint, List.mem_map, List.mem_range]
    rintro ⟨k, i⟩ ⟨i1, _, h1⟩ ⟨i2, _, h2⟩
    simp only [Prod.mk.injEq] at h1 h2
    exact hab (h1.1.trans h2.1.symm)

theorem all_pairs_nodup (contours : List (List Seg_pair)) : (all_pairs contours).Nodup :=
  pairs_nodup (fun k => (contours.getD k []).length) contours.length

theorem getD_length_of_shape {α β : Type} (a : List (List α)) (b : List (List β))
    (h : a.map List.length = b.map List.length) (k : Nat) :
    (a.getD k []).length = (b.getD k []).length := by
  have h1 : (a.map List.length)[k]? = (b.map List.length)[k]? := by rw [h]
  rw [List.getElem?_map, List.getElem?_map] at h1
  rw [List.getD_eq_getElem?_getD, List.getD_eq_getElem?_getD]
  cases ha : a[k]? with
  | none =>
    cases hb : b[k]? with
    | none => rfl
    | some y => rw [ha, hb] at h1; simp at h1
  | some x =>
    cases hb : b[k]? with
    | none => rw [ha, hb] at h1; simp at h1
    | some y => rw [ha, hb] at h1; simpa using h1

theorem length_of_shape {α β : Type} (a : List (List α)) (b : List (List β))
    (h : a.map List.length = b.map List.length) : a.length = b.length := by
  have := congrArg List.length h
  simpa using this

theorem group_pairs_of_shape (groups : List (List Nat)) (contours : List (List Seg_pair))
    (h : groups.map List.length = contours.map List.length) :
    group_pairs groups = all_pairs contours := by
  unfold group_pairs all_pairs
  rw [length_of_shape groups contours h]
  congr 1
  funext k
  rw [getD_length_of_shape groups contours h k]

theorem getD_set_self_of_lt {α : Type} (l : List α) (k : Nat) (x d : α) (h : k < l.length) :
    (l.set k x).getD k d = x := by
  simp [List.getD_eq_getElem?_getD, List.getElem?_set, h]

theorem getD_set_of_ne_index {α : Type} (l : List α) (k j : Nat) (x d : α) (h : k ≠ j) :
    (l.set k x).getD j d = l.getD j d := by
  simp [List.getD_eq_getElem?_getD, List.getElem?_set, h]

theorem getD_set_of_not_lt {α : Type} (l : List α) (k j : Nat) (x d : α) (h : ¬ k < l.length) :
    (l.set k x).getD j d = l.getD j d := by
  by_cases hkj : k = j
  · subst hkj
    simp [List.getD_eq_getElem?_getD, List.getElem?_set, h,
      List.getElem?_eq_none (not_lt.mp h)]
  · exact getD_set_of_ne_index l k j x d hkj

theorem shape_set_group (groups : List (List Nat)) (k i v : Nat) :
    (set_group groups k i v).map List.length = groups.map List.length := by
  unfold set_group
  apply List.ext_getElem?
  intro j
  rw [List.getElem?_map, List.getElem?_map, List.getElem?_set]
  by_cases hkj : k = j
  · subst hkj
    by_cases hk : k < groups.length
    · simp [hk, List.getD_eq_getElem?_getD, List.getElem?_eq_getElem hk]
    · simp [hk, List.getElem?_eq_none (not_lt.mp hk)]
  · simp [hkj]

theorem group_at_set_group_self (groups : List (List Nat)) (k i v : Nat)
    (hk : k < groups.length) (hi : i < (groups.getD k []).length) :
    group_at (set_group groups k i v) (k, i) = v := by
  unfold group_at set_group
  simp only
  rw [getD_set_self_of_lt _ _ _ _ hk, getD_set_self_of_lt _ _ _ _ hi]

theorem group_at_set_group_ne (groups : List (List Nat)) (k i v : Nat) (p : Nat × Nat)
    (h : p ≠ (k, i)) : group_at (set_group groups k i v) p = group_at groups p := by
  obtain ⟨k1, i1⟩ := p
  unfold group_at set_group
  simp only
  by_cases hk : k = k1
  · subst hk
    have hi : i ≠ i1 := fun e => h (by rw [e])
    by_cases hlt : k < groups.length
    · rw [getD_set_self_of_lt _ _ _ _ hlt, getD_set_of_ne_index _ _ _ _ _ hi]
    · rw [getD_set_of_not_lt _ _ _ _ _ hlt]
  · rw [getD_set_of_ne_index _ _ _ _ _ hk]

theorem find?_range_some (p : Nat → Bool) (n L : Nat)
    (h : (List.range n).find? p = some L) :
    L < n ∧ p L = true ∧ ∀ j, j < L → p j = false := by
  induction n with
  | zero => simp at h
  | succ n ih =>
    rw [List.range_succ, List.find?_append] at h
    cases hf : (List.range n).find? p with
    | some x =>
      rw [hf] at h
      simp only [Option.or, Option.some.injEq] at h
      subst h
      obtain ⟨h1, h2, h3⟩ := ih hf
      exact ⟨Nat.lt_succ_of_lt h1, h2, h3⟩
    | none =>
      rw [hf] at h
      simp only [Option.or] at h
      have hnone := List.find?_eq_none.mp hf
      by_cases hp : p n = true
      · simp only [List.find?_cons, hp] at h
        simp only [Option.some.injEq] at h
        subst h
        refine ⟨Nat.lt_succ_self _, hp, ?_⟩
        intro j hj
        have := hnone j (List.mem_range.mpr hj)
        simpa using this
      · simp [List.find?_cons, hp] at h

theorem find?_range_none (p : Nat → Bool) (n : Nat)
    (h : (List.range n).find? p = none) : ∀ j, j < n → p j = false := by
  intro j hj
  have := List.find?_eq_none.mp h j (List.mem_range.mpr hj)
  simpa using this

theorem length_le_of_sorted_lt (refs : List Nat) (n : Nat)
    (hs : refs.Pairwise (fun a b => a < b)) (hlt : ∀ r ∈ refs, r < n) : refs.length ≤ n := by
  have hnd : refs.Nodup := hs.imp (fun h => Nat.ne_of_lt h)
  have h1 : refs.toFinset.card = refs.length := List.toFinset_card_of_nodup hnd
  have h2 : refs.toFinset ⊆ Finset.range n := by
    intro x hx
    rw [List.mem_toFinset] at hx
    exact Finset.mem_range.mpr (hlt x hx)
  have h3 := Finset.card_le_card h2
  rw [Finset.card_range] at h3
  omega

end Levels_of_detail

namespace Levels_of_detail

/-! ## One call of `get_next_direction` -/

theorem get_next_direction_body_cases (N : Internal) (R : Polygon_regularizer)
    (contours : List (List Seg_pair)) (input : List (Nat × Nat)) (gr_idx longest_idx : Nat)
    (st : List (List Nat) × List Bool) (i : Nat)
    (hL : st.2.getD longest_idx false = false ∨ i ≠ longest_idx)
    (hLf : (seg_pair_at contours (input.getD longest_idx default)).2 = true) :
    (get_next_direction_body N R contours input gr_idx longest_idx st i
        = (set_group st.1 (input.getD i default).1 (input.getD i default).2 gr_idx,
            st.2.set i true) ∧
      st.2.getD i false = false ∧
      (seg_pair_at contours (input.getD i default)).2 = true) ∨
    (get_next_direction_body N R contours input gr_idx longest_idx st i = st ∧
      i ≠ longest_idx) := by
  unfold get_next_direction_body
  by_cases hi : i = longest_idx
  · subst hi
    left
    simp only [if_true]
    rcases hL with hL | hL
    · exact ⟨trivial, hL, hLf⟩
    · exact absurd rfl hL
  · simp only [hi, if_false]
    by_cases hc : (!st.2.getD i false && (seg_pair_at contours (input.getD i default)).2) = true
    · simp only [hc, if_true]
      have hc1 : st.2.getD i false = false ∧
          (seg_pair_at contours (input.getD i default)).2 = true := by
        simpa using hc
      by_cases ha : |get_angle_2 (angle_degree_2 N R
            (seg_pair_at contours (input.getD longest_idx default)).1
            (seg_pair_at contours (input.getD i default)).1)| ≤ R.m_bound_min ∨
          R.m_bound_max ≤ |get_angle_2 (angle_degree_2 N R
            (seg_pair_at contours (input.getD longest_idx default)).1
            (seg_pair_at contours (input.getD i default)).1)|
      · left
        simp only [ha, if_true]
        exact ⟨trivial, hc1.1, hc1.2⟩
      · right
        simp only [ha, if_false]
        exact ⟨trivial, hi⟩
    · right
      simp only [hc, Bool.false_eq_true, if_false]
      exact ⟨trivial, hi⟩

theorem getD_ne_of_nodup (input : List (Nat × Nat)) (hnd : input.Nodup) (i j : Nat)
    (hi : i < input.length) (hj : j < input.length) (hij : i ≠ j) :
    input.getD i default ≠ input.getD j default := by
  rw [List.getD_eq_getElem?_getD, List.getD_eq_getElem?_getD, List.getElem?_eq_getElem hi,
    List.getElem?_eq_getElem hj]
  simp only [Option.getD_some]
  intro h
  exact hij ((List.Nodup.getElem_inj_iff hnd).mp h)

theorem getD_default_mem_of_lt (input : List (Nat × Nat)) (i : Nat) (hi : i < input.length) :
    input.getD i default ∈ input := by
  rw [List.getD_eq_getElem?_getD, List.getElem?_eq_getElem hi]
  exact List.getElem_mem hi

theorem group_at_set_group_valid (contours : List (List Seg_pair)) (groups : List (List Nat))
    (hshape : groups.map List.length = contours.map List.length) (p : Nat × Nat)
    (hp : p ∈ all_pairs contours) (v : Nat) :
    group_at (set_group groups p.1 p.2 v) p = v := by
  obtain ⟨h1, h2⟩ := (mem_all_pairs contours p).mp hp
  have e : p = (p.1, p.2) := rfl
  rw [e]
  exact group_at_set_group_self groups p.1 p.2 v
    (by rw [length_of_shape groups contours hshape]; exact h1)
    (by rw [getD_length_of_shape groups contours hshape]; exact h2)

theorem get_next_direction_fold_spec (N : Internal) (R : Polygon_regularizer)
    (contours : List (List Seg_pair)) (input : List (Nat × Nat)) (hnd : input.Nodup)
    (hvalid : ∀ p ∈ input, p ∈ all_pairs contours) (gr_idx longest_idx : Nat)
    (G0 : List (List Nat)) (S0 : List Bool)
    (hshape : G0.map List.length = contours.map List.length)
    (hsize : S0.length = input.length)
    (hL : S0.getD longest_idx false = false)
    (hLf : (seg_pair_at contours (input.getD longest_idx default)).2 = true) :
    let r := (List.range S0.length).foldl
      (get_next_direction_body N R contours input gr_idx longest_idx) (G0, S0)
    r.1.map List.length = contours.map List.length ∧ r.2.length = input.length ∧
    ∀ i, i < input.length →
      (r.2.getD i false = S0.getD i false ∧
        group_at r.1 (input.getD i default) = group_at G0 (input.getD i default) ∧
        i ≠ longest_idx) ∨
      (S0.getD i false = false ∧ r.2.getD i false = true ∧
        group_at r.1 (input.getD i default) = gr_idx ∧
        (seg_pair_at contours (input.getD i default)).2 = true) := by
  intro r
  have key := foldl_range_invariant
    (fun (k : Nat) (st : List (List Nat) × List Bool) =>
      st.1.map List.length = contours.map List.length ∧ st.2.length = input.length ∧
      ∀ i, i < input.length →
        (k ≤ i → st.2.getD i false = S0.getD i false ∧
          group_at st.1 (input.getD i default) = group_at G0 (input.getD i default)) ∧
        (i < k →
          (st.2.getD i false = S0.getD i false ∧
            group_at st.1 (input.getD i default) = group_at G0 (input.getD i default) ∧
            i ≠ longest_idx) ∨
          (S0.getD i false = false ∧ st.2.getD i false = true ∧
            group_at st.1 (input.getD i default) = gr_idx ∧
            (seg_pair_at contours (input.getD i default)).2 = true)))
    (get_next_direction_body N R contours input gr_idx longest_idx) S0.length
    (by
      intro k st hk ⟨h1, h2, h3⟩
      rw [hsize] at hk
      have hLk : st.2.getD longest_idx false = false ∨ k ≠ longest_idx := by
        by_cases e : k = longest_idx
        · left
          rw [← e, ((h3 k hk).1 (le_refl _)).1, e]
          exact hL
        · exact Or.inr e
      rcases get_next_direction_body_cases N R contours input gr_idx longest_idx st k hLk hLf
        with ⟨e, hs, hf⟩ | ⟨e, hne⟩
      · rw [e]
        refine ⟨by rw [shape_set_group]; exact h1, by rw [List.length_set]; exact h2, ?_⟩
        intro i hi
        by_cases hik : i = k
        · subst hik
          refine ⟨fun hle => absurd hle (by omega), fun _ => Or.inr ⟨?_, ?_, ?_, hf⟩⟩
          · rw [← ((h3 i hi).1 (le_refl _)).1]; exact hs
          · exact getD_set_self_of_lt _ _ _ _ (by rw [h2]; exact hi)
          · exact group_at_set_group_valid contours st.1 h1 _
              (hvalid _ (getD_default_mem_of_lt input i hi)) gr_idx
        · have hne : input.getD i default ≠ input.getD k default :=
            getD_ne_of_nodup input hnd i k hi hk hik
          have hg : group_at (set_group st.1 (input.getD k default).1
              (input.getD k default).2 gr_idx) (input.getD i default)
              = group_at st.1 (input.getD i default) :=
            group_at_set_group_ne _ _ _ _ _ hne
          have hsd : (st.2.set k true).getD i false = st.2.getD i false :=
            getD_set_of_ne_index _ _ _ _ _ (fun e => hik e.symm)
          simp only [hg, hsd]
          refine ⟨fun hle => (h3 i hi).1 (by omega), fun hlt => (h3 i hi).2 (by omega)⟩
      · rw [e]
        refine ⟨h1, h2, ?_⟩
        intro i hi
        refine ⟨fun hle => (h3 i hi).1 (by omega), fun hlt => ?_⟩
        rcases Nat.lt_succ_iff_lt_or_eq.mp hlt with hlt | rfl
        · exact (h3 i hi).2 hlt
        · left
          exact ⟨((h3 i hi).1 (le_refl _)).1, ((h3 i hi).1 (le_refl _)).2, hne⟩)
    S0.length (le_refl _) (G0, S0)
    ⟨hshape, hsize, fun i hi => ⟨fun _ => ⟨rfl, rfl⟩, fun hlt => absurd hlt (by omega)⟩⟩
  obtain ⟨h1, h2, h3⟩ := key
  refine ⟨h1, h2, ?_⟩
  intro i hi
  exact (h3 i hi).2 (by rw [hsize]; exact hi)

end Levels_of_detail

namespace Levels_of_detail

theorem get_next_direction_spec (N : Internal) (R : Polygon_regularizer)
    (contours : List (List Seg_pair)) (input : List (Nat × Nat)) (hnd : input.Nodup)
    (hvalid : ∀ p ∈ input, p ∈ all_pairs contours) (hlen : input.length ≤ npos)
    (gr_idx : Nat) (states : List Bool) (refs : List Nat)
    (h : Directions_inv contours input gr_idx states R refs) :
    ((get_next_direction N R contours input gr_idx states).1 = false ∧
      (get_next_direction N R contours input gr_idx states).2.2 = R ∧
      ∀ i, i < input.length → (seg_pair_at contours (input.getD i default)).2 = true →
        states.getD i false = true) ∨
    ((get_next_direction N R contours input gr_idx states).1 = true ∧
      ∃ L, Directions_inv contours input (gr_idx + 1)
        (get_next_direction N R contours input gr_idx states).2.1
        (get_next_direction N R contours input gr_idx states).2.2 (refs ++ [L])) := by
  unfold get_next_direction find_longest_idx
  cases hf : (List.range states.length).find? (fun i =>
      !states.getD i false && (seg_pair_at contours (input.getD i default)).2) with
  | none =>
    left
    simp only [Option.getD_none, if_true, true_and]
    intro i hi hflag
    have := find?_range_none _ _ hf i (by rw [h.size]; exact hi)
    simp only [Bool.and_eq_false_imp, Bool.not_eq_true', hflag] at this
    by_contra hc
    have hc0 : states.getD i false = false := by simpa using hc
    exact Bool.noConfusion (this hc0)
  | some L =>
    right
    obtain ⟨hL1, hL2, hL3⟩ := find?_range_some _ _ _ hf
    rw [h.size] at hL1
    have hLs : states.getD L false = false ∧
        (seg_pair_at contours (input.getD L default)).2 = true := by
      simpa using hL2
    have hLne : ¬ L = npos := by omega
    have hmin : ∀ i, states.getD i false = false →
        (seg_pair_at contours (input.getD i default)).2 = true → L ≤ i := by
      intro i hs hfl
      by_contra hc
      have := hL3 i (by omega)
      rw [hs, hfl] at this
      exact absurd this (by decide)
    simp only [Option.getD_some, hLne, if_false, true_and]
    obtain ⟨f1, f2, f3⟩ := get_next_direction_fold_spec N R contours input hnd hvalid gr_idx L
      R.m_groups states h.shape h.size hLs.1 hLs.2
    have fL : ((List.range states.length).foldl
          (get_next_direction_body N R contours input gr_idx L) (R.m_groups, states)).2.getD L false
          = true ∧
        group_at ((List.range states.length).foldl
          (get_next_direction_body N R contours input gr_idx L) (R.m_groups, states)).1
          (input.getD L default) = gr_idx := by
      rcases f3 L hL1 with ⟨_, _, hne⟩ | ⟨_, h2, h3, _⟩
      · exact absurd rfl hne
      · exact ⟨h2, h3⟩
    refine ⟨L, ⟨f2, f1, ?_, ?_, ?_, ?_, ?_, ?_, ?_, ?_, ?_, ?_, ?_⟩⟩
    · rw [List.length_append, h.refs_length]; rfl
    · simp only [h.longest, List.map_append, List.map_cons, List.map_nil]
    · simp only [h.skip, List.map_append, List.map_cons, List.map_nil]
    · simp only [List.length_append, h.bounds, List.length_cons, List.length_nil]
    · rw [List.pairwise_append]
      refine ⟨h.refs_sorted, List.pairwise_singleton _ _, ?_⟩
      intro a ha b hb
      rw [List.mem_singleton] at hb
      subst hb
      exact h.refs_first a ha b hL1 hLs.1 hLs.2
    · intro r hr
      rcases List.mem_append.mp hr with hr | hr
      · exact h.refs_lt r hr
      · rw [List.mem_singleton] at hr
        subst hr
        exact hL1
    · intro k r hk
      by_cases hlt : k < refs.length
      · rw [List.getElem?_append_left hlt] at hk
        have hrm : r ∈ refs := List.getElem?_mem hk
        obtain ⟨g1, g2⟩ := h.ref_group k r hk
        refine ⟨?_, g2⟩
        rcases f3 r (h.refs_lt r hrm) with ⟨_, e, _⟩ | ⟨e, _⟩
        · rw [e]; exact g1
        · rw [h.refs_assigned r hrm] at e
          exact Bool.noConfusion e
      · have hge : refs.length ≤ k := not_lt.mp hlt
        rw [List.getElem?_append_right hge] at hk
        by_cases h0 : k - refs.length = 0
        · rw [h0] at hk
          simp only [List.getElem?_cons_zero, Option.some.injEq] at hk
          subst hk
          have hk2 : k = gr_idx := by rw [← h.refs_length]; omega
          rw [hk2]
          exact ⟨fL.2, hLs.2⟩
        · obtain ⟨m, hm⟩ : ∃ m, k - refs.length = m + 1 := ⟨k - refs.length - 1, by omega⟩
          rw [hm] at hk
          simp at hk
    · intro i hi hs
      rcases f3 i hi with ⟨e1, e2, _⟩ | ⟨_, e, _⟩
      · rw [e2]
        exact h.unassigned i hi (by rw [← e1]; exact hs)
      · rw [hs] at e
        exact Bool.noConfusion e
    · intro i hi hs
      rcases f3 i hi with ⟨e1, e2, _⟩ | ⟨e0, _, e3, e4⟩
      · obtain ⟨g1, r0, g2, g3⟩ := h.assigned i hi (by rw [← e1]; exact hs)
        refine ⟨g1, r0, ?_, g3⟩
        rw [e2]
        have hlt : group_at R.m_groups (input.getD i default) < refs.length := by
          by_contra hc
          rw [List.getElem?_eq_none (not_lt.mp hc)] at g2
          exact Option.noConfusion g2
        rw [List.getElem?_append_left hlt]
        exact g2
      · refine ⟨e4, L, ?_, hmin i e0 e4⟩
        rw [e3, ← h.refs_length, List.getElem?_append_right (le_refl _)]
        simp
    · intro r hr i hi hs hfl
      have hs0 : states.getD i false = false := by
        rcases f3 i hi with ⟨e1, _, _⟩ | ⟨_, e, _⟩
        · rw [← e1]; exact hs
        · rw [hs] at e
          exact Bool.noConfusion e
      rcases List.mem_append.mp hr with hr | hr
      · exact h.refs_first r hr i hi hs0 hfl
      · rw [List.mem_singleton] at hr
        subst hr
        have hle := hmin i hs0 hfl
        have hne : r ≠ i := by
          intro e
          rw [← e, fL.1] at hs
          exact Bool.noConfusion hs
        omega
    · intro r hr
      rcases List.mem_append.mp hr with hr | hr
      · rcases f3 r (h.refs_lt r hr) with ⟨e1, _, _⟩ | ⟨e, _⟩
        · rw [e1]; exact h.refs_assigned r hr
        · rw [h.refs_assigned r hr] at e
          exact Bool.noConfusion e
      · rw [List.mem_singleton] at hr
        subst hr
        exact fL.1

end Levels_of_detail

namespace Levels_of_detail

/-! ## The loop of `get_multiple_directions` -/

theorem get_multiple_directions_loop_spec (N : Internal)
    (contours : List (List Seg_pair)) (input : List (Nat × Nat)) (hnd : input.Nodup)
    (hvalid : ∀ p ∈ input, p ∈ all_pairs contours) (hlen : input.length ≤ npos) :
    ∀ (more gr_idx : Nat) (states : List Bool) (R : Polygon_regularizer) (refs : List Nat),
      Directions_inv contours input gr_idx states R refs → more + gr_idx = input.length →
      ∃ gr_idx1 states1 refs1,
        Directions_inv contours input gr_idx1 states1
          (get_multiple_directions_loop N contours input more gr_idx states R) refs1 ∧
        ∀ i, i < input.length → (seg_pair_at contours (input.getD i default)).2 = true →
          states1.getD i false = true := by
  intro more
  induction more with
  | zero =>
    intro gr_idx states R refs h hm
    rw [get_multiple_directions_loop.eq_def]
    rcases get_next_direction_spec N R contours input hnd hvalid hlen gr_idx states refs h
      with ⟨e1, e2, e3⟩ | ⟨e1, L, e2⟩
    · simp only [e1, Bool.false_eq_true, if_false, e2]
      exact ⟨gr_idx, states, refs, h, e3⟩
    · exfalso
      have := length_le_of_sorted_lt _ _ e2.refs_sorted e2.refs_lt
      rw [e2.refs_length] at this
      omega
  | succ more ih =>
    intro gr_idx states R refs h hm
    rw [get_multiple_directions_loop.eq_def]
    rcases get_next_direction_spec N R contours input hnd hvalid hlen gr_idx states refs h
      with ⟨e1, e2, e3⟩ | ⟨e1, L, e2⟩
    · simp only [e1, Bool.false_eq_true, if_false, e2]
      exact ⟨gr_idx, states, refs, h, e3⟩
    · simp only [e1, if_true]
      exact ih (gr_idx + 1) _ _ _ e2 (by omega)

theorem group_at_make_default_groups (contours : List (List Seg_pair)) (p : Nat × Nat) :
    group_at (make_default_groups contours npos) p = npos := by
  unfold group_at make_default_groups
  have e : (List.map (fun contour : List Seg_pair => List.replicate contour.length npos)
      contours).getD p.1 []
      = ((contours[p.1]?).map (fun contour => List.replicate contour.length npos)).getD [] := by
    rw [List.getD_eq_getElem?_getD, List.getElem?_map]
  rw [e]
  cases hc : contours[p.1]? with
  | none => simp
  | some contour =>
    simp only [Option.map_some', Option.getD_some]
    rw [List.getD_eq_getElem?_getD, List.getElem?_replicate]
    by_cases h : p.2 < contour.length <;> simp [h]

theorem shape_make_default_groups (contours : List (List Seg_pair)) (v : Nat) :
    (make_default_groups contours v).map List.length = contours.map List.length := by
  unfold make_default_groups
  rw [List.map_map]
  apply List.map_congr_left
  intro contour _
  simp

theorem get_multiple_directions_spec (N : Internal) (D : Directions_internal)
    (R : Polygon_regularizer) (contours : List (List Seg_pair))
    (hperm : (sort_input D contours (all_pairs contours)).Perm (all_pairs contours))
    (hlen : (all_pairs contours).length ≤ npos) :
    ∃ gr_idx states refs,
      Directions_inv contours (sort_input D contours (all_pairs contours)) gr_idx states
        (get_multiple_directions N D R contours) refs ∧
      ∀ i, i < (sort_input D contours (all_pairs contours)).length →
        (seg_pair_at contours
          ((sort_input D contours (all_pairs contours)).getD i default)).2 = true →
        states.getD i false = true := by
  have hnd : (sort_input D contours (all_pairs contours)).Nodup :=
    (List.Perm.nodup_iff hperm).mpr (all_pairs_nodup contours)
  have hvalid : ∀ p ∈ sort_input D contours (all_pairs contours), p ∈ all_pairs contours :=
    fun p hp => hperm.mem_iff.mp hp
  have hlen2 : (sort_input D contours (all_pairs contours)).length ≤ npos := by
    rw [hperm.length_eq]; exact hlen
  unfold get_multiple_directions
  apply get_multiple_directions_loop_spec N contours _ hnd hvalid hlen2 _ 0 _ _ [] _ (by simp)
  refine ⟨by simp, shape_make_default_groups contours npos, rfl, rfl, rfl, rfl,
    List.Pairwise.nil, by simp, by simp, ?_, ?_, by simp, by simp⟩
  · intro i _ _
    exact group_at_make_default_groups contours _
  · intro i _ hs
    rw [getD_replicate_false] at hs
    exact Bool.noConfusion hs

end Levels_of_detail

namespace Levels_of_detail

/-! ## `find_longest_segment` and `compute_longest_direction` -/

theorem squared_length_nonneg (s : Segment_2) : 0 ≤ s.squared_length := by
  unfold Segment_2.squared_length
  nlinarith [mul_self_nonneg (s.target.x - s.source.x), mul_self_nonneg (s.target.y - s.source.y)]

theorem argmax_fold (key : Nat × Nat → FT) (l : List (Nat × Nat)) :
    ∀ acc : FT × (Nat × Nat),
      acc.1 ≤ (l.foldl (fun (acc : FT × (Nat × Nat)) (pair : Nat × Nat) =>
        if acc.1 < key pair then (key pair, pair) else acc) acc).1 ∧
      (∀ q ∈ l, key q ≤ (l.foldl (fun (acc : FT × (Nat × Nat)) (pair : Nat × Nat) =>
        if acc.1 < key pair then (key pair, pair) else acc) acc).1) ∧
      ((l.foldl (fun (acc : FT × (Nat × Nat)) (pair : Nat × Nat) =>
        if acc.1 < key pair then (key pair, pair) else acc) acc) = acc ∨
       ((l.foldl (fun (acc : FT × (Nat × Nat)) (pair : Nat × Nat) =>
          if acc.1 < key pair then (key pair, pair) else acc) acc).2 ∈ l ∧
        (l.foldl (fun (acc : FT × (Nat × Nat)) (pair : Nat × Nat) =>
          if acc.1 < key pair then (key pair, pair) else acc) acc).1
          = key (l.foldl (fun (acc : FT × (Nat × Nat)) (pair : Nat × Nat) =>
            if acc.1 < key pair then (key pair, pair) else acc) acc).2)) := by
  induction l with
  | nil => intro acc; simp
  | cons p rest ih =>
    intro acc
    rw [List.foldl_cons]
    by_cases h : acc.1 < key p
    · simp only [h, if_true]
      obtain ⟨h1, h2, h3⟩ := ih (key p, p)
      simp only at h1
      refine ⟨by linarith, ?_, ?_⟩
      · intro q hq
        rcases List.mem_cons.mp hq with rfl | hq
        · exact h1
        · exact h2 q hq
      · right
        rcases h3 with h3 | ⟨h3, h4⟩
        · rw [h3]
          exact ⟨List.mem_cons_self _ _, rfl⟩
        · exact ⟨List.mem_cons_of_mem _ h3, h4⟩
    · simp only [h, if_false]
      obtain ⟨h1, h2, h3⟩ := ih acc
      refine ⟨h1, ?_, ?_⟩
      · intro q hq
        rcases List.mem_cons.mp hq with rfl | hq
        · linarith
        · exact h2 q hq
      · rcases h3 with h3 | ⟨h3, h4⟩
        · exact Or.inl h3
        · exact Or.inr ⟨List.mem_cons_of_mem _ h3, h4⟩

theorem find_longest_segment_spec (contours : List (List Seg_pair))
    (hne : all_pairs contours ≠ []) :
    find_longest_segment contours ∈ all_pairs contours ∧
    ∀ q ∈ all_pairs contours,
      (seg_pair_at contours q).1.squared_length
        ≤ (seg_pair_at contours (find_longest_segment contours)).1.squared_length := by
  obtain ⟨h1, h2, h3⟩ := argmax_fold (fun pair => (seg_pair_at contours pair).1.squared_length)
    (all_pairs contours) (-1, (npos, npos))
  obtain ⟨q0, hq0⟩ := List.exists_mem_of_ne_nil _ hne
  have hpos := h2 q0 hq0
  have hq0n := squared_length_nonneg (seg_pair_at contours q0).1
  simp only at hpos
  rcases h3 with h3 | ⟨h3, h4⟩
  · rw [h3] at hpos
    simp only at hpos
    linarith
  · unfold find_longest_segment
    refine ⟨h3, ?_⟩
    intro q hq
    have := h2 q hq
    simp only at this
    rw [h4] at this
    exact this

theorem seg_pair_at_of_mem (contours : List (List Seg_pair)) (p : Nat × Nat)
    (hp : p ∈ all_pairs contours) :
    ∃ contour, contours[p.1]? = some contour ∧ contour[p.2]? = some (seg_pair_at contours p) := by
  obtain ⟨h1, h2⟩ := (mem_all_pairs contours p).mp hp
  have e : contours.getD p.1 [] = contours[p.1] := by
    rw [List.getD_eq_getElem?_getD, List.getElem?_eq_getElem h1]; rfl
  rw [e] at h2
  refine ⟨contours[p.1], List.getElem?_eq_getElem h1, ?_⟩
  unfold seg_pair_at
  rw [e, List.getElem?_eq_getElem h2, List.getD_eq_getElem?_getD, List.getElem?_eq_getElem h2]
  rfl

theorem compute_longest_direction_spec (R : Polygon_regularizer)
    (contours : List (List Seg_pair)) (hne : all_pairs contours ≠ []) :
    compute_longest_direction R contours
      = some { R with
               m_bounds := [(45, 45)]
               m_skip := [find_longest_segment contours]
               m_longest := [(seg_pair_at contours (find_longest_segment contours)).1]
               m_groups := make_default_groups contours 0 } := by
  obtain ⟨h1, _⟩ := find_longest_segment_spec contours hne
  obtain ⟨contour, e1, e2⟩ := seg_pair_at_of_mem contours _ h1
  unfold compute_longest_direction
  simp only [e1, e2]

theorem group_at_make_default_groups_of_mem (contours : List (List Seg_pair)) (v : Nat)
    (p : Nat × Nat) (hp : p ∈ all_pairs contours) :
    group_at (make_default_groups contours v) p = v := by
  obtain ⟨h1, h2⟩ := (mem_all_pairs contours p).mp hp
  have e : contours.getD p.1 [] = contours[p.1] := by
    rw [List.getD_eq_getElem?_getD, List.getElem?_eq_getElem h1]; rfl
  rw [e] at h2
  unfold group_at make_default_groups
  have e2 : (List.map (fun contour : List Seg_pair => List.replicate contour.length v)
      contours).getD p.1 [] = List.replicate contours[p.1].length v := by
    rw [List.getD_eq_getElem?_getD, List.getElem?_map, List.getElem?_eq_getElem h1]
    rfl
  rw [e2, List.getD_eq_getElem?_getD, List.getElem?_replicate]
  simp [h2]

end Levels_of_detail

namespace Levels_of_detail

/-! ## The reference segment of a direction group -/

theorem insert_by_key_sorted (key : Nat × Nat → FT) (a : Nat × Nat) (l : List (Nat × Nat))
    (h : l.Pairwise (fun x y => ¬ key x < key y)) :
    (insert_by_key key a l).Pairwise (fun x y => ¬ key x < key y) := by
  induction l with
  | nil => simp [insert_by_key]
  | cons b rest ih =>
    unfold insert_by_key
    rw [List.pairwise_cons] at h
    by_cases hk : key b < key a
    · simp only [hk, if_true]
      rw [List.pairwise_cons]
      refine ⟨?_, List.pairwise_cons.mpr h⟩
      intro y hy
      rcases List.mem_cons.mp hy with rfl | hy
      · exact not_lt.mpr (le_of_lt hk)
      · have := h.1 y hy
        exact not_lt.mpr (le_trans (not_lt.mp this) (le_of_lt hk))
    · simp only [hk, if_false]
      rw [List.pairwise_cons]
      refine ⟨?_, ih h.2⟩
      intro y hy
      have hy1 := (insert_by_key_perm key a rest).mem_iff.mp hy
      rcases List.mem_cons.mp hy1 with rfl | hy2
      · exact hk
      · exact h.1 y hy2

theorem axis_directions_sort_exact : Sort_exact axis_directions := by
  refine ⟨axis_directions_exact.sort_perm, ?_⟩
  intro key input
  simp only [axis_directions]
  induction input with
  | nil => exact List.Pairwise.nil
  | cons a rest ih =>
    rw [List.foldr_cons]
    exact insert_by_key_sorted key a _ ih

theorem sorted_getD (key : Nat × Nat → FT) (input : List (Nat × Nat))
    (hs : input.Pairwise (fun a b => ¬ key a < key b)) (i j : Nat) (hij : i ≤ j)
    (hj : j < input.length) :
    key (input.getD j default) ≤ key (input.getD i default) := by
  have hi : i < input.length := lt_of_le_of_lt hij hj
  rw [List.getD_eq_getElem?_getD, List.getD_eq_getElem?_getD, List.getElem?_eq_getElem hi,
    List.getElem?_eq_getElem hj]
  simp only [Option.getD_some]
  rcases Nat.lt_or_eq_of_le hij with h | h
  · exact not_lt.mp (List.pairwise_iff_getElem.mp hs i j hi hj h)
  · subst h
    exact le_refl _

theorem references_longest_of_inv (contours : List (List Seg_pair))
    (input : List (Nat × Nat)) (gr_idx : Nat) (states : List Bool) (R : Polygon_regularizer)
    (refs : List Nat)
    (hperm : input.Perm (all_pairs contours))
    (hsorted : input.Pairwise (fun a b =>
      ¬ (seg_pair_at contours a).1.squared_length < (seg_pair_at contours b).1.squared_length))
    (hlen : input.length ≤ npos)
    (J : Directions_inv contours input gr_idx states R refs) :
    References_longest contours R := by
  have hkey := sorted_getD (fun a => (seg_pair_at contours a).1.squared_length) input hsorted
  have hrl : R.m_longest.length = refs.length := by rw [J.longest, List.length_map]
  have hrefs_le := length_le_of_sorted_lt refs input.length J.refs_sorted J.refs_lt
  refine ⟨by rw [J.skip, J.longest, List.length_map, List.length_map], ?_, ?_⟩
  · intro k hk
    rw [hrl] at hk
    have hr : refs[k]? = some refs[k] := List.getElem?_eq_getElem hk
    have hrlt : refs[k] < input.length := J.refs_lt _ (List.getElem_mem hk)
    obtain ⟨hg, _⟩ := J.ref_group k refs[k] hr
    refine ⟨input.getD refs[k] default, ?_, ?_, ?_, hg, ?_⟩
    · rw [J.skip, List.getElem?_map, hr]; rfl
    · exact hperm.mem_iff.mp (getD_default_mem_of_lt input _ hrlt)
    · rw [J.longest, List.getElem?_map, hr]; rfl
    · intro q hq hqk
      have hqi := hperm.mem_iff.mpr hq
      obtain ⟨i, hi, hiq⟩ := List.getElem_of_mem hqi
      have hqd : input.getD i default = q := by
        rw [List.getD_eq_getElem?_getD, List.getElem?_eq_getElem hi]
        exact hiq
      cases hs : states.getD i false with
      | false =>
        have := J.unassigned i hi hs
        rw [hqd, hqk] at this
        omega
      | true =>
        obtain ⟨_, r, hr2, hri⟩ := J.assigned i hi hs
        rw [hqd, hqk, hr] at hr2
        have e : refs[k] = r := Option.some.inj hr2
        have := hkey r i hri hi
        simp only at this
        rw [hqd, ← e] at this
        exact this
  · intro k1 k2 s1 s2 h12 h1 h2
    rw [J.longest, List.getElem?_map] at h1 h2
    cases hr1 : refs[k1]? with
    | none => rw [hr1] at h1; simp at h1
    | some r1 =>
      cases hr2 : refs[k2]? with
      | none => rw [hr2] at h2; simp at h2
      | some r2 =>
        rw [hr1] at h1
        rw [hr2] at h2
        simp only [Option.map_some', Option.some.injEq] at h1 h2
        obtain ⟨hk1, e1⟩ := List.getElem?_eq_some_iff.mp hr1
        obtain ⟨hk2, e2⟩ := List.getElem?_eq_some_iff.mp hr2
        have hr12 : r1 ≤ r2 := by
          rcases Nat.lt_or_eq_of_le h12 with h | h
          · have := List.pairwise_iff_getElem.mp J.refs_sorted k1 k2 hk1 hk2 h
            rw [e1, e2] at this
            exact le_of_lt this
          · subst h
            rw [e1] at e2
            exact le_of_eq e2
        have hr2lt : r2 < input.length := J.refs_lt r2 (by rw [← e2]; exact List.getElem_mem hk2)
        have := hkey r1 r2 hr12 hr2lt
        simp only at this
        rw [← h1, ← h2]
        exact this

theorem references_longest_of_longest_direction (R : Polygon_regularizer)
    (contours : List (List Seg_pair)) (hne : all_pairs contours ≠ []) :
    ∃ R3, compute_longest_direction R contours = some R3 ∧ References_longest contours R3 := by
  obtain ⟨hmem, hmax⟩ := find_longest_segment_spec contours hne
  refine ⟨_, compute_longest_direction_spec R contours hne, rfl, ?_, ?_⟩
  · intro k hk
    simp only [List.length_singleton] at hk
    have hk0 : k = 0 := by omega
    subst hk0
    refine ⟨find_longest_segment contours, rfl, hmem, rfl, ?_, ?_⟩
    · exact group_at_make_default_groups_of_mem contours 0 _ hmem
    · intro q hq _
      exact hmax q hq
  · intro k1 k2 s1 s2 h12 h1 h2
    simp only at h1 h2
    have hk2 : k2 = 0 := by
      by_contra hne2
      have : ([(seg_pair_at contours (find_longest_segment contours)).1] : List Segment_2)[k2]?
          = none := by
        apply List.getElem?_eq_none
        simp only [List.length_singleton]
        omega
      rw [this] at h2
      simp at h2
    have hk1 : k1 = 0 := by omega
    subst hk1 hk2
    rw [h1] at h2
    rw [Option.some.inj h2]

/-- C23: after `get_multiple_directions` every direction group `k` has its
reference segment `m_skip[k]`, `m_longest[k]` among the segments assigned to
the group `k`, no segment assigned to the group `k` has a larger squared
length than the reference, and the squared lengths of the references do not
increase with `k`; when `get_multiple_directions` creates no group (no segment
is long) and the input has a segment, `compute_longest_direction` returns and
the same holds after it (one group, whose reference is a longest segment).
`std::sort` is assumed to sort, and the number of segments to fit `size_t`. -/
theorem reference_is_longest_of_its_group (N : Internal) (D : Directions_internal)
    (R : Polygon_regularizer) (contours : List (List Seg_pair))
    (hD : Sort_exact D) (hlen : (all_pairs contours).length ≤ npos) :
    References_longest contours (get_multiple_directions N D R contours) ∧
    ((get_multiple_directions N D R contours).m_longest.length = 0 →
      all_pairs contours ≠ [] →
      ∃ R3, compute_longest_direction (get_multiple_directions N D R contours) contours
          = some R3 ∧
        References_longest contours R3) := by
  have hperm := hD.perm (fun a => (seg_pair_at contours a).1.squared_length) (all_pairs contours)
  have hsorted := hD.sorted (fun a => (seg_pair_at contours a).1.squared_length)
    (all_pairs contours)
  obtain ⟨gr_idx, states, refs, J, _⟩ := get_multiple_directions_spec N D R contours hperm hlen
  refine ⟨?_, ?_⟩
  · refine references_longest_of_inv contours _ gr_idx states _ refs hperm hsorted ?_ J
    have := hperm.length_eq
    omega
  · intro _ hne
    exact references_longest_of_longest_direction _ contours hne

end Levels_of_detail
namespace Levels_of_detail

set_option maxRecDepth 100000 in
theorem reference_is_longest_of_its_group_witness :
    Sort_exact axis_directions ∧
    (all_pairs example_long_contours).length
        ≤ npos ∧
    (References_longest
        example_long_contours
        (get_multiple_directions axis_internal axis_directions
          example_fresh_regularizer
          example_long_contours) ∧
      ((get_multiple_directions axis_internal axis_directions
          example_fresh_regularizer
          example_long_contours).m_longest.length = 0 →
        all_pairs example_long_contours ≠ [] →
        ∃ R3, compute_longest_direction
            (get_multiple_directions axis_internal axis_directions
              example_fresh_regularizer
              example_long_contours)
            example_long_contours
            = some R3 ∧
          References_longest
            example_long_contours
            R3)) :=
  ⟨axis_directions_sort_exact, by decide!,
    reference_is_longest_of_its_group axis_internal axis_directions
      example_fresh_regularizer
      example_long_contours
      axis_directions_sort_exact (by decide!)⟩

end Levels_of_detail

/-! ## Loops with an invariant on the processed part -/

theorem foldl_processed_invariant_aux {σ α : Type} (P : List α → σ → Prop) (f : σ → α → σ) :
    ∀ (l : List α) (pre : List α) (s : σ),
      (∀ pre1 x s1, x ∈ l → P pre1 s1 → P (pre1 ++ [x]) (f s1 x)) →
      P pre s → P (pre ++ l) (l.foldl f s) := by
  intro l
  induction l with
  | nil => intro pre s _ h; simpa using h
  | cons a rest ih =>
    intro pre s hstep h
    have h1 := ih (pre ++ [a]) (f s a)
      (fun pre1 x s1 hx hp => hstep pre1 x s1 (List.mem_cons_of_mem _ hx) hp)
      (hstep pre a s (List.mem_cons_self _ _) h)
    rw [List.append_assoc] at h1
    exact h1

theorem foldl_processed_invariant {σ α : Type} (P : List α → σ → Prop) (f : σ → α → σ)
    (l : List α) (s : σ)
    (hstep : ∀ pre x s1, x ∈ l → P pre s1 → P (pre ++ [x]) (f s1 x))
    (h : P [] s) : P l (l.foldl f s) := by
  have := foldl_processed_invariant_aux P f l [] s hstep h
  simpa using this

namespace Levels_of_detail

theorem for_pairs_processed_total_aux {σ : Type} (P : List (Nat × Nat) → σ → Prop)
    (body : σ → Nat × Nat → Option σ) :
    ∀ (l : List (Nat × Nat)) (pre : List (Nat × Nat)) (s : σ),
      (∀ pre1 x s1, x ∈ l → P pre1 s1 → ∃ s2, body s1 x = some s2 ∧ P (pre1 ++ [x]) s2) →
      P pre s → ∃ s2, for_pairs body l s = some s2 ∧ P (pre ++ l) s2 := by
  intro l
  induction l with
  | nil => intro pre s _ h; exact ⟨s, rfl, by simpa using h⟩
  | cons a rest ih =>
    intro pre s hstep h
    obtain ⟨s1, hb, h1⟩ := hstep pre a s (List.mem_cons_self _ _) h
    obtain ⟨s2, hf, h2⟩ := ih (pre ++ [a]) s1
      (fun pre1 x s3 hx hp => hstep pre1 x s3 (List.mem_cons_of_mem _ hx) hp) h1
    rw [List.append_assoc] at h2
    exact ⟨s2, by simp only [for_pairs, hb, hf], h2⟩

theorem for_pairs_processed_total {σ : Type} (P : List (Nat × Nat) → σ → Prop)
    (body : σ → Nat × Nat → Option σ) (l : List (Nat × Nat)) (s : σ)
    (hstep : ∀ pre x s1, x ∈ l → P pre s1 → ∃ s2, body s1 x = some s2 ∧ P (pre ++ [x]) s2)
    (h : P [] s) : ∃ s2, for_pairs body l s = some s2 ∧ P l s2 := by
  obtain ⟨s2, h1, h2⟩ := for_pairs_processed_total_aux P body l [] s hstep h
  exact ⟨s2, h1, by simpa using h2⟩

/-! ## `unify_along_contours` -/

theorem flag_lt_length (contour : List Seg_pair) (j : Nat)
    (h : (contour.getD j default).2 = true) : j < contour.length := by
  by_contra hn
  rw [List.getD_eq_default _ _ (not_lt.mp hn)] at h
  exact absurd h (by decide)

theorem unify_search_cases (contour : List Seg_pair) (groups_k : List Nat) (i m : Nat) :
    ∀ more im ip max_count,
      unify_search contour groups_k i m more im ip max_count = 0 ∨
      ∃ j, (contour.getD j default).2 = true ∧
        unify_search contour groups_k i m more im ip max_count = groups_k.getD j npos := by
  intro more
  induction more with
  | zero =>
    intro im ip max_count
    unfold unify_search
    cases h1 : (contour.getD im default).2 with
    | true => right; exact ⟨im, h1, by simp only [if_true]⟩
    | false =>
      cases h2 : (contour.getD ip default).2 with
      | true => right; exact ⟨ip, h2, by simp only [Bool.false_eq_true, if_true, if_false]⟩
      | false =>
        left
        simp only [Bool.false_eq_true, if_false]
        split_ifs <;> rfl
  | succ more ih =>
    intro im ip max_count
    unfold unify_search
    cases h1 : (contour.getD im default).2 with
    | true => right; exact ⟨im, h1, by simp only [if_true]⟩
    | false =>
      cases h2 : (contour.getD ip default).2 with
      | true => right; exact ⟨ip, h2, by simp only [Bool.false_eq_true, if_true, if_false]⟩
      | false =>
        simp only [Bool.false_eq_true, if_false]
        split_ifs
        · exact ih _ _ _
        · left; rfl

theorem unify_along_contours_spec (contours : List (List Seg_pair)) (g0 : List (List Nat))
    (Dn : Nat) (hD : 1 ≤ Dn) (hshape : g0.map List.length = contours.map List.length)
    (hfl : ∀ p ∈ all_pairs contours, (seg_pair_at contours p).2 = true → group_at g0 p < Dn)
    (hun : ∀ p ∈ all_pairs contours, (seg_pair_at contours p).2 = false →
      group_at g0 p = npos ∨ group_at g0 p < Dn) :
    (unify_along_contours g0 contours).map List.length = contours.map List.length ∧
    (∀ p ∈ all_pairs contours, (seg_pair_at contours p).2 = true →
      group_at (unify_along_contours g0 contours) p = group_at g0 p) ∧
    (∀ p ∈ all_pairs contours, group_at (unify_along_contours g0 contours) p < Dn) := by
  have key := foldl_processed_invariant
    (fun (pre : List (Nat × Nat)) (g : List (List Nat)) =>
      g.map List.length = contours.map List.length ∧
      (∀ p ∈ all_pairs contours, (seg_pair_at contours p).2 = true →
        group_at g p = group_at g0 p) ∧
      (∀ p ∈ all_pairs contours, group_at g p < Dn ∨ (group_at g p = npos ∧ p ∉ pre)))
    (fun (g : List (List Nat)) (pair : Nat × Nat) =>
      unify_along_contours_body contours pair.1 g pair.2)
    (all_pairs contours) g0 ?_ ?_
  · obtain ⟨h1, h2, h3⟩ := key
    refine ⟨h1, h2, ?_⟩
    intro p hp
    rcases h3 p hp with h | ⟨_, h⟩
    · exact h
    · exact absurd hp h
  · rintro pre ⟨k, i⟩ g hx ⟨hs, hf, hb⟩
    obtain ⟨hk, hi⟩ := (mem_all_pairs contours (k, i)).mp hx
    simp only at hk hi
    have hkg : k < g.length := by rw [length_of_shape g contours hs]; exact hk
    have hig : i < (g.getD k []).length := by
      rw [getD_length_of_shape g contours hs k]; exact hi
    have keep : ∀ p ∈ all_pairs contours, p ≠ (k, i) →
        (group_at g p < Dn ∨ (group_at g p = npos ∧ p ∉ pre)) →
        (group_at g p < Dn ∨ (group_at g p = npos ∧ p ∉ pre ++ [(k, i)])) := by
      intro p _ hpx h
      rcases h with h | ⟨h1, h2⟩
      · exact Or.inl h
      · refine Or.inr ⟨h1, ?_⟩
        simp only [List.mem_append, List.mem_singleton, not_or]
        exact ⟨h2, hpx⟩
    show _ ∧ _ ∧ _
    simp only
    unfold unify_along_contours_body
    cases hflag : ((contours.getD k []).getD i default).2 with
    | true =>
      simp only [hflag, if_true]
      refine ⟨hs, hf, ?_⟩
      intro p hp
      by_cases hpx : p = (k, i)
      · left
        subst hpx
        rw [hf _ hp hflag]
        exact hfl _ hp hflag
      · exact keep p hp hpx (hb p hp)
    | false =>
      simp only [hflag, Bool.false_eq_true, if_false]
      by_cases hn : (g.getD k []).getD i npos = npos
      · simp only [hn, if_true]
        have hv : unify_search (contours.getD k []) (g.getD k []) i (contours.getD k []).length
            ((contours.getD k []).length * 2)
            ((i + (contours.getD k []).length - 1) % (contours.getD k []).length)
            ((i + 1) % (contours.getD k []).length) 0 < Dn := by
          rcases unify_search_cases (contours.getD k []) (g.getD k []) i
            (contours.getD k []).length ((contours.getD k []).length * 2)
            ((i + (contours.getD k []).length - 1) % (contours.getD k []).length)
            ((i + 1) % (contours.getD k []).length) 0 with h0 | ⟨j, hj, he⟩
          · rw [h0]; omega
          · rw [he]
            have hjl := flag_lt_length _ j hj
            have hm : (k, j) ∈ all_pairs contours := (mem_all_pairs _ _).mpr ⟨hk, hjl⟩
            have e1 := hf (k, j) hm hj
            have e2 := hfl (k, j) hm hj
            rw [← e1] at e2
            exact e2
        refine ⟨by rw [shape_set_group]; exact hs, ?_, ?_⟩
        · intro p hp hpf
          have hpx : p ≠ (k, i) := by
            rintro rfl
            have : ((contours.getD k []).getD i default).2 = true := hpf
            rw [hflag] at this
            exact absurd this (by decide)
          rw [group_at_set_group_ne _ _ _ _ _ hpx]
          exact hf p hp hpf
        · intro p hp
          by_cases hpx : p = (k, i)
          · left
            subst hpx
            rw [group_at_set_group_self g k i _ hkg hig]
            exact hv
          · rw [group_at_set_group_ne _ _ _ _ _ hpx]
            exact keep p hp hpx (hb p hp)
      · simp only [hn, if_false]
        refine ⟨hs, hf, ?_⟩
        intro p hp
        by_cases hpx : p = (k, i)
        · left
          rcases hb p hp with h | ⟨h1, _⟩
          · exact h
          · subst hpx
            exact absurd h1 hn
        · exact keep p hp hpx (hb p hp)
  · refine ⟨hshape, fun _ _ _ => rfl, ?_⟩
    intro p hp
    cases hflag : (seg_pair_at contours p).2 with
    | true => exact Or.inl (hfl p hp hflag)
    | false =>
      rcases hun p hp hflag with h | h
      · exact Or.inr ⟨h, List.not_mem_nil _⟩
      · exact Or.inl h

end Levels_of_detail

namespace Levels_of_detail

/-! ## `create_average_angles` and `readjust_directions` -/

theorem getD_replicate_zero (n k : Nat) : (List.replicate n (0 : FT)).getD k 0 = 0 := by
  rw [List.getD_eq_getElem?_getD, List.getElem?_replicate]
  split_ifs <;> rfl

theorem create_average_angles_spec (D : Directions_internal) (R : Polygon_regularizer)
    (contours : List (List Seg_pair))
    (hshape : R.m_groups.map List.length = contours.map List.length)
    (hfl : ∀ p ∈ all_pairs contours, (seg_pair_at contours p).2 = true →
      group_at R.m_groups p < R.m_longest.length) :
    ∃ angles counts, create_average_angles D R contours = some (angles, counts) ∧
      angles.length = R.m_longest.length ∧ counts.length = R.m_longest.length ∧
      ∀ k, k < R.m_longest.length →
        angles.getD k 0 = (deviations D R contours k).sum ∧
        counts.getD k 0 = ((long_members R contours k).length : FT) := by
  have key := for_pairs_processed_total
    (fun (pre : List (Nat × Nat)) (st : List FT × List FT) =>
      st.1.length = R.m_longest.length ∧ st.2.length = R.m_longest.length ∧
      ∀ k, k < R.m_longest.length →
        st.1.getD k 0 = ((pre.filter (fun p =>
            (seg_pair_at contours p).2 && decide (group_at R.m_groups p = k))).map (fun p =>
          Level_of_detail.t_ij (D.orientation (R.m_longest.getD k default)
            - D.orientation (seg_pair_at contours p).1))).sum ∧
        st.2.getD k 0 = (((pre.filter (fun p =>
            (seg_pair_at contours p).2 && decide (group_at R.m_groups p = k))).length : Nat) : FT))
    (create_average_angles_body D R contours) (all_pairs contours)
    (List.replicate R.m_longest.length 0, List.replicate R.m_longest.length 0) ?_ ?_
  · obtain ⟨⟨angles, counts⟩, h1, h2, h3, h4⟩ := key
    refine ⟨angles, counts, ?_, h2, h3, ?_⟩
    · unfold create_average_angles
      rw [group_pairs_of_shape _ _ hshape]
      exact h1
    · intro k hk
      exact h4 k hk
  · rintro pre x ⟨angles, counts⟩ hx ⟨hl1, hl2, hsum⟩
    simp only at hl1 hl2 hsum
    unfold create_average_angles_body
    cases hflag : (seg_pair_at contours x).2 with
    | false =>
      refine ⟨(angles, counts), by simp, hl1, hl2, ?_⟩
      intro k hk
      have e : (pre ++ [x]).filter (fun p =>
          (seg_pair_at contours p).2 && decide (group_at R.m_groups p = k))
          = pre.filter (fun p =>
            (seg_pair_at contours p).2 && decide (group_at R.m_groups p = k)) := by
        rw [List.filter_append]
        simp [hflag]
      rw [e]
      exact hsum k hk
    | true =>
      have hgr := hfl x hx hflag
      have hsi : R.m_longest[group_at R.m_groups x]? = some (R.m_longest[group_at R.m_groups x]) :=
        List.getElem?_eq_getElem hgr
      have hgd : R.m_longest.getD (group_at R.m_groups x) default
          = R.m_longest[group_at R.m_groups x] := by
        rw [List.getD_eq_getElem?_getD, hsi]; rfl
      have hg : (R.m_groups.getD x.1 []).getD x.2 npos = group_at R.m_groups x := rfl
      simp only [Bool.not_true, Bool.false_eq_true, if_false, hg, hsi]
      refine ⟨_, rfl, by simp only [List.length_set]; exact hl1,
        by simp only [List.length_set]; exact hl2, ?_⟩
      intro k hk
      by_cases hkg : group_at R.m_groups x = k
      · subst hkg
        have e : (pre ++ [x]).filter (fun p =>
            (seg_pair_at contours p).2 &&
              decide (group_at R.m_groups p = group_at R.m_groups x))
            = pre.filter (fun p =>
              (seg_pair_at contours p).2 &&
                decide (group_at R.m_groups p = group_at R.m_groups x)) ++ [x] := by
          rw [List.filter_append]
          simp [hflag]
        rw [e]
        simp only
        rw [getD_set_self_of_lt _ _ _ _ (by rw [hl1]; exact hk),
          getD_set_self_of_lt _ _ _ _ (by rw [hl2]; exact hk)]
        obtain ⟨h1, h2⟩ := hsum _ hk
        rw [h1, h2, List.map_append, List.sum_append, List.length_append, hgd]
        simp
      · have e : (pre ++ [x]).filter (fun p =>
            (seg_pair_at contours p).2 && decide (group_at R.m_groups p = k))
            = pre.filter (fun p =>
              (seg_pair_at contours p).2 && decide (group_at R.m_groups p = k)) := by
          rw [List.filter_append]
          simp [hflag, hkg]
        rw [e]
        simp only
        rw [getD_set_of_ne_index _ _ _ _ _ hkg, getD_set_of_ne_index _ _ _ _ _ hkg]
        exact hsum k hk
  · refine ⟨by simp, by simp, ?_⟩
    intro k _
    simp only [List.filter_nil, List.map_nil, List.sum_nil, List.length_nil, Nat.cast_zero]
    exact ⟨getD_replicate_zero _ _, getD_replicate_zero _ _⟩

theorem readjust_directions_frame (N : Internal) (D : Directions_internal)
    (R R4 : Polygon_regularizer) (contours : List (List Seg_pair))
    (h : readjust_directions N D R contours = some R4) :
    R4.m_groups = R.m_groups ∧ R4.m_bounds = R.m_bounds ∧ R4.m_skip = R.m_skip ∧
    R4.m_longest.length = R.m_longest.length := by
  unfold readjust_directions at h
  cases hc : create_average_angles D R contours with
  | none => rw [hc] at h; simp at h
  | some ac =>
    obtain ⟨angles, counts⟩ := ac
    rw [hc] at h
    simp only at h
    cases hl : for_range (readjust_directions_body N R angles counts) (List.range angles.length)
        R.m_longest with
    | none => rw [hl] at h; simp at h
    | some longest =>
      rw [hl] at h
      simp only [Option.some.injEq] at h
      subst h
      refine ⟨rfl, rfl, rfl, ?_⟩
      simp only
      refine for_range_invariant (fun (l : List Segment_2) => l.length = R.m_longest.length)
        (readjust_directions_body N R angles counts) ?_ _ _ _ rfl hl
      intro st i st1 hP hb
      unfold readjust_directions_body at hb
      split at hb
      · split_ifs at hb
        simp only [Option.some.injEq] at hb
        subst hb
        simp only [List.length_set]
        exact hP
      · simp at hb

theorem readjust_directions_spec (N : Internal) (D : Directions_internal)
    (R : Polygon_regularizer) (contours : List (List Seg_pair))
    (hshape : R.m_groups.map List.length = contours.map List.length)
    (hfl : ∀ p ∈ all_pairs contours, (seg_pair_at contours p).2 = true →
      group_at R.m_groups p < R.m_longest.length)
    (hcontrib : ∀ k, k < R.m_longest.length → long_members R contours k ≠ []) :
    ∃ R4, readjust_directions N D R contours = some R4 ∧
      ∀ k, k < R.m_longest.length →
        R4.m_longest[k]? = some (rotate N R
          (Level_of_detail.arithmetic_mean (deviations D R contours k)) 0 default
          (R.m_longest.getD k default)) := by
  obtain ⟨angles, counts, hc, hl1, hl2, hsum⟩ := create_average_angles_spec D R contours hshape hfl
  have key := for_range_range_total
    (fun (n : Nat) (longest : List Segment_2) =>
      longest.length = R.m_longest.length ∧
      (∀ k, k < n → longest[k]? = some (rotate N R
          (Level_of_detail.arithmetic_mean (deviations D R contours k)) 0 default
          (R.m_longest.getD k default))) ∧
      (∀ k, n ≤ k → longest[k]? = R.m_longest[k]?))
    (readjust_directions_body N R angles counts) angles.length ?_ angles.length (le_refl _)
    R.m_longest ⟨rfl, fun k hk => absurd hk (Nat.not_lt_zero k), fun _ _ => rfl⟩
  · obtain ⟨longest, hl, _, h2, _⟩ := key
    refine ⟨{ R with m_longest := longest }, ?_, ?_⟩
    · unfold readjust_directions
      rw [hc]
      simp only [hl]
    · intro k hk
      exact h2 k (by rw [hl1]; exact hk)
  · rintro k longest hk ⟨hlen, hdone, hrest⟩
    rw [hl1] at hk
    obtain ⟨ha, hn⟩ := hsum k hk
    have e1 : angles[k]? = some (angles.getD k 0) := by
      rw [List.getD_eq_getElem?_getD, List.getElem?_eq_getElem (by rw [hl1]; exact hk)]; rfl
    have e2 : counts[k]? = some (counts.getD k 0) := by
      rw [List.getD_eq_getElem?_getD, List.getElem?_eq_getElem (by rw [hl2]; exact hk)]; rfl
    have e3 : longest[k]? = some (R.m_longest.getD k default) := by
      rw [hrest k (le_refl _), List.getD_eq_getElem?_getD, List.getElem?_eq_getElem hk]; rfl
    have hne : counts.getD k 0 ≠ 0 := by
      rw [hn]
      have := hcontrib k hk
      have hpos : 0 < (long_members R contours k).length := List.length_pos.mpr this
      exact_mod_cast Nat.pos_iff_ne_zero.mp hpos
    have hmean : angles.getD k 0 / counts.getD k 0
        = Level_of_detail.arithmetic_mean (deviations D R contours k) := by
      rw [ha, hn]
      unfold Level_of_detail.arithmetic_mean deviations
      rw [List.length_map]
    refine ⟨longest.set k (rotate N R (angles.getD k 0 / counts.getD k 0) 0 default
      (R.m_longest.getD k default)), ?_, ?_, ?_, ?_⟩
    · unfold readjust_directions_body
      simp only [e1, e2, e3, hne, if_false]
    · simp only [List.length_set]; exact hlen
    · intro j hj
      by_cases hjk : j = k
      · subst hjk
        rw [List.getElem?_set, if_pos rfl, if_pos (by rw [hlen]; exact hk), hmean]
      · rw [List.getElem?_set, if_neg (fun e => hjk e.symm)]
        exact hdone j (by omega)
    · intro j hj
      rw [List.getElem?_set, if_neg (by omega)]
      exact hrest j (by omega)

end Levels_of_detail

namespace Levels_of_detail

/-! ## The state that enters `readjust_directions` -/

theorem all_pairs_ne_nil (N : Internal) (R : Polygon_regularizer)
    (input_contours : List (List Segment_2)) (h : input_contours.flatten ≠ []) :
    all_pairs (create_internal_contours N R input_contours) ≠ [] := by
  obtain ⟨x, hx⟩ := List.exists_mem_of_ne_nil _ h
  obtain ⟨contour, hc, hxc⟩ := List.mem_flatten.mp hx
  obtain ⟨k, hk, e⟩ := List.getElem_of_mem hc
  have hm : (k, 0) ∈ all_pairs (create_internal_contours N R input_contours) := by
    rw [mem_all_pairs]
    unfold create_internal_contours
    refine ⟨by simp only [List.length_map]; exact hk, ?_⟩
    simp only
    rw [List.getD_eq_getElem?_getD, List.getElem?_map, List.getElem?_eq_getElem hk, e]
    simp only [Option.map_some', Option.getD_some, List.length_map]
    exact List.length_pos_of_mem hxc
  intro h0
  rw [h0] at hm
  exact absurd hm (List.not_mem_nil _)

theorem directions_inv_groups (contours : List (List Seg_pair)) (input : List (Nat × Nat))
    (gr_idx : Nat) (states : List Bool) (R : Polygon_regularizer) (refs : List Nat)
    (hperm : input.Perm (all_pairs contours))
    (J : Directions_inv contours input gr_idx states R refs)
    (hexit : ∀ i, i < input.length → (seg_pair_at contours (input.getD i default)).2 = true →
      states.getD i false = true) :
    (∀ p ∈ all_pairs contours, (seg_pair_at contours p).2 = true →
      group_at R.m_groups p < R.m_longest.length) ∧
    (∀ p ∈ all_pairs contours, (seg_pair_at contours p).2 = false →
      group_at R.m_groups p = npos) ∧
    (∀ k, k < R.m_longest.length → ∃ p ∈ all_pairs contours,
      (seg_pair_at contours p).2 = true ∧ group_at R.m_groups p = k) := by
  have hrl : R.m_longest.length = refs.length := by rw [J.longest, List.length_map]
  have hidx : ∀ p ∈ all_pairs contours, ∃ i, i < input.length ∧ input.getD i default = p := by
    intro p hp
    obtain ⟨i, hi, e⟩ := List.getElem_of_mem (hperm.mem_iff.mpr hp)
    refine ⟨i, hi, ?_⟩
    rw [List.getD_eq_getElem?_getD, List.getElem?_eq_getElem hi]
    exact e
  refine ⟨?_, ?_, ?_⟩
  · intro p hp hflag
    obtain ⟨i, hi, e⟩ := hidx p hp
    have hs := hexit i hi (by rw [e]; exact hflag)
    obtain ⟨_, r, hr, _⟩ := J.assigned i hi hs
    rw [e] at hr
    rw [hrl]
    exact (List.getElem?_eq_some_iff.mp hr).1
  · intro p hp hflag
    obtain ⟨i, hi, e⟩ := hidx p hp
    cases hs : states.getD i false with
    | false =>
      have := J.unassigned i hi hs
      rw [e] at this
      exact this
    | true =>
      obtain ⟨hf, _⟩ := J.assigned i hi hs
      rw [e, hflag] at hf
      exact absurd hf (by decide)
  · intro k hk
    rw [hrl] at hk
    have hr : refs[k]? = some refs[k] := List.getElem?_eq_getElem hk
    have hrlt : refs[k] < input.length := J.refs_lt _ (List.getElem_mem hk)
    obtain ⟨hg, hf⟩ := J.ref_group k refs[k] hr
    exact ⟨input.getD refs[k] default,
      hperm.mem_iff.mp (getD_default_mem_of_lt input _ hrlt), hf, hg⟩

theorem before_readjust_spec (N : Internal) (D : Directions_internal)
    (R : Polygon_regularizer) (input_contours : List (List Segment_2))
    (hD : Sort_exact D)
    (hlen : (all_pairs (create_internal_contours N R input_contours)).length ≤ npos)
    (hne : input_contours.flatten ≠ []) :
    ∃ R3, directions_before_readjust N D R input_contours = some R3 ∧
      compute_multiple_directions N D R input_contours
        = readjust_directions N D R3 (create_internal_contours N R input_contours) ∧
      Groups_in_bounds (create_internal_contours N R input_contours) R3 ∧
      ((∃ p ∈ all_pairs (create_internal_contours N R input_contours),
          (seg_pair_at (create_internal_contours N R input_contours) p).2 = true) →
        ∀ k, k < R3.m_longest.length →
          long_members R3 (create_internal_contours N R input_contours) k ≠ []) := by
  have hne1 := all_pairs_ne_nil N R input_contours hne
  generalize hcs : create_internal_contours N R input_contours = contours at hlen hne1 ⊢
  have hperm := hD.perm (fun a => (seg_pair_at contours a).1.squared_length) (all_pairs contours)
  obtain ⟨gr_idx, states, refs, J, hexit⟩ :=
    get_multiple_directions_spec N D R contours hperm hlen
  obtain ⟨ha, hb, hc⟩ := directions_inv_groups contours _ gr_idx states _ refs hperm J hexit
  by_cases h0 : (get_multiple_directions N D R contours).m_longest.length = 0
  · have hcl := compute_longest_direction_spec (get_multiple_directions N D R contours)
      contours hne1
    obtain ⟨u1, u2, u3⟩ := unify_along_contours_spec contours (make_default_groups contours 0) 1
      (le_refl _) (shape_make_default_groups contours 0)
      (fun p hp _ => by rw [group_at_make_default_groups_of_mem contours 0 p hp]; omega)
      (fun p hp _ => Or.inr
        (by rw [group_at_make_default_groups_of_mem contours 0 p hp]; omega))
    refine ⟨{ get_multiple_directions N D R contours with
              m_bounds := [(45, 45)]
              m_skip := [find_longest_segment contours]
              m_longest := [(seg_pair_at contours (find_longest_segment contours)).1]
              m_groups := unify_along_contours (make_default_groups contours 0) contours },
      ?_, ?_, ?_, ?_⟩
    · unfold directions_before_readjust
      simp only [hcs, h0, if_true, hcl]
    · unfold compute_multiple_directions
      simp only [hcs, h0, if_true, hcl]
    · exact ⟨le_refl _, rfl, rfl, u1, u3⟩
    · rintro ⟨p, hp, hflag⟩
      have := ha p hp hflag
      omega
  · obtain ⟨u1, u2, u3⟩ := unify_along_contours_spec contours
      (get_multiple_directions N D R contours).m_groups
      (get_multiple_directions N D R contours).m_longest.length (by omega) J.shape ha
      (fun p hp hflag => Or.inl (hb p hp hflag))
    have hrl : (get_multiple_directions N D R contours).m_longest.length = refs.length := by
      rw [J.longest, List.length_map]
    refine ⟨{ get_multiple_directions N D R contours with
              m_groups := unify_along_contours
                (get_multiple_directions N D R contours).m_groups contours },
      ?_, ?_, ?_, ?_⟩
    · unfold directions_before_readjust
      simp only [hcs, h0, if_false]
    · unfold compute_multiple_directions
      simp only [hcs, h0, if_false]
    · refine ⟨by simp only; omega, ?_, ?_, u1, u3⟩
      · simp only
        rw [J.bounds, hrl, J.refs_length]
      · simp only
        rw [J.skip, J.longest, List.length_map, List.length_map]
    · intro _ k hk
      obtain ⟨p, hp, hflag, hg⟩ := hc k hk
      have hm : p ∈ long_members
          { get_multiple_directions N D R contours with
            m_groups := unify_along_contours
              (get_multiple_directions N D R contours).m_groups contours } contours k := by
        unfold long_members
        rw [List.mem_filter]
        refine ⟨hp, ?_⟩
        simp only [Bool.and_eq_true, decide_eq_true_eq]
        exact ⟨hflag, by rw [u2 p hp hflag]; exact hg⟩
      intro hnil
      rw [hnil] at hm
      exact absurd hm (List.not_mem_nil _)

/-- C24: for every input with at least one segment, the state in which
`compute_multiple_directions` calls `readjust_directions` has `m_longest`,
`m_bounds` and `m_skip` of the same length `D >= 1` and every entry
`m_groups[k][i]` smaller than `D`; `readjust_directions` only rewrites entries
of `m_longest`, so the same holds for the state that
`compute_multiple_directions` returns, and `compute_multiple_directions`
returns whenever some segment is long.  Hence every lookup
`m_skip[gr_idx]`, `m_longest[gr_idx]`, `m_bounds[gr_idx]` with
`gr_idx = m_groups[k][i]` is in bounds.  `std::sort` is assumed to sort, and
the number of segments to fit `size_t`. -/
theorem groups_are_in_bounds (N : Internal) (D : Directions_internal)
    (R : Polygon_regularizer) (input_contours : List (List Segment_2))
    (hD : Sort_exact D)
    (hlen : (all_pairs (create_internal_contours N R input_contours)).length ≤ npos)
    (hne : input_contours.flatten ≠ []) :
    ∃ R3, directions_before_readjust N D R input_contours = some R3 ∧
      compute_multiple_directions N D R input_contours
        = readjust_directions N D R3 (create_internal_contours N R input_contours) ∧
      Groups_in_bounds (create_internal_contours N R input_contours) R3 ∧
      (∀ R4, compute_multiple_directions N D R input_contours = some R4 →
        Groups_in_bounds (create_internal_contours N R input_contours) R4 ∧
        ∀ p ∈ all_pairs (create_internal_contours N R input_contours),
          ∃ skip longest bounds,
            R4.m_skip[group_at R4.m_groups p]? = some skip ∧
            R4.m_longest[group_at R4.m_groups p]? = some longest ∧
            R4.m_bounds[group_at R4.m_groups p]? = some bounds) ∧
      ((∃ p ∈ all_pairs (create_internal_contours N R input_contours),
          (seg_pair_at (create_internal_contours N R input_contours) p).2 = true) →
        ∃ R4, compute_multiple_directions N D R input_contours = some R4) := by
  obtain ⟨R3, h1, h2, h3, h4⟩ := before_readjust_spec N D R input_contours hD hlen hne
  refine ⟨R3, h1, h2, h3, ?_, ?_⟩
  · intro R4 hR4
    rw [h2] at hR4
    obtain ⟨f1, f2, f3, f4⟩ := readjust_directions_frame N D R3 R4 _ hR4
    obtain ⟨g1, g2, g3, g4, g5⟩ := h3
    have hG : Groups_in_bounds (create_internal_contours N R input_contours) R4 :=
      ⟨by rw [f4]; exact g1, by rw [f2, f4]; exact g2, by rw [f3, f4]; exact g3,
        by rw [f1]; exact g4, fun p hp => by rw [f1, f4]; exact g5 p hp⟩
    refine ⟨hG, ?_⟩
    intro p hp
    obtain ⟨_, e2, e3, _, e5⟩ := hG
    have hlt := e5 p hp
    exact ⟨_, _, _, List.getElem?_eq_getElem (by rw [e3]; exact hlt),
      List.getElem?_eq_getElem hlt, List.getElem?_eq_getElem (by rw [e2]; exact hlt)⟩
  · intro hlong
    rw [h2]
    obtain ⟨_, _, _, g4, g5⟩ := h3
    obtain ⟨R4, hR4, _⟩ := readjust_directions_spec N D R3 _ g4 (fun p hp _ => g5 p hp)
      (h4 hlong)
    exact ⟨R4, hR4⟩

end Levels_of_detail
namespace Levels_of_detail

set_option maxRecDepth 100000 in
theorem groups_are_in_bounds_witness :
    Sort_exact axis_directions ∧
    (all_pairs (create_internal_contours axis_internal example_fresh_regularizer
      [rectangle 0 0 4 3])).length ≤ npos ∧
    [rectangle 0 0 4 3].flatten ≠ [] ∧
    ∃ R3, directions_before_readjust axis_internal axis_directions example_fresh_regularizer
        [rectangle 0 0 4 3] = some R3 ∧
      compute_multiple_directions axis_internal axis_directions example_fresh_regularizer
          [rectangle 0 0 4 3]
        = readjust_directions axis_internal axis_directions R3
            (create_internal_contours axis_internal example_fresh_regularizer
              [rectangle 0 0 4 3]) ∧
      Groups_in_bounds (create_internal_contours axis_internal example_fresh_regularizer
        [rectangle 0 0 4 3]) R3 ∧
      (∀ R4, compute_multiple_directions axis_internal axis_directions
          example_fresh_regularizer [rectangle 0 0 4 3] = some R4 →
        Groups_in_bounds (create_internal_contours axis_internal example_fresh_regularizer
          [rectangle 0 0 4 3]) R4 ∧
        ∀ p ∈ all_pairs (create_internal_contours axis_internal example_fresh_regularizer
            [rectangle 0 0 4 3]),
          ∃ skip longest bounds,
            R4.m_skip[group_at R4.m_groups p]? = some skip ∧
            R4.m_longest[group_at R4.m_groups p]? = some longest ∧
            R4.m_bounds[group_at R4.m_groups p]? = some bounds) ∧
      ((∃ p ∈ all_pairs (create_internal_contours axis_internal example_fresh_regularizer
            [rectangle 0 0 4 3]),
          (seg_pair_at (create_internal_contours axis_internal example_fresh_regularizer
            [rectangle 0 0 4 3]) p).2 = true) →
        ∃ R4, compute_multiple_directions axis_internal axis_directions
          example_fresh_regularizer [rectangle 0 0 4 3] = some R4) :=
  ⟨axis_directions_sort_exact, by decide!, by decide!,
    groups_are_in_bounds axis_internal axis_directions example_fresh_regularizer
      [rectangle 0 0 4 3] axis_directions_sort_exact (by decide!) (by decide!)⟩

/-! ## The rotation angle of a reference direction -/

theorem rotate_of_zero_reference (N : Internal) (R : Polygon_regularizer) (angle_2 : FT)
    (longest_segment segment : Segment_2) :
    rotate N R angle_2 0 longest_segment segment
      = ⟨N.rotate_point_2 (angle_2 * R.m_pi / 180)
          (middle_point_2 segment.source segment.target) segment.source,
         N.rotate_point_2 (angle_2 * R.m_pi / 180)
          (middle_point_2 segment.source segment.target) segment.target⟩ := by
  unfold rotate
  split_ifs <;> simp

theorem mem_long_members (R : Polygon_regularizer) (contours : List (List Seg_pair))
    (k : Nat) (p : Nat × Nat) :
    p ∈ long_members R contours k ↔
      p ∈ all_pairs contours ∧ (seg_pair_at contours p).2 = true ∧
        group_at R.m_groups p = k := by
  unfold long_members
  rw [List.mem_filter]
  simp only [Bool.and_eq_true, decide_eq_true_eq]

/-- C25: in `readjust_directions`, for a state in which `m_groups` has the
shape of the contours, every long segment has a group below
`m_longest.size()` and every group has a long segment, `create_average_angles`
returns for every group `k` the sum and the number of the deviations `t_ij`
(the smaller in absolute value of `to_lower` and `to_upper`) of
(orientation of `m_longest[k]`) - (orientation of the member), taken over the
long segments that `m_groups` assigns to `k` and over no short segment, and
`readjust_directions` returns with `m_longest[k]` rotated about its midpoint
by the arithmetic mean of these deviations (in degrees). -/
theorem rotation_angle_is_mean_deviation (N : Internal) (D : Directions_internal)
    (R : Polygon_regularizer) (contours : List (List Seg_pair))
    (hshape : R.m_groups.map List.length = contours.map List.length)
    (hfl : ∀ p ∈ all_pairs contours, (seg_pair_at contours p).2 = true →
      group_at R.m_groups p < R.m_longest.length)
    (hcontrib : ∀ k, k < R.m_longest.length → long_members R contours k ≠ []) :
    (∀ k p, p ∈ long_members R contours k ↔
      p ∈ all_pairs contours ∧ (seg_pair_at contours p).2 = true ∧
        group_at R.m_groups p = k) ∧
    (∀ d, Level_of_detail.t_ij d
      = if |Level_of_detail.to_lower d| < |Level_of_detail.to_upper d|
        then Level_of_detail.to_lower d else Level_of_detail.to_upper d) ∧
    (∃ angles counts, create_average_angles D R contours = some (angles, counts) ∧
      ∀ k, k < R.m_longest.length →
        angles[k]? = some (deviations D R contours k).sum ∧
        counts[k]? = some (((deviations D R contours k).length : Nat) : FT)) ∧
    (∃ R4, readjust_directions N D R contours = some R4 ∧
      ∀ k, k < R.m_longest.length →
        ∃ segment, R.m_longest[k]? = some segment ∧
          R4.m_longest[k]? = some (rotate N R
            (Level_of_detail.arithmetic_mean (deviations D R contours k)) 0 default segment) ∧
          rotate N R (Level_of_detail.arithmetic_mean (deviations D R contours k)) 0 default
              segment
            = ⟨N.rotate_point_2
                (Level_of_detail.arithmetic_mean (deviations D R contours k) * R.m_pi / 180)
                (middle_point_2 segment.source segment.target) segment.source,
               N.rotate_point_2
                (Level_of_detail.arithmetic_mean (deviations D R contours k) * R.m_pi / 180)
                (middle_point_2 segment.source segment.target) segment.target⟩) := by
  refine ⟨fun k p => mem_long_members R contours k p, fun _ => rfl, ?_, ?_⟩
  · obtain ⟨angles, counts, hc, hl1, hl2, hsum⟩ :=
      create_average_angles_spec D R contours hshape hfl
    refine ⟨angles, counts, hc, ?_⟩
    intro k hk
    obtain ⟨h1, h2⟩ := hsum k hk
    have hd : (deviations D R contours k).length = (long_members R contours k).length := by
      unfold deviations
      rw [List.length_map]
    refine ⟨?_, ?_⟩
    · rw [← h1, List.getD_eq_getElem?_getD, List.getElem?_eq_getElem (by rw [hl1]; exact hk)]
      rfl
    · rw [hd, ← h2, List.getD_eq_getElem?_getD,
        List.getElem?_eq_getElem (by rw [hl2]; exact hk)]
      rfl
  · obtain ⟨R4, hR4, hrot⟩ := readjust_directions_spec N D R contours hshape hfl hcontrib
    refine ⟨R4, hR4, ?_⟩
    intro k hk
    refine ⟨R.m_longest[k], List.getElem?_eq_getElem hk, ?_, rotate_of_zero_reference _ _ _ _ _⟩
    have := hrot k hk
    rw [List.getD_eq_getElem?_getD, List.getElem?_eq_getElem hk] at this
    exact this

set_option maxRecDepth 100000 in
theorem rotation_angle_is_mean_deviation_witness :
    example_directions.m_groups.map List.length = example_long_contours.map List.length ∧
    (∀ p ∈ all_pairs example_long_contours, (seg_pair_at example_long_contours p).2 = true →
      group_at example_directions.m_groups p < example_directions.m_longest.length) ∧
    (∀ k, k < example_directions.m_longest.length →
      long_members example_directions example_long_contours k ≠ []) ∧
    deviations axis_directions example_directions example_long_contours 0 = [0, 0, 0, 0] ∧
    ∃ R4, readjust_directions axis_internal axis_directions example_directions
        example_long_contours = some R4 ∧
      ∀ k, k < example_directions.m_longest.length →
        ∃ segment, example_directions.m_longest[k]? = some segment ∧
          R4.m_longest[k]? = some (rotate axis_internal example_directions
            (Level_of_detail.arithmetic_mean
              (deviations axis_directions example_directions example_long_contours k))
            0 default segment) :=
  ⟨by decide!, by decide!, by decide!, by decide!,
    (rotation_angle_is_mean_deviation axis_internal axis_directions example_directions
      example_long_contours (by decide!) (by decide!) (by decide!)).2.2.2.imp
      (fun _ h => ⟨h.1, fun k hk => (h.2 k hk).imp (fun _ hs => ⟨hs.1, hs.2.1⟩)⟩)⟩

/-! ## Contours without a long segment -/

set_option maxRecDepth 100000 in
/-- C28 does not hold for the code: for the unit square with `min_length = 1`
every side is shorter than `2 * min_length`, `get_multiple_directions` creates
no group, `compute_longest_direction` creates the group 0 with all four sides,
`create_average_angles` skips the four sides because none is long and returns
`counts = [0]`, and `readjust_directions` divides `angles[0]` by
`counts[0] = 0`: `compute_multiple_directions` has no defined result. -/
theorem readjust_directions_divides_by_zero :
    [rectangle 0 0 1 1].flatten ≠ [] ∧
    (∀ p ∈ all_pairs example_short_contours,
      (seg_pair_at example_short_contours p).2 = false) ∧
    (directions_before_readjust axis_internal axis_directions example_fresh_regularizer
        [rectangle 0 0 1 1]).map (fun R => (R.m_longest.length, R.m_groups))
      = some (1, [[0, 0, 0, 0]]) ∧
    (directions_before_readjust axis_internal axis_directions example_fresh_regularizer
        [rectangle 0 0 1 1]).bind
        (fun R => create_average_angles axis_directions R example_short_contours)
      = some ([0], [0]) ∧
    compute_multiple_directions axis_internal axis_directions example_fresh_regularizer
        [rectangle 0 0 1 1] = none := by
  decide!

end Levels_of_detail

namespace Levels_of_detail

/-! ## `get_parallel_segments` and `filter_out_wrong_segments` : runs -/

theorem parallel_runs_cons (corner : Nat → Bool) (i : Nat) (rest : List Nat) :
    parallel_runs corner (i :: rest)
      = (i :: rest.takeWhile (fun j => !corner j))
          :: parallel_runs corner (rest.dropWhile (fun j => !corner j)) := by
  induction rest generalizing i with
  | nil => rfl
  | cons j rest ih =>
    have e : parallel_runs corner (i :: j :: rest)
        = match parallel_runs corner (j :: rest) with
          | [] => [[i]]
          | run :: runs =>
            if corner (run.headD 0) then [i] :: run :: runs else (i :: run) :: runs := rfl
    rw [e, ih j]
    cases hc : corner j with
    | true =>
      simp only [List.headD_cons, hc, if_true, List.takeWhile_cons, List.dropWhile_cons,
        Bool.not_true, Bool.false_eq_true, if_false]
      rw [ih j]
    | false =>
      simp only [List.headD_cons, hc, Bool.false_eq_true, if_false, List.takeWhile_cons,
        List.dropWhile_cons, Bool.not_false, if_true]

theorem takeWhile_dropWhile_range (f : Nat → Nat) (p : Nat → Bool) :
    ∀ (len s : Nat),
      (((List.range' s len).map f).takeWhile p).length ≤ len ∧
      ((List.range' s len).map f).dropWhile p
        = (List.range' (s + (((List.range' s len).map f).takeWhile p).length)
            (len - (((List.range' s len).map f).takeWhile p).length)).map f := by
  intro len
  induction len with
  | zero => intro s; simp
  | succ len ih =>
    intro s
    rw [List.range'_succ, List.map_cons]
    cases hp : p (f s) with
    | true =>
      obtain ⟨h1, h2⟩ := ih (s + 1)
      simp only [List.takeWhile_cons, List.dropWhile_cons, hp, if_true, List.length_cons]
      refine ⟨by omega, ?_⟩
      rw [h2]
      congr 2
      · omega
      · omega
    | false =>
      simp only [List.takeWhile_cons, List.dropWhile_cons, hp, Bool.false_eq_true, if_false,
        List.length_nil, Nat.add_zero, Nat.sub_zero]
      refine ⟨by omega, ?_⟩
      rw [List.range'_succ, List.map_cons]

theorem next_is_parallel_eq (N : Internal) (R : Polygon_regularizer)
    (contour : List Segment_2) (i : Nat) (hi : i < contour.length) :
    (is_parallel_segment N R
      (contour.getD ((i + contour.length - 1) % contour.length) default)
      (contour.getD i default)
      (contour.getD ((i + 1) % contour.length) default)).2
      = parallel_to_predecessor N R contour ((i + 1) % contour.length) := by
  unfold parallel_to_predecessor is_parallel_segment
  simp only
  rw [succ_pred_mod i _ hi]

theorem get_parallel_segments_loop_continue (N : Internal) (R : Polygon_regularizer)
    (contour : List Segment_2) (more i max_count : Nat) (parallel_segments : List Segment_2)
    (h : (is_parallel_segment N R
      (contour.getD ((i + contour.length - 1) % contour.length) default)
      (contour.getD i default)
      (contour.getD ((i + 1) % contour.length) default)).2 = true)
    (hm : max_count + 1 < contour.length * 2) :
    get_parallel_segments_loop N R contour (more + 1) i max_count parallel_segments
      = get_parallel_segments_loop N R contour more ((i + 1) % contour.length)
          (max_count + 1) (parallel_segments ++ [contour.getD i default]) := by
  rw [get_parallel_segments_loop.eq_def]
  simp only [h, hm, and_self, if_true]

theorem get_parallel_segments_loop_run (N : Internal) (R : Polygon_regularizer)
    (contour : List Segment_2) (start : Nat) (hstart : start < contour.length)
    (hcorner : is_corner N R contour start = true) :
    ∀ (len t max_count : Nat) (acc : List Segment_2) (more : Nat),
      t + 1 + len = contour.length →
      ((((List.range' (t + 1) len).map (fun x => (start + x) % contour.length)).takeWhile
        (fun j => !is_corner N R contour j)).length ≤ more) →
      (max_count + 1 + (((List.range' (t + 1) len).map
        (fun x => (start + x) % contour.length)).takeWhile
          (fun j => !is_corner N R contour j)).length < contour.length * 2) →
      get_parallel_segments_loop N R contour more ((start + t) % contour.length) max_count acc
        = (acc ++ run_segments contour (((start + t) % contour.length) ::
              ((List.range' (t + 1) len).map (fun x => (start + x) % contour.length)).takeWhile
                (fun j => !is_corner N R contour j)),
           (((List.range' (t + 1) len).map (fun x => (start + x) % contour.length)).dropWhile
              (fun j => !is_corner N R contour j)).headD start,
           max_count + 1 + (((List.range' (t + 1) len).map
              (fun x => (start + x) % contour.length)).takeWhile
                (fun j => !is_corner N R contour j)).length) := by
  have hn : 0 < contour.length := by omega
  intro len
  induction len with
  | zero =>
    intro t mc acc more ht _ _
    have hi : (start + t) % contour.length < contour.length := Nat.mod_lt _ hn
    have hnext : ((start + t) % contour.length + 1) % contour.length = start := by
      rw [Nat.mod_add_mod, show start + t + 1 = start + contour.length by omega,
        Nat.add_mod_right]
      exact Nat.mod_eq_of_lt hstart
    have hp : parallel_to_predecessor N R contour start = false := by
      unfold is_corner at hcorner
      simpa using hcorner
    rw [get_parallel_segments_loop_stop N R contour more _ mc acc
      (by rw [next_is_parallel_eq N R contour _ hi, hnext]; exact hp), hnext]
    simp [run_segments]
  | succ len ih =>
    intro t mc acc more ht hmore hmc
    have hi : (start + t) % contour.length < contour.length := Nat.mod_lt _ hn
    have hnext : ((start + t) % contour.length + 1) % contour.length
        = (start + (t + 1)) % contour.length := by
      rw [Nat.mod_add_mod, Nat.add_assoc]
    rw [List.range'_succ, List.map_cons] at hmore hmc ⊢
    cases hc : is_corner N R contour ((start + (t + 1)) % contour.length) with
    | true =>
      have hp : parallel_to_predecessor N R contour ((start + (t + 1)) % contour.length)
          = false := by
        unfold is_corner at hc
        simpa using hc
      rw [get_parallel_segments_loop_stop N R contour more _ mc acc
        (by rw [next_is_parallel_eq N R contour _ hi, hnext]; exact hp), hnext]
      simp [run_segments, hc]
    | false =>
      have hp : parallel_to_predecessor N R contour ((start + (t + 1)) % contour.length)
          = true := by
        unfold is_corner at hc
        simpa using hc
      simp only [List.takeWhile_cons, hc, Bool.not_false, if_true, List.length_cons,
        List.dropWhile_cons] at hmore hmc ⊢
      obtain ⟨more1, rfl⟩ : ∃ more1, more = more1 + 1 := ⟨more - 1, by omega⟩
      rw [get_parallel_segments_loop_continue N R contour more1 _ mc acc
        (by rw [next_is_parallel_eq N R contour _ hi, hnext]; exact hp) (by omega), hnext,
        ih (t + 1) (mc + 1) _ more1 (by omega) (by omega) (by omega)]
      simp only [run_segments, List.map_cons, List.append_assoc, List.singleton_append,
        Prod.mk.injEq, true_and]
      omega

end Levels_of_detail
namespace Levels_of_detail

theorem add_mod_ne_start (start t n : Nat) (hstart : start < n) (ht0 : 0 < t) (ht : t < n) :
    (start + t) % n ≠ start := by
  intro h
  rcases Nat.lt_or_ge (start + t) n with h1 | h1
  · rw [Nat.mod_eq_of_lt h1] at h
    omega
  · rw [Nat.mod_eq_sub_mod h1, Nat.mod_eq_of_lt (by omega)] at h
    omega

theorem get_parallel_segments_run (N : Internal) (R : Polygon_regularizer)
    (contour : List Segment_2) (start : Nat) (hstart : start < contour.length)
    (hcorner : is_corner N R contour start = true) (t : Nat) (ht : t < contour.length) :
    get_parallel_segments N R contour ((start + t) % contour.length)
      = (true,
         run_segments contour (((start + t) % contour.length) ::
            ((List.range' (t + 1) (contour.length - t - 1)).map
              (fun x => (start + x) % contour.length)).takeWhile
                (fun j => !is_corner N R contour j)),
         (((List.range' (t + 1) (contour.length - t - 1)).map
            (fun x => (start + x) % contour.length)).dropWhile
              (fun j => !is_corner N R contour j)).headD start) := by
  obtain ⟨hle, _⟩ := takeWhile_dropWhile_range (fun x => (start + x) % contour.length)
    (fun j => !is_corner N R contour j) (contour.length - t - 1) (t + 1)
  unfold get_parallel_segments
  simp only
  rw [get_parallel_segments_loop_run N R contour start hstart hcorner
    (contour.length - t - 1) t 0 [] (contour.length * 2) (by omega) (by omega) (by omega)]
  simp only [List.nil_append]
  rw [if_neg (by omega)]

theorem filter_out_wrong_segments_loop_runs (N : Internal) (R : Polygon_regularizer)
    (contour : List Segment_2) (start : Nat) (hstart : start < contour.length)
    (hcorner : is_corner N R contour start = true) :
    ∀ (k t max_count : Nat) (segments : List Segment_2) (ratios : List (List FT))
      (more : Nat),
      contour.length - t ≤ k → t < contour.length →
      (parallel_runs (is_corner N R contour)
        ((List.range' t (contour.length - t)).map
          (fun x => (start + x) % contour.length))).length ≤ more + 1 →
      max_count + (parallel_runs (is_corner N R contour)
        ((List.range' t (contour.length - t)).map
          (fun x => (start + x) % contour.length))).length < contour.length * 2 →
      filter_out_wrong_segments_loop N R contour start more ((start + t) % contour.length)
          max_count segments ratios
        = (true,
           segments ++ (parallel_runs (is_corner N R contour)
             ((List.range' t (contour.length - t)).map
               (fun x => (start + x) % contour.length))).map (merged_segment N contour),
           ratios ++ (parallel_runs (is_corner N R contour)
             ((List.range' t (contour.length - t)).map
               (fun x => (start + x) % contour.length))).map (run_ratios N contour),
           max_count + (parallel_runs (is_corner N R contour)
             ((List.range' t (contour.length - t)).map
               (fun x => (start + x) % contour.length))).length) := by
  intro k
  induction k with
  | zero => intro t _ _ _ _ h1 h2; omega
  | succ k ih =>
    intro t mc segments ratios more hk ht hmore hmc
    have hlen : contour.length - t = (contour.length - t - 1) + 1 := by omega
    obtain ⟨hle, hdrop⟩ := takeWhile_dropWhile_range (fun x => (start + x) % contour.length)
      (fun j => !is_corner N R contour j) (contour.length - t - 1) (t + 1)
    have hg := get_parallel_segments_run N R contour start hstart hcorner t ht
    rw [hlen, List.range'_succ, List.map_cons, parallel_runs_cons] at hmore hmc ⊢
    generalize htw : ((List.range' (t + 1) (contour.length - t - 1)).map
      (fun x => (start + x) % contour.length)).takeWhile
        (fun j => !is_corner N R contour j) = tw at hle hdrop hg hmore hmc ⊢
    rw [hdrop] at hg hmore hmc ⊢
    rcases Nat.lt_or_ge (t + 1 + tw.length) contour.length with hlt | hge
    · -- another run follows
      have hlen2 : contour.length - t - 1 - tw.length
          = (contour.length - (t + 1 + tw.length) - 1) + 1 := by omega
      have hhead : ((List.range' (t + 1 + tw.length) (contour.length - t - 1 - tw.length)).map
          (fun x => (start + x) % contour.length)).headD start
          = (start + (t + 1 + tw.length)) % contour.length := by
        rw [hlen2, List.range'_succ, List.map_cons, List.headD_cons]
      have hsame : contour.length - t - 1 - tw.length
          = contour.length - (t + 1 + tw.length) := by omega
      rw [hhead] at hg
      rw [hsame] at hmore hmc ⊢
      have hruns : 1 ≤ (parallel_runs (is_corner N R contour)
          ((List.range' (t + 1 + tw.length) (contour.length - (t + 1 + tw.length))).map
            (fun x => (start + x) % contour.length))).length := by
        have hl3 : contour.length - (t + 1 + tw.length)
            = (contour.length - (t + 1 + tw.length) - 1) + 1 := by omega
        rw [hl3, List.range'_succ, List.map_cons, parallel_runs_cons]
        simp
      simp only [List.length_cons] at hmore hmc
      obtain ⟨more1, rfl⟩ : ∃ more1, more = more1 + 1 := ⟨more - 1, by omega⟩
      have hne := add_mod_ne_start start (t + 1 + tw.length) contour.length hstart (by omega) hlt
      rw [filter_out_wrong_segments_loop.eq_def]
      simp only [hg, Bool.not_true, Bool.false_eq_true, if_false, ne_eq, hne,
        not_false_eq_true, true_and]
      rw [if_pos (by omega)]
      rw [ih (t + 1 + tw.length) (mc + 1) _ _ more1 (by omega) hlt (by omega) (by omega)]
      simp only [List.map_cons, List.length_cons, List.append_assoc, List.singleton_append,
        merged_segment, run_ratios, Prod.mk.injEq, true_and]
      omega
    · -- the run ends at the start index
      have hz : contour.length - t - 1 - tw.length = 0 := by omega
      rw [hz] at hg ⊢
      simp only [List.range'_zero, List.map_nil, List.headD_nil] at hg ⊢
      rw [filter_out_wrong_segments_loop.eq_def]
      simp only [hg, Bool.not_true, Bool.false_eq_true, if_false, ne_eq, not_true_eq_false,
        false_and]
      simp [parallel_runs, merged_segment, run_ratios]

/-! ### A contour without a corner -/

theorem get_parallel_segments_loop_no_corner (N : Internal) (R : Polygon_regularizer)
    (contour : List Segment_2) (hn : 1 ≤ contour.length)
    (hall : ∀ j, j < contour.length → parallel_to_predecessor N R contour j = true) :
    ∀ (more i max_count : Nat) (acc : List Segment_2), i < contour.length →
      contour.length * 2 ≤ more + max_count + 1 →
      contour.length * 2
        ≤ (get_parallel_segments_loop N R contour more i max_count acc).2.2 := by
  intro more
  induction more with
  | zero =>
    intro i mc acc hi hm
    rw [get_parallel_segments_loop.eq_def]
    simp only
    split_ifs with h
    · omega
    · simp only; omega
  | succ more ih =>
    intro i mc acc hi hm
    have hnext := hall _ (Nat.mod_lt (i + 1) (by omega : 0 < contour.length))
    rw [← next_is_parallel_eq N R contour i hi] at hnext
    rw [get_parallel_segments_loop.eq_def]
    simp only [hnext, true_and]
    split_ifs with h
    · exact ih _ _ _ (Nat.mod_lt _ (by omega)) (by omega)
    · simp only; omega

theorem filter_out_wrong_segments_no_corner (N : Internal) (R : Polygon_regularizer)
    (contour : List Segment_2) (hn : 1 ≤ contour.length)
    (hall : ∀ j, j < contour.length → parallel_to_predecessor N R contour j = true) :
    (filter_out_wrong_segments N R contour).1 = false := by
  have hstart : find_initial_index N R contour < contour.length := by
    have e := find_initial_index_loop_eq_find N R contour (List.range contour.length)
    have e1 : find_initial_index N R contour
        = ((List.range contour.length).find?
            (fun i => !parallel_to_predecessor N R contour i)).getD 0 := e
    cases hf : (List.range contour.length).find?
        (fun i => !parallel_to_predecessor N R contour i) with
    | none => rw [e1, hf]; exact hn
    | some x =>
      rw [e1, hf]
      exact List.mem_range.mp (List.mem_of_find?_eq_some hf)
  have hg : (get_parallel_segments N R contour (find_initial_index N R contour)).1 = false := by
    unfold get_parallel_segments
    simp only
    rw [if_pos (get_parallel_segments_loop_no_corner N R contour hn hall _ _ 0 [] hstart
      (by omega))]
  unfold filter_out_wrong_segments
  simp only
  rw [filter_out_wrong_segments_loop.eq_def]
  simp only [hg, Bool.not_false, if_true]

end Levels_of_detail
namespace Levels_of_detail

/-! ### The bound `n * 2` on the number of iterations is never the reason to stop early -/

theorem get_parallel_segments_loop_fuel (N : Internal) (R : Polygon_regularizer)
    (contour : List Segment_2) :
    ∀ (more i max_count : Nat) (acc : List Segment_2),
      contour.length * 2 ≤ more + max_count + 1 →
      get_parallel_segments_loop N R contour (more + 1) i max_count acc
        = get_parallel_segments_loop N R contour more i max_count acc := by
  intro more
  induction more with
  | zero =>
    intro i mc acc h
    rw [get_parallel_segments_loop.eq_def,
      get_parallel_segments_loop.eq_def N R contour 0]
    simp only
    rw [if_neg (by omega), if_neg (by omega)]
  | succ more ih =>
    intro i mc acc h
    rw [get_parallel_segments_loop.eq_def,
      get_parallel_segments_loop.eq_def N R contour (more + 1)]
    simp only
    split_ifs with hc
    · exact ih _ _ _ (by omega)
    · rfl

theorem get_parallel_segments_loop_fuel_add (N : Internal) (R : Polygon_regularizer)
    (contour : List Segment_2) (i : Nat) (acc : List Segment_2) :
    ∀ d, get_parallel_segments_loop N R contour (contour.length * 2 + d) i 0 acc
        = get_parallel_segments_loop N R contour (contour.length * 2) i 0 acc := by
  intro d
  induction d with
  | zero => rfl
  | succ d ih =>
    rw [← ih, ← Nat.add_assoc]
    exact get_parallel_segments_loop_fuel N R contour _ i 0 acc (by omega)

theorem filter_out_wrong_segments_loop_fuel (N : Internal) (R : Polygon_regularizer)
    (contour : List Segment_2) (start : Nat) :
    ∀ (more i max_count : Nat) (segments : List Segment_2) (ratios : List (List FT)),
      contour.length * 2 ≤ more + max_count + 1 →
      filter_out_wrong_segments_loop N R contour start (more + 1) i max_count segments ratios
        = filter_out_wrong_segments_loop N R contour start more i max_count segments
            ratios := by
  intro more
  induction more with
  | zero =>
    intro i mc segments ratios h
    rw [filter_out_wrong_segments_loop.eq_def,
      filter_out_wrong_segments_loop.eq_def N R contour start 0]
    simp only
    split_ifs with h1 h2
    · rfl
    · omega
    · rfl
  | succ more ih =>
    intro i mc segments ratios h
    rw [filter_out_wrong_segments_loop.eq_def,
      filter_out_wrong_segments_loop.eq_def N R contour start (more + 1)]
    simp only
    split_ifs with h1 h2
    · rfl
    · exact ih _ _ _ _ (by omega)
    · rfl

theorem filter_out_wrong_segments_loop_fuel_add (N : Internal) (R : Polygon_regularizer)
    (contour : List Segment_2) (start i : Nat) :
    ∀ d, filter_out_wrong_segments_loop N R contour start (contour.length * 2 + d) i 0 [] []
        = filter_out_wrong_segments_loop N R contour start (contour.length * 2) i 0 [] [] := by
  intro d
  induction d with
  | zero => rfl
  | succ d ih =>
    rw [← ih, ← Nat.add_assoc]
    exact filter_out_wrong_segments_loop_fuel N R contour start _ i 0 [] [] (by omega)

/-! ### Properties of the runs -/

theorem flatten_parallel_runs (corner : Nat → Bool) :
    ∀ l : List Nat, (parallel_runs corner l).flatten = l := by
  intro l
  induction l with
  | nil => rfl
  | cons i rest ih =>
    have e : parallel_runs corner (i :: rest)
        = match parallel_runs corner rest with
          | [] => [[i]]
          | run :: runs =>
            if corner (run.headD 0) then [i] :: run :: runs else (i :: run) :: runs := rfl
    rw [e]
    cases hr : parallel_runs corner rest with
    | nil =>
      rw [hr] at ih
      simp only [List.flatten_nil] at ih
      simp [← ih]
    | cons run runs =>
      rw [hr] at ih
      simp only
      split_ifs
      · simp only [List.flatten_cons, List.singleton_append]
        rw [← ih]
        simp
      · simp only [List.flatten_cons, List.cons_append]
        rw [← ih]
        simp

theorem dropWhile_head_not (p : Nat → Bool) :
    ∀ (l : List Nat) (j : Nat) (rest : List Nat), l.dropWhile p = j :: rest → p j = false := by
  intro l
  induction l with
  | nil => intro j rest h; simp at h
  | cons a l ih =>
    intro j rest h
    rw [List.dropWhile_cons] at h
    cases hp : p a with
    | true =>
      rw [hp] at h
      simp only [if_true] at h
      exact ih j rest h
    | false =>
      rw [hp] at h
      simp only [Bool.false_eq_true, if_false, List.cons.injEq] at h
      rw [← h.1]
      exact hp

theorem length_dropWhile_le_length (p : Nat → Bool) :
    ∀ l : List Nat, (l.dropWhile p).length ≤ l.length := by
  intro l
  induction l with
  | nil => simp
  | cons a l ih =>
    rw [List.dropWhile_cons]
    split_ifs
    · simp only [List.length_cons]; omega
    · exact le_refl _

theorem range_cons_of_pos (s n : Nat) (h : 0 < n) :
    List.range' s n = s :: List.range' (s + 1) (n - 1) := by
  obtain ⟨m, rfl⟩ : ∃ m, n = m + 1 := ⟨n - 1, by omega⟩
  rw [List.range'_succ, Nat.add_sub_cancel]

theorem parallel_runs_spec (corner : Nat → Bool) :
    ∀ (k : Nat) (i : Nat) (rest : List Nat), rest.length ≤ k → corner i = true →
      ∀ run ∈ parallel_runs corner (i :: rest),
        ∃ j tail, run = j :: tail ∧ corner j = true ∧ ∀ x ∈ tail, corner x = false := by
  intro k
  induction k with
  | zero =>
    intro i rest hk hc run hrun
    have : rest = [] := List.length_eq_zero.mp (Nat.le_zero.mp hk)
    subst this
    rw [parallel_runs_cons] at hrun
    simp only [List.takeWhile_nil, List.dropWhile_nil, parallel_runs, List.mem_singleton]
      at hrun
    exact ⟨i, [], hrun, hc, fun x hx => absurd hx (List.not_mem_nil x)⟩
  | succ k ih =>
    intro i rest hk hc run hrun
    rw [parallel_runs_cons, List.mem_cons] at hrun
    rcases hrun with hrun | hrun
    · refine ⟨i, _, hrun, hc, ?_⟩
      intro x hx
      have := List.mem_takeWhile_imp hx
      simpa using this
    · cases hd : rest.dropWhile (fun j => !corner j) with
      | nil => rw [hd] at hrun; simp [parallel_runs] at hrun
      | cons j dw =>
        rw [hd] at hrun
        have hj := dropWhile_head_not (fun j => !corner j) rest j dw hd
        have hlen : dw.length ≤ k := by
          have h1 := length_dropWhile_le_length (fun j => !corner j) rest
          rw [hd, List.length_cons] at h1
          omega
        exact ih j dw hlen (by simpa using hj) run hrun

theorem countP_flatten_runs (corner : Nat → Bool) :
    ∀ runs : List (List Nat),
      (∀ run ∈ runs, ∃ j tail, run = j :: tail ∧ corner j = true ∧
        ∀ x ∈ tail, corner x = false) →
      runs.flatten.countP corner = runs.length := by
  intro runs
  induction runs with
  | nil => intro _; rfl
  | cons run runs ih =>
    intro h
    obtain ⟨j, tail, e, hj, ht⟩ := h run (List.mem_cons_self _ _)
    have h0 : tail.countP corner = 0 := by
      rw [List.countP_eq_zero]
      intro x hx
      rw [ht x hx]
      exact Bool.false_ne_true
    rw [List.flatten_cons, List.countP_append, ih (fun r hr => h r (List.mem_cons_of_mem _ hr)),
      e, List.countP_cons, h0, hj]
    simp only [if_true, List.length_cons]
    omega

theorem rotate_range_eq_map (n start : Nat) :
    (List.range n).rotate start = (List.range' 0 n).map (fun x => (start + x) % n) := by
  apply List.ext_getElem
  · simp
  · intro i h1 h2
    rw [List.getElem_rotate]
    simp only [List.getElem_range, List.length_range, List.getElem_map, List.getElem_range',
      Nat.zero_add, Nat.one_mul]
    rw [Nat.add_comm]

theorem find_initial_index_corner (N : Internal) (R : Polygon_regularizer)
    (contour : List Segment_2) (i : Nat) (hi : i < contour.length)
    (hc : is_corner N R contour i = true) :
    find_initial_index N R contour < contour.length ∧
    is_corner N R contour (find_initial_index N R contour) = true := by
  have e : find_initial_index N R contour
      = ((List.range contour.length).find?
          (fun i => !parallel_to_predecessor N R contour i)).getD 0 :=
    find_initial_index_loop_eq_find N R contour (List.range contour.length)
  cases hf : (List.range contour.length).find?
      (fun i => !parallel_to_predecessor N R contour i) with
  | none =>
    have := List.find?_eq_none.mp hf i (List.mem_range.mpr hi)
    unfold is_corner at hc
    rw [hc] at this
    exact absurd rfl this
  | some x =>
    rw [e, hf]
    exact ⟨List.mem_range.mp (List.mem_of_find?_eq_some hf), List.find?_some hf⟩

theorem filter_out_wrong_segments_with_corner (N : Internal) (R : Polygon_regularizer)
    (contour : List Segment_2) (i : Nat) (hi : i < contour.length)
    (hc : is_corner N R contour i = true) :
    filter_out_wrong_segments N R contour
      = (true,
         (parallel_runs (is_corner N R contour)
           ((List.range contour.length).rotate (find_initial_index N R contour))).map
             (merged_segment N contour),
         (parallel_runs (is_corner N R contour)
           ((List.range contour.length).rotate (find_initial_index N R contour))).map
             (run_ratios N contour)) := by
  obtain ⟨hstart, hcorner⟩ := find_initial_index_corner N R contour i hi hc
  have hrot := rotate_range_eq_map contour.length (find_initial_index N R contour)
  have hlen : (parallel_runs (is_corner N R contour)
      ((List.range' 0 contour.length).map
        (fun x => (find_initial_index N R contour + x) % contour.length))).length
      ≤ contour.length := by
    have h1 := congrArg List.length (flatten_parallel_runs (is_corner N R contour)
      ((List.range' 0 contour.length).map
        (fun x => (find_initial_index N R contour + x) % contour.length)))
    have hspec : ∀ run ∈ parallel_runs (is_corner N R contour)
        ((List.range' 0 contour.length).map
          (fun x => (find_initial_index N R contour + x) % contour.length)),
        ∃ j tail, run = j :: tail ∧ is_corner N R contour j = true ∧
          ∀ x ∈ tail, is_corner N R contour x = false := by
      intro run hrun
      rw [range_cons_of_pos 0 contour.length (by omega), List.map_cons] at hrun
      exact parallel_runs_spec (is_corner N R contour) _ _ _ (le_refl _)
        (by rw [Nat.add_zero, Nat.mod_eq_of_lt hstart]; exact hcorner) run hrun
    have h2 := countP_flatten_runs (is_corner N R contour) _ hspec
    rw [← h2]
    have h3 := List.countP_le_length (is_corner N R contour)
      (l := (parallel_runs (is_corner N R contour)
        ((List.range' 0 contour.length).map
          (fun x => (find_initial_index N R contour + x) % contour.length))).flatten)
    rw [h1] at h3
    simpa using h3
  have hloop := filter_out_wrong_segments_loop_runs N R contour
    (find_initial_index N R contour) hstart hcorner contour.length 0 0 [] []
    (contour.length * 2) (by omega) (by omega)
    (by rw [Nat.sub_zero]; omega) (by rw [Nat.sub_zero]; omega)
  rw [Nat.add_zero, Nat.mod_eq_of_lt hstart, Nat.sub_zero] at hloop
  unfold filter_out_wrong_segments
  simp only
  rw [hloop, hrot]
  simp only [Bool.not_true, Bool.false_eq_true, if_false, List.nil_append, Nat.zero_add]
  rw [if_neg (by omega)]

end Levels_of_detail
namespace Levels_of_detail

theorem clean_segments_no_corner (N : Internal) (R : Polygon_regularizer)
    (contour : List Segment_2)
    (hall : ∀ i, i < (remove_zero_length_segments N contour).length →
      is_corner N R (remove_zero_length_segments N contour) i = false) :
    clean_segments N R contour = (false, contour) := by
  unfold clean_segments
  simp only
  by_cases h4 : (remove_zero_length_segments N contour).length < 4
  · rw [if_pos h4]
  · rw [if_neg h4]
    have hf := filter_out_wrong_segments_no_corner N R (remove_zero_length_segments N contour)
      (by omega) (fun j hj => by
        have := hall j hj
        unfold is_corner at this
        simpa using this)
    rw [hf]
    simp

/-- C27 (amended): for every contour of `n >= 1` segments the bounded loop of
`get_parallel_segments` stops on its own (a larger bound than `n * 2` on the
number of iterations gives the same result).  When the contour has no corner
(no segment that is not parallel to its cyclic predecessor), the loop of
`filter_out_wrong_segments` stops on its own and `filter_out_wrong_segments`
returns `false`.  When the contour has a corner, the start index is a corner,
the runs obtained by cutting the indices `start, start + 1, ..., start - 1`
(one full turn, back to the start index) before every corner have every index
in exactly one run, each run begins at a corner and contains no other corner,
there are as many runs as corners, and, provided that no division made for a
run has a zero divisor (`run_defined`), the loop of
`filter_out_wrong_segments` stops on its own and `filter_out_wrong_segments`
returns `true` with the merged segments and the ratio lists of the runs, one
per run and in this order.  A contour whose segments kept by
`remove_zero_length_segments` have no corner is rejected by
`clean_segments`. -/
theorem filter_out_wrong_segments_emits_one_segment_per_run (N : Internal)
    (R : Polygon_regularizer) (contour : List Segment_2) :
    (1 ≤ contour.length →
      (∀ fuel seed, contour.length * 2 ≤ fuel →
        get_parallel_segments_loop N R contour fuel seed 0 []
          = get_parallel_segments_loop N R contour (contour.length * 2) seed 0 []) ∧
      (∀ i, is_corner N R contour i = true ↔
        R.m_angle_threshold < |get_angle_2 (angle_degree_2 N R
          (contour.getD ((i + contour.length - 1) % contour.length) default)
          (contour.getD i default))|) ∧
      ((∀ i, i < contour.length → is_corner N R contour i = false) →
        (∀ fuel, contour.length * 2 ≤ fuel →
          filter_out_wrong_segments_loop N R contour (find_initial_index N R contour) fuel
              (find_initial_index N R contour) 0 [] []
            = filter_out_wrong_segments_loop N R contour (find_initial_index N R contour)
                (contour.length * 2) (find_initial_index N R contour) 0 [] []) ∧
        (filter_out_wrong_segments N R contour).1 = false) ∧
      ((∃ i, i < contour.length ∧ is_corner N R contour i = true) →
        is_corner N R contour (find_initial_index N R contour) = true ∧
        (parallel_runs (is_corner N R contour)
          ((List.range contour.length).rotate (find_initial_index N R contour))).flatten
          = (List.range contour.length).rotate (find_initial_index N R contour) ∧
        ((List.range contour.length).rotate (find_initial_index N R contour)).Perm
          (List.range contour.length) ∧
        (∀ run ∈ parallel_runs (is_corner N R contour)
            ((List.range contour.length).rotate (find_initial_index N R contour)),
          ∃ j tail, run = j :: tail ∧ is_corner N R contour j = true ∧
            ∀ x ∈ tail, is_corner N R contour x = false) ∧
        (parallel_runs (is_corner N R contour)
          ((List.range contour.length).rotate (find_initial_index N R contour))).length
          = (List.range contour.length).countP (is_corner N R contour) ∧
        ((∀ run ∈ parallel_runs (is_corner N R contour)
            ((List.range contour.length).rotate (find_initial_index N R contour)),
            run_defined N contour run) →
          (∀ fuel, contour.length * 2 ≤ fuel →
            filter_out_wrong_segments_loop N R contour (find_initial_index N R contour) fuel
                (find_initial_index N R contour) 0 [] []
              = filter_out_wrong_segments_loop N R contour (find_initial_index N R contour)
                  (contour.length * 2) (find_initial_index N R contour) 0 [] []) ∧
          filter_out_wrong_segments N R contour
            = (true,
               (parallel_runs (is_corner N R contour)
                 ((List.range contour.length).rotate (find_initial_index N R contour))).map
                   (merged_segment N contour),
               (parallel_runs (is_corner N R contour)
                 ((List.range contour.length).rotate (find_initial_index N R contour))).map
                   (run_ratios N contour))))) ∧
    ((∀ i, i < (remove_zero_length_segments N contour).length →
        is_corner N R (remove_zero_length_segments N contour) i = false) →
      clean_segments N R contour = (false, contour)) := by
  refine ⟨?_, clean_segments_no_corner N R contour⟩
  intro hn
  have hfuel : ∀ fuel, contour.length * 2 ≤ fuel →
      filter_out_wrong_segments_loop N R contour (find_initial_index N R contour) fuel
          (find_initial_index N R contour) 0 [] []
        = filter_out_wrong_segments_loop N R contour (find_initial_index N R contour)
            (contour.length * 2) (find_initial_index N R contour) 0 [] [] := by
    intro fuel hf
    obtain ⟨d, rfl⟩ : ∃ d, fuel = contour.length * 2 + d := ⟨fuel - contour.length * 2, by omega⟩
    exact filter_out_wrong_segments_loop_fuel_add N R contour _ _ d
  refine ⟨?_, ?_, ?_, ?_⟩
  · intro fuel seed hf
    obtain ⟨d, rfl⟩ : ∃ d, fuel = contour.length * 2 + d := ⟨fuel - contour.length * 2, by omega⟩
    exact get_parallel_segments_loop_fuel_add N R contour seed [] d
  · intro i
    unfold is_corner parallel_to_predecessor is_parallel_segment
    simp
  · intro hno
    refine ⟨hfuel, ?_⟩
    apply filter_out_wrong_segments_no_corner N R contour hn
    intro j hj
    have := hno j hj
    unfold is_corner at this
    simpa using this
  · rintro ⟨i, hi, hc⟩
    obtain ⟨hstart, hcorner⟩ := find_initial_index_corner N R contour i hi hc
    have hres := filter_out_wrong_segments_with_corner N R contour i hi hc
    have hspec : ∀ run ∈ parallel_runs (is_corner N R contour)
        ((List.range contour.length).rotate (find_initial_index N R contour)),
        ∃ j tail, run = j :: tail ∧ is_corner N R contour j = true ∧
          ∀ x ∈ tail, is_corner N R contour x = false := by
      intro run hrun
      rw [rotate_range_eq_map, range_cons_of_pos 0 contour.length (by omega),
        List.map_cons] at hrun
      exact parallel_runs_spec (is_corner N R contour) _ _ _ (le_refl _)
        (by rw [Nat.add_zero, Nat.mod_eq_of_lt hstart]; exact hcorner) run hrun
    refine ⟨hcorner, flatten_parallel_runs _ _, List.rotate_perm _ _, hspec, ?_, ?_⟩
    · rw [← countP_flatten_runs (is_corner N R contour) _ hspec, flatten_parallel_runs]
      exact (List.rotate_perm _ _).countP_eq _
    · intro _
      exact ⟨hfuel, hres⟩

set_option maxRecDepth 100000 in
theorem filter_out_wrong_segments_emits_one_segment_per_run_witness :
    1 ≤ (rectangle 0 0 4 3).length ∧
    (∃ i, i < (rectangle 0 0 4 3).length ∧
      is_corner axis_internal example_fresh_regularizer (rectangle 0 0 4 3) i = true) ∧
    parallel_runs (is_corner axis_internal example_fresh_regularizer (rectangle 0 0 4 3))
        ((List.range (rectangle 0 0 4 3).length).rotate
          (find_initial_index axis_internal example_fresh_regularizer (rectangle 0 0 4 3)))
      = [[0], [1], [2], [3]] ∧
    (∀ run ∈ parallel_runs
        (is_corner axis_internal example_fresh_regularizer (rectangle 0 0 4 3))
        ((List.range (rectangle 0 0 4 3).length).rotate
          (find_initial_index axis_internal example_fresh_regularizer (rectangle 0 0 4 3))),
      run_defined axis_internal (rectangle 0 0 4 3) run) ∧
    filter_out_wrong_segments axis_internal example_fresh_regularizer (rectangle 0 0 4 3)
      = (true,
         (parallel_runs (is_corner axis_internal example_fresh_regularizer (rectangle 0 0 4 3))
           ((List.range (rectangle 0 0 4 3).length).rotate
             (find_initial_index axis_internal example_fresh_regularizer
               (rectangle 0 0 4 3)))).map (merged_segment axis_internal (rectangle 0 0 4 3)),
         (parallel_runs (is_corner axis_internal example_fresh_regularizer (rectangle 0 0 4 3))
           ((List.range (rectangle 0 0 4 3).length).rotate
             (find_initial_index axis_internal example_fresh_regularizer
               (rectangle 0 0 4 3)))).map (run_ratios axis_internal (rectangle 0 0 4 3))) ∧
    (∀ i, i < (remove_zero_length_segments axis_internal example_collinear_sides).length →
      is_corner axis_internal example_fresh_regularizer
        (remove_zero_length_segments axis_internal example_collinear_sides) i = false) ∧
    clean_segments axis_internal example_fresh_regularizer example_collinear_sides
      = (false, example_collinear_sides) :=
  ⟨by decide, ⟨0, by decide, by decide!⟩, by decide!, by decide!,
    ((((filter_out_wrong_segments_emits_one_segment_per_run axis_internal
      example_fresh_regularizer (rectangle 0 0 4 3)).1 (by decide)).2.2.2
        ⟨0, by decide, by decide!⟩).2.2.2.2.2 (by decide!)).2,
    by decide!,
    (filter_out_wrong_segments_emits_one_segment_per_run axis_internal
      example_fresh_regularizer example_collinear_sides).2 (by decide!)⟩

set_option maxRecDepth 100000 in
/-- C27 (as stated) fails in its last sentence: in the contour made of the four
sides of the rectangle of width 4 and height 3 with a segment of length zero
after every side, every segment is parallel to its cyclic predecessor (the
angle to or from a segment of length zero is 0), so the contour is a single
parallel run and `filter_out_wrong_segments` rejects it; `clean_segments`
first removes the four segments of length zero, finds four corners in what
remains, where every run is one side and no division has a zero divisor, and
accepts the contour. -/
theorem single_parallel_run_accepted_counterexample :
    (∀ i, i < example_degenerate_sides.length →
      is_corner axis_internal example_fresh_regularizer example_degenerate_sides i = false) ∧
    (filter_out_wrong_segments axis_internal example_fresh_regularizer
      example_degenerate_sides).1 = false ∧
    remove_zero_length_segments axis_internal example_degenerate_sides = rectangle 0 0 4 3 ∧
    (∀ run ∈ ([[0], [1], [2], [3]] : List (List Nat)),
      run_defined axis_internal (rectangle 0 0 4 3) run) ∧
    clean_segments axis_internal example_fresh_regularizer example_degenerate_sides
      = (true, rectangle 0 0 4 3) := by
  decide!

set_option maxRecDepth 100000 in
/-- On two spikes at a right angle the walk back of each spike is parallel to
the walk forth, so each spike is one run; the central segment of such a run
is reduced to the point in the middle of the spike, so is its weighted
segment, and the run is not defined: the source projects onto a line without
direction. -/
theorem run_of_spike_is_not_defined :
    parallel_runs (is_corner axis_internal example_fresh_regularizer example_spikes)
        ((List.range example_spikes.length).rotate
          (find_initial_index axis_internal example_fresh_regularizer example_spikes))
      = [[0, 1], [2, 3]] ∧
    find_weighted_segment axis_internal (run_segments example_spikes [0, 1])
      = ⟨⟨1, 0⟩, ⟨1, 0⟩⟩ ∧
    ¬ run_defined axis_internal example_spikes [0, 1] := by
  decide!

end Levels_of_detail

end CGAL
